import Mathlib

/-!
# tsMuxer: MOV sample framers, chunk index and HEVC timing

A shallow embedding of parts of `tsMuxer/movDemuxer.cpp` and
`tsMuxer/hevcStreamReader.cpp`, with theorems about them.

Conventions of the embedding.

* A byte is a `Fin 256`; a buffer is a `List Byte`.
* `unsigned` / `uint32_t` values are natural numbers reduced with `u32`
  (arithmetic modulo `2^32`) wherever the source computes on them.
* `int` / `int64_t` values are integers (`Int`) or, for counters, natural
  numbers; signed overflow is undefined behaviour in C++ and is not given a
  meaning here, except that a value converted to `unsigned` is reduced with
  `u32`.
* A C++ function that can throw, or read outside its buffer, returns an
  `Outcome`; a loop whose termination is not evident is run on fuel.
-/

namespace TsMuxer

/-! ## Definitions -/

/-- A byte of a buffer. -/
abbrev Byte := Fin 256

/-- Result of running a piece of the C++ code. -/
inductive Outcome (α : Type) where
  /-- normal return -/
  | ok : α → Outcome α
  /-- a C++ exception left the function (`THROW`, `std::out_of_range`) -/
  | thrown : Outcome α
  /-- the code read outside the buffer or table it was given (undefined behaviour) -/
  | undefined : Outcome α
  /-- the fuel of the embedding ran out before the loop finished -/
  | outOfFuel : Outcome α
  deriving DecidableEq, Repr

/-- Reduction of a natural number to a 32-bit unsigned value. -/
def u32 (n : Nat) : Nat := n % 4294967296

/-! ### `HEVCStreamReader` timing state (hevcStreamReader.cpp) -/

namespace HEVCStreamReader

/-- The fields of `HEVCStreamReader` (and of its base `MPEGStreamReader`) used by
`incTimings` and `toFullPicOrder`.  `m_totalFrameNum` is the count of frames
emitted so far: it starts at zero and is only ever incremented. -/
structure Reader where
  m_totalFrameNum : Nat
  m_curDts : Int
  m_curPts : Int
  m_pcrIncPerFrame : Int
  m_firstFrame : Bool
  m_frameNum : Int
  m_fullPicOrder : Int
  m_frameDepth : Int
  m_picOrderMsb : Int
  m_prevPicOrder : Int
  m_picOrderBase : Int
  deriving DecidableEq, Repr

/-- `FFMIN(a, b)`. -/
def FFMIN (a b : Int) : Int := if a > b then b else a

/-- `HEVCStreamReader::incTimings` (hevcStreamReader.cpp 382-397). -/
def incTimings (r : Reader) : Reader :=
  -- if (m_totalFrameNum++ > 0) m_curDts += m_pcrIncPerFrame;
  let curDts := if r.m_totalFrameNum > 0 then r.m_curDts + r.m_pcrIncPerFrame else r.m_curDts
  let totalFrameNum := r.m_totalFrameNum + 1
  -- int delta = m_frameNum - m_fullPicOrder;
  let delta := r.m_frameNum - r.m_fullPicOrder
  -- m_curPts = m_curDts - delta * m_pcrIncPerFrame;
  let curPts := curDts - delta * r.m_pcrIncPerFrame
  -- m_frameNum++; m_firstFrame = false;
  let frameNum := r.m_frameNum + 1
  -- if (delta > m_frameDepth) m_frameDepth = FFMIN(4, delta);
  let frameDepth := if delta > r.m_frameDepth then FFMIN 4 delta else r.m_frameDepth
  { r with
    m_totalFrameNum := totalFrameNum
    m_curDts := curDts
    m_curPts := curPts
    m_frameNum := frameNum
    m_firstFrame := false
    m_frameDepth := frameDepth }

/-- A reader in the middle of a stream: five frames emitted at 3600 ticks per
frame, the frame being closed has picture order 0 and the depth is still 1. -/
def lateReader : Reader :=
  { m_totalFrameNum := 5, m_curDts := 14400, m_curPts := 14400, m_pcrIncPerFrame := 3600,
    m_firstFrame := false, m_frameNum := 5, m_fullPicOrder := 0, m_frameDepth := 1,
    m_picOrderMsb := 0, m_prevPicOrder := 0, m_picOrderBase := 0 }

/-- A reader two frames into a stream whose current frame is displayed one
frame late. -/
def earlyReader : Reader :=
  { m_totalFrameNum := 2, m_curDts := 3600, m_curPts := 3600, m_pcrIncPerFrame := 3600,
    m_firstFrame := false, m_frameNum := 2, m_fullPicOrder := 0, m_frameDepth := 1,
    m_picOrderMsb := 0, m_prevPicOrder := 0, m_picOrderBase := 0 }

end HEVCStreamReader

/-- Sequencing of outcomes: the continuation runs only after a normal return. -/
def Outcome.bind {α β : Type} (x : Outcome α) (f : α → Outcome β) : Outcome β :=
  match x with
  | .ok a => f a
  | .thrown => .thrown
  | .undefined => .undefined
  | .outOfFuel => .outOfFuel

/-! ### `MovParsedH264TrackData` (movDemuxer.cpp 238-361) -/

namespace MovParsedH264TrackData

/-- The mutable fields of the framer: the SPS/PPS cached by `setPrivData` and the
width in bytes of the NAL length field. -/
structure Framer where
  spsPpsList : List (List Byte)
  nal_length_size : Nat
  deriving DecidableEq, Repr

/-- `getNalSize` (286-298): the big-endian number in the first `nal_length_size`
bytes at `buff`; throws for a width outside 1..4.  The value is the one the
callers store in their `uint32_t nalSize`. -/
def getNalSize (nal_length_size : Nat) (buff : List Byte) : Outcome Nat :=
  if nal_length_size = 1 then
    match buff with
    | b0 :: _ => .ok b0.val
    | _ => .undefined
  else if nal_length_size = 2 then
    match buff with
    | b0 :: b1 :: _ => .ok (b0.val * 256 + b1.val)
    | _ => .undefined
  else if nal_length_size = 3 then
    match buff with
    | b0 :: b1 :: b2 :: _ => .ok (b0.val * 65536 + b1.val * 256 + b2.val)
    | _ => .undefined
  else if nal_length_size = 4 then
    match buff with
    | b0 :: b1 :: b2 :: b3 :: _ =>
      .ok (b0.val * 16777216 + b1.val * 65536 + b2.val * 256 + b3.val)
    | _ => .undefined
  else .thrown

/-- The `while (buff < end)` loop of `newBufferSize` (336-348).  `buff` is the
part of the chunk from the read pointer to `end`; the result is `nalCnt`. -/
def countNals (nal_length_size : Nat) : Nat → List Byte → Nat → Outcome Nat
  | 0, _, _ => .outOfFuel
  | fuel + 1, buff, nalCnt =>
    if buff.length = 0 then .ok nalCnt
    -- if (buff + nal_length_size > end) THROW
    else if buff.length < nal_length_size then .thrown
    else
      (getNalSize nal_length_size buff).bind fun nalSize =>
        -- buff += nal_length_size; if (buff + nalSize > end) THROW
        if (buff.drop nal_length_size).length < nalSize then .thrown
        -- buff += nalSize; ++nalCnt;
        else countNals nal_length_size fuel ((buff.drop nal_length_size).drop nalSize) (nalCnt + 1)

/-- The `spsPpsSize` accumulation of `newBufferSize` (349-350). -/
def spsPpsSize (spsPpsList : List (List Byte)) : Nat :=
  spsPpsList.foldl (fun acc i => u32 (acc + u32 (i.length + 4))) 0

/-- `newBufferSize` (332-353).  Every iteration of the loop consumes at least one
byte or throws, so `size + 1` rounds of fuel always suffice. -/
def newBufferSize (f : Framer) (buff : List Byte) : Outcome Nat :=
  (countNals f.nal_length_size (buff.length + 1) buff 0).bind fun nalCnt =>
    -- return size + spsPpsSize + nalCnt * (4 - nal_length_size);
    .ok (u32 (buff.length + spsPpsSize f.spsPpsList
              + nalCnt * u32 (4294967296 + 4 - f.nal_length_size)))

/-- The four bytes `00 00 00 01`. -/
def startCode : List Byte := [0, 0, 0, 1]

/-- The `for (auto& i : spsPpsList)` loop of `extractData` (305-314): the bytes
written for the cached parameter sets. -/
def writeSpsPps (spsPpsList : List (List Byte)) : List Byte :=
  spsPpsList.foldl (fun dst i => dst ++ startCode ++ i) []

/-- The `while (buff < end)` loop of `extractData` (318-329).  `dst` is what has
been written so far.  The source does not check bounds here: reading the length
field or the payload past `end` is undefined. -/
def extractNals (nal_length_size : Nat) : Nat → List Byte → List Byte → Outcome (List Byte)
  | 0, _, _ => .outOfFuel
  | fuel + 1, buff, dst =>
    if buff.length = 0 then .ok dst
    else
      (getNalSize nal_length_size buff).bind fun nalSize =>
        if (buff.drop nal_length_size).length < nalSize then .undefined
        else
          extractNals nal_length_size fuel ((buff.drop nal_length_size).drop nalSize)
            (dst ++ startCode ++ (buff.drop nal_length_size).take nalSize)

/-- `extractData` (300-330): the bytes written to `pkt->data` and the framer
afterwards (`spsPpsList` cleared). -/
def extractData (f : Framer) (buff : List Byte) : Outcome (List Byte × Framer) :=
  (extractNals f.nal_length_size (buff.length + 1) buff (writeSpsPps f.spsPpsList)).bind
    fun out => .ok (out, { f with spsPpsList := [] })

/-- The `n` low-order bytes of `v`, most significant first. -/
def beBytes : Nat → Nat → List Byte
  | 0, _ => []
  | n + 1, v => ⟨v / 256 ^ n % 256, Nat.mod_lt _ (by decide)⟩ :: beBytes n v

/-- Concatenation of the NALs of a list, each preceded by the header `hdr` gives
for it. -/
def frameWith (hdr : List Byte → List Byte) : List (List Byte) → List Byte
  | [] => []
  | p :: ps => hdr p ++ p ++ frameWith hdr ps

/-- A chunk in MP4 form: each NAL preceded by its length on `L` bytes. -/
def lengthPrefixed (L : Nat) (nals : List (List Byte)) : List Byte :=
  frameWith (fun p => beBytes L p.length) nals

/-- A run of NALs in Annex-B form: each NAL preceded by `00 00 00 01`. -/
def annexB (nals : List (List Byte)) : List Byte :=
  frameWith (fun _ => startCode) nals

/-- A framer with one cached parameter set and two-byte length fields. -/
def sampleFramer : Framer := { spsPpsList := [[103, 66]], nal_length_size := 2 }

/-- A chunk of two NALs: `00 02 65 88` and `00 01 41`. -/
def sampleChunk : List Byte := [0, 2, 101, 136, 0, 1, 65]

/-- A framer with no cached parameter set and one-byte length fields. -/
def oneByteFramer : Framer := { spsPpsList := [], nal_length_size := 1 }

end MovParsedH264TrackData

/-! ### `MovDemuxer::buildIndex` (movDemuxer.cpp 665-689) -/

namespace MovDemuxer

/-- The fields of `MovDemuxer` that `buildIndex` reads and writes.  `tracks`
holds, for each of the `num_tracks` tracks in order, its `chunk_offsets`. -/
structure Demuxer where
  tracks : List (List Int)
  found_moof : Bool
  m_mdat_pos : Int
  m_mdat_size : Int
  chunks : List (Int × Nat)
  m_curChunk : Nat
  deriving DecidableEq, Repr

/-- The order `std::sort` uses on chunk descriptors (`operator<` of `std::pair`,
lexicographic), as the relation "`b` is not less than `a`". -/
def chunkLe (a b : Int × Nat) : Prop := a.1 < b.1 ∨ (a.1 = b.1 ∧ a.2 ≤ b.2)

instance chunkLe_decidable : DecidableRel chunkLe := fun a b => by
  unfold chunkLe
  infer_instance

/-- The inner loop `for (const auto& j : st->chunk_offsets)` for track `i`. -/
def addTrackChunks (d : Demuxer) (i : Nat) : List Int → List (Int × Nat) → Outcome (List (Int × Nat))
  | [], chunks => .ok chunks
  | j :: js, chunks =>
    -- if (!found_moof) if (j < m_mdat_pos || j > m_mdat_pos + m_mdat_size) THROW
    if d.found_moof = false ∧ (j < d.m_mdat_pos ∨ j > d.m_mdat_pos + d.m_mdat_size) then .thrown
    -- chunks.emplace_back(j - m_mdat_pos, i);
    else addTrackChunks d i js (chunks ++ [(j - d.m_mdat_pos, i)])

/-- The outer loop `for (int i = 0; i < num_tracks; ++i)`, from track `i` on. -/
def addAllChunks (d : Demuxer) : Nat → List (List Int) → List (Int × Nat) → Outcome (List (Int × Nat))
  | _, [], chunks => .ok chunks
  | i, st :: rest, chunks =>
    (addTrackChunks d i st chunks).bind fun chunks1 => addAllChunks d (i + 1) rest chunks1

/-- `MovDemuxer::buildIndex`.  `std::sort` is rendered by insertion sort; the
order is total and two descriptors that compare equal are the same pair, so
every sorting algorithm yields the same list. -/
def buildIndex (d : Demuxer) : Outcome Demuxer :=
  -- if (num_tracks == 1 && tracks[0]->chunk_offsets.empty()) chunks.emplace_back(0, 0);
  if d.tracks.length = 1 ∧ d.tracks.head? = some [] then
    .ok { d with m_curChunk := 0, chunks := [(0, 0)] }
  else
    (addAllChunks d 0 d.tracks []).bind fun chunks =>
      .ok { d with m_curChunk := 0, chunks := chunks.insertionSort chunkLe }

/-- The pairs `(chunk_offset - mdat_pos, track_index)` over every entry of every
track's `chunk_offsets`, tracks numbered from `i`. -/
def offsetPairs (mdat_pos : Int) : Nat → List (List Int) → List (Int × Nat)
  | _, [] => []
  | i, st :: rest => st.map (fun j => (j - mdat_pos, i)) ++ offsetPairs mdat_pos (i + 1) rest

/-- Total number of chunk offsets of a list of tracks. -/
def offsetCount : List (List Int) → Nat
  | [] => 0
  | st :: rest => st.length + offsetCount rest

/-- A demuxer with two tracks whose chunks interleave inside an `mdat` at 40. -/
def twoTrackDemuxer : Demuxer :=
  { tracks := [[48, 1000], [524, 1600]], found_moof := false, m_mdat_pos := 40,
    m_mdat_size := 2000, chunks := [], m_curChunk := 7 }

/-- The demuxer `twoTrackDemuxer` after `buildIndex`. -/
def twoTrackIndexed : Demuxer :=
  { twoTrackDemuxer with m_curChunk := 0, chunks := [(8, 0), (484, 1), (960, 0), (1560, 1)] }

end MovDemuxer

/-! ### `MovParsedAudioTrackData` (movDemuxer.cpp 155-236) -/

namespace MovParsedAudioTrackData

/-- The fields the audio framer works on: its own `isAAC` and, from the track's
`MOVStreamContext`, the uniform `sample_size` (zero when sizes are per sample),
the per-sample table `m_index` and its cursor `m_indexCur`. -/
structure Framer where
  isAAC : Bool
  sample_size : Nat
  m_index : List Nat
  m_indexCur : Nat
  deriving DecidableEq, Repr

/-- Modelled from the spec: `AAC_HEADER_LEN`, declared in aac.h, which is not
among the two source files; the specification gives the ADTS header length
as 7. -/
def AAC_HEADER_LEN : Nat := 7

/-- The seven bytes `AACCodec::buildADTSHeader` writes for a given frame length.
The function lives in aac.cpp; the framer theorems hold for any such
function, which they take as the parameter `hdr`. -/
abbrev HeaderBuilder := Nat → Fin 7 → Byte

/-- The `while (buff < srcEnd - 4)` loop of `extractData` (182-202).  `buff` is
the part of the chunk from the read pointer to `srcEnd`, `cur` is `m_indexCur`
and `dst` is what has been written; the result is the output and the cursor. -/
def extractFrames (f : Framer) (hdr : HeaderBuilder) :
    Nat → List Byte → Nat → List Byte → Outcome (List Byte × Nat)
  | 0, _, _, _ => .outOfFuel
  | fuel + 1, buff, cur, dst =>
    if buff.length > 4 then
      -- unsigned frameSize = sample_size; if (frameSize == 0) frameSize = m_index[m_indexCur++];
      (if f.sample_size = 0 then
        match f.m_index[cur]? with
        | some s => Outcome.ok (s, cur + 1)
        | none => Outcome.undefined
       else Outcome.ok (f.sample_size, cur)).bind fun fc =>
        -- if (buff + frameSize > srcEnd) break;
        if fc.1 > buff.length then .ok (dst, fc.2)
        else if f.isAAC then
          extractFrames f hdr fuel (buff.drop fc.1) fc.2
            (dst ++ List.ofFn (hdr (u32 (fc.1 + AAC_HEADER_LEN))) ++ buff.take fc.1)
        else
          extractFrames f hdr fuel (buff.drop fc.1) fc.2 (dst ++ buff.take fc.1)
    else .ok (dst, cur)

/-- `extractData` (178-203): the bytes written and the framer afterwards.  Every
iteration consumes a byte of the chunk or an entry of `m_index`, so the fuel
given is enough. -/
def extractData (f : Framer) (hdr : HeaderBuilder) (buff : List Byte) :
    Outcome (List Byte × Framer) :=
  (extractFrames f hdr (buff.length + f.m_index.length + 1) buff f.m_indexCur []).bind
    fun r => .ok (r.1, { f with m_indexCur := r.2 })

/-- The `for (; left > 4; ++i)` loop of `newBufferSize` (209-219) on the unsigned
`left` and the counter `i`; the result is the final `(left, i)`. -/
def countFrames (f : Framer) : Nat → Nat → Nat → Outcome (Nat × Nat)
  | 0, _, _ => .outOfFuel
  | fuel + 1, left, i =>
    if left > 4 then
      -- left -= m_sc->sample_size;
      if f.sample_size = 0 then
        -- if (m_indexCur + i >= m_index.size()) THROW
        match f.m_index[f.m_indexCur + i]? with
        | none => .thrown
        -- left -= m_index[m_indexCur + i];
        | some s =>
          countFrames f fuel
            (u32 (u32 (left + 4294967296 - u32 f.sample_size) + 4294967296 - u32 s)) (i + 1)
      else countFrames f fuel (u32 (left + 4294967296 - u32 f.sample_size)) (i + 1)
    else .ok (left, i)

/-- `newBufferSize` (205-226) for a chunk of `buff.length` bytes.  The loop of
the source need not terminate, so the fuel is a parameter. -/
def newBufferSize (fuel : Nat) (f : Framer) (buff : List Byte) : Outcome Nat :=
  (countFrames f fuel (u32 buff.length) 0).bind fun li =>
    -- if (left > 4) THROW
    if li.1 > 4 then .thrown
    -- if (!isAAC) i = 0; return (size - left) + i * AAC_HEADER_LEN;
    else .ok (u32 (u32 (u32 buff.length + 4294967296 - li.1)
                    + (if f.isAAC then li.2 else 0) * AAC_HEADER_LEN))

/-- The sample size the framer uses for the `i`-th sample after the cursor:
the uniform `sample_size`, or the table entry when that is zero. -/
def sizeAt (f : Framer) (i : Nat) : Option Nat :=
  if f.sample_size = 0 then f.m_index[f.m_indexCur + i]? else some f.sample_size

/-- `wholeSamples f r i sizes`: the samples `i, i+1, ...` after the cursor have
the sizes `sizes`, each below `2^32`, and before each of them more than four
bytes are left of a chunk made of these samples and `r` spare bytes. -/
def wholeSamples (f : Framer) (r : Nat) : Nat → List Nat → Bool
  | _, [] => true
  | i, x :: xs =>
    (sizeAt f i == some x) && decide (x < 4294967296) && decide (4 < x + xs.sum + r)
      && wholeSamples f r (i + 1) xs

/-- The output expected for samples of the given sizes cut from `buff`: each
sample preceded by its ADTS header when the track is AAC. -/
def framed (hdr : HeaderBuilder) (isAAC : Bool) : List Nat → List Byte → List Byte
  | [], _ => []
  | x :: xs, buff =>
    (if isAAC then List.ofFn (hdr (u32 (x + AAC_HEADER_LEN))) else []) ++ buff.take x
      ++ framed hdr isAAC xs (buff.drop x)

/-- Modelled from the spec: a stand-in for `AACCodec::buildADTSHeader` (aac.cpp,
not among the two source files), used in the examples only: the sync word
`FF F1` and five further bytes. -/
def sampleHeader : HeaderBuilder := fun len i =>
  if i.val = 0 then 255 else if i.val = 1 then 241 else Fin.ofNat (len + i.val)

/-- A non-AAC track with uniform six-byte samples. -/
def pcmFramer : Framer := { isAAC := false, sample_size := 6, m_index := [], m_indexCur := 0 }

/-- An AAC track with uniform six-byte samples. -/
def aac6Framer : Framer := { isAAC := true, sample_size := 6, m_index := [], m_indexCur := 0 }

/-- An AAC track with uniform five-byte samples. -/
def aac5Framer : Framer := { isAAC := true, sample_size := 5, m_index := [], m_indexCur := 0 }

/-- An AAC track with a per-sample size table, the cursor on its second entry. -/
def tableFramer : Framer :=
  { isAAC := true, sample_size := 0, m_index := [9, 6, 7, 5], m_indexCur := 1 }

/-- A chunk of fifteen bytes: samples of six and seven bytes and two spare bytes. -/
def tableChunk : List Byte := [1, 2, 3, 4, 5, 6, 11, 12, 13, 14, 15, 16, 17, 21, 22]

/-- An AAC track with uniform 256-byte samples. -/
def aac256Framer : Framer :=
  { isAAC := true, sample_size := 256, m_index := [], m_indexCur := 0 }

/-- Four samples of 256 bytes each. -/
def aac256Frames : List (List Byte) :=
  [List.replicate 256 1, List.replicate 256 2, List.replicate 256 3, List.replicate 256 4]

end MovParsedAudioTrackData

/-! ### `MovParsedSRTTrackData` (movDemuxer.cpp 385-608) -/

namespace MovParsedSRTTrackData

/-- An entry of the time-to-sample table (`struct MOVStts`). -/
structure MOVStts where
  count : Nat
  duration : Int
  deriving DecidableEq, Repr

/-- The fields the TX3G framer works on: from the track's `MOVStreamContext` the
table `stts_data` and `time_scale`, and its own counters. -/
structure Framer where
  stts_data : List MOVStts
  time_scale : Nat
  m_packetCnt : Int
  sttsPos : Int
  sttsCnt : Int
  m_timeOffset : Int
  deriving DecidableEq, Repr

/-- The two text formatters the framer calls, which live outside the two source
files: `int32ToStr`, and `floatToTime(static_cast<double>(t) / 1e3, ',')` as a
function of the millisecond count `t`.  The theorems hold for any pair. -/
structure Format where
  int32ToStr : Int → List Byte
  floatToTime : Int → List Byte

/-- The framer as the constructor leaves it (388-394). -/
def init (stts_data : List MOVStts) (time_scale : Nat) : Framer :=
  { stts_data := stts_data, time_scale := time_scale, m_packetCnt := 0, sttsPos := 0,
    sttsCnt := 0, m_timeOffset := 0 }

/-- `setPrivData` (411-417): `sttsCnt = 0; sttsPos = -1`. -/
def setPrivData (f : Framer) : Framer := { f with sttsCnt := 0, sttsPos := -1 }

/-- The entry `stts_data[pos]`; indexing outside the table is undefined. -/
def entryAt (f : Framer) (pos : Int) : Outcome MOVStts :=
  if pos < 0 then .undefined
  else
    match f.stts_data[pos.toNat]? with
    | some e => .ok e
    | none => .undefined

/-- `getSttsVal` (396-409): the next duration in milliseconds and the framer with
its cursor advanced.  A zero `time_scale` divides by zero. -/
def getSttsVal (f : Framer) : Outcome (Int × Framer) :=
  (if f.sttsCnt = 0 then
    -- sttsPos++; if (sttsPos >= stts_data.size()) THROW
    if f.sttsPos + 1 ≥ (f.stts_data.length : Int) then Outcome.thrown
    -- sttsCnt = stts_data[sttsPos].count;
    else (entryAt f (f.sttsPos + 1)).bind fun e =>
      Outcome.ok { f with sttsPos := f.sttsPos + 1, sttsCnt := (e.count : Int) }
   else Outcome.ok f).bind fun f1 =>
    -- sttsCnt--; return stts_data[sttsPos].duration * 1000 / time_scale;
    (entryAt f1 f1.sttsPos).bind fun e =>
      if f1.time_scale = 0 then .undefined
      else .ok ((e.duration * 1000).tdiv (f1.time_scale : Int),
                { f1 with sttsCnt := f1.sttsCnt - 1 })

/-- The byte `buff[pos]`; reading outside the chunk is undefined. -/
def byteAt (buff : List Byte) (pos : Nat) : Outcome Nat :=
  match buff[pos]? with
  | some b => .ok b.val
  | none => .undefined

/-- `buff[0] << 8 | buff[1]` at `pos`. -/
def be16 (buff : List Byte) (pos : Nat) : Outcome Nat :=
  (byteAt buff pos).bind fun b0 => (byteAt buff (pos + 1)).bind fun b1 => .ok (b0 * 256 + b1)

/-- `buff[0] << 24 | buff[1] << 16 | buff[2] << 8 | buff[3]` at `pos`, as an
unsigned 32-bit number. -/
def be32 (buff : List Byte) (pos : Nat) : Outcome Nat :=
  (be16 buff pos).bind fun hi => (be16 buff (pos + 2)).bind fun lo => .ok (hi * 65536 + lo)

/-- The eight bytes at `pos` as an unsigned 64-bit number (the loop
`modifierLen <<= 8; modifierLen |= *buff++`). -/
def be64 (buff : List Byte) (pos : Nat) : Outcome Nat :=
  (be32 buff pos).bind fun hi => (be32 buff (pos + 4)).bind fun lo => .ok (hi * 4294967296 + lo)

/-- The value of a 32-bit pattern read as an `int`. -/
def toInt32 (n : Nat) : Int := if n < 2147483648 then (n : Int) else (n : Int) - 4294967296

/-- The value of a 64-bit pattern read as an `int64_t`. -/
def toInt64 (n : Nat) : Int :=
  if n < 9223372036854775808 then (n : Int) else (n : Int) - 18446744073709551616

/-- The loop `while (unitSize == 0) { unitSize = buff[0] << 8 | buff[1]; buff += 2; }`
(441-445 and 539-543): the first non-zero unit size and the position after it. -/
def readUnitSize (buff : List Byte) : Nat → Nat → Outcome (Nat × Nat)
  | 0, _ => .outOfFuel
  | fuel + 1, pos =>
    (be16 buff pos).bind fun unitSize =>
      if unitSize = 0 then readUnitSize buff fuel (pos + 2) else .ok (unitSize, pos + 2)

/-- The tag `<b>`. -/
def tagB : List Byte := [60, 98, 62]
/-- The tag `<i>`. -/
def tagI : List Byte := [60, 105, 62]
/-- The tag `<u>`. -/
def tagU : List Byte := [60, 117, 62]
/-- The tag `</b>`. -/
def tagEndB : List Byte := [60, 47, 98, 62]
/-- The tag `</i>`. -/
def tagEndI : List Byte := [60, 47, 105, 62]
/-- The tag `</u>`. -/
def tagEndU : List Byte := [60, 47, 117, 62]

/-- The opening tags built in 478-492 for the face-style byte `face`. -/
def openTags (face : Nat) : List Byte :=
  (if face % 2 = 1 then tagB else []) ++ (if face / 2 % 2 = 1 then tagI else [])
    ++ (if face / 4 % 2 = 1 then tagU else [])

/-- The closing tags built in 478-492 (`suffix.insert(0, ...)`) for `face`. -/
def closeTags (face : Nat) : List Byte :=
  (if face / 4 % 2 = 1 then tagEndU else []) ++ (if face / 2 % 2 = 1 then tagEndI else [])
    ++ (if face % 2 = 1 then tagEndB else [])

/-- The header of a modifier box at `pos` (451-464 and 549-562): its type, its
`modifierLen` and the position after the header. -/
def modifierHeader (buff : List Byte) (pos : Nat) : Outcome (Nat × Int × Nat) :=
  (be32 buff pos).bind fun len32 =>
    (be32 buff (pos + 4)).bind fun modifierType =>
      -- buff += 8; modifierLen -= 8; if (modifierLen == 1) read a 64-bit length
      if toInt32 len32 - 8 = 1 then
        (be64 buff (pos + 8)).bind fun len64 => .ok (modifierType, toInt64 len64 - 8, pos + 16)
      else .ok (modifierType, toInt32 len32 - 8, pos + 8)

/-- The entry loop of a `styl` box in `extractData` (469-497), `n` entries to go:
the position after them and the tag list. -/
def styleEntries (buff : List Byte) :
    Nat → Nat → List (Nat × List Byte) → Outcome (Nat × List (Nat × List Byte))
  | 0, pos, tags => .ok (pos, tags)
  | n + 1, pos, tags =>
    (be16 buff pos).bind fun startChar =>
      (be16 buff (pos + 2)).bind fun endChar =>
        -- buff += 6;
        if startChar < endChar then
          (byteAt buff (pos + 6)).bind fun face =>
            -- tags.insert(tags.begin(), {startChar, prefix}); tags.emplace_back(endChar, suffix);
            styleEntries buff n (pos + 12)
              ((startChar, openTags face) :: tags ++ [(endChar, closeTags face)])
        else styleEntries buff n (pos + 12) tags

/-- The loop `while (buff < end)` over modifier boxes in `extractData` (449-501).
A jump to before the chunk makes the next iteration read there, which is
undefined. -/
def modifiers (buff : List Byte) :
    Nat → Nat → List (Nat × List Byte) → Outcome (List (Nat × List Byte))
  | 0, _, _ => .outOfFuel
  | fuel + 1, pos, tags =>
    if pos < buff.length then
      (modifierHeader buff pos).bind fun h =>
        if h.1 = 0x7374796C then
          (be16 buff h.2.2).bind fun entry_count =>
            (styleEntries buff entry_count (h.2.2 + 2) tags).bind fun r =>
              modifiers buff fuel r.1 r.2
        -- else buff += modifierLen;
        else if (h.2.2 : Int) + h.2.1 < 0 then .undefined
        else modifiers buff fuel ((h.2.2 : Int) + h.2.1).toNat tags
    else .ok tags

/-- Order of `std::pair<int, std::string>` used by `sort(..., greater<>())`:
`bytesLt a b` is `a < b` for strings (bytes compared as unsigned). -/
def bytesLt : List Byte → List Byte → Bool
  | [], [] => false
  | [], _ :: _ => true
  | _ :: _, [] => false
  | a :: as, b :: bs => if a < b then true else if b < a then false else bytesLt as bs

/-- `tagGe a b`: `a` is not less than `b` for `operator<` of the pair. -/
def tagGe (a b : Nat × List Byte) : Prop :=
  b.1 < a.1 ∨ (b.1 = a.1 ∧ bytesLt a.2 b.2 = false)

instance tagGe_decidable : DecidableRel tagGe := fun a b => by
  unfold tagGe
  infer_instance

/-- The loop `for (auto [fst, snd] : tags) subtitleText.insert(fst, snd)` (505);
`std::string::insert` throws `std::out_of_range` for a position past the end. -/
def insertTags : List (Nat × List Byte) → List Byte → Outcome (List Byte)
  | [], text => .ok text
  | t :: rest, text =>
    if t.1 > text.length then .thrown
    else insertTags rest (text.take t.1 ++ t.2 ++ text.drop t.1)

/-- The text `" --> "`. -/
def arrow : List Byte := [32, 45, 45, 62, 32]

/-- The UTF-8 byte order mark `EF BB BF`. -/
def bom : List Byte := [239, 187, 191]

/-- The frame header both functions build in `prefix` (426-435 and 520-534):
the byte order mark before the first packet, the packet number and the two
times. -/
def header (fmt : Format) (m_packetCnt startTime endTime : Int) : List Byte :=
  (if m_packetCnt = 0 then bom else []) ++ fmt.int32ToStr (m_packetCnt + 1) ++ [10]
    ++ fmt.floatToTime startTime ++ arrow ++ fmt.floatToTime endTime ++ [10]

/-- `extractData` (419-512): the bytes written and the framer afterwards.  The
fuel bounds the number of modifier boxes visited. -/
def extractData (fmt : Format) (fuel : Nat) (f : Framer) (buff : List Byte) :
    Outcome (List Byte × Framer) :=
  -- int64_t startTime = m_timeOffset; int64_t endTime = startTime + getSttsVal();
  (getSttsVal f).bind fun d =>
    let startTime := f.m_timeOffset
    let endTime := startTime + d.1
    let pfx := header fmt f.m_packetCnt startTime endTime
    (readUnitSize buff (buff.length + 1) 0).bind fun u =>
      -- subtitleText = std::string(buff, unitSize); buff += unitSize;
      if u.2 + u.1 > buff.length then .undefined
      else
        (modifiers buff fuel (u.2 + u.1) []).bind fun tags =>
          -- sort(tags.begin(), tags.end(), greater<>()); insert each tag
          (insertTags (tags.insertionSort tagGe) ((buff.drop u.2).take u.1)).bind fun text =>
            .ok (pfx ++ text ++ [10, 10],
                 { d.2 with m_packetCnt := f.m_packetCnt + 1, m_timeOffset := endTime })

/-- The entry loop of a `styl` box in `newBufferSize` (567-582): the position
after the entries and `textLen`. -/
def countStyleEntries (buff : List Byte) : Nat → Nat → Nat → Outcome (Nat × Nat)
  | 0, pos, textLen => .ok (pos, textLen)
  | n + 1, pos, textLen =>
    (be16 buff pos).bind fun startChar =>
      (be16 buff (pos + 2)).bind fun endChar =>
        if startChar < endChar then
          (byteAt buff (pos + 6)).bind fun face =>
            countStyleEntries buff n (pos + 12)
              (textLen + (if face % 2 = 1 then 7 else 0) + (if face / 2 % 2 = 1 then 7 else 0)
                + (if face / 4 % 2 = 1 then 7 else 0))
        else countStyleEntries buff n (pos + 12) textLen

/-- The loop `while (buff < end)` over modifier boxes in `newBufferSize`
(547-586): the final `textLen`. -/
def countModifiers (buff : List Byte) : Nat → Nat → Nat → Outcome Nat
  | 0, _, _ => .outOfFuel
  | fuel + 1, pos, textLen =>
    if pos < buff.length then
      (modifierHeader buff pos).bind fun h =>
        if h.1 = 0x7374796C then
          (be16 buff h.2.2).bind fun entry_count =>
            (countStyleEntries buff entry_count (h.2.2 + 2) textLen).bind fun r =>
              countModifiers buff fuel r.1 r.2
        else if (h.2.2 : Int) + h.2.1 < 0 then .undefined
        else countModifiers buff fuel ((h.2.2 : Int) + h.2.1).toNat textLen
    else .ok textLen

/-- `newBufferSize` (514-597): the value returned and the framer afterwards.
Nothing inside the `try` block throws a `BitStreamException`, so the handler
is never entered. -/
def newBufferSize (fmt : Format) (fuel : Nat) (f : Framer) (buff : List Byte) :
    Outcome (Nat × Framer) :=
  (getSttsVal f).bind fun d =>
    let startTime := f.m_timeOffset
    let endTime := startTime + d.1
    -- if (size <= 2) { m_timeOffset = endTime; return 0; }
    if buff.length ≤ 2 then .ok (0, { d.2 with m_timeOffset := endTime })
    else
      let pfx := header fmt f.m_packetCnt startTime endTime
      (readUnitSize buff (buff.length + 1) 0).bind fun u =>
        (countModifiers buff fuel (u.2 + u.1) u.1).bind fun textLen =>
          -- sttsCnt = stored_sttsCnt; sttsPos = stored_sttsPos;
          .ok (u32 (pfx.length + textLen + 2),
               { d.2 with sttsCnt := f.sttsCnt, sttsPos := f.sttsPos })

/-- Total length of the tag strings of a tag list. -/
def tagsLength (tags : List (Nat × List Byte)) : Nat :=
  (tags.map (fun t => t.2.length)).sum

/-- Modelled from the spec: a stand-in for `int32ToStr`, which is not in the two
source files; the decimal digits of a non-negative number (the packet number
that opens a frame). -/
def decimal : Nat → Nat → List Byte
  | 0, _ => []
  | fuel + 1, n =>
    if n < 10 then [Fin.ofNat (48 + n)] else decimal fuel (n / 10) ++ [Fin.ofNat (48 + n % 10)]

/-- Modelled from the spec: a stand-in for `floatToTime`, which is not in the two
source files; a non-negative millisecond count as `HH:MM:SS,mmm`. -/
def clock (t : Nat) : List Byte :=
  [Fin.ofNat (48 + t / 36000000 % 10), Fin.ofNat (48 + t / 3600000 % 10), 58,
   Fin.ofNat (48 + t / 600000 % 6), Fin.ofNat (48 + t / 60000 % 10), 58,
   Fin.ofNat (48 + t / 10000 % 6), Fin.ofNat (48 + t / 1000 % 10), 44,
   Fin.ofNat (48 + t / 100 % 10), Fin.ofNat (48 + t / 10 % 10), Fin.ofNat (48 + t % 10)]

/-- The formatters used in the examples. -/
def sampleFormat : Format :=
  { int32ToStr := fun n => decimal 10 n.toNat, floatToTime := fun t => clock t.toNat }

/-- A framer after `setPrivData` on a track with one sample of 1000 units at
`time_scale = 1000`. -/
def oneSecondFramer : Framer := setPrivData (init [{ count := 1, duration := 1000 }] 1000)

/-- The sample `00 02 "Hi"` followed by a `styl` box with one bold entry for
characters 0 to 5, past the end of the text. -/
def overlongStyle : List Byte :=
  [0, 2, 72, 105, 0, 0, 0, 22, 115, 116, 121, 108, 0, 1, 0, 0, 0, 5, 0, 0, 1, 0, 0, 0, 255, 0]

/-- The sample `00 05 "Hello"` followed by a `styl` box with one bold entry for
characters 0 to 5 (scenario 6 of the specification). -/
def helloSample : List Byte :=
  [0, 5, 72, 101, 108, 108, 111, 0, 0, 0, 22, 115, 116, 121, 108, 0, 1, 0, 0, 0, 5, 0, 0, 1,
   0, 0, 0, 255, 0]

/-- The `styl` box of 22 bytes with one entry: length, type, entry count, then
`startChar`, `endChar`, font id, face-style flags, font size and colour. -/
def stylBox (s e : Nat) (fid0 fid1 face fsz c0 c1 c2 c3 : Byte) : List Byte :=
  [0, 0, 0, 22, 115, 116, 121, 108, 0, 1,
   ⟨s / 256 % 256, Nat.mod_lt _ (by decide)⟩, ⟨s % 256, Nat.mod_lt _ (by decide)⟩,
   ⟨e / 256 % 256, Nat.mod_lt _ (by decide)⟩, ⟨e % 256, Nat.mod_lt _ (by decide)⟩,
   fid0, fid1, face, fsz, c0, c1, c2, c3]

/-- A TX3G sample with text `T` and one `styl` entry: the 16-bit text length, the
text, and the `styl` box. -/
def tx3gSample (T : List Byte) (s e : Nat) (fid0 fid1 face fsz c0 c1 c2 c3 : Byte) :
    List Byte :=
  ([⟨T.length / 256 % 256, Nat.mod_lt _ (by decide)⟩, ⟨T.length % 256, Nat.mod_lt _ (by decide)⟩]
    ++ T) ++ stylBox s e fid0 fid1 face fsz c0 c1 c2 c3

/-- The letters of the styles set in a face-style byte, for flag bits 0, 1, 2 in
that order: `b`, `i`, `u`. -/
def setStyles (face : Nat) : List Byte :=
  (([(1, 98), (2, 105), (4, 117)] : List (Nat × Byte)).filter
    (fun p => face / p.1 % 2 = 1)).map (fun p => p.2)

/-- Following the specification: the opening tags `<b>`, `<i>`, `<u>` of the set
styles, in that order. -/
def specOpen (face : Nat) : List Byte :=
  (setStyles face).flatMap (fun c => [60, c, 62])

/-- Following the specification: the matching closing tags, in reverse order. -/
def specClose (face : Nat) : List Byte :=
  (setStyles face).reverse.flatMap (fun c => [60, 47, c, 62])

/-- A run of `extractData` calls, one per `(fuel, sample)` pair, each on the
framer the previous call left: the outputs and the final framer. -/
def extractAll (fmt : Format) : Framer → List (Nat × List Byte) →
    Outcome (List (List Byte) × Framer)
  | f, [] => .ok ([], f)
  | f, c :: cs =>
    (extractData fmt c.1 f c.2).bind fun r =>
      (extractAll fmt r.2 cs).bind fun rs => .ok (r.1 :: rs.1, rs.2)

/-- The run-length expansion of a time-to-sample table: the duration of every
sample in order. -/
def expand : List MOVStts → List Int
  | [] => []
  | e :: rest => List.replicate e.count e.duration ++ expand rest

/-- `Cursor stts f rest`: the table cursor of `f` stands where the durations
still to be handed out are `rest`: either before the table, or inside the
entry `cur` with `c` samples of it left. -/
def Cursor (stts : List MOVStts) (f : Framer) (rest : List Int) : Prop :=
  (f.sttsPos = -1 ∧ f.sttsCnt = 0 ∧ rest = expand stts)
  ∨ ∃ (pre : List MOVStts) (cur : MOVStts) (post : List MOVStts) (c : Nat),
      stts = pre ++ cur :: post ∧ f.sttsPos = (pre.length : Int) ∧ f.sttsCnt = (c : Int)
        ∧ rest = List.replicate c cur.duration ++ expand post

/-- A track with two samples of one second and one of half a second. -/
def threeSampleTable : List MOVStts :=
  [{ count := 2, duration := 1000 }, { count := 1, duration := 500 }]

/-- The framer after `setPrivData` and one `extractData` on `threeSampleTable`. -/
def afterOneFrame : Framer :=
  { stts_data := threeSampleTable, time_scale := 1000, m_packetCnt := 1, sttsPos := 0,
    sttsCnt := 1, m_timeOffset := 1000 }

/-- The frame expected for `helloSample` as first packet with one second per
sample: the byte order mark, `1`, `00:00:00,000 --> 00:00:01,000`,
`<b>Hello</b>` and an empty line. -/
def helloFrame : List Byte :=
  [239, 187, 191, 49, 10, 48, 48, 58, 48, 48, 58, 48, 48, 44, 48, 48, 48,
   32, 45, 45, 62, 32, 48, 48, 58, 48, 48, 58, 48, 49, 44, 48, 48, 48, 10,
   60, 98, 62, 72, 101, 108, 108, 111, 60, 47, 98, 62, 10, 10]

end MovParsedSRTTrackData

/-! ### `HEVCStreamReader` picture order and frame depth (hevcStreamReader.cpp) -/

namespace HEVCStreamReader

/-- Modelled from the spec: the two things `toFullPicOrder` asks of a
`HevcSliceHeader` (declared in hevc.h, which is not among the sources):
whether the slice is an IDR picture, and its `pic_order_cnt_lsb`. -/
structure HevcSliceHeader where
  isIDR : Bool
  pic_order_cnt_lsb : Int
  deriving DecidableEq, Repr

/-- `HEVCStreamReader::toFullPicOrder` (hevcStreamReader.cpp 399-420): the
returned value and the reader after the call.  `range` is `1 << pic_bits`; it
is positive, so `range / 2` is the truncated quotient of the source. -/
def toFullPicOrder (r : Reader) (slice : HevcSliceHeader) (pic_bits : Nat) : Int × Reader :=
  let r1 : Reader :=
    if slice.isIDR then
      -- m_picOrderBase = m_frameNum; m_picOrderMsb = 0; m_prevPicOrder = 0;
      { r with m_picOrderBase := r.m_frameNum, m_picOrderMsb := 0, m_prevPicOrder := 0 }
    else
      let range : Int := 2 ^ pic_bits
      let msb :=
        if slice.pic_order_cnt_lsb < r.m_prevPicOrder ∧
            r.m_prevPicOrder - slice.pic_order_cnt_lsb ≥ range / 2 then
          r.m_picOrderMsb + range
        else if slice.pic_order_cnt_lsb > r.m_prevPicOrder ∧
            slice.pic_order_cnt_lsb - r.m_prevPicOrder ≥ range / 2 then
          r.m_picOrderMsb - range
        else r.m_picOrderMsb
      -- m_prevPicOrder = slice->pic_order_cnt_lsb;
      { r with m_picOrderMsb := msb, m_prevPicOrder := slice.pic_order_cnt_lsb }
  (slice.pic_order_cnt_lsb + r1.m_picOrderMsb + r1.m_picOrderBase, r1)

/-- Successive calls of `toFullPicOrder`, one per slice, each on the reader the
previous call left: the returned values in order, and the final reader. -/
def fullPicOrders (pic_bits : Nat) : Reader → List HevcSliceHeader → List Int × Reader
  | r, [] => ([], r)
  | r, s :: rest =>
    let p := toFullPicOrder r s pic_bits
    let q := fullPicOrders pic_bits p.2 rest
    (p.1 :: q.1, q.2)

/-- A non-IDR slice with the given `pic_order_cnt_lsb`. -/
def nonIdr (lsb : Int) : HevcSliceHeader := { isIDR := false, pic_order_cnt_lsb := lsb }

/-- `HEVCStreamReader::HEVCStreamReader()` (hevcStreamReader.cpp 16-35), for the
timing fields.  The clock fields belong to the base class `MPEGStreamReader`,
which is not among the sources, and are taken as given; the frame counter of a
new reader is zero. -/
def construct (curDts curPts pcrIncPerFrame : Int) : Reader :=
  { m_totalFrameNum := 0, m_curDts := curDts, m_curPts := curPts,
    m_pcrIncPerFrame := pcrIncPerFrame,
    m_firstFrame := true, m_frameNum := 0, m_fullPicOrder := 0, m_frameDepth := 1,
    m_picOrderMsb := 0, m_prevPicOrder := 0, m_picOrderBase := 0 }

/-- A sequence of `incTimings` calls; before each call `m_frameNum` and
`m_fullPicOrder` are given the values of the pair. -/
def timingsRun : Reader → List (Int × Int) → Reader
  | r, [] => r
  | r, u :: rest =>
    timingsRun (incTimings { r with m_frameNum := u.1, m_fullPicOrder := u.2 }) rest

/-- The largest of `start` and the values `frameNum - fullPicOrder` of the
pairs. -/
def maxDelta (start : Int) (us : List (Int × Int)) : Int :=
  us.foldl (fun m u => max m (u.1 - u.2)) start

end HEVCStreamReader

/-! ### `HEVCStreamReader` descriptors (hevcStreamReader.cpp) -/

namespace HEVCStreamReader

/-- Modelled from the spec: the fields of `HevcVpsUnit` read by the reader
(hevc.h is not among the sources). -/
structure HevcVpsUnit where
  vps_id : Int
  num_units_in_tick : Int
  deriving DecidableEq, Repr

/-- Modelled from the spec: the fields of `HevcSpsUnit` read by the reader
(hevc.h is not among the sources). -/
structure HevcSpsUnit where
  vps_id : Int
  sps_id : Int
  pic_width_in_luma_samples : Int
  pic_height_in_luma_samples : Int
  log2_max_pic_order_cnt_lsb : Nat
  colour_primaries : Int
  transfer_characteristics : Int
  matrix_coeffs : Int
  chroma_sample_loc_type_top_field : Int
  deriving DecidableEq, Repr

/-- Modelled from the spec: the field of `HevcPpsUnit` read by the reader
(hevc.h is not among the sources). -/
structure HevcPpsUnit where
  sps_id : Int
  deriving DecidableEq, Repr

/-- Modelled from the spec: the fields of `HevcHdrUnit`, the HDR descriptor
(hevc.h is not among the sources). -/
structure HevcHdrUnit where
  isHDR10 : Bool
  isHDR10plus : Bool
  isDVRPU : Bool
  isDVEL : Bool
  DVCompatibility : Int
  deriving DecidableEq, Repr

/-- Modelled from the spec: the bits of the global `V3_flags` that the reader
tests or sets, one boolean for each named bit (the bit masks are declared
outside the sources). -/
structure V3Flags where
  DV : Bool
  HDR10 : Bool
  NON_DV_TRACK : Bool
  FOUR_K : Bool
  deriving DecidableEq, Repr

/-- The state of an `HEVCStreamReader`: the timing fields, the buffer between
`m_buffer` and `m_bufEnd` (positions are offsets from `m_buffer`, the null
pointer is `none`), the parameter sets and the HDR descriptor (`none` for a
null pointer), and the global `V3_flags`. -/
structure Decoder where
  timing : Reader
  m_buffer : List Byte
  m_eof : Bool
  m_vps : Option HevcVpsUnit
  m_sps : Option HevcSpsUnit
  m_pps : Option HevcPpsUnit
  m_hdr : Option HevcHdrUnit
  m_spsPpsFound : Bool
  m_lastIFrame : Bool
  m_lastDecodedPos : Option Nat
  m_vpsCounter : Int
  m_vpsSizeDiff : Int
  m_vpsBuffer : List Byte
  m_spsBuffer : List Byte
  m_ppsBuffer : List Byte
  V3_flags : V3Flags
  deriving DecidableEq, Repr

/-- Which of the reader's parameter sets a call of `updateFPS` is given as its
first argument. -/
inductive UnitRef where
  | vps
  | sps
  deriving DecidableEq, Repr

/-- The functions the reader calls that are defined outside the sources, taken
as given.  The scanners receive the bytes up to the end pointer and the offset
to start from.  `newVps` and the like are the units as their constructors make
them.  A parser receives the unit it is called on and the bytes handed to
`decodeBuffer`, and gives the code returned by `deserialize` and the unit after
the call.  `updateFPS` receives the reader, which unit it is called on, the
memory that its two pointers point into and their offsets, and gives the
reader and that memory after the call; it may throw.  `mulFps n` is the product `n * getFPS()` converted to
`int`. -/
structure Codec where
  findNextNAL : List Byte → Nat → Nat
  findNALWithStartCode : List Byte → Nat → Nat
  newVps : HevcVpsUnit
  newSps : HevcSpsUnit
  newPps : HevcPpsUnit
  newHdr : HevcHdrUnit
  vpsDeserialize : HevcVpsUnit → List Byte → Int × HevcVpsUnit
  spsDeserialize : HevcSpsUnit → List Byte → Int × HevcSpsUnit
  ppsDeserialize : HevcPpsUnit → List Byte → Int × HevcPpsUnit
  hdrDeserialize : HevcHdrUnit → List Byte → Int × HevcHdrUnit
  sliceDeserialize : List Byte → HevcSpsUnit → HevcPpsUnit → Int × HevcSliceHeader
  updateFPS : Decoder → UnitRef → List Byte → Nat → Nat → Outcome (Decoder × List Byte)
  blurayStreamParams : Decoder → Int × Int × Int
  mulFps : Int → Int

/-- `HEVCStreamReader::getStreamWidth` (hevcStreamReader.cpp 346). -/
def getStreamWidth (st : Decoder) : Int :=
  match st.m_sps with
  | some sps => sps.pic_width_in_luma_samples
  | none => 0

/-- `HEVCStreamReader::getStreamHeight` (hevcStreamReader.cpp 348). -/
def getStreamHeight (st : Decoder) : Int :=
  match st.m_sps with
  | some sps => sps.pic_height_in_luma_samples
  | none => 0

/-- The level chosen by the chain of comparisons of `setDoViDescriptor`
(hevcStreamReader.cpp 263-290); `level` keeps its initial 0 when no comparison
holds. -/
def doviLevel (width pixelRate : Int) : Int :=
  if width ≤ 1280 ∧ pixelRate ≤ 22118400 then 1
  else if width ≤ 1280 ∧ pixelRate ≤ 27648000 then 2
  else if width ≤ 1920 ∧ pixelRate ≤ 49766400 then 3
  else if width ≤ 2560 ∧ pixelRate ≤ 62208000 then 4
  else if width ≤ 3840 ∧ pixelRate ≤ 124416000 then 5
  else if width ≤ 3840 ∧ pixelRate ≤ 199065600 then 6
  else if width ≤ 3840 ∧ pixelRate ≤ 248832000 then 7
  else if width ≤ 3840 ∧ pixelRate ≤ 398131200 then 8
  else if width ≤ 3840 ∧ pixelRate ≤ 497664000 then 9
  else if width ≤ 3840 ∧ pixelRate ≤ 995328000 then 10
  else if width ≤ 7680 ∧ pixelRate ≤ 995328000 then 11
  else if width ≤ 7680 ∧ pixelRate ≤ 1990656000 then 12
  else if width ≤ 7680 ∧ pixelRate ≤ 3981312000 then 13
  else 0

/-- Modelled from the spec: the `n` bits that `BitStreamWriter::putBits(n, v)`
appends (bitStream.h is not among the sources): the `n` low bits of `v`, the
most significant first. -/
def bitsOf (n : Nat) (v : Int) : List Bool :=
  (List.range n).map fun i => decide (v / 2 ^ (n - 1 - i) % 2 = 1)

/-- The byte whose bits, most significant first, are the first eight of `bs`,
a shorter list being filled up with zero bits. -/
def byteOfBits (bs : List Bool) : Byte :=
  Fin.ofNat (((bs ++ List.replicate 8 false).take 8).foldl
    (fun a b => 2 * a + (if b then 1 else 0)) 0)

/-- Modelled from the spec: the bytes a `BitStreamWriter` has written after
`flushBits`, eight bits to the byte, the last byte filled up with zero bits. -/
def packBits : Nat → List Bool → List Byte
  | 0, _ => []
  | _ + 1, [] => []
  | fuel + 1, b :: bs => byteOfBits (b :: bs) :: packBits fuel (bs.drop 7)

/-- What a call of `setDoViDescriptor` leaves: the calls made on the bit
writer in order (width and value), the bytes in `dstBuff` after `flushBits`,
the value returned and the reader. -/
structure DoViResult where
  putBits : List (Nat × Int)
  written : List Byte
  ret : Int
  st : Decoder
  deriving DecidableEq, Repr

/-- The width used by `setDoViDescriptor` (hevcStreamReader.cpp 254-256). -/
def doviWidth (st : Decoder) : Int :=
  let isDVBL := !st.V3_flags.NON_DV_TRACK
  -- if (!isDVBL && V3_flags & FOUR_K) width *= 2;
  if !isDVBL && st.V3_flags.FOUR_K then getStreamWidth st * 2 else getStreamWidth st

/-- `HEVCStreamReader::setDoViDescriptor` (hevcStreamReader.cpp 248-320).
Dereferencing a null `m_hdr` is undefined. -/
def setDoViDescriptor (P : Codec) (st : Decoder) : Outcome DoViResult :=
  match st.m_hdr with
  | none => .undefined
  | some hdr0 =>
    -- int isDVBL = !(V3_flags & NON_DV_TRACK); if (!isDVBL) m_hdr->isDVEL = true;
    let isDVBL := !st.V3_flags.NON_DV_TRACK
    let hdr : HevcHdrUnit := if !isDVBL then { hdr0 with isDVEL := true } else hdr0
    let width := doviWidth st
    -- int pixelRate = width * getStreamHeight() * getFPS();
    let pixelRate := P.mulFps (width * getStreamHeight st)
    let level := doviLevel width pixelRate
    let profile : Int :=
      if hdr.isDVEL then (if isDVBL then 4 else 7)
      else if hdr.DVCompatibility = 1 ∨ hdr.DVCompatibility = 2 ∨ hdr.DVCompatibility = 4 then 8
      else 5
    let calls : List (Nat × Int) :=
      [(8, 5), (8, 4), (32, 0x444f5649), (8, 0xb0), (8, if isDVBL then 5 else 7), (8, 1), (8, 0),
       (7, profile), (6, level),
       (1, if hdr.isDVRPU then 1 else 0), (1, if hdr.isDVEL then 1 else 0),
       (1, if isDVBL then 1 else 0)]
      ++ (if !isDVBL then [(13, 0x1011), (3, 7)] else [])
      ++ [(4, hdr.DVCompatibility), (4, 15)]
    let bits := (calls.map fun c => bitsOf c.1 c.2).flatten
    .ok { putBits := calls
          written := packBits bits.length bits
          ret := 8 + (if isDVBL then 5 else 7)
          st := { st with m_hdr := some hdr } }

/-- The comparisons of `setDoViDescriptor` as a table, in the order of the
source: width bound, pixel-rate bound, level. -/
def doviLevelRows : List (Int × Int × Int) :=
  [(1280, 22118400, 1), (1280, 27648000, 2), (1920, 49766400, 3), (2560, 62208000, 4),
   (3840, 124416000, 5), (3840, 199065600, 6), (3840, 248832000, 7), (3840, 398131200, 8),
   (3840, 497664000, 9), (3840, 995328000, 10), (7680, 995328000, 11),
   (7680, 1990656000, 12), (7680, 3981312000, 13)]

/-- The first row of `doviLevelRows` whose two bounds hold. -/
def firstLevelRow (width pixelRate : Int) : Option (Int × Int × Int) :=
  doviLevelRows.find? fun row => decide (width ≤ row.1 ∧ pixelRate ≤ row.2.1)

/-- The level of the first row of a table whose two bounds hold, 0 when there
is none. -/
def levelOf (rows : List (Int × Int × Int)) (w pr : Int) : Int :=
  match rows.find? fun row => decide (w ≤ row.1 ∧ pr ≤ row.2.1) with
  | some row => row.2.2
  | none => 0

/-- An HDR descriptor with nothing set. -/
def plainHdr : HevcHdrUnit :=
  { isHDR10 := false, isHDR10plus := false, isDVRPU := false, isDVEL := false,
    DVCompatibility := 0 }

/-- A sequence parameter set of the given picture size, BT.2100 PQ colours. -/
def sampleSps (width height : Int) : HevcSpsUnit :=
  { vps_id := 0, sps_id := 0, pic_width_in_luma_samples := width,
    pic_height_in_luma_samples := height, log2_max_pic_order_cnt_lsb := 4,
    colour_primaries := 9, transfer_characteristics := 16, matrix_coeffs := 9,
    chroma_sample_loc_type_top_field := 2 }

/-- A reader past its first frame with the given buffer, parameter sets for a
picture of the given size, and the given HDR descriptor and flags. -/
def sampleDecoder (buffer : List Byte) (width height : Int) (hdr : Option HevcHdrUnit)
    (flags : V3Flags) : Decoder :=
  { timing := lateReader, m_buffer := buffer, m_eof := false,
    m_vps := some { vps_id := 0, num_units_in_tick := 0 },
    m_sps := some (sampleSps width height), m_pps := some { sps_id := 0 },
    m_hdr := hdr, m_spsPpsFound := false, m_lastIFrame := false, m_lastDecodedPos := none,
    m_vpsCounter := 0, m_vpsSizeDiff := 0, m_vpsBuffer := [], m_spsBuffer := [],
    m_ppsBuffer := [], V3_flags := flags }

/-- No flag of `V3_flags` set: a Dolby-Vision base-layer track. -/
def noFlags : V3Flags := { DV := false, HDR10 := false, NON_DV_TRACK := false, FOUR_K := false }

/-- Modelled from the spec: `find_next_nal(p)` is the first position `q ≥ p`
that points at the byte immediately after a start-code prefix `00 00 01`, or
the end of the buffer if there is none (`NALUnit::findNextNAL` is defined
outside the sources).  `fuel` bounds the scan. -/
def scanStartCode (buf : List Byte) : Nat → Nat → Nat
  | 0, _ => buf.length
  | fuel + 1, p =>
    if buf[p]? = some 0 ∧ buf[p + 1]? = some 0 ∧ buf[p + 2]? = some 1 then p + 3
    else if p + 3 ≤ buf.length then scanStartCode buf fuel (p + 1)
    else buf.length

/-- Modelled from the spec: `find_next_nal` over a whole buffer. -/
def specFindNextNAL (buf : List Byte) (p : Nat) : Nat := scanStartCode buf buf.length p

/-- An example of the functions defined outside the sources: the scanner of
the specification, parsers of parameter sets and slices that accept any NAL of
at least three bytes and reject (code 1) a shorter one, a parser of SEI
messages that rejects (code 1) a message whose payload size, its fourth byte,
is more than the bytes that follow, no frame-rate rewriting, 24 frames per
second and fixed Blu-ray stream parameters. -/
def sampleCodec : Codec :=
  { findNextNAL := specFindNextNAL
    findNALWithStartCode := fun buf p =>
      let q := specFindNextNAL buf p
      if q = buf.length then q else if buf[q - 4]? = some 0 then q - 4 else q - 3
    newVps := { vps_id := 0, num_units_in_tick := 0 }
    newSps := sampleSps 0 0
    newPps := { sps_id := 0 }
    newHdr := plainHdr
    vpsDeserialize := fun _ bs =>
      (if bs.length < 3 then 1 else 0, { vps_id := 0, num_units_in_tick := 0 })
    spsDeserialize := fun _ bs => (if bs.length < 3 then 1 else 0, sampleSps 1920 1080)
    ppsDeserialize := fun _ bs => (if bs.length < 3 then 1 else 0, { sps_id := 0 })
    hdrDeserialize := fun h bs =>
      (match bs[3]? with
        | some size => if size.val + 4 ≤ bs.length then 0 else 1
        | none => 1, h)
    sliceDeserialize := fun bs _ _ =>
      (if bs.length < 3 then 1 else 0, { isIDR := false, pic_order_cnt_lsb := 0 })
    updateFPS := fun st _ buf _ _ => .ok (st, buf)
    blurayStreamParams := fun _ => (6, 1, 3)
    mulFps := fun n => n * 24 }

/-- An HDR descriptor of a stream with a Dolby Vision RPU and BT.2100 PQ
colours. -/
def rpuHdr : HevcHdrUnit :=
  { isHDR10 := true, isHDR10plus := false, isDVRPU := true, isDVEL := false,
    DVCompatibility := 1 }

/-- Modelled from the spec: `NAL_TRAIL_N` of hevc.h (not among the sources),
the H.265 NAL unit type code. -/
def NAL_TRAIL_N : Nat := 0

/-- Modelled from the spec: `NAL_RASL_R` of hevc.h, the H.265 type code. -/
def NAL_RASL_R : Nat := 9

/-- Modelled from the spec: `NAL_BLA_W_LP` of hevc.h, the H.265 type code. -/
def NAL_BLA_W_LP : Nat := 16

/-- Modelled from the spec: `NAL_RSV_IRAP_VCL23` of hevc.h, the H.265 type
code. -/
def NAL_RSV_IRAP_VCL23 : Nat := 23

/-- Modelled from the spec: `NAL_VPS` of hevc.h, 0x20 in the specification's
start-code scenario. -/
def NAL_VPS : Nat := 32

/-- Modelled from the spec: `NAL_SPS` of hevc.h, 0x21 in the specification's
start-code scenario. -/
def NAL_SPS : Nat := 33

/-- Modelled from the spec: `NAL_PPS` of hevc.h, the H.265 type code. -/
def NAL_PPS : Nat := 34

/-- Modelled from the spec: `NAL_FD_NUT` of hevc.h, the H.265 type code. -/
def NAL_FD_NUT : Nat := 38

/-- Modelled from the spec: `NAL_SEI_PREFIX` of hevc.h, the H.265 type code. -/
def NAL_SEI_PREFIX : Nat := 39

/-- Modelled from the spec: `NAL_SEI_SUFFIX` of hevc.h, the H.265 type code. -/
def NAL_SEI_SUFFIX : Nat := 40

/-- Modelled from the spec: `NAL_RSV_NVCL45` of hevc.h, the H.265 type code. -/
def NAL_RSV_NVCL45 : Nat := 45

/-- Modelled from the spec: `NAL_RSV_NVCL47` of hevc.h, the H.265 type code. -/
def NAL_RSV_NVCL47 : Nat := 47

/-- Modelled from the spec: `NAL_UNSPEC56` of hevc.h, the H.265 type code. -/
def NAL_UNSPEC56 : Nat := 56

/-- Modelled from the spec: `NAL_DVRPU` of hevc.h, the unspecified type 62
that carries a Dolby Vision RPU. -/
def NAL_DVRPU : Nat := 62

/-- Modelled from the spec: `NAL_DVEL` of hevc.h, the unspecified type 63 that
carries a Dolby Vision enhancement layer. -/
def NAL_DVEL : Nat := 63

/-- `HEVCStreamReader::isSlice` (hevcStreamReader.cpp 365-371). -/
def isSlice (st : Decoder) (nalType : Nat) : Bool :=
  if st.m_sps.isNone || st.m_vps.isNone || st.m_pps.isNone then false
  else (decide (nalType ≥ NAL_TRAIL_N) && decide (nalType ≤ NAL_RASL_R)) ||
       (decide (nalType ≥ NAL_BLA_W_LP) && decide (nalType ≤ NAL_RSV_IRAP_VCL23))

/-- `HEVCStreamReader::isSuffix` (hevcStreamReader.cpp 373-380). -/
def isSuffix (st : Decoder) (nalType : Nat) : Bool :=
  if st.m_sps.isNone || st.m_vps.isNone || st.m_pps.isNone then false
  else decide (nalType = NAL_FD_NUT) || decide (nalType = NAL_SEI_SUFFIX) ||
       decide (nalType = NAL_RSV_NVCL45) ||
       (decide (nalType ≥ NAL_RSV_NVCL45) && decide (nalType ≤ NAL_RSV_NVCL47)) ||
       (decide (nalType ≥ NAL_UNSPEC56) && decide (nalType ≤ NAL_DVEL))

/-- The bytes between two offsets of a buffer. -/
def span (buf : List Byte) (a b : Nat) : List Byte := (buf.drop a).take (b - a)

/-- The loop of `HEVCStreamReader::checkStream` (hevcStreamReader.cpp 50-116)
from the NAL at offset `nal` on; `len` is the offset of `end`.  The flag of the
result says whether the loop ran to its end (`true`) or the function returned
from inside it (`false`).  A read outside the buffer is undefined. -/
def checkStreamScan (P : Codec) (len : Nat) :
    Nat → Decoder → List Byte → Nat → Outcome (Bool × Decoder)
  | 0, _, _, _ => .outOfFuel
  | fuel + 1, st, buffer, nal =>
    -- nal < end - 4
    if nal + 4 < len then
      match buffer[nal]?, buffer[nal + 1]? with
      | some b0, some b1 =>
        -- if (*nal & 0x80) return rez;
        if b0.val / 128 % 2 = 1 then .ok (false, st)
        else
          let nalType := b0.val / 2 % 64
          let nextNal := P.findNALWithStartCode (buffer.take len) nal
          let next := fun (st : Decoder) (buffer : List Byte) =>
            checkStreamScan P len fuel st buffer (P.findNextNAL (buffer.take len) nal)
          if nalType = NAL_VPS then
            let r := P.vpsDeserialize (st.m_vps.getD P.newVps) (span buffer nal nextNal)
            let st1 := { st with m_vps := some r.2 }
            if r.1 ≠ 0 then .ok (false, st1)
            else
              let st2 := { st1 with m_spsPpsFound := true }
              if r.2.num_units_in_tick ≠ 0 then
                (P.updateFPS st2 .vps buffer nal nextNal).bind fun p => next p.1 p.2
              else next st2 buffer
          else if nalType = NAL_SPS then
            let r := P.spsDeserialize (st.m_sps.getD P.newSps) (span buffer nal nextNal)
            let st1 := { st with m_sps := some r.2 }
            if r.1 ≠ 0 then .ok (false, st1)
            else
              let st2 := { st1 with m_spsPpsFound := true }
              (P.updateFPS st2 .sps buffer nal nextNal).bind fun p => next p.1 p.2
          else if nalType = NAL_PPS then
            let r := P.ppsDeserialize (st.m_pps.getD P.newPps) (span buffer nal nextNal)
            let st1 := { st with m_pps := some r.2 }
            if r.1 ≠ 0 then .ok (false, st1) else next st1 buffer
          else if nalType = NAL_SEI_PREFIX then
            let r := P.hdrDeserialize (st.m_hdr.getD P.newHdr) (span buffer nal nextNal)
            let st1 := { st with m_hdr := some r.2 }
            if r.1 ≠ 0 then .ok (false, st1) else next st1 buffer
          else if nalType = NAL_DVRPU ∨ nalType = NAL_DVEL then
            let hdr := st.m_hdr.getD P.newHdr
            -- if (nal[1] == 1)
            if b1.val = 1 then
              let hdr1 : HevcHdrUnit :=
                if nalType = NAL_DVEL then { hdr with isDVEL := true }
                else { hdr with isDVRPU := true }
              next { st with m_hdr := some hdr1, V3_flags := { st.V3_flags with DV := true } }
                buffer
            else next { st with m_hdr := some hdr } buffer
          else next st buffer
      | _, _ => .undefined
    else .ok (true, st)

/-- The end of `HEVCStreamReader::checkStream` (hevcStreamReader.cpp 118-159),
reached when the loop ran to its end: the flag of the result says whether the
result of the probe was filled in. -/
def checkStreamTail (P : Codec) (st : Decoder) : Bool × Decoder :=
  match st.m_vps, st.m_sps, st.m_pps with
  | some vps, some sps, some pps =>
    if sps.vps_id = vps.vps_id ∧ pps.sps_id = sps.sps_id then
      let cp := sps.colour_primaries
      let tc := sps.transfer_characteristics
      let mc := sps.matrix_coeffs
      let cslt := sps.chroma_sample_loc_type_top_field
      let hdr := st.m_hdr.getD P.newHdr
      if cp = 9 ∧ tc = 16 ∧ mc = 9 then
        let hdr1 := { hdr with isHDR10 := true }
        let hdr2 : HevcHdrUnit :=
          if cslt = 2 then { hdr1 with DVCompatibility := 6 }
          else if cslt = 0 then { hdr1 with DVCompatibility := 1 }
          else hdr1
        (true, { st with m_hdr := some hdr2, V3_flags := { st.V3_flags with HDR10 := true } })
      else if cp = 9 ∧ tc = 18 ∧ mc = 9 ∧ cslt = 2 then
        (true, { st with m_hdr := some { hdr with DVCompatibility := 4 } })
      else if cp = 9 ∧ tc = 14 ∧ mc = 9 ∧ cslt = 0 then
        (true, { st with m_hdr := some { hdr with DVCompatibility := 4 } })
      else if cp = 1 ∧ tc = 1 ∧ mc = 1 ∧ cslt = 0 then
        (true, { st with m_hdr := some { hdr with DVCompatibility := 2 } })
      else if cp = 2 ∧ tc = 2 ∧ mc = 2 ∧ cslt = 0 then
        (true, { st with
                 m_hdr := some { hdr with DVCompatibility := if hdr.isDVEL then 2 else 0 } })
      else (true, { st with m_hdr := some hdr })
    else (false, st)
  | _, _, _ => (false, st)

/-- `HEVCStreamReader::checkStream` (hevcStreamReader.cpp 45-160) on the
buffer `buffer` of `len` bytes: whether the result of the probe was filled in,
and the reader after the call. -/
def checkStream (P : Codec) (fuel : Nat) (st : Decoder) (buffer : List Byte) (len : Nat) :
    Outcome (Bool × Decoder) :=
  (checkStreamScan P len fuel st buffer (P.findNextNAL (buffer.take len) 0)).bind fun r =>
    if r.1 then .ok (checkStreamTail P r.2) else .ok (false, r.2)

/-- The first statement of `getTSDescriptor` (hevcStreamReader.cpp 164-165):
`if (m_firstFrame) checkStream(m_buffer, m_bufEnd - m_buffer);`, the result of
the probe being dropped. -/
def probeFirstFrame (P : Codec) (fuel : Nat) (st : Decoder) : Outcome Decoder :=
  if st.timing.m_firstFrame then
    (checkStream P fuel st st.m_buffer st.m_buffer.length).bind fun r => .ok r.2
  else .ok st

/-- `HEVCStreamReader::getTSDescriptor` (hevcStreamReader.cpp 162-246): the
bytes written at `dstBuff`, the value returned and the reader after the call.
The two bytes after the registration descriptor are stored as `uint8_t`.
Dereferencing a null `m_hdr` is undefined. -/
def getTSDescriptor (P : Codec) (fuel : Nat) (st : Decoder) (blurayMode : Bool) :
    Outcome (List Byte × Int × Decoder) :=
  (probeFirstFrame P fuel st).bind fun st1 =>
  let hdmv : List Byte := [0x05, 8, 0x48, 0x44, 0x4D, 0x56, 0xff, 0x24]
  let params := P.blurayStreamParams st1
  let video_format := params.1
  let frame_rate_index := params.2.1
  let aspect_ratio_index := params.2.2
  let b8 : Byte := Fin.ofNat ((video_format * 16 + frame_rate_index) % 256).toNat
  let b9 : Byte := Fin.ofNat ((aspect_ratio_index * 16 + 0xf) % 256).toNat
  if blurayMode then .ok (hdmv ++ [b8, b9], 10, st1)
  else
    match st1.m_hdr with
    | none => .undefined
    | some hdr =>
      if hdr.isDVEL || hdr.isDVRPU then
        (setDoViDescriptor P st1).bind fun d =>
          .ok (hdmv ++ [b8, b9] ++ d.written, 10 + d.ret, d.st)
      else .ok (hdmv ++ [b8, b9], 10, st1)

/-- A reader before its first frame, nothing parsed yet, with the given
buffer. -/
def freshDecoder (buffer : List Byte) : Decoder :=
  { timing := construct 0 0 3600, m_buffer := buffer, m_eof := false,
    m_vps := none, m_sps := none, m_pps := none, m_hdr := none,
    m_spsPpsFound := false, m_lastIFrame := false, m_lastDecodedPos := none,
    m_vpsCounter := 0, m_vpsSizeDiff := 0, m_vpsBuffer := [], m_spsBuffer := [],
    m_ppsBuffer := [], V3_flags := noFlags }

/-- A buffer with a VPS, an SPS, a PPS and a prefix SEI, each after a four-byte
start code. -/
def paramSetsBuffer : List Byte :=
  [0, 0, 0, 1, 0x40, 1, 0x0c, 1, 0, 0, 0, 1, 0x42, 1, 1, 1,
   0, 0, 0, 1, 0x44, 1, 0xc1, 0x72, 0, 0, 0, 1, 0x4e, 1, 5, 4, 1, 2, 3, 0x80]

/-- The reader `freshDecoder paramSetsBuffer` after the loop of `checkStream`
with `sampleCodec`. -/
def probedDecoder : Decoder :=
  { freshDecoder paramSetsBuffer with
    m_vps := some { vps_id := 0, num_units_in_tick := 0 }
    m_sps := some (sampleSps 1920 1080)
    m_pps := some { sps_id := 0 }
    m_hdr := some plainHdr
    m_spsPpsFound := true }

/-- The scanner always moves forward inside the buffer. -/
def Advances (P : Codec) : Prop :=
  ∀ (buf : List Byte) (p : Nat), p < buf.length → p < P.findNextNAL buf p

/-- The frame-rate update returns normally, keeps the size of the memory it
is given and leaves the HDR descriptor alone. -/
def QuietUpdate (P : Codec) : Prop :=
  ∀ (s : Decoder) (u : UnitRef) (buf : List Byte) (a b : Nat),
    ∃ s1 buf1, P.updateFPS s u buf a b = .ok (s1, buf1) ∧ buf1.length = buf.length ∧
      s1.m_hdr = s.m_hdr

/-- The bytes of the HDMV registration descriptor followed by the two bytes
made of the Blu-ray stream parameters of the reader `st`. -/
def hdmvBytes (P : Codec) (st : Decoder) : List Byte :=
  [0x05, 0x08, 0x48, 0x44, 0x4D, 0x56, 0xFF, 0x24,
   Fin.ofNat (((P.blurayStreamParams st).1 * 16 + (P.blurayStreamParams st).2.1) % 256).toNat,
   Fin.ofNat (((P.blurayStreamParams st).2.2 * 16 + 0xF) % 256).toNat]

/-- A reader before its first frame that already holds an HDR descriptor. -/
def firstFrameDecoder : Decoder :=
  { freshDecoder paramSetsBuffer with m_hdr := some rpuHdr }

/-- `MAX_SLICE_HEADER` (hevcStreamReader.cpp 13). -/
def MAX_SLICE_HEADER : Nat := 64

/-- `HEVCStreamReader::storeBuffer` (hevcStreamReader.cpp 422-431): the content
of `dst` after the call, `data` being the bytes between the pointers `data`
and `dataEnd`.  The last byte is dropped, then every trailing zero byte; `dst`
is overwritten only if something is left. -/
def storeBuffer (dst : List Byte) (data : List Byte) : List Byte :=
  -- dataEnd--; while (dataEnd > data && dataEnd[-1] == 0) dataEnd--;
  let kept := (data.dropLast.reverse.dropWhile fun b => decide (b = 0)).reverse
  -- if (dataEnd > data) { dst.resize(...); memcpy(...); }
  if kept.isEmpty then dst else kept

/-- The `return` statements of `intDecodeNAL`: `return 0`,
`return NOT_ENOUGH_BUFFER`, `return NEED_MORE_DATA` (the two constants are
declared outside the sources) and `return rez` with the value of the local
variable `rez`. -/
inductive Return where
  | zero
  | NOT_ENOUGH_BUFFER
  | NEED_MORE_DATA
  | rez (code : Int)
  deriving DecidableEq, Repr

/-- The integer returned, given the values of the two constants. -/
def Return.value (notEnoughBuffer needMoreData : Int) : Return → Int
  | .zero => 0
  | .NOT_ENOUGH_BUFFER => notEnoughBuffer
  | .NEED_MORE_DATA => needMoreData
  | .rez code => code

/-- The reader and the local variables of `intDecodeNAL` at the head of its
loop. -/
structure LoopVars where
  st : Decoder
  prevPos : Option Nat
  curPos : Nat
  nextNal : Nat
  sliceFound : Bool
  rez : Int
  deriving DecidableEq, Repr

/-- The result of one turn of the loop of `intDecodeNAL`: the function has
returned, or the loop goes on. -/
inductive Step where
  | done (r : Return) (st : Decoder)
  | next (v : LoopVars)
  deriving DecidableEq, Repr

/-- The assignments at the end of the loop body (hevcStreamReader.cpp
535-537): `prevPos = curPos; curPos = nextNal; nextNal = findNextNAL(curPos,
m_bufEnd);`. -/
def shift (P : Codec) (v : LoopVars) : LoopVars :=
  { v with
    prevPos := some v.curPos
    curPos := v.nextNal
    nextNal := P.findNextNAL v.st.m_buffer v.nextNal }

/-- The end of the loop body of `intDecodeNAL` (hevcStreamReader.cpp 535-540). -/
def advance (P : Codec) (v : LoopVars) : Step :=
  -- if (!m_eof && nextNal == m_bufEnd) return NOT_ENOUGH_BUFFER;
  if v.st.m_eof = false ∧ (shift P v).nextNal = v.st.m_buffer.length then
    .done .NOT_ENOUGH_BUFFER v.st
  else .next (shift P v)

/-- The handling of a NAL that is neither slice nor suffix and comes before
the first slice (hevcStreamReader.cpp 486-534), `nextNalWithStartCode` being
computed already. -/
def decodeParamSet (P : Codec) (v : LoopVars) (nalType nextNalWithStartCode : Nat) :
    Outcome Step :=
  let st := v.st
  if nalType = NAL_VPS then
    let r := P.vpsDeserialize (st.m_vps.getD P.newVps)
      (span st.m_buffer v.curPos nextNalWithStartCode)
    let st1 := { st with m_vps := some r.2 }
    -- rez = m_vps->deserialize(); if (rez) return rez;
    if r.1 ≠ 0 then .ok (.done (.rez r.1) st1)
    else
      let st2 := { st1 with
                   m_spsPpsFound := true
                   m_vpsCounter := st1.m_vpsCounter + 1
                   m_vpsSizeDiff := 0 }
      (if r.2.num_units_in_tick ≠ 0 then
        (P.updateFPS st2 .vps st2.m_buffer v.curPos nextNalWithStartCode).bind fun p =>
          .ok { p.1 with m_buffer := p.2 }
       else .ok st2).bind fun st3 =>
      -- nextNal += m_vpsSizeDiff;
      if (v.nextNal : Int) + st3.m_vpsSizeDiff < 0 then .undefined
      else
        let st4 := { st3 with
                     m_vpsBuffer := storeBuffer st3.m_vpsBuffer
                       (span st3.m_buffer v.curPos nextNalWithStartCode) }
        .ok (advance P { v with
                         st := st4
                         nextNal := ((v.nextNal : Int) + st3.m_vpsSizeDiff).toNat
                         rez := r.1 })
  else if nalType = NAL_SPS then
    let r := P.spsDeserialize (st.m_sps.getD P.newSps)
      (span st.m_buffer v.curPos nextNalWithStartCode)
    let st1 := { st with m_sps := some r.2 }
    if r.1 ≠ 0 then .ok (.done (.rez r.1) st1)
    else
      let st2 := { st1 with m_spsPpsFound := true }
      (P.updateFPS st2 .sps st2.m_buffer v.curPos nextNalWithStartCode).bind fun p =>
        let st3 := { p.1 with m_buffer := p.2 }
        let st4 := { st3 with
                     m_spsBuffer := storeBuffer st3.m_spsBuffer
                       (span st3.m_buffer v.curPos nextNalWithStartCode) }
        .ok (advance P { v with st := st4, rez := r.1 })
  else if nalType = NAL_PPS then
    let r := P.ppsDeserialize (st.m_pps.getD P.newPps)
      (span st.m_buffer v.curPos nextNalWithStartCode)
    let st1 := { st with m_pps := some r.2 }
    if r.1 ≠ 0 then .ok (.done (.rez r.1) st1)
    else
      let st2 := { st1 with
                   m_spsPpsFound := true
                   m_ppsBuffer := storeBuffer st1.m_ppsBuffer
                     (span st1.m_buffer v.curPos nextNalWithStartCode) }
      .ok (advance P { v with st := st2, rez := r.1 })
  else if nalType = NAL_SEI_PREFIX then
    -- m_hdr->decodeBuffer(curPos, nextNal);
    let r := P.hdrDeserialize (st.m_hdr.getD P.newHdr) (span st.m_buffer v.curPos v.nextNal)
    let st1 := { st with m_hdr := some r.2 }
    -- if (m_hdr->deserialize() != 0) return rez;
    if r.1 ≠ 0 then .ok (.done (.rez v.rez) st1)
    else .ok (advance P { v with st := st1 })
  else .ok (advance P v)

/-- One turn of the loop of `intDecodeNAL` (hevcStreamReader.cpp 451-540), for
`curPos < m_bufEnd`.  A read outside the buffer is undefined. -/
def decodeStep (P : Codec) (v : LoopVars) : Outcome Step :=
  let st := v.st
  match st.m_buffer[v.curPos]? with
  | none => .undefined
  | some b0 =>
    -- int nalType = (*curPos >> 1) & 0x3f;
    let nalType := b0.val / 2 % 64
    if isSlice st nalType then
      match st.m_buffer[v.curPos + 2]? with
      | none => .undefined
      | some b2 =>
        -- if (curPos[2] & 0x80)
        if b2.val / 128 % 2 = 1 then
          if v.sliceFound then
            -- m_lastDecodedPos = prevPos; incTimings(); return 0;
            .ok (.done .zero
              { st with m_lastDecodedPos := v.prevPos, timing := incTimings st.timing })
          else
            match st.m_sps, st.m_pps with
            | some sps, some pps =>
              let r := P.sliceDeserialize
                (span st.m_buffer v.curPos (min (v.curPos + MAX_SLICE_HEADER) v.nextNal)) sps pps
              -- rez = slice.deserialize(m_sps, m_pps); if (rez) return rez;
              if r.1 ≠ 0 then .ok (.done (.rez r.1) st)
              else
                let st1 := if nalType ≥ NAL_BLA_W_LP then { st with m_lastIFrame := true } else st
                let p := toFullPicOrder st1.timing r.2 sps.log2_max_pic_order_cnt_lsb
                let st2 := { st1 with timing := { p.2 with m_fullPicOrder := p.1 } }
                .ok (advance P { v with st := st2, sliceFound := true, rez := r.1 })
            | _, _ => .undefined
        else .ok (advance P { v with sliceFound := true })
    else if !isSuffix st nalType then
      if v.sliceFound then
        -- incTimings(); m_lastDecodedPos = prevPos; return 0;
        .ok (.done .zero
          { st with timing := incTimings st.timing, m_lastDecodedPos := v.prevPos })
      else
        -- nextNalWithStartCode = nextNal[-4] == 0 ? nextNal - 4 : nextNal - 3;
        if v.nextNal < 4 then .undefined
        else
          match st.m_buffer[v.nextNal - 4]? with
          | none => .undefined
          | some z =>
            decodeParamSet P v nalType (if z.val = 0 then v.nextNal - 4 else v.nextNal - 3)
    else .ok (advance P v)

/-- The loop of `intDecodeNAL` and what follows it (hevcStreamReader.cpp
449-548). -/
def decodeLoop (P : Codec) : Nat → LoopVars → Outcome (Return × Decoder)
  | 0, _ => .outOfFuel
  | fuel + 1, v =>
    -- while (curPos < m_bufEnd)
    if v.curPos < v.st.m_buffer.length then
      (decodeStep P v).bind fun s =>
        match s with
        | .done r st => .ok (r, st)
        | .next w => decodeLoop P fuel w
    else if v.st.m_eof then
      .ok (.zero, { v.st with m_lastDecodedPos := some v.st.m_buffer.length })
    else .ok (.NEED_MORE_DATA, v.st)

/-- `HEVCStreamReader::intDecodeNAL` (hevcStreamReader.cpp 433-549), `buff`
being an offset into the buffer of the reader: the `return` statement taken
and the reader after the call. -/
def intDecodeNAL (P : Codec) (fuel : Nat) (st : Decoder) (buff : Nat) :
    Outcome (Return × Decoder) :=
  -- m_spsPpsFound = false; m_lastIFrame = false;
  let st0 := { st with m_spsPpsFound := false, m_lastIFrame := false }
  let nextNal := P.findNextNAL st0.m_buffer buff
  -- if (!m_eof && nextNal == m_bufEnd) return NOT_ENOUGH_BUFFER;
  if st0.m_eof = false ∧ nextNal = st0.m_buffer.length then .ok (.NOT_ENOUGH_BUFFER, st0)
  else
    decodeLoop P fuel
      { st := st0, prevPos := none, curPos := buff, nextNal := nextNal, sliceFound := false,
        rez := 0 }

/-- Whether the NAL at offset `pos` ends the access unit once a slice has been
seen: `some true` for a slice with `first_slice_segment_in_pic_flag` set and
for a NAL that is neither slice nor suffix, `some false` for a suffix NAL and
for a slice without the flag, `none` when its bytes are outside the buffer. -/
def closesAccessUnit (st : Decoder) (pos : Nat) : Option Bool :=
  match st.m_buffer[pos]? with
  | none => none
  | some b0 =>
    if isSlice st (b0.val / 2 % 64) then
      match st.m_buffer[pos + 2]? with
      | none => none
      | some b2 => some (decide (b2.val / 128 % 2 = 1))
    else some (!isSuffix st (b0.val / 2 % 64))

/-- The loop variables `n` NALs further on. -/
def shiftN (P : Codec) : Nat → LoopVars → LoopVars
  | 0, v => v
  | n + 1, v => shiftN P n (shift P v)

/-- From the NAL at `curPos` on there are `n` NALs that do not end the access
unit, each followed by a further start code unless the end of the stream was
signalled, and then, inside the buffer, a NAL that ends it. -/
def passes (P : Codec) : Nat → LoopVars → Bool
  | 0, v => decide (v.curPos < v.st.m_buffer.length) &&
      (closesAccessUnit v.st v.curPos == some true)
  | n + 1, v => decide (v.curPos < v.st.m_buffer.length) &&
      (closesAccessUnit v.st v.curPos == some false) &&
      (v.st.m_eof || decide ((shift P v).nextNal ≠ v.st.m_buffer.length)) &&
      passes P n (shift P v)

/-- The scanner returns an offset between the one it starts from and the end
of the buffer. -/
def Bounded (P : Codec) : Prop :=
  ∀ (buf : List Byte) (p : Nat), p ≤ buf.length →
    p ≤ P.findNextNAL buf p ∧ P.findNextNAL buf p ≤ buf.length

/-- The frame-rate update leaves `m_eof` alone; called on the VPS with
`m_vpsSizeDiff` reset it moves the end of the buffer by the `m_vpsSizeDiff` it
leaves, called on the SPS it keeps the size of the buffer. -/
def SizedUpdate (P : Codec) : Prop :=
  ∀ (s : Decoder) (u : UnitRef) (buf : List Byte) (a b : Nat) (s1 : Decoder)
    (buf1 : List Byte), P.updateFPS s u buf a b = .ok (s1, buf1) →
      s1.m_eof = s.m_eof ∧
      (match u with
        | .vps => s.m_vpsSizeDiff = 0 → (buf1.length : Int) = buf.length + s1.m_vpsSizeDiff
        | .sps => buf1.length = buf.length)

/-- A turn of the loop that has not returned `NEED_MORE_DATA` and, if the loop
goes on, goes on without the end of the stream signalled and with `curPos`
inside the buffer. -/
def GoodStep (s : Step) : Prop :=
  match s with
  | .done r _ => r ≠ .NEED_MORE_DATA
  | .next w => w.st.m_eof = false ∧ w.curPos < w.st.m_buffer.length ∧
      w.nextNal ≤ w.st.m_buffer.length

/-- A buffer with a first slice, a further slice of the same picture, a suffix
SEI, an access unit delimiter and the first slice of the next picture, each
after a three-byte start code. -/
def auBuffer : List Byte :=
  [0, 0, 1, 0x02, 0x01, 0x80, 0, 0, 1, 0x02, 0x01, 0x00, 0, 0, 1, 0x50, 0x01, 0xaa,
   0, 0, 1, 0x46, 0x01, 0x10, 0, 0, 1, 0x02, 0x01, 0x80]

/-- The loop variables of `intDecodeNAL` on `auBuffer` after the first slice,
at offset 3, was handled. -/
def auVars : LoopVars :=
  { st := sampleDecoder auBuffer 1920 1080 none noFlags
    prevPos := some 3, curPos := 9, nextNal := 15, sliceFound := true, rez := 0 }

/-- A buffer with one VPS after a four-byte start code and no further start
code. -/
def vpsOnlyBuffer : List Byte := [0, 0, 0, 1, 0x40, 0x01, 0x0c, 0x01, 0xff, 0xff]

/-- A buffer with a prefix SEI whose payload size (200) is more than the bytes
it has, a first slice and an access unit delimiter, each after a four-byte
start code. -/
def seiBuffer : List Byte :=
  [0, 0, 0, 1, 0x4e, 0x01, 0x05, 0xc8, 0x01, 0x02, 0, 0, 0, 1, 0x02, 0x01, 0x80, 0xaa,
   0, 0, 0, 1, 0x46, 0x01, 0x10]

end HEVCStreamReader

/-! ### `MovParsedAudioTrackData::newBufferSize` and the sample index -/

namespace MovParsedAudioTrackData

/-- `newBufferSize` (205-226) together with the framer after the call: no
statement of the function assigns a field of the framer or of the track, the
cursor `m_indexCur` is only read. -/
def newBufferSizeFramer (fuel : Nat) (f : Framer) (buff : List Byte) : Outcome (Nat × Framer) :=
  (newBufferSize fuel f buff).bind fun n => .ok (n, f)

/-- An AAC framer with per-sample sizes 6 and 7 and the cursor on the second
entry. -/
def shortIndexFramer : Framer :=
  { isAAC := true, sample_size := 0, m_index := [6, 7], m_indexCur := 1 }

end MovParsedAudioTrackData

/-! ### Calls that may throw -/

/-- How a call that may throw ends, with the state it leaves: it returns, it
throws, or its behaviour is undefined. -/
inductive Ends (σ : Type) where
  | returns (st : σ)
  | throws (st : σ)
  | undefined
  deriving DecidableEq, Repr

/-! ### `MovParsedH264TrackData::setPrivData` (movDemuxer.cpp 244-284) -/

namespace MovParsedH264TrackData

/-- One of the two entry loops of `setPrivData` (255-268 and 270-283): `cnt`
entries are still to be read, `src` is the blob from the read pointer to `end`
and `list` is `spsPpsList`.  The result is what is left of the blob and the
list, when the loop ends and when it throws. -/
def readEntries : Nat → List Byte → List (List Byte) → Ends (List Byte × List (List Byte))
  | 0, src, list => .returns (src, list)
  | cnt + 1, src, list =>
    match src with
    | a :: b :: rest =>
      -- int nalSize = (src[0] << 8) + src[1]; src += 2;
      let nalSize := a.val * 256 + b.val
      -- if (src + nalSize > end) THROW
      if nalSize > rest.length then .throws (rest, list)
      else if nalSize > 0 then
        readEntries cnt (rest.drop nalSize) (list ++ [rest.take nalSize])
      else readEntries cnt rest list
    -- if (src + 2 > end) THROW
    | _ => .throws (src, list)

/-- `MovParsedH264TrackData::setPrivData` (244-284) on the blob `buff`: the
framer when the call returns and when it throws.  Reading the PPS count at
`end` is undefined. -/
def setPrivData (f : Framer) (buff : List Byte) : Ends Framer :=
  -- spsPpsList.clear();
  let f0 : Framer := { f with spsPpsList := [] }
  -- if (size < 6) THROW
  if buff.length < 6 then .throws f0
  else
    match buff[4]?, buff[5]? with
    | some b4, some b5 =>
      -- nal_length_size = (buff[4] & 0x03) + 1;
      let f1 : Framer := { f0 with nal_length_size := b4.val % 4 + 1 }
      -- int spsCnt = buff[5] & 0x1f; if (spsCnt == 0) return;
      if b5.val % 32 = 0 then .returns f1
      else
        match readEntries (b5.val % 32) (buff.drop 6) [] with
        | .throws r => .throws { f1 with spsPpsList := r.2 }
        | .undefined => .undefined
        | .returns r =>
          -- int ppsCnt = *src++;
          match r.1 with
          | [] => .undefined
          | ppsCnt :: src =>
            match readEntries ppsCnt.val src r.2 with
            | .throws q => .throws { f1 with spsPpsList := q.2 }
            | .undefined => .undefined
            | .returns q => .returns { f1 with spsPpsList := q.2 }
    | _, _ => .undefined

/-- The rest of a blob at which an entry overruns: fewer than two bytes for
the length, or fewer bytes after the length than the length says. -/
def overruns : List Byte → Bool
  | a :: b :: rest => decide (rest.length < a.val * 256 + b.val)
  | _ => true

/-- An avcC blob with no SPS entry (count byte `E0`) and one PPS entry `68`. -/
def noSpsBlob : List Byte := [1, 100, 0, 30, 0xff, 0xe0, 1, 0, 1, 0x68]

/-- An avcC blob with two-byte NAL lengths, one SPS `67 42` and one PPS `68`. -/
def avcCBlob : List Byte := [1, 100, 0, 30, 0xfd, 0xe1, 0, 2, 0x67, 0x42, 1, 0, 1, 0x68]

end MovParsedH264TrackData

/-! ### `HEVCStreamReader::updateStreamFps` (hevcStreamReader.cpp 322-344) -/

namespace HEVCStreamReader

/-- The two functions of `HevcVpsUnit` that `updateStreamFps` calls, defined
outside the sources and taken as given: the unit after `setFPS(m_fps)`, and the
bytes `serializeBuffer` writes, `none` when it returns -1. -/
structure VpsWriter where
  setFPS : HevcVpsUnit → HevcVpsUnit
  serializeBuffer : HevcVpsUnit → Option (List Byte)

/-- `HEVCStreamReader::updateStreamFps` (hevcStreamReader.cpp 322-344) called
on the reader's VPS, as the VPS case of `intDecodeNAL` does: the reader when
the call returns and when it throws.  `buff` and `nextNal` are offsets into the
buffer and `tmpEnd` is the offset of `m_tmpBuffer + TMP_BUFFER_SIZE` (both
declared outside the sources).  The pointers are taken to satisfy
`buff ≤ nextNal ≤ m_bufEnd`; a null `m_vps` and a negative `memmove` size are
undefined.  Bytes past the old `m_bufEnd` that the `memmove` leaves between
the two parts are written as 0; the `memcpy` that follows overwrites them. -/
def updateStreamFps (W : VpsWriter) (tmpEnd : Int) (st : Decoder) (buff nextNal : Nat) :
    Ends Decoder :=
  match st.m_vps with
  | none => .undefined
  | some vps0 =>
    if nextNal < buff ∨ st.m_buffer.length < nextNal then .undefined
    else
      -- int oldNalSize = nextNal - buff; m_vpsSizeDiff = 0; vps->setFPS(m_fps);
      let oldNalSize : Int := (nextNal : Int) - buff
      let vps := W.setFPS vps0
      let st1 := { st with m_vpsSizeDiff := 0, m_vps := some vps }
      match W.serializeBuffer vps with
      -- if (newSpsLen == -1) THROW
      | none => .throws st1
      | some tmpBuffer =>
        let newSpsLen : Int := tmpBuffer.length
        if newSpsLen ≠ oldNalSize then
          -- m_vpsSizeDiff = newSpsLen - oldNalSize;
          let st2 := { st1 with m_vpsSizeDiff := newSpsLen - oldNalSize }
          -- if (m_bufEnd + m_vpsSizeDiff > m_tmpBuffer + TMP_BUFFER_SIZE) THROW
          if (st.m_buffer.length : Int) + st2.m_vpsSizeDiff > tmpEnd then .throws st2
          else
            -- memmove(nextNal + m_vpsSizeDiff, nextNal, m_bufEnd - nextNal);
            -- m_bufEnd += m_vpsSizeDiff;
            let moved :=
              (st.m_buffer ++ List.replicate tmpBuffer.length 0).take
                  ((nextNal : Int) + st2.m_vpsSizeDiff).toNat
                ++ st.m_buffer.drop nextNal
            -- memcpy(buff, tmpBuffer, newSpsLen);
            .returns { st2 with
                       m_buffer := moved.take buff ++ tmpBuffer
                         ++ moved.drop (buff + tmpBuffer.length) }
        else
          -- memcpy(buff, tmpBuffer, newSpsLen);
          .returns { st1 with
                     m_buffer := st.m_buffer.take buff ++ tmpBuffer
                       ++ st.m_buffer.drop (buff + tmpBuffer.length) }

/-- A writer that leaves the unit as it is and serialises it as the six bytes
`40 01 0c 01 ff ff`. -/
def sampleWriter : VpsWriter :=
  { setFPS := fun v => v
    serializeBuffer := fun _ => some [0x40, 0x01, 0x0c, 0x01, 0xff, 0xff] }

end HEVCStreamReader

/-! ### Box readers and block demultiplexing (movDemuxer.cpp) -/

namespace MovDemuxer

/-- Modelled from the spec: the byte reader of `IOContextDemuxer` (defined
outside the sources), with big-endian fixed-width reads: `input` is the file
from the read position on, `m_processedBytes` counts the bytes consumed.  How
the reader behaves at the end of the file is not modelled: a read of more
bytes than are left has the outcome `undefined`. -/
structure IOContext where
  input : List Byte
  m_processedBytes : Int
  m_isEOF : Bool
  deriving DecidableEq, Repr

/-- The number written big-endian in a list of bytes. -/
def beValue (bs : List Byte) : Nat := bs.foldl (fun v b => v * 256 + b.val) 0

/-- Modelled from the spec: `get_buffer(dst, n)`, the next `n` bytes. -/
def get_buffer (io : IOContext) (n : Nat) : Outcome (List Byte × IOContext) :=
  if n ≤ io.input.length then
    .ok (io.input.take n,
         { io with input := io.input.drop n, m_processedBytes := io.m_processedBytes + n })
  else .undefined

/-- Modelled from the spec: a big-endian read of `n` bytes. -/
def get_be (n : Nat) (io : IOContext) : Outcome (Nat × IOContext) :=
  (get_buffer io n).bind fun r => .ok (beValue r.1, r.2)

/-- Modelled from the spec: `get_byte()`. -/
def get_byte (io : IOContext) : Outcome (Nat × IOContext) := get_be 1 io

/-- Modelled from the spec: `get_be24()`. -/
def get_be24 (io : IOContext) : Outcome (Nat × IOContext) := get_be 3 io

/-- Modelled from the spec: `get_be32()`. -/
def get_be32 (io : IOContext) : Outcome (Nat × IOContext) := get_be 4 io

/-- Modelled from the spec: `get_be64()`. -/
def get_be64 (io : IOContext) : Outcome (Nat × IOContext) := get_be 8 io

/-- Modelled from the spec: `get_le32()`, a little-endian read of four bytes. -/
def get_le32 (io : IOContext) : Outcome (Nat × IOContext) :=
  (get_buffer io 4).bind fun r => .ok (beValue r.1.reverse, r.2)

/-- Modelled from the spec: `skip_bytes(n)`; a negative count is not
modelled. -/
def skip_bytes (io : IOContext) (n : Int) : Outcome IOContext :=
  if n < 0 then .undefined else (get_buffer io n.toNat).bind fun r => .ok r.2

/-- `struct MOVAtom`, declared outside the sources: the type, offset and size
of a box. -/
structure MOVAtom where
  type : Nat
  offset : Int
  size : Int
  deriving DecidableEq, Repr

/-- `MKTAG(a, b, c, d)` (movDemuxer.cpp 42) on four character codes. -/
def MKTAG (a b c d : Nat) : Nat := a + b * 256 + c * 65536 + d * 16777216

/-- `struct MOVFragment`, declared outside the sources: the fields the
fragment readers use. -/
structure MOVFragment where
  track_id : Nat
  base_data_offset : Int
  moof_offset : Int
  stsd_id : Nat
  duration : Nat
  size : Nat
  flags : Nat
  deriving DecidableEq, Repr

/-- The framer of a track, `parsed_priv_data`: one of the classes derived from
`ParsedTrackPrivData`, with the fields modelled for it. -/
inductive ParsedTrackPrivData where
  | audio (f : MovParsedAudioTrackData.Framer)
  | h264 (f : MovParsedH264TrackData.Framer)
  | h265 (f : MovParsedH264TrackData.Framer)
  | h266 (f : MovParsedH264TrackData.Framer)
  | srt (f : MovParsedSRTTrackData.Framer)
  deriving DecidableEq, Repr

/-- The two extractors `hevc_extract_priv_data` and `vvc_extract_priv_data`,
defined outside the sources and taken as given: the parameter sets and the
NAL length size they give for a blob. -/
structure Extractors where
  hevc_extract_priv_data : List Byte → Outcome (List (List Byte) × Nat)
  vvc_extract_priv_data : List Byte → Outcome (List (List Byte) × Nat)

/-- The virtual `setPrivData(buff, size)` of a framer (movDemuxer.cpp 164-176,
244-284, 368-371, 379-382, 411-417).  The audio framer only keeps the pointer
and fills in `m_aacRaw`, which are not among the fields modelled. -/
def ParsedTrackPrivData.setPrivData (X : Extractors) (p : ParsedTrackPrivData)
    (buff : List Byte) : Outcome ParsedTrackPrivData :=
  match p with
  | .audio f => .ok (.audio f)
  | .h264 f =>
    match MovParsedH264TrackData.setPrivData f buff with
    | .returns g => .ok (.h264 g)
    | .throws _ => .thrown
    | .undefined => .undefined
  | .h265 f =>
    (X.hevc_extract_priv_data buff).bind fun r =>
      .ok (.h265 { f with spsPpsList := r.1, nal_length_size := r.2 })
  | .h266 f =>
    (X.vvc_extract_priv_data buff).bind fun r =>
      .ok (.h266 { f with spsPpsList := r.1, nal_length_size := r.2 })
  | .srt f => .ok (.srt (MovParsedSRTTrackData.setPrivData f))

/-- The fields of `Track` and `MOVStreamContext` that the box readers
modelled here use. -/
structure Track where
  codec_priv : List Byte
  parsed_priv_data : Option ParsedTrackPrivData
  chunk_offsets : List Int
  ctts_data : List MovParsedSRTTrackData.MOVStts
  ctts_count : Nat
  pseudo_stream_id : Nat
  deriving DecidableEq, Repr

/-- The fields of `MovDemuxer` that the box readers and `simpleDemuxBlock`
use; `tracks` holds `tracks[0 .. num_tracks)`. -/
structure Context where
  io : IOContext
  tracks : List Track
  fragment : MOVFragment
  found_moov : Bool
  found_moof : Bool
  m_mdat_pos : Int
  m_mdat_size : Int
  m_mdat_data : List (Int × Int)
  m_fileSize : Int
  chunks : List (Int × Nat)
  m_curChunk : Nat
  m_fileBlockSize : Int
  m_firstDemux : Bool
  m_firstHeaderSize : Int
  deriving DecidableEq, Repr

/-- `MovDemuxer::mov_read_mdat` (movDemuxer.cpp 1058-1069). -/
def mov_read_mdat (atom : MOVAtom) (c : Context) : Outcome (Int × Context) :=
  if atom.size = 0 then .ok (0, c)
  else
    let c1 :=
      if c.m_mdat_pos = 0 then
        { c with m_mdat_pos := c.io.m_processedBytes, m_mdat_size := atom.size }
      else c
    .ok (0, { c1 with m_mdat_data := c1.m_mdat_data ++ [(c1.io.m_processedBytes, atom.size)] })

/-- `MovDemuxer::mov_read_glbl` (movDemuxer.cpp 1567-1579).  `tracks[-1]` is
undefined. -/
def mov_read_glbl (X : Extractors) (atom : MOVAtom) (c : Context) : Outcome (Int × Context) :=
  -- if (static_cast<uint64_t>(atom.size) > (1 << 30)) return -1;
  if atom.size < 0 ∨ atom.size > 1073741824 then .ok (-1, c)
  else
    match c.tracks.getLast? with
    | none => .undefined
    | some st =>
      -- delete[] st->codec_priv; st->codec_priv = new unsigned char[atom.size];
      -- get_buffer(st->codec_priv, atom.size);
      (get_buffer c.io atom.size.toNat).bind fun r =>
        let st1 := { st with codec_priv := r.1 }
        -- if (st->parsed_priv_data) st->parsed_priv_data->setPrivData(...)
        match st.parsed_priv_data with
        | none => .ok (0, { c with io := r.2, tracks := c.tracks.dropLast ++ [st1] })
        | some p =>
          (p.setPrivData X r.1).bind fun p1 =>
            .ok (0, { c with
                      io := r.2
                      tracks := c.tracks.dropLast ++ [{ st1 with parsed_priv_data := some p1 }] })

/-- The loop of `mov_read_ctts` (movDemuxer.cpp 1196-1201): `entries` pairs
of `get_be32()`. -/
def readCtts : Nat → IOContext → List MovParsedSRTTrackData.MOVStts →
    Outcome (List MovParsedSRTTrackData.MOVStts × IOContext)
  | 0, io, acc => .ok (acc, io)
  | n + 1, io, acc =>
    (get_be32 io).bind fun cnt =>
      (get_be32 cnt.2).bind fun dur =>
        readCtts n dur.2 (acc ++ [{ count := cnt.1, duration := (dur.1 : Int) }])

/-- `MovDemuxer::mov_read_ctts` (movDemuxer.cpp 1187-1203): the table is
resized to `entries`, every entry is overwritten with what is read, and
`ctts_count` is set to 0. -/
def mov_read_ctts (c : Context) : Outcome (Int × Context) :=
  match c.tracks.getLast? with
  | none => .undefined
  | some st =>
    (get_byte c.io).bind fun v =>
      (get_be24 v.2).bind fun fl =>
        (get_be32 fl.2).bind fun entries =>
          (readCtts entries.1 entries.2 []).bind fun r =>
            .ok (0, { c with
                      io := r.2
                      tracks := c.tracks.dropLast
                        ++ [{ st with ctts_data := r.1, ctts_count := 0 }] })

/-- An optional `get_be32()`: `if (cond) get_be32();`, 0 when not read. -/
def get_be32_if (cond : Bool) (io : IOContext) : Outcome (Nat × IOContext) :=
  if cond then get_be32 io else .ok (0, io)

/-- The sample loop of `mov_read_trun` (movDemuxer.cpp 1092-1110): `entries`
samples are still to be read; the result is the reader, the track and the
running `offset`.  Writing `ctts_data[ctts_count]` outside the table is
undefined. -/
def readTrun (flags frag_size : Nat) :
    Nat → IOContext → Track → Int → Outcome (IOContext × Track × Int)
  | 0, io, sc, offset => .ok (io, sc, offset)
  | n + 1, io, sc, offset =>
    -- if (flags & 0x100) get_be32();  // sample_duration
    (get_be32_if (flags / 256 % 2 = 1) io).bind fun d =>
      -- unsigned sample_size = frag->size; if (flags & 0x200) sample_size = get_be32();
      (get_be32_if (flags / 512 % 2 = 1) d.2).bind fun s =>
        let sample_size := if flags / 512 % 2 = 1 then s.1 else frag_size
        -- if (flags & 0x400) get_be32();  // sample_flags
        (get_be32_if (flags / 1024 % 2 = 1) s.2).bind fun fl =>
          if flags / 2048 % 2 = 1 then
            -- sc->ctts_data.emplace_back();
            let grown := sc.ctts_data ++ [{ count := 0, duration := 0 }]
            if sc.ctts_count < grown.length then
              -- sc->ctts_data[sc->ctts_count].count = 1; ....duration = get_be32();
              (get_be32 fl.2).bind fun dur =>
                readTrun flags frag_size n dur.2
                  { sc with
                    ctts_data := grown.set sc.ctts_count { count := 1, duration := (dur.1 : Int) }
                    ctts_count := sc.ctts_count + 1 }
                  (offset + sample_size)
            else .undefined
          else readTrun flags frag_size n fl.2 sc (offset + sample_size)

/-- `MovDemuxer::mov_read_trun` (movDemuxer.cpp 1071-1114). -/
def mov_read_trun (c : Context) : Outcome (Int × Context) :=
  let frag := c.fragment
  -- if (frag->track_id == 0 || frag->track_id > num_tracks) return -1;
  if frag.track_id = 0 ∨ frag.track_id > c.tracks.length then .ok (-1, c)
  else
    match c.tracks[frag.track_id - 1]? with
    | none => .undefined
    | some sc =>
      -- if (sc->pseudo_stream_id + 1 != frag->stsd_id) return 0;
      if u32 (sc.pseudo_stream_id + 1) ≠ frag.stsd_id then .ok (0, c)
      else
        (get_byte c.io).bind fun v =>
          (get_be24 v.2).bind fun fl =>
            (get_be32 fl.2).bind fun entries =>
              let flags := fl.1
              (get_be32_if (flags % 2 = 1) entries.2).bind fun data_offset =>
                (get_be32_if (flags / 4 % 2 = 1) data_offset.2).bind fun first =>
                  -- int64_t offset = frag->base_data_offset + data_offset;
                  let offset : Int := frag.base_data_offset + data_offset.1
                  -- sc->chunk_offsets.push_back(offset);
                  let sc1 := { sc with chunk_offsets := sc.chunk_offsets ++ [offset] }
                  (readTrun flags frag.size entries.1 first.2 sc1 offset).bind fun r =>
                    -- frag->moof_offset = offset;
                    .ok (0, { c with
                              io := r.1
                              tracks := c.tracks.set (frag.track_id - 1) r.2.1
                              fragment := { frag with moof_offset := r.2.2 } })

/-- A reader at the start of the given bytes. -/
def ioOf (input : List Byte) : IOContext :=
  { input := input, m_processedBytes := 0, m_isEOF := false }

/-- A track with the given codec-private blob and nothing else. -/
def blobTrack (blob : List Byte) : Track :=
  { codec_priv := blob, parsed_priv_data := none, chunk_offsets := [], ctts_data := [],
    ctts_count := 0, pseudo_stream_id := 0 }

/-- A demuxer with the given tracks, reading the given bytes, whose current
fragment is for track 1 with sample description 1. -/
def contextOf (tracks : List Track) (input : List Byte) : Context :=
  { io := ioOf input, tracks := tracks,
    fragment := { track_id := 1, base_data_offset := 1000, moof_offset := 0, stsd_id := 1,
                  duration := 0, size := 100, flags := 0 },
    found_moov := false, found_moof := false, m_mdat_pos := 0, m_mdat_size := 0,
    m_mdat_data := [], m_fileSize := 0, chunks := [], m_curChunk := 0,
    m_fileBlockSize := 0, m_firstDemux := false, m_firstHeaderSize := 0 }

/-- Extractors that return nothing. -/
def noExtractors : Extractors :=
  { hevc_extract_priv_data := fun _ => .ok ([], 4)
    vvc_extract_priv_data := fun _ => .ok ([], 4) }

/-- The payload of a `ctts` box with the two entries (3, 10) and (2, 20). -/
def cttsPayload : List Byte :=
  [0, 0, 0, 0, 0, 0, 0, 2, 0, 0, 0, 3, 0, 0, 0, 10, 0, 0, 0, 2, 0, 0, 0, 20]

/-- The payload of a `trun` box with flags 0x800 and one sample whose
composition offset is 5. -/
def trunPayload : List Byte := [0, 0, 8, 0, 0, 0, 0, 1, 0, 0, 0, 5]

/-- `LLONG_MAX`. -/
def LLONG_MAX : Int := 9223372036854775807

/-- The header of a child box as `mov_read_default` reads it (movDemuxer.cpp
948-968): `none` when the loop is left by `break`, otherwise the box handed to
`ParseTableEntry`; with it the reader and `total_size` after the header.
`a.size` is the 32-bit size read, or for the size 1 the 64-bit size read
minus 8, as an `int64_t`. -/
def readBoxHeader (atom_size total_size a_offset : Int) (io : IOContext) :
    Outcome (Option MOVAtom × Int × IOContext) :=
  -- a.size = atom.size; a.type = 0;
  -- if (atom.size >= 8) { a.size = get_be32(); a.type = get_le32(); }
  (if atom_size ≥ 8 then
    (get_be32 io).bind fun s => (get_le32 s.2).bind fun t => .ok ((s.1 : Int), t.1, t.2)
   else .ok (atom_size, 0, io)).bind fun h =>
  -- total_size += 8; a.offset += 8;
  -- if (a.size == 1) { a.size = get_be64() - 8; a.offset += 8; total_size += 8; }
  (if h.1 = 1 then
    (get_be64 h.2.2).bind fun v =>
      .ok (MovParsedSRTTrackData.toInt64 ((v.1 + 18446744073709551616 - 8) % 18446744073709551616),
           a_offset + 16, total_size + 16, v.2)
   else .ok (h.1, a_offset + 8, total_size + 8, h.2.2)).bind fun x =>
  -- if (a.size == 0) { a.size = atom.size - total_size; if (a.size <= 8) break; }
  let size2 := if x.1 = 0 then atom_size - x.2.2.1 else x.1
  if x.1 = 0 ∧ size2 ≤ 8 then .ok (none, x.2.2.1, x.2.2.2)
  -- a.size -= 8; if (a.size < 0) break;
  else if size2 - 8 < 0 then .ok (none, x.2.2.1, x.2.2.2)
  -- a.size = FFMIN(a.size, atom.size - total_size);
  else
    .ok (some { type := h.2.1, offset := x.2.1,
                size := HEVCStreamReader.FFMIN (size2 - 8) (atom_size - x.2.2.1) },
         x.2.2.1, x.2.2.2)

/-- The end of `mov_read_default` (movDemuxer.cpp 988-991). -/
def finishBoxes (atom_size total_size err : Int) (c : Context) : Outcome (Int × Context) :=
  -- if (!err && total_size < atom.size && atom.size < 0x7ffff) skip_bytes(atom.size - total_size);
  if err = 0 ∧ total_size < atom_size ∧ atom_size < 524287 then
    (skip_bytes c.io (atom_size - total_size)).bind fun io1 => .ok (err, { c with io := io1 })
  else .ok (err, c)

/-- The condition of the `return 0` inside the loop of `mov_read_default`
(movDemuxer.cpp 979), `left` being the bytes of the box not yet read. -/
def stopsAtMedia (c : Context) (left : Int) : Bool :=
  (!c.found_moof && decide (c.m_mdat_pos ≠ 0) && c.found_moov) ||
  (c.found_moof && decide (c.io.m_processedBytes + left ≥ c.m_fileSize))

/-- The loop of `mov_read_default` (movDemuxer.cpp 946-986) and what follows
it, `ParseTableEntry` being the parameter `H`. -/
def readBoxes (H : MOVAtom → Context → Outcome (Int × Context)) (atom_size : Int) :
    Nat → Int → Int → Int → Context → Outcome (Int × Context)
  | 0, _, _, _, _ => .outOfFuel
  | fuel + 1, total_size, a_offset, err, c =>
    -- while (total_size + 8 < atom.size && !m_isEOF && !err)
    if total_size + 8 < atom_size ∧ c.io.m_isEOF = false ∧ err = 0 then
      (readBoxHeader atom_size total_size a_offset c.io).bind fun h =>
        match h.1 with
        | none => finishBoxes atom_size h.2.1 err { c with io := h.2.2 }
        | some a =>
          -- const int64_t start_pos = m_processedBytes; err = ParseTableEntry(a);
          let start_pos := h.2.2.m_processedBytes
          (H a { c with io := h.2.2 }).bind fun r =>
            -- const int64_t left = a.size - m_processedBytes + start_pos;
            let left := a.size - r.2.io.m_processedBytes + start_pos
            if stopsAtMedia r.2 left then .ok (0, r.2)
            else
              -- skip_bytes(left); a.offset += a.size; total_size += a.size;
              (skip_bytes r.2.io left).bind fun io1 =>
                readBoxes H atom_size fuel (h.2.1 + a.size) (a.offset + a.size) r.1
                  { r.2 with io := io1 }
    else finishBoxes atom_size total_size err c

/-- `MovDemuxer::mov_read_default` (movDemuxer.cpp 937-992), `ParseTableEntry`
being the parameter `H`. -/
def mov_read_default (H : MOVAtom → Context → Outcome (Int × Context)) (fuel : Nat)
    (atom : MOVAtom) (c : Context) : Outcome (Int × Context) :=
  -- if (atom.size < 0) atom.size = LLONG_MAX;
  readBoxes H (if atom.size < 0 then LLONG_MAX else atom.size) fuel 0 atom.offset 0 c

/-- The cases of `ParseTableEntry` (movDemuxer.cpp 848-935) for the readers
modelled here: `avcC`, `glbl`, `mvcC`, `hvcC`, `ctts`, `mdat` and `trun`.  An
example of a handler: every other box type is made to return 0 without
reading, where the source calls the reader of that type. -/
def sampleParseTableEntry (X : Extractors) (atom : MOVAtom) (c : Context) :
    Outcome (Int × Context) :=
  if atom.type = MKTAG 97 118 99 67 ∨ atom.type = MKTAG 103 108 98 108 ∨
      atom.type = MKTAG 109 118 99 67 ∨ atom.type = MKTAG 104 118 99 67 then
    mov_read_glbl X atom c
  else if atom.type = MKTAG 99 116 116 115 then mov_read_ctts c
  else if atom.type = MKTAG 109 100 97 116 then mov_read_mdat atom c
  else if atom.type = MKTAG 116 114 117 110 then mov_read_trun c
  else .ok (0, c)

/-- A `trun` box (20 bytes) followed by an `mdat` box (16 bytes). -/
def trunThenMdat : List Byte :=
  [0, 0, 0, 20, 116, 114, 117, 110] ++ trunPayload
    ++ [0, 0, 0, 16, 109, 100, 97, 116, 1, 2, 3, 4, 5, 6, 7, 8]

/-- A demuxer reading `trunThenMdat` whose current fragment names no track, so
that `mov_read_trun` returns -1. -/
def noTrackContext : Context :=
  { contextOf [blobTrack []] trunThenMdat with
    fragment := { (contextOf [] []).fragment with track_id := 0 } }

/-- `MovDemuxer::readHeaders` (movDemuxer.cpp 691-701), `ParseTableEntry`
being the parameter `H`. -/
def readHeaders (H : MOVAtom → Context → Outcome (Int × Context)) (fuel : Nat) (c : Context) :
    Outcome Context :=
  -- atom.size = LLONG_MAX; m_mdat_pos = 0;
  (mov_read_default H fuel { type := 0, offset := 0, size := LLONG_MAX }
      { c with m_mdat_pos := 0 }).bind fun r =>
    -- if (mov_read_default(atom) < 0) THROW; if (!found_moov) THROW
    if r.1 < 0 then .thrown
    else if r.2.found_moov = false then .thrown
    else .ok r.2

/-- `MovDemuxer::buildIndex` on the demuxer context. -/
def buildIndexOf (c : Context) : Outcome Context :=
  (buildIndex { tracks := c.tracks.map fun t => t.chunk_offsets, found_moof := c.found_moof,
                m_mdat_pos := c.m_mdat_pos, m_mdat_size := c.m_mdat_size, chunks := c.chunks,
                m_curChunk := c.m_curChunk }).bind fun d =>
    .ok { c with chunks := d.chunks, m_curChunk := d.m_curChunk }

/-- What `simpleDemuxBlock` uses from outside the sources or from parts not
modelled, taken as given: `ParseTableEntry` and the fuel for reading the
headers; whether `m_lastReadRez` is `DATA_EOF` after the headers; `url_fseek`;
the handling of one chunk (movDemuxer.cpp 744-815: PID filters, framers, copy
into `demuxedData`), which gives whether the loop is left by `break`, what is
added to `discardSize`, the bytes delivered for the track, and the demuxer
afterwards; and the next file of `m_fileIterator`, `none` when there is no
iterator or no further name. -/
structure BlockEnv where
  ParseTableEntry : MOVAtom → Context → Outcome (Int × Context)
  headerFuel : Nat
  lastReadIsEOF : Context → Bool
  url_fseek : Context → Int → Outcome Context
  deliver : Context → Int → Nat → Outcome (Bool × Int × List Byte × Context)
  nextFile : Context → Option (Outcome Context)

/-- The value `simpleDemuxBlock` returns: 0 or `BufferedReader::DATA_EOF`
(declared outside the sources). -/
inductive BlockRez where
  | zero
  | DATA_EOF
  deriving DecidableEq, Repr

/-- What a call of `simpleDemuxBlock` gives: the value returned, `discardSize`,
the chunks delivered (track and bytes) in order, and the demuxer. -/
structure BlockResult where
  rez : BlockRez
  discardSize : Int
  delivered : List (Nat × List Byte)
  c : Context
  deriving DecidableEq, Repr

/-- The loop of `simpleDemuxBlock` (movDemuxer.cpp 729-819): `discardSize` and
the chunks delivered so far are carried along.  Indexing `chunks` and
`m_mdat_data` outside their bounds is undefined. -/
def demuxLoop (E : BlockEnv) (startPos : Int) :
    Nat → Int → List (Nat × List Byte) → Context →
      Outcome (Int × List (Nat × List Byte) × Context)
  | 0, _, _, _ => .outOfFuel
  | fuel + 1, discardSize, out, c =>
    -- while (m_processedBytes - startPos < m_fileBlockSize && m_curChunk < chunks.size() &&
    --        m_curChunk < m_mdat_data.size())
    if c.io.m_processedBytes - startPos < c.m_fileBlockSize ∧ c.m_curChunk < c.chunks.length ∧
        c.m_curChunk < c.m_mdat_data.length then
      match c.chunks[c.m_curChunk]? with
      | none => .undefined
      | some cur =>
        let offset := cur.1
        -- if (m_curChunk < chunks.size() - 1) next = chunks[m_curChunk + 1].first;
        -- else { next = m_mdat_size; m_firstDemux = true; m_mdat_pos = 0; }
        let isLast := ¬ (c.m_curChunk < c.chunks.length - 1)
        let next : Int :=
          if isLast then c.m_mdat_size
          else match c.chunks[c.m_curChunk + 1]? with
            | some n => n.1
            | none => 0
        let c1 := if isLast then { c with m_firstDemux := true, m_mdat_pos := 0 } else c
        match c1.m_mdat_data[c1.m_curChunk]? with
        | none => .undefined
        | some md =>
          -- chunkSize = found_moof ? m_mdat_data[m_curChunk].second : next - offset;
          let chunkSize : Int := if c1.found_moof then md.2 else next - offset
          (E.deliver c1 chunkSize cur.2).bind fun r =>
            let out1 := if r.2.2.1.isEmpty then out else out ++ [(cur.2, r.2.2.1)]
            -- if (readed == 0) break;
            if r.1 then .ok (discardSize + r.2.1, out1, r.2.2.2)
            else
              -- if (found_moof && m_curChunk < chunks.size() - 1)
              --     skip_bytes(next - offset - m_mdat_data[m_curChunk].second);
              (if r.2.2.2.found_moof ∧ r.2.2.2.m_curChunk < r.2.2.2.chunks.length - 1 then
                match r.2.2.2.m_mdat_data[r.2.2.2.m_curChunk]? with
                | none => Outcome.undefined
                | some md1 =>
                  (skip_bytes r.2.2.2.io (next - offset - md1.2)).bind fun io1 =>
                    Outcome.ok { r.2.2.2 with io := io1 }
               else Outcome.ok r.2.2.2).bind fun c2 =>
                -- m_curChunk++;
                demuxLoop E startPos fuel (discardSize + r.2.1) out1
                  { c2 with m_curChunk := c2.m_curChunk + 1 }
    else .ok (discardSize, out, c)

/-- The first-call part of `simpleDemuxBlock` (movDemuxer.cpp 708-727):
`none` when the function returns `DATA_EOF` from it, otherwise `discardSize`
and the demuxer. -/
def firstDemux (E : BlockEnv) (discardSize : Int) (c : Context) :
    Outcome (Option (Int × Context)) :=
  if c.m_firstDemux then
    let c0 := { c with m_firstDemux := false }
    let beforeHeadersPos := c0.io.m_processedBytes
    (if c0.m_mdat_pos = 0 then
      (readHeaders E.ParseTableEntry E.headerFuel c0).bind fun c1 =>
        if E.lastReadIsEOF c1 then .ok none
        else
          (buildIndexOf c1).bind fun c2 =>
            if c2.m_mdat_pos ≠ 0 ∧ c2.io.m_processedBytes ≠ c2.m_mdat_pos then
              (E.url_fseek c2 c2.m_mdat_pos).bind fun c3 => .ok (some c3)
            else .ok (some c2)
     else .ok (some c0)).bind fun oc =>
      match oc with
      | none => .ok none
      | some c4 =>
        -- discardSize += m_mdat_pos - beforeHeadersPos;
        let d1 := discardSize + (c4.m_mdat_pos - beforeHeadersPos)
        -- if (!chunks.empty()) { discardSize += chunks[m_curChunk].first; skip_bytes(...); }
        if c4.chunks.isEmpty then .ok (some (d1, c4))
        else
          match c4.chunks[c4.m_curChunk]? with
          | none => .undefined
          | some ch =>
            (skip_bytes c4.io ch.1).bind fun io1 =>
              .ok (some (d1 + ch.1, { c4 with io := io1 }))
  else .ok (some (discardSize, c))

/-- `MovDemuxer::simpleDemuxBlock` (movDemuxer.cpp 703-835). -/
def simpleDemuxBlock (E : BlockEnv) (fuel : Nat) (c : Context) : Outcome BlockResult :=
  -- discardSize = m_firstHeaderSize; m_firstHeaderSize = 0;
  (firstDemux E c.m_firstHeaderSize { c with m_firstHeaderSize := 0 }).bind fun o =>
    match o with
    | none => .ok { rez := .DATA_EOF, discardSize := c.m_firstHeaderSize, delivered := [],
                    c := { c with m_firstHeaderSize := 0, m_firstDemux := false } }
    | some p =>
      -- const int64_t startPos = m_processedBytes;
      let startPos := p.2.io.m_processedBytes
      (demuxLoop E startPos fuel p.1 [] p.2).bind fun r =>
        -- if (m_processedBytes > startPos) return 0;
        if r.2.2.io.m_processedBytes > startPos then
          .ok { rez := .zero, discardSize := r.1, delivered := r.2.1, c := r.2.2 }
        else
          match E.nextFile r.2.2 with
          | some opened =>
            opened.bind fun c1 =>
              .ok { rez := .zero, discardSize := r.1, delivered := r.2.1, c := c1 }
          | none =>
            .ok { rez := .DATA_EOF, discardSize := r.1, delivered := r.2.1, c := r.2.2 }

/-- An example of the parts `simpleDemuxBlock` takes as given: no PID filter,
no framer, every track accepted: a chunk is read with `get_buffer` and copied
to the output (movDemuxer.cpp 806-813); a chunk of size 0 is passed over;
there is no next file. -/
def sampleBlockEnv : BlockEnv :=
  { ParseTableEntry := sampleParseTableEntry noExtractors
    headerFuel := 100
    lastReadIsEOF := fun _ => false
    url_fseek := fun c _ => .ok c
    deliver := fun c chunkSize _ =>
      if chunkSize = 0 then Outcome.ok (false, 0, [], c)
      else if chunkSize < 0 then Outcome.undefined
      else
        (get_buffer c.io chunkSize.toNat).bind fun r =>
          Outcome.ok (false, 0, r.1, { c with io := r.2 })
    nextFile := fun _ => none }

/-- A non-fragmented file past its headers: one `mdat` box of 8 bytes at
offset 40, one track with chunks at offsets 0 and 5 of it, and a block size of
1000 bytes. -/
def twoChunkContext : Context :=
  { contextOf [blobTrack []] [1, 2, 3, 4, 5, 6, 7, 8] with
    found_moov := true, m_mdat_pos := 40, m_mdat_size := 8, m_mdat_data := [(40, 8)],
    chunks := [(0, 0), (5, 0)], m_fileBlockSize := 1000,
    io := { input := [1, 2, 3, 4, 5, 6, 7, 8], m_processedBytes := 40, m_isEOF := false } }

end MovDemuxer

/-! ### The loop of `storeBuffer` -/

namespace HEVCStreamReader

/-- The loop `while (dataEnd > data && dataEnd[-1] == 0) dataEnd--;` of
`storeBuffer` (hevcStreamReader.cpp 425): the offset of `dataEnd` after the
loop, given its offset before. -/
def trimEnd (data : List Byte) : Nat → Nat
  | 0 => 0
  | e + 1 => if data[e]? = some 0 then trimEnd data e else e + 1

/-- `HEVCStreamReader::storeBuffer` (hevcStreamReader.cpp 422-431) with its
loop written out: `storeBuffer` is shown to be the same function. -/
def storeBufferLoop (dst : List Byte) (data : List Byte) : List Byte :=
  -- dataEnd--; while (dataEnd > data && dataEnd[-1] == 0) dataEnd--;
  let dataEnd := trimEnd data (data.length - 1)
  -- if (dataEnd > data) { dst.resize(dataEnd - data); memcpy(dst.data(), data, dataEnd - data); }
  if dataEnd > 0 then data.take dataEnd else dst

end HEVCStreamReader

/-! ### Reachable states of the AVC framer -/

namespace MovParsedH264TrackData

/-- The framer as the constructor leaves it (movDemuxer.cpp 241-243):
`nal_length_size(4)` and an empty `spsPpsList`. -/
def construct : Framer := { spsPpsList := [], nal_length_size := 4 }

/-- The states of an AVC framer reachable from its construction.
`nal_length_size` is assigned by the constructor and by `setPrivData` only;
`extractData` is the other member function that changes a modelled field
(`spsPpsList`).  A call that has undefined behaviour leaves no state. -/
inductive Reachable : Framer → Prop
  | fresh : Reachable construct
  | returned (f g : Framer) (buff : List Byte) :
      Reachable f → setPrivData f buff = .returns g → Reachable g
  | thrown (f g : Framer) (buff : List Byte) :
      Reachable f → setPrivData f buff = .throws g → Reachable g
  | extracted (f g : Framer) (buff out : List Byte) :
      Reachable f → extractData f buff = .ok (out, g) → Reachable g

end MovParsedH264TrackData

/-! ### Reachable timing states -/

namespace HEVCStreamReader

/-- The timing fields reachable from a new reader.  `incTimings` is the only
function of hevcStreamReader.cpp that assigns `m_frameDepth` (lines 391-393);
every other member function is a step that leaves `m_frameDepth` as it is,
whatever it does to the other fields. -/
inductive Reachable : Reader → Prop
  | fresh (curDts curPts pcrIncPerFrame : Int) :
      Reachable (construct curDts curPts pcrIncPerFrame)
  | timings (r : Reader) : Reachable r → Reachable (incTimings r)
  | other (r s : Reader) : Reachable r → s.m_frameDepth = r.m_frameDepth → Reachable s

end HEVCStreamReader

/-! ### Header boxes and language codes (movDemuxer.cpp) -/

namespace MovDemuxer

/-- The fields of `MovDemuxer` that the `hdlr` and `elst` readers use.  They
are declared in movDemuxer.h, which is not among the sources: `isom` and
`num_tracks` are taken as integers, `m_timescale` as the unsigned 32-bit value
`mov_read_mvhd` reads into it, and `m_firstTimecode` as a map from track
number to milliseconds, held as a list of pairs with the latest assignment of
a key first. -/
structure MovieHeader where
  io : IOContext
  isom : Int
  m_timescale : Nat
  num_tracks : Int
  m_firstTimecode : List (Int × Int)
  deriving DecidableEq, Repr

/-- `MovDemuxer::mov_read_hdlr` (movDemuxer.cpp 1581-1598). -/
def mov_read_hdlr (atom : MOVAtom) (c : MovieHeader) : Outcome (Int × MovieHeader) :=
  -- get_byte(); get_be24();
  (get_byte c.io).bind fun version =>
    (get_be24 version.2).bind fun flags =>
      -- const unsigned ctype = get_le32(); if (!ctype) isom = 1;
      (get_le32 flags.2).bind fun ctype =>
        let isom := if ctype.1 = 0 then 1 else c.isom
        -- get_le32(); get_be32(); get_be32(); get_be32();
        (get_le32 ctype.2).bind fun subtype =>
          (get_be32 subtype.2).bind fun manufacture =>
            (get_be32 manufacture.2).bind fun cflags =>
              (get_be32 cflags.2).bind fun mask =>
                -- skip_bytes(atom.size - (m_processedBytes - atom.offset)); return 0;
                (skip_bytes mask.2 (atom.size - (mask.2.m_processedBytes - atom.offset))).bind
                  fun io1 => .ok (0, { c with io := io1, isom := isom })

/-- The assignment `m_firstTimecode[key] = value`. -/
def setFirstTimecode (m : List (Int × Int)) (key value : Int) : List (Int × Int) :=
  (key, value) :: m.filter fun e => decide (e.1 ≠ key)

/-- The value `duration * 1000 / m_timescale` of `mov_read_elst` (1740, 1747),
computed in `int64_t`: a product outside the range of `int64_t` and a division
by zero are undefined. -/
def editTimecode (duration : Int) (m_timescale : Nat) : Outcome Int :=
  if m_timescale = 0 then .undefined
  else if duration * 1000 < -9223372036854775808 ∨ 9223372036854775807 < duration * 1000 then
    .undefined
  else .ok ((duration * 1000).tdiv (m_timescale : Int))

/-- The loop `for (unsigned i = 0; i < edit_count; i++)` of `mov_read_elst`
(1733-1749), `n` rounds to go. -/
def readEdits (version : Nat) (c : MovieHeader) :
    Nat → IOContext → List (Int × Int) → Outcome (IOContext × List (Int × Int))
  | 0, io, tc => .ok (io, tc)
  | n + 1, io, tc =>
    if version = 1 then
      -- const int64_t duration = get_be64(); const int64_t time = get_be64();
      (get_be64 io).bind fun duration =>
        (get_be64 duration.2).bind fun time =>
          -- if (time == -1) m_firstTimecode[num_tracks] = duration * 1000 / m_timescale;
          if MovParsedSRTTrackData.toInt64 time.1 = -1 then
            (editTimecode (MovParsedSRTTrackData.toInt64 duration.1) c.m_timescale).bind fun v =>
              readEdits version c n time.2 (setFirstTimecode tc c.num_tracks v)
          else readEdits version c n time.2 tc
    else
      -- const int64_t duration = get_be32(); const unsigned time = get_be32();
      (get_be32 io).bind fun duration =>
        (get_be32 duration.2).bind fun time =>
          -- if (time == UINT_MAX) m_firstTimecode[num_tracks] = duration * 1000 / m_timescale;
          if time.1 = 4294967295 then
            (editTimecode (duration.1 : Int) c.m_timescale).bind fun v =>
              readEdits version c n time.2 (setFirstTimecode tc c.num_tracks v)
          else readEdits version c n time.2 tc

/-- `MovDemuxer::mov_read_elst` (movDemuxer.cpp 1727-1752). -/
def mov_read_elst (c : MovieHeader) : Outcome (Int × MovieHeader) :=
  -- const int version = get_byte(); get_be24(); const unsigned edit_count = get_be32();
  (get_byte c.io).bind fun version =>
    (get_be24 version.2).bind fun flags =>
      (get_be32 flags.2).bind fun edit_count =>
        (readEdits version.1 c edit_count.1 edit_count.2 c.m_firstTimecode).bind fun r =>
          -- get_be32();  // Media rate
          (get_be32 r.1).bind fun rate =>
            .ok (0, { c with io := rate.2, m_firstTimecode := r.2 })

/-- A demuxer at the payload `input` of a box, with one track, a movie
timescale of 1000 and no first timecode. -/
def headerOf (input : List Byte) : MovieHeader :=
  { io := { input := input, m_processedBytes := 8, m_isEOF := false }
    isom := 0, m_timescale := 1000, num_tracks := 1, m_firstTimecode := [] }

/-- The payload of a `hdlr` box of a QuickTime file: version and flags 0,
component type `mhlr`, subtype `vide`, then twelve zero bytes. -/
def mhlrPayload : List Byte :=
  [0, 0, 0, 0, 109, 104, 108, 114, 118, 105, 100, 101, 0, 0, 0, 0, 0, 0, 0, 0, 0, 0, 0, 0]

/-- The payload of a `hdlr` box of an ISO file: as `mhlrPayload` with the
component type (`pre_defined`) zero. -/
def isoHdlrPayload : List Byte :=
  [0, 0, 0, 0, 0, 0, 0, 0, 118, 105, 100, 101, 0, 0, 0, 0, 0, 0, 0, 0, 0, 0, 0, 0]

/-- The payload of a version 0 `elst` box with one entry: duration 7000,
media time -1, media rate 1.0. -/
def oneEditPayload : List Byte :=
  [0, 0, 0, 0, 0, 0, 0, 1,
   0, 0, 0x1b, 0x58, 0xff, 0xff, 0xff, 0xff, 0, 1, 0, 0]

/-- The payload of a version 0 `elst` box with two entries: (duration 5,
media time 0, media rate 1.0), then (duration 7000, media time -1, media rate
1.0). -/
def twoEditsPayload : List Byte :=
  [0, 0, 0, 0, 0, 0, 0, 2,
   0, 0, 0, 5, 0, 0, 0, 0, 0, 1, 0, 0,
   0, 0, 0x1b, 0x58, 0xff, 0xff, 0xff, 0xff, 0, 1, 0, 0]

/-- `mov_mdhd_language_map` (movDemuxer.cpp 23-35), `none` for `nullptr`. -/
def mov_mdhd_language_map : List (Option String) :=
  [some "eng", some "fra", some "deu", some "ita", some "dut", some "sve", some "spa",
   some "dan", some "por", some "nor", some "heb", some "jpn", some "ara", some "fin",
   some "ell", some "isl",
   some "mlt", some "tur", some "hrv", some "zho", some "urd", some "hin", some "tha",
   some "kor", some "lit", some "pol", some "hun", some "est", some "lav", some "smi",
   some "fao", some "fas",
   some "rus", some "zho", some "nld", some "gle", some "alb", some "ron", some "ces",
   some "slk", some "slv", some "yid", some "srp", some "mkd", some "bul", some "ukr",
   some "bel", some "uzb",
   some "kaz", some "aze", some "aze", some "arm", some "geo", some "ron", some "kir",
   some "tgk", some "tuk", some "mon", some "mon", some "pus", some "kur", some "kas",
   some "snd", some "tib",
   some "nep", some "san", some "mar", some "ben", some "asm", some "guj", some "pa ",
   some "ori", some "mal", some "kan", some "tam", some "tel", some "sin", some "bur",
   some "khm", some "lao",
   some "vie", some "ind", some "tgl", some "may", some "may", some "amh", some "tir",
   some "orm", some "som", some "swa", some "kin", some "run", some "nya", some "mlg",
   some "epo", none,
   none, none, none, none,
   none, none, none, none, none, none, none, none, none, none, none, none, none,
   none, none, none, none, none, none, none, none, none, none, none, none, none,
   none, none, some "cym", some "eus", some "cat", some "lat", some "que", some "grn",
   some "aym", some "crh", some "uig", some "dzo", some "jav"]

/-- The characters of a string literal as bytes. -/
def charBytes (s : String) : List Byte := s.toList.map fun ch => Fin.ofNat ch.toNat

/-- The loop `for (int i = 2; i >= 0; i--)` of `ff_mov_lang_to_iso639` (75-79),
`n` rounds to go, the next one writing `to[n - 1]`; the buffer `to` is
named `dst`. -/
def packedChars : Nat → Nat → List Byte → List Byte
  | 0, _, dst => dst
  | i + 1, code, dst =>
    -- to[i] = static_cast<char>(0x60 + (code & 0x1f)); code >>= 5;
    packedChars i (code >>> 5) (dst.set i (Fin.ofNat (0x60 + (code &&& 0x1f))))

/-- `ff_mov_lang_to_iso639` (movDemuxer.cpp 70-89): the value returned and the
buffer `to` afterwards.  Writing past the end of `to` is undefined. -/
def ff_mov_lang_to_iso639 (code : Nat) (dst : List Byte) : Outcome (Int × List Byte) :=
  if code > 138 then
    if dst.length < 3 then .undefined else .ok (1, packedChars 3 code dst)
  -- if (code >= sizeof(mov_mdhd_language_map) / sizeof(char*)) return 0;
  else if code ≥ mov_mdhd_language_map.length then .ok (0, dst)
  else
    match mov_mdhd_language_map[code]? with
    -- memcpy(dst, mov_mdhd_language_map[code], 4); return 1;
    | some (some s) =>
      if dst.length < 4 then .undefined
      else .ok (1, (charBytes s ++ [0]).take 4 ++ dst.drop 4)
    -- if (!mov_mdhd_language_map[code]) return 0;
    | _ => .ok (0, dst)

end MovDemuxer

/-! ### `HEVCStreamReader::writeAdditionData` (hevcStreamReader.cpp 551-607) -/

namespace HEVCStreamReader

/-- Modelled from the spec: `NAL_AUD` of hevc.h (not among the sources), the
H.265 type code of the access unit delimiter. -/
def NAL_AUD : Nat := 35

/-- The fields of `AVPacket` (avPacket.h, not among the sources) that
`writeAdditionData` uses; a null `data` is the empty list. -/
structure AVPacket where
  data : List Byte
  size : Int
  flags : Nat
  deriving DecidableEq, Repr

/-- The fields of the reader that `writeAdditionData` and `writeBuffer` use:
`m_firstFileFrame`, the three stored parameter sets, and `m_shortStartCodes`
of the base class. -/
structure Inserter where
  m_firstFileFrame : Bool
  m_shortStartCodes : Bool
  m_vpsBuffer : List Byte
  m_spsBuffer : List Byte
  m_ppsBuffer : List Byte
  deriving DecidableEq, Repr

/-- `HEVCStreamReader::writeNalPrefix` (hevcStreamReader.cpp 551-559): the
bytes written. -/
def writeNalPrefix (w : Inserter) : List Byte :=
  -- if (!m_shortStartCodes) *curPos++ = 0;
  (if !w.m_shortStartCodes then [0] else []) ++ [0, 0, 1]

/-- `HEVCStreamReader::writeBuffer` (hevcStreamReader.cpp 561-574): the bytes
written at `dstBuffer`, `bytesLeft` being `dstEnd - dstBuffer`. -/
def writeBuffer (w : Inserter) (srcData : List Byte) (bytesLeft : Int) : List Byte :=
  -- if (srcData.isEmpty()) return dstBuffer;
  if srcData.isEmpty then []
  else
    -- int requiredBytes = srcData.size() + 3 + (m_shortStartCodes ? 0 : 1);
    let requiredBytes : Int := srcData.length + 3 + (if w.m_shortStartCodes then 0 else 1)
    -- if (bytesLeft < requiredBytes) return dstBuffer;
    if bytesLeft < requiredBytes then []
    else writeNalPrefix w ++ srcData

/-- The first block of `writeAdditionData` (580-593): the bytes copied to the
output and the packet afterwards; `room` is `dstEnd - dstBuffer`.  Reading
`avPacket.data` past its end is undefined. -/
def moveDelimiter (room : Int) (avPacket : AVPacket) : Outcome (List Byte × AVPacket) :=
  -- if (avPacket.size > 4 && avPacket.size < dstEnd - dstBuffer)
  if avPacket.size > 4 ∧ avPacket.size < room then
    match avPacket.data[2]? with
    | none => .undefined
    | some b2 =>
      -- int offset = avPacket.data[2] == 1 ? 3 : 4;
      let offset := if b2 = 1 then 3 else 4
      match avPacket.data[offset]? with
      | none => .undefined
      | some b =>
        -- uint8_t nalType = (avPacket.data[offset] >> 1) & 0x3f;
        let nalType := (b.val >>> 1) &&& 0x3f
        if nalType = NAL_AUD then
          -- memcpy(curPos, avPacket.data, avPacket.size); avPacket.size = 0; avPacket.data = 0;
          if (avPacket.data.length : Int) < avPacket.size then .undefined
          else .ok (avPacket.data.take avPacket.size.toNat,
                    { avPacket with size := 0, data := [] })
        else .ok ([], avPacket)
  else .ok ([], avPacket)

/-- What a call of `writeAdditionData` leaves: the bytes written at
`dstBuffer`, the value returned, the packet and the reader. -/
structure Addition where
  written : List Byte
  ret : Int
  avPacket : AVPacket
  w : Inserter
  deriving DecidableEq, Repr

/-- `HEVCStreamReader::writeAdditionData` (hevcStreamReader.cpp 576-607);
`room` is `dstEnd - dstBuffer` and `IS_SPS_PPS_IN_GOP` the flag bit of
`AVPacket`, declared outside the sources. -/
def writeAdditionData (IS_SPS_PPS_IN_GOP : Nat) (w : Inserter) (room : Int)
    (avPacket : AVPacket) : Outcome Addition :=
  (moveDelimiter room avPacket).bind fun m =>
    -- bool needInsSpsPps = m_firstFileFrame && !(avPacket.flags & AVPacket::IS_SPS_PPS_IN_GOP);
    let needInsSpsPps := w.m_firstFileFrame && decide (m.2.flags &&& IS_SPS_PPS_IN_GOP = 0)
    if needInsSpsPps then
      -- avPacket.flags |= AVPacket::IS_SPS_PPS_IN_GOP;
      let pkt := { m.2 with flags := m.2.flags ||| IS_SPS_PPS_IN_GOP }
      -- curPos = writeBuffer(m_vpsBuffer, curPos, dstEnd); and so for SPS and PPS
      let vps := writeBuffer w w.m_vpsBuffer (room - m.1.length)
      let sps := writeBuffer w w.m_spsBuffer (room - (m.1 ++ vps).length)
      let pps := writeBuffer w w.m_ppsBuffer (room - (m.1 ++ vps ++ sps).length)
      -- m_firstFileFrame = false; return curPos - dstBuffer;
      .ok { written := m.1 ++ vps ++ sps ++ pps
            ret := (m.1 ++ vps ++ sps ++ pps).length
            avPacket := pkt
            w := { w with m_firstFileFrame := false } }
    else
      .ok { written := m.1, ret := m.1.length, avPacket := m.2
            w := { w with m_firstFileFrame := false } }

/-- A reader at the first frame of a file with stored parameter sets `40 01`,
`42 01`, `44 01` and four-byte start codes. -/
def firstFrameInserter : Inserter :=
  { m_firstFileFrame := true, m_shortStartCodes := false, m_vpsBuffer := [0x40, 1],
    m_spsBuffer := [0x42, 1], m_ppsBuffer := [0x44, 1] }

/-- A packet that starts with an access unit delimiter (`46 01 50`), flags 0. -/
def audPacket : AVPacket :=
  { data := [0, 0, 0, 1, 0x46, 1, 0x50], size := 7, flags := 0 }

end HEVCStreamReader

/-! ### Tags woven into a text -/

namespace MovParsedSRTTrackData

/-- The strings of the tags of `tags` with offset `p` in the order in which
they stand in the text: a tag inserted later at the same offset lands in front,
so this is the reverse of their order in `tags`. -/
def tagsAt (tags : List (Nat × List Byte)) (p : Nat) : List (List Byte) :=
  (tags.filter fun t => decide (t.1 = p)).reverse.map fun t => t.2

/-- A text with the tags woven in at their offsets: `weave tags p S` is the
part from offset `p` on, `S` being the text from there.  In front of the
character at offset `p`, and at the end of the text, stand the strings
`tagsAt tags p`; deleting them leaves the text. -/
def weave (tags : List (Nat × List Byte)) : Nat → List Byte → List Byte
  | p, [] => (tagsAt tags p).flatten
  | p, c :: cs => (tagsAt tags p).flatten ++ c :: weave tags (p + 1) cs

/-- The sample `00 05 "Hello"` followed by a `styl` box with two entries: bold
for characters 0 to 2 and italic for characters 2 to 5. -/
def twoStyles : List Byte :=
  [0, 5, 72, 101, 108, 108, 111, 0, 0, 0, 34, 115, 116, 121, 108, 0, 2,
   0, 0, 0, 2, 0, 0, 1, 0, 0, 0, 0, 255,
   0, 2, 0, 5, 0, 0, 2, 0, 0, 0, 0, 255]

end MovParsedSRTTrackData

/-! ### The probe of the first frame with an imposed frame rate -/

namespace HEVCStreamReader

/-- Modelled from the spec: `updateFPS` of the base class (outside the
sources) while a frame rate is imposed from outside: for the VPS it calls
`updateStreamFps` on the NAL (specification 4.3, rule 3, and 4.4), which
rewrites the reader's buffer or throws; for the SPS it changes nothing. -/
def overrideUpdateFPS (W : VpsWriter) (tmpEnd : Int) (st : Decoder) (u : UnitRef)
    (buf : List Byte) (nal nextNal : Nat) : Outcome (Decoder × List Byte) :=
  match u with
  | .vps =>
    match updateStreamFps W tmpEnd { st with m_buffer := buf } nal nextNal with
    | .returns s => .ok (s, s.m_buffer)
    | .throws _ => .thrown
    | .undefined => .undefined
  | .sps => .ok (st, buf)

/-- The codec `sampleCodec` for a stream whose VPS carries timing information
(`num_units_in_tick` 1001), with a frame rate imposed from outside: the VPS is
rewritten by `updateStreamFps` with `sampleWriter` (six bytes) in a working
buffer that ends at offset `tmpEnd`. -/
def overrideCodec (tmpEnd : Int) : Codec :=
  { sampleCodec with
    vpsDeserialize := fun _ bs =>
      (if bs.length < 3 then 1 else 0, { vps_id := 0, num_units_in_tick := 1001 })
    updateFPS := overrideUpdateFPS sampleWriter tmpEnd }

/-- The reader `firstFrameDecoder` after the probe of its first frame with
`sampleCodec`: the three parameter sets parsed, and the HDR descriptor and the
flags as the end of `checkStream` sets them for these colours. -/
def probedFirstFrame : Decoder :=
  { firstFrameDecoder with
    m_vps := some { vps_id := 0, num_units_in_tick := 0 }
    m_sps := some (sampleSps 1920 1080)
    m_pps := some { sps_id := 0 }
    m_hdr := some { rpuHdr with DVCompatibility := 6 }
    m_spsPpsFound := true
    V3_flags := { noFlags with HDR10 := true } }

end HEVCStreamReader

/-! ## Theorems -/

namespace HEVCStreamReader

/-- C9: `incTimings` leaves `curDts` unchanged on the first frame of the stream
and otherwise adds `pcrIncPerFrame`; sets `curPts` to the new `curDts` minus
`(frameNum - fullPicOrder) * pcrIncPerFrame` with `frameNum` taken before the
call; and increases `frameNum` by exactly one. -/
theorem incTimings_dts_pts_frameNum (r : Reader) :
    (incTimings r).m_curDts
        = (if r.m_totalFrameNum = 0 then r.m_curDts else r.m_curDts + r.m_pcrIncPerFrame)
      ∧ (incTimings r).m_curPts
        = (incTimings r).m_curDts - (r.m_frameNum - r.m_fullPicOrder) * r.m_pcrIncPerFrame
      ∧ (incTimings r).m_frameNum = r.m_frameNum + 1 := by
  refine ⟨?_, rfl, rfl⟩
  by_cases h : r.m_totalFrameNum = 0
  · simp [incTimings, h]
  · have hpos : r.m_totalFrameNum > 0 := Nat.pos_of_ne_zero h
    simp [incTimings, h, hpos]

/-- C10 (as stated) fails: closing a frame whose `frameNum - fullPicOrder` is 5
leaves `frameDepth` capped at 4, and the new PTS is below
`curDts - frameDepth * pcrIncPerFrame`. -/
theorem incTimings_pts_bound_fails :
    0 ≤ lateReader.m_pcrIncPerFrame ∧
    ¬ ((incTimings lateReader).m_curPts
        ≥ (incTimings lateReader).m_curDts
            - (incTimings lateReader).m_frameDepth * (incTimings lateReader).m_pcrIncPerFrame) := by
  decide

/-- C10 (amended): when `pcrIncPerFrame ≥ 0` and `frameNum - fullPicOrder` is at
most 4 or at most the `frameDepth` before the call, the PTS and DTS after
`incTimings` satisfy `curPts ≥ curDts - frameDepth * pcrIncPerFrame` with the
`frameDepth` after the call. -/
theorem incTimings_pts_bound (r : Reader) (hinc : 0 ≤ r.m_pcrIncPerFrame)
    (hdelta : r.m_frameNum - r.m_fullPicOrder ≤ 4
      ∨ r.m_frameNum - r.m_fullPicOrder ≤ r.m_frameDepth) :
    (incTimings r).m_curPts
      ≥ (incTimings r).m_curDts - (incTimings r).m_frameDepth * (incTimings r).m_pcrIncPerFrame := by
  have hdepth : r.m_frameNum - r.m_fullPicOrder ≤ (incTimings r).m_frameDepth := by
    simp only [incTimings, FFMIN]
    split_ifs <;> omega
  have hmul := mul_le_mul_of_nonneg_right hdepth hinc
  have hpts : (incTimings r).m_curPts
      = (incTimings r).m_curDts - (r.m_frameNum - r.m_fullPicOrder) * r.m_pcrIncPerFrame := rfl
  have hincEq : (incTimings r).m_pcrIncPerFrame = r.m_pcrIncPerFrame := rfl
  rw [hpts, hincEq]
  linarith

/-- Witness for `incTimings_pts_bound`. -/
theorem incTimings_pts_bound_witness :
    (incTimings earlyReader).m_curPts
      ≥ (incTimings earlyReader).m_curDts
          - (incTimings earlyReader).m_frameDepth * (incTimings earlyReader).m_pcrIncPerFrame :=
  incTimings_pts_bound earlyReader (by decide) (by decide)

end HEVCStreamReader

/-! ### Outcomes -/

@[simp] theorem Outcome.bind_ok {α β : Type} (a : α) (f : α → Outcome β) :
    (Outcome.ok a).bind f = f a := rfl

@[simp] theorem Outcome.bind_thrown {α β : Type} (f : α → Outcome β) :
    (Outcome.thrown : Outcome α).bind f = .thrown := rfl

@[simp] theorem Outcome.bind_undefined {α β : Type} (f : α → Outcome β) :
    (Outcome.undefined : Outcome α).bind f = .undefined := rfl

@[simp] theorem Outcome.bind_outOfFuel {α β : Type} (f : α → Outcome β) :
    (Outcome.outOfFuel : Outcome α).bind f = .outOfFuel := rfl

theorem Outcome.bind_eq_ok {α β : Type} {x : Outcome α} {f : α → Outcome β} {b : β}
    (h : x.bind f = .ok b) : ∃ a, x = .ok a ∧ f a = .ok b := by
  cases x with
  | ok a => exact ⟨a, rfl, h⟩
  | thrown => cases h
  | undefined => cases h
  | outOfFuel => cases h

/-! ### The AVC framer -/

namespace MovParsedH264TrackData

theorem getNalSize_ok_width {L : Nat} {buff : List Byte} {n : Nat}
    (h : getNalSize L buff = .ok n) : 1 ≤ L ∧ L ≤ 4 := by
  unfold getNalSize at h
  split_ifs at h <;> omega

/-- The two loops run in lockstep: when the counting loop of `newBufferSize`
returns, the copying loop of `extractData` returns as well, after the same
number `k` of NALs, having traded `k` length fields for `k` start codes. -/
theorem countNals_extractNals (L : Nat) :
    ∀ (fuel : Nat) (buff : List Byte) (cnt : Nat) (dst : List Byte) (v : Nat),
      countNals L fuel buff cnt = .ok v →
      ∃ k out, v = cnt + k ∧ extractNals L fuel buff dst = .ok out
        ∧ out.length + k * L = dst.length + buff.length + 4 * k
        ∧ (k = 0 ∨ (1 ≤ L ∧ L ≤ 4)) := by
  intro fuel
  induction fuel with
  | zero => intro buff cnt dst v h; simp [countNals] at h
  | succ fuel ih =>
    intro buff cnt dst v h
    unfold countNals at h
    unfold extractNals
    by_cases hlen : buff.length = 0
    · simp only [hlen, if_true] at h ⊢
      refine ⟨0, dst, ?_, rfl, by omega, Or.inl rfl⟩
      cases h; rfl
    · simp only [hlen, if_false] at h ⊢
      by_cases hL : buff.length < L
      · simp [hL] at h
      · simp only [hL, if_false] at h
        obtain ⟨n, hg, hrest⟩ := Outcome.bind_eq_ok h
        rw [hg, Outcome.bind_ok]
        by_cases hn : (buff.drop L).length < n
        · rw [if_pos hn] at hrest; cases hrest
        · simp only [hn, if_false] at hrest ⊢
          obtain ⟨k, out, hv, hout, hlenout, _⟩ :=
            ih ((buff.drop L).drop n) (cnt + 1) (dst ++ startCode ++ (buff.drop L).take n) v hrest
          refine ⟨k + 1, out, by omega, hout, ?_, Or.inr (getNalSize_ok_width hg)⟩
          have hmul : (k + 1) * L = k * L + L := by ring
          simp only [List.length_append, List.length_drop, List.length_take, startCode,
            List.length_cons, List.length_nil] at hlenout hn
          rw [hmul]
          omega

theorem frameWith_foldl (sc : List Byte) (l : List (List Byte)) :
    ∀ dst : List Byte,
      l.foldl (fun dst i => dst ++ sc ++ i) dst = dst ++ frameWith (fun _ => sc) l := by
  induction l with
  | nil => intro dst; simp [frameWith]
  | cons p ps ih =>
    intro dst
    simp only [List.foldl_cons, frameWith]
    rw [ih]
    simp [List.append_assoc]

theorem writeSpsPps_eq_annexB (l : List (List Byte)) : writeSpsPps l = annexB l := by
  unfold writeSpsPps annexB
  rw [frameWith_foldl]
  rfl

theorem spsPpsSize_foldl (l : List (List Byte)) :
    ∀ (acc : Nat) (dst : List Byte), acc % 4294967296 = dst.length % 4294967296 →
      (l.foldl (fun acc i => u32 (acc + u32 (i.length + 4))) acc) % 4294967296
        = (l.foldl (fun dst i => dst ++ startCode ++ i) dst).length % 4294967296 := by
  induction l with
  | nil => intro acc dst h; simpa using h
  | cons p ps ih =>
    intro acc dst h
    simp only [List.foldl_cons]
    apply ih
    simp only [u32, List.length_append, startCode, List.length_cons, List.length_nil]
    omega

theorem spsPpsSize_mod (l : List (List Byte)) :
    spsPpsSize l % 4294967296 = (writeSpsPps l).length % 4294967296 :=
  spsPpsSize_foldl l 0 [] rfl

/-- C1 (amended): whenever `newBufferSize` returns `v` for a chunk, `extractData`
on the same chunk and framer returns too, and `v` is the number of bytes it
writes reduced modulo `2^32`; the two are equal whenever fewer than `2^32`
bytes are written. -/
theorem newBufferSize_eq_extractData_length (f : Framer) (buff : List Byte) (v : Nat)
    (h : newBufferSize f buff = .ok v) :
    ∃ out, extractData f buff = .ok (out, { f with spsPpsList := [] })
      ∧ v = u32 out.length ∧ (out.length < 4294967296 → out.length = v) := by
  unfold newBufferSize at h
  obtain ⟨cnt, hcnt, hv⟩ := Outcome.bind_eq_ok h
  obtain ⟨k, out, hk, hout, hlen, hw⟩ :=
    countNals_extractNals f.nal_length_size (buff.length + 1) buff 0
      (writeSpsPps f.spsPpsList) cnt hcnt
  have hsps := spsPpsSize_mod f.spsPpsList
  have hval : v = u32 out.length := by
    injection hv with hv
    rw [← hv]
    have hcntk : cnt = k := by omega
    subst hcntk
    rcases hw with hk0 | ⟨_, hL4⟩
    · subst hk0
      simp only [u32, Nat.zero_mul] at *
      omega
    · have hu : u32 (4294967296 + 4 - f.nal_length_size) = 4 - f.nal_length_size := by
        simp only [u32]; omega
      have hprod : cnt * (4 - f.nal_length_size) + cnt * f.nal_length_size = 4 * cnt := by
        rw [← Nat.mul_add, Nat.sub_add_cancel hL4]; ring
      rw [hu]
      simp only [u32] at *
      omega
  refine ⟨out, ?_, hval, ?_⟩
  · unfold extractData
    rw [hout]; rfl
  · intro hlt
    rw [hval]
    simp only [u32]
    omega

/-- Witness for `newBufferSize_eq_extractData_length`: the chunk `00 02 65 88 00 01 41`
with one cached two-byte parameter set needs 17 bytes. -/
theorem newBufferSize_eq_extractData_length_witness :
    newBufferSize sampleFramer sampleChunk = .ok 17
      ∧ ∃ out, extractData sampleFramer sampleChunk
            = .ok (out, { sampleFramer with spsPpsList := [] })
          ∧ 17 = u32 out.length ∧ (out.length < 4294967296 → out.length = 17) :=
  ⟨by decide, newBufferSize_eq_extractData_length sampleFramer sampleChunk 17 (by decide)⟩

theorem countNals_replicate_zero :
    ∀ (n cnt : Nat), countNals 1 (n + 1) (List.replicate n (0 : Byte)) cnt = .ok (cnt + n) := by
  intro n
  induction n with
  | zero => intro cnt; simp [countNals]
  | succ n ih =>
    intro cnt
    unfold countNals
    have hlen : (List.replicate (n + 1) (0 : Byte)).length ≠ 0 := by simp
    have hL : ¬ (List.replicate (n + 1) (0 : Byte)).length < 1 := by simp
    simp only [hlen, hL, if_false]
    have hg : getNalSize 1 (List.replicate (n + 1) (0 : Byte)) = .ok 0 := by
      simp [getNalSize, List.replicate_succ]
    rw [hg, Outcome.bind_ok]
    have hd : ((List.replicate (n + 1) (0 : Byte)).drop 1).drop 0 = List.replicate n 0 := by
      simp [List.replicate_succ]
    rw [hd]
    simp only [Nat.not_lt_zero, if_false]
    rw [ih]
    congr 1
    omega

/-- C1 (as stated) fails: for a chunk of `2^30` empty NALs with one-byte length
fields `newBufferSize` returns 0, while `extractData` writes `2^32` bytes. -/
theorem newBufferSize_wraps :
    newBufferSize oneByteFramer (List.replicate 1073741824 0) = .ok 0
      ∧ ∃ out st, extractData oneByteFramer (List.replicate 1073741824 0) = .ok (out, st)
          ∧ out.length = 4294967296 := by
  have hcnt : countNals 1 ((List.replicate 1073741824 (0 : Byte)).length + 1)
      (List.replicate 1073741824 (0 : Byte)) 0 = .ok (0 + 1073741824) := by
    rw [List.length_replicate]
    exact countNals_replicate_zero 1073741824 0
  obtain ⟨k, out, hk, hout, hlen, _⟩ :=
    countNals_extractNals 1 _ _ 0 (writeSpsPps []) _ hcnt
  constructor
  · unfold newBufferSize
    show (countNals 1 ((List.replicate 1073741824 (0 : Byte)).length + 1)
      (List.replicate 1073741824 (0 : Byte)) 0).bind _ = _
    rw [hcnt, Outcome.bind_ok, List.length_replicate]
    simp [u32, spsPpsSize, oneByteFramer]
  · refine ⟨out, { oneByteFramer with spsPpsList := [] }, ?_, ?_⟩
    · unfold extractData
      show (extractNals 1 ((List.replicate 1073741824 (0 : Byte)).length + 1)
        (List.replicate 1073741824 (0 : Byte)) (writeSpsPps [])).bind _ = _
      rw [hout]; rfl
    · rw [List.length_replicate] at hlen
      simp only [writeSpsPps, List.foldl_nil, List.length_nil] at hlen
      omega

theorem beBytes_length (n v : Nat) : (beBytes n v).length = n := by
  induction n with
  | zero => rfl
  | succ n ih => simp [beBytes, ih]

theorem getNalSize_beBytes (L v : Nat) (rest : List Byte) (hL : 1 ≤ L ∧ L ≤ 4)
    (hv : v < 256 ^ L) : getNalSize L (beBytes L v ++ rest) = .ok v := by
  obtain ⟨h1, h4⟩ := hL
  interval_cases L
  · simp only [getNalSize, beBytes, if_true, List.cons_append, Outcome.ok.injEq]
    norm_num at hv ⊢
    omega
  · simp only [getNalSize, beBytes, List.cons_append, Outcome.ok.injEq]
    norm_num at hv ⊢
    omega
  · simp only [getNalSize, beBytes, List.cons_append, Outcome.ok.injEq]
    norm_num at hv ⊢
    omega
  · simp only [getNalSize, beBytes, List.cons_append, Outcome.ok.injEq]
    norm_num at hv ⊢
    omega

theorem length_le_lengthPrefixed (L : Nat) (hL : 1 ≤ L) (nals : List (List Byte)) :
    nals.length ≤ (lengthPrefixed L nals).length := by
  induction nals with
  | nil => simp
  | cons p ps ih =>
    simp only [lengthPrefixed, frameWith, List.length_cons, List.length_append,
      beBytes_length] at ih ⊢
    omega

/-- On a chunk of well-formed length-prefixed NALs the copying loop of
`extractData` appends the same NALs in Annex-B form. -/
theorem extractNals_lengthPrefixed (L : Nat) (hL : 1 ≤ L ∧ L ≤ 4) :
    ∀ (nals : List (List Byte)) (fuel : Nat) (dst : List Byte),
      nals.length + 1 ≤ fuel → (∀ p ∈ nals, p.length < 256 ^ L) →
      extractNals L fuel (lengthPrefixed L nals) dst = .ok (dst ++ annexB nals) := by
  intro nals
  induction nals with
  | nil =>
    intro fuel dst hf _
    obtain ⟨fuel, rfl⟩ : ∃ m, fuel = m + 1 := ⟨fuel - 1, by omega⟩
    simp [extractNals, lengthPrefixed, annexB, frameWith]
  | cons p ps ih =>
    intro fuel dst hf hp
    obtain ⟨fuel, rfl⟩ : ∃ m, fuel = m + 1 := ⟨fuel - 1, by omega⟩
    have hbuf : lengthPrefixed L (p :: ps)
        = beBytes L p.length ++ (p ++ lengthPrefixed L ps) := by
      simp [lengthPrefixed, frameWith, List.append_assoc]
    have hne : (lengthPrefixed L (p :: ps)).length ≠ 0 := by
      rw [hbuf, List.length_append, beBytes_length]; omega
    have hg : getNalSize L (lengthPrefixed L (p :: ps)) = .ok p.length := by
      rw [hbuf]
      exact getNalSize_beBytes L p.length _ hL (hp p (List.mem_cons_self _ _))
    have hdrop : (lengthPrefixed L (p :: ps)).drop L = p ++ lengthPrefixed L ps := by
      rw [hbuf]
      exact List.drop_left' (beBytes_length L p.length)
    unfold extractNals
    rw [if_neg hne, hg, Outcome.bind_ok, hdrop, List.take_left, List.drop_left]
    have hlt : ¬ (p ++ lengthPrefixed L ps).length < p.length := by
      rw [List.length_append]; omega
    rw [if_neg hlt, ih fuel _ (by simp only [List.length_cons] at hf; omega)
      (fun q hq => hp q (List.mem_cons_of_mem _ hq))]
    simp [annexB, frameWith, List.append_assoc]

/-- C5: for a chunk that is a concatenation of NALs, each an `L`-byte big-endian
length followed by that many payload bytes (`L` in 1..4), `extractData` on a
framer with cached parameter sets writes `00 00 00 01 ++ p` for each cached
SPS/PPS `p` in order, then `00 00 00 01 ++ payload` for each NAL in order, and
leaves the cache empty; on a framer with an empty cache (every later call) it
writes only the NAL part.  The NAL part and the chunk are the same list of
payloads framed with a start code and with the `L`-byte length respectively. -/
theorem extractData_annexB (L : Nat) (hL : 1 ≤ L ∧ L ≤ 4) (sps nals later : List (List Byte))
    (hn : ∀ p ∈ nals, p.length < 256 ^ L) (hl : ∀ p ∈ later, p.length < 256 ^ L) :
    extractData { spsPpsList := sps, nal_length_size := L }
        (frameWith (fun p => beBytes L p.length) nals)
      = .ok (frameWith (fun _ => [0, 0, 0, 1]) sps ++ frameWith (fun _ => [0, 0, 0, 1]) nals,
             { spsPpsList := [], nal_length_size := L })
    ∧ extractData { spsPpsList := [], nal_length_size := L }
        (frameWith (fun p => beBytes L p.length) later)
      = .ok (frameWith (fun _ => [0, 0, 0, 1]) later,
             { spsPpsList := [], nal_length_size := L }) := by
  have key : ∀ (c ns : List (List Byte)), (∀ p ∈ ns, p.length < 256 ^ L) →
      extractData { spsPpsList := c, nal_length_size := L } (lengthPrefixed L ns)
        = .ok (annexB c ++ annexB ns, { spsPpsList := [], nal_length_size := L }) := by
    intro c ns hns
    unfold extractData
    simp only
    rw [extractNals_lengthPrefixed L hL ns _ _
      (by have := length_le_lengthPrefixed L hL.1 ns; omega) hns, writeSpsPps_eq_annexB]
    rfl
  refine ⟨key sps nals hn, ?_⟩
  have h2 := key [] later hl
  simpa [annexB, frameWith] using h2

/-- Witness for `extractData_annexB`: two-byte lengths, one cached parameter set
`67 42`, a first chunk of the two NALs `65 88` and `41`, and a later chunk of
the one NAL `41 9A`, with the bytes written out. -/
theorem extractData_annexB_witness :
    extractData { spsPpsList := [[103, 66]], nal_length_size := 2 }
        [0, 2, 101, 136, 0, 1, 65]
      = .ok ([0, 0, 0, 1, 103, 66, 0, 0, 0, 1, 101, 136, 0, 0, 0, 1, 65],
             { spsPpsList := [], nal_length_size := 2 })
    ∧ extractData { spsPpsList := [], nal_length_size := 2 }
        [0, 2, 65, 154]
      = .ok ([0, 0, 0, 1, 65, 154],
             { spsPpsList := [], nal_length_size := 2 }) :=
  extractData_annexB 2 (by decide) [[103, 66]] [[101, 136], [65]] [[65, 154]]
    (by decide) (by decide)

end MovParsedH264TrackData

/-! ### The chunk index -/

namespace MovDemuxer

instance chunkLe_total : IsTotal (Int × Nat) chunkLe :=
  ⟨fun a b => by unfold chunkLe; omega⟩

instance chunkLe_trans : IsTrans (Int × Nat) chunkLe :=
  ⟨fun a b c hab hbc => by unfold chunkLe at *; omega⟩

theorem addTrackChunks_ok (d : Demuxer) (i : Nat) :
    ∀ (st : List Int) (chunks out : List (Int × Nat)),
      addTrackChunks d i st chunks = .ok out →
      out = chunks ++ st.map (fun j => (j - d.m_mdat_pos, i)) := by
  intro st
  induction st with
  | nil => intro chunks out h; simp [addTrackChunks] at h; simp [h]
  | cons j js ih =>
    intro chunks out h
    unfold addTrackChunks at h
    split_ifs at h
    rw [ih _ _ h]
    simp

theorem addAllChunks_ok (d : Demuxer) :
    ∀ (tracks : List (List Int)) (i : Nat) (chunks out : List (Int × Nat)),
      addAllChunks d i tracks chunks = .ok out →
      out = chunks ++ offsetPairs d.m_mdat_pos i tracks := by
  intro tracks
  induction tracks with
  | nil => intro i chunks out h; simp [addAllChunks] at h; simp [offsetPairs, h]
  | cons st rest ih =>
    intro i chunks out h
    unfold addAllChunks at h
    obtain ⟨c1, hc1, hrest⟩ := Outcome.bind_eq_ok h
    rw [ih _ _ _ hrest, addTrackChunks_ok d i st chunks c1 hc1]
    simp [offsetPairs]

theorem offsetPairs_length (mdat_pos : Int) :
    ∀ (tracks : List (List Int)) (i : Nat),
      (offsetPairs mdat_pos i tracks).length = offsetCount tracks := by
  intro tracks
  induction tracks with
  | nil => intro i; rfl
  | cons st rest ih => intro i; simp [offsetPairs, offsetCount, ih]

/-- C4: when `buildIndex` returns without error on a demuxer with at least one
chunk offset, the chunk list is the list of `(chunk_offset - mdat_pos,
track_index)` pairs over every entry of every track, sorted ascending (it is a
permutation of that list and sorted for the pair order, which determines it);
it has one entry per chunk offset and offsets never decrease along it. -/
theorem buildIndex_sorted (d d1 : Demuxer) (hne : ∃ st ∈ d.tracks, st ≠ [])
    (h : buildIndex d = .ok d1) :
    d1.chunks.Perm (offsetPairs d.m_mdat_pos 0 d.tracks)
      ∧ d1.chunks.Sorted chunkLe
      ∧ (∀ l : List (Int × Nat), l.Perm (offsetPairs d.m_mdat_pos 0 d.tracks) →
          l.Sorted chunkLe → l = d1.chunks)
      ∧ d1.chunks.length = offsetCount d.tracks
      ∧ d1.chunks.Pairwise (fun a b => a.1 ≤ b.1) := by
  unfold buildIndex at h
  have hcond : ¬ (d.tracks.length = 1 ∧ d.tracks.head? = some []) := by
    rintro ⟨h1, h2⟩
    obtain ⟨st, hst, hne⟩ := hne
    match htr : d.tracks, h1, h2, hst with
    | [t], _, h2, hst =>
      simp at h2 hst
      exact hne (hst.trans h2)
  rw [if_neg hcond] at h
  obtain ⟨chunks, hchunks, hd1⟩ := Outcome.bind_eq_ok h
  have hall := addAllChunks_ok d d.tracks 0 [] chunks hchunks
  simp only [List.nil_append] at hall
  injection hd1 with hd1
  subst hd1
  subst hall
  simp only
  have hperm := List.perm_insertionSort chunkLe (offsetPairs d.m_mdat_pos 0 d.tracks)
  have hsorted := List.sorted_insertionSort chunkLe (offsetPairs d.m_mdat_pos 0 d.tracks)
  have hanti : ∀ a b : Int × Nat, chunkLe a b → chunkLe b a → a = b := by
    intro a b hab hba
    unfold chunkLe at hab hba
    apply Prod.ext <;> omega
  refine ⟨hperm, hsorted, ?_, ?_, ?_⟩
  · intro l hl hs
    haveI : IsAntisymm (Int × Nat) chunkLe := ⟨hanti⟩
    exact List.eq_of_perm_of_sorted (hl.trans hperm.symm) hs hsorted
  · rw [hperm.length_eq, offsetPairs_length]
  · exact hsorted.imp (fun {a b} hab => by unfold chunkLe at hab; omega)

/-- Witness for `buildIndex_sorted`: two tracks with interleaved chunks. -/
theorem buildIndex_sorted_witness :
    buildIndex twoTrackDemuxer = .ok twoTrackIndexed
      ∧ twoTrackIndexed.chunks.Perm (offsetPairs twoTrackDemuxer.m_mdat_pos 0 twoTrackDemuxer.tracks)
      ∧ twoTrackIndexed.chunks.Sorted chunkLe
      ∧ (∀ l : List (Int × Nat),
          l.Perm (offsetPairs twoTrackDemuxer.m_mdat_pos 0 twoTrackDemuxer.tracks) →
          l.Sorted chunkLe → l = twoTrackIndexed.chunks)
      ∧ twoTrackIndexed.chunks.length = offsetCount twoTrackDemuxer.tracks
      ∧ twoTrackIndexed.chunks.Pairwise (fun a b => a.1 ≤ b.1) :=
  ⟨by decide,
   buildIndex_sorted twoTrackDemuxer twoTrackIndexed ⟨[48, 1000], by decide, by decide⟩ (by decide)⟩

end MovDemuxer

/-! ### The audio framer -/

namespace MovParsedAudioTrackData

/-- More fuel does not change a result of the counting loop. -/
theorem countFrames_mono (f : Framer) :
    ∀ (fuel fuel1 left i : Nat) (a : Nat × Nat), fuel ≤ fuel1 →
      countFrames f fuel left i = .ok a → countFrames f fuel1 left i = .ok a := by
  intro fuel
  induction fuel with
  | zero => intro fuel1 left i a _ h; simp [countFrames] at h
  | succ fuel ih =>
    intro fuel1 left i a hle h
    obtain ⟨fuel1, rfl⟩ : ∃ m, fuel1 = m + 1 := ⟨fuel1 - 1, by omega⟩
    unfold countFrames at h ⊢
    by_cases hleft : left > 4
    · simp only [hleft, if_true] at h ⊢
      by_cases hs : f.sample_size = 0
      · simp only [hs, if_true] at h ⊢
        cases hidx : f.m_index[f.m_indexCur + i]? with
        | none => simp [hidx] at h
        | some x =>
          simp only [hidx] at h ⊢
          exact ih _ _ _ _ (by omega) h
      · simp only [hs, if_false] at h ⊢
        exact ih _ _ _ _ (by omega) h
    · simpa only [hleft, if_false] using h

/-- On a chunk made of whole samples and at most four spare bytes the counting
loop of `newBufferSize` stops after the last sample with the spare bytes left. -/
theorem countFrames_whole (f : Framer) (r : Nat) (hr : r ≤ 4) :
    ∀ (xs : List Nat) (i left fuel : Nat), wholeSamples f r i xs = true →
      left = xs.sum + r → left < 4294967296 → xs.length + 1 ≤ fuel →
      countFrames f fuel left i = .ok (r, i + xs.length) := by
  intro xs
  induction xs with
  | nil =>
    intro i left fuel _ hleft _ hfuel
    obtain ⟨fuel, rfl⟩ : ∃ m, fuel = m + 1 := ⟨fuel - 1, by omega⟩
    simp only [List.sum_nil, Nat.zero_add] at hleft
    subst hleft
    unfold countFrames
    rw [if_neg (by omega)]
    rfl
  | cons x xs ih =>
    intro i left fuel hw hleft hlt hfuel
    obtain ⟨fuel, rfl⟩ : ∃ m, fuel = m + 1 := ⟨fuel - 1, by omega⟩
    simp only [wholeSamples, Bool.and_eq_true, beq_iff_eq, decide_eq_true_eq] at hw
    obtain ⟨⟨⟨hsz, hx⟩, h4⟩, hrest⟩ := hw
    simp only [List.sum_cons] at hleft
    simp only [List.length_cons] at hfuel ⊢
    have hgt : left > 4 := by omega
    unfold countFrames
    simp only [hgt, if_true]
    have hnext : countFrames f fuel (xs.sum + r) (i + 1) = .ok (r, i + 1 + xs.length) :=
      ih (i + 1) (xs.sum + r) fuel hrest rfl (by omega) (by omega)
    have hidx : i + (xs.length + 1) = i + 1 + xs.length := by omega
    by_cases hs : f.sample_size = 0
    · simp only [sizeAt, hs, if_true] at hsz
      simp only [hs, if_true, hsz]
      have hl : u32 (u32 (left + 4294967296 - u32 0) + 4294967296 - u32 x) = xs.sum + r := by
        simp only [u32]; omega
      rw [hl, hnext, hidx]
    · simp only [sizeAt, hs, if_false, Option.some.injEq] at hsz
      simp only [hs, if_false]
      have hl : u32 (left + 4294967296 - u32 f.sample_size) = xs.sum + r := by
        simp only [u32]; omega
      rw [hl, hnext, hidx]

/-- On a chunk made of whole samples and at most four spare bytes the copying
loop of `extractData` writes every sample, framed, and never breaks early. -/
theorem extractFrames_whole (f : Framer) (hdr : HeaderBuilder) (r : Nat) (hr : r ≤ 4) :
    ∀ (xs : List Nat) (i cur fuel : Nat) (buff dst : List Byte),
      wholeSamples f r i xs = true → (f.sample_size = 0 → cur = f.m_indexCur + i) →
      buff.length = xs.sum + r → xs.length + 1 ≤ fuel →
      extractFrames f hdr fuel buff cur dst
        = .ok (dst ++ framed hdr f.isAAC xs buff,
               cur + (if f.sample_size = 0 then xs.length else 0)) := by
  intro xs
  induction xs with
  | nil =>
    intro i cur fuel buff dst _ _ hlen hfuel
    obtain ⟨fuel, rfl⟩ : ∃ m, fuel = m + 1 := ⟨fuel - 1, by omega⟩
    simp only [List.sum_nil, Nat.zero_add] at hlen
    unfold extractFrames
    rw [if_neg (by omega)]
    simp [framed]
  | cons x xs ih =>
    intro i cur fuel buff dst hw hcur hlen hfuel
    obtain ⟨fuel, rfl⟩ : ∃ m, fuel = m + 1 := ⟨fuel - 1, by omega⟩
    simp only [wholeSamples, Bool.and_eq_true, beq_iff_eq, decide_eq_true_eq] at hw
    obtain ⟨⟨⟨hsz, hx⟩, h4⟩, hrest⟩ := hw
    simp only [List.sum_cons] at hlen
    simp only [List.length_cons] at hfuel ⊢
    have hgt : buff.length > 4 := by omega
    have hfit : ¬ x > buff.length := by omega
    have hdroplen : (buff.drop x).length = xs.sum + r := by
      rw [List.length_drop]; omega
    unfold extractFrames
    simp only [hgt, if_true]
    by_cases hs : f.sample_size = 0
    · have hc := hcur hs
      subst hc
      simp only [sizeAt, hs, if_true] at hsz
      simp only [hs, if_true, hsz, Outcome.bind_ok, hfit, if_false]
      have hnext := fun d => ih (i + 1) (f.m_indexCur + i + 1) fuel (buff.drop x) d hrest
        (fun _ => by omega) hdroplen (by omega)
      simp only [hs, if_true] at hnext
      have hidx : f.m_indexCur + i + 1 + xs.length = f.m_indexCur + i + (xs.length + 1) := by
        omega
      cases haac : f.isAAC
      · simp only [haac, Bool.false_eq_true, if_false] at hnext ⊢
        rw [hnext, hidx]
        simp [framed, List.append_assoc]
      · simp only [haac, if_true] at hnext ⊢
        rw [hnext, hidx]
        simp [framed, List.append_assoc]
    · simp only [sizeAt, hs, if_false, Option.some.injEq] at hsz
      have hx0 : ¬ x = 0 := by rw [← hsz]; exact hs
      have hnext := fun d => ih (i + 1) cur fuel (buff.drop x) d hrest
        (fun h0 => absurd h0 hs) hdroplen (by omega)
      simp only [hs, if_false, Nat.add_zero] at hnext
      simp only [hsz, hx0, if_false, Outcome.bind_ok, hfit, Nat.add_zero]
      cases haac : f.isAAC
      · simp only [haac, Bool.false_eq_true, if_false] at hnext ⊢
        rw [hnext]
        simp [framed, List.append_assoc]
      · simp only [haac, if_true] at hnext ⊢
        rw [hnext]
        simp [framed, List.append_assoc]

theorem framed_length (hdr : HeaderBuilder) (isAAC : Bool) :
    ∀ (xs : List Nat) (buff : List Byte), xs.sum ≤ buff.length →
      (framed hdr isAAC xs buff).length = xs.sum + (if isAAC then 7 * xs.length else 0) := by
  intro xs
  induction xs with
  | nil => intro buff _; simp [framed]
  | cons x xs ih =>
    intro buff h
    simp only [List.sum_cons] at h
    have hrest := ih (buff.drop x) (by rw [List.length_drop]; omega)
    cases isAAC
    · simp only [framed, Bool.false_eq_true, if_false, List.nil_append, List.length_append,
        List.length_take, List.sum_cons] at hrest ⊢
      omega
    · simp only [framed, if_true, List.length_append, List.length_ofFn, List.length_take,
        List.sum_cons, List.length_cons] at hrest ⊢
      omega

theorem wholeSamples_length_le (f : Framer) (r : Nat) :
    ∀ (xs : List Nat) (i : Nat), wholeSamples f r i xs = true →
      xs.length ≤ xs.sum + (f.m_index.length - (f.m_indexCur + i)) := by
  intro xs
  induction xs with
  | nil => intro i _; simp
  | cons x xs ih =>
    intro i hw
    simp only [wholeSamples, Bool.and_eq_true, beq_iff_eq, decide_eq_true_eq] at hw
    obtain ⟨⟨⟨hsz, _⟩, _⟩, hrest⟩ := hw
    have h := ih (i + 1) hrest
    simp only [List.length_cons, List.sum_cons]
    by_cases hs : f.sample_size = 0
    · simp only [sizeAt, hs, if_true] at hsz
      obtain ⟨hlt, _⟩ := List.getElem?_eq_some.mp hsz
      omega
    · simp only [sizeAt, hs, if_false, Option.some.injEq] at hsz
      omega

theorem wholeSamples_replicate (f : Framer) (r s : Nat) (hs : f.sample_size = s) (h0 : s ≠ 0)
    (hlt : s < 4294967296) (h4 : 4 < s + r) :
    ∀ (k i : Nat), wholeSamples f r i (List.replicate k s) = true := by
  intro k
  induction k with
  | zero => intro i; rfl
  | succ k ih =>
    intro i
    have hsz : sizeAt f i = some s := by simp [sizeAt, hs, h0]
    simp only [List.replicate_succ, wholeSamples, Bool.and_eq_true, beq_iff_eq,
      decide_eq_true_eq]
    exact ⟨⟨⟨hsz, hlt⟩, by omega⟩, ih (i + 1)⟩

theorem sum_replicate_nat (k s : Nat) : (List.replicate k s).sum = k * s := by
  rw [List.sum_replicate, smul_eq_mul]

/-- What the two functions do on a chunk made of the samples `xs` and `r ≤ 4`
spare bytes: `extractData` writes the framed samples, and `newBufferSize`
returns the length of that output reduced modulo `2^32`, whatever the fuel it
returns with. -/
theorem whole_chunk (f : Framer) (hdr : HeaderBuilder) (buff : List Byte) (xs : List Nat)
    (r : Nat) (hr : r ≤ 4) (hw : wholeSamples f r 0 xs = true)
    (hlen : buff.length = xs.sum + r) (hsz : buff.length < 4294967296) :
    extractData f hdr buff
        = .ok (framed hdr f.isAAC xs buff,
               { f with m_indexCur := f.m_indexCur + (if f.sample_size = 0 then xs.length else 0) })
      ∧ newBufferSize (xs.length + 1) f buff = .ok (u32 (framed hdr f.isAAC xs buff).length)
      ∧ (∀ fuel v, newBufferSize fuel f buff = .ok v →
          v = u32 (framed hdr f.isAAC xs buff).length) := by
  have hcount : ∀ fuel, xs.length + 1 ≤ fuel →
      countFrames f fuel (u32 buff.length) 0 = .ok (r, xs.length) := by
    intro fuel hfuel
    have h := countFrames_whole f r hr xs 0 (u32 buff.length) fuel hw
      (by simp only [u32]; omega) (by simp only [u32]; omega) hfuel
    simpa using h
  have hflen := framed_length hdr f.isAAC xs buff (by omega)
  have hvalue : u32 (u32 (u32 buff.length + 4294967296 - r)
      + (if f.isAAC then xs.length else 0) * AAC_HEADER_LEN)
      = u32 (framed hdr f.isAAC xs buff).length := by
    rw [hflen]
    cases f.isAAC
    · simp only [u32, AAC_HEADER_LEN, Bool.false_eq_true, if_false]; omega
    · simp only [u32, AAC_HEADER_LEN, if_true]; omega
  have hnbs : ∀ fuel, xs.length + 1 ≤ fuel →
      newBufferSize fuel f buff = .ok (u32 (framed hdr f.isAAC xs buff).length) := by
    intro fuel hfuel
    unfold newBufferSize
    rw [hcount fuel hfuel, Outcome.bind_ok]
    simp only
    rw [if_neg (by omega), hvalue]
  refine ⟨?_, hnbs _ (Nat.le_refl _), ?_⟩
  · unfold extractData
    have hle := wholeSamples_length_le f r xs 0 hw
    have h := extractFrames_whole f hdr r hr xs 0 f.m_indexCur
      (buff.length + f.m_index.length + 1) buff [] hw (fun _ => rfl) hlen (by omega)
    rw [h, Outcome.bind_ok]
    simp
  · intro fuel v hv
    have hbig := hnbs (max fuel (xs.length + 1)) (le_max_right _ _)
    unfold newBufferSize at hv hbig
    obtain ⟨li, hli, hres⟩ := Outcome.bind_eq_ok hv
    rw [countFrames_mono f fuel _ _ _ li (le_max_left _ _) hli, Outcome.bind_ok, hres] at hbig
    injection hbig

/-- C2 (amended): for a chunk of fewer than `2^32` bytes made of whole samples
(sizes `xs`, taken from the uniform `sample_size` or from the table at the
cursor) followed by at most four spare bytes, for AAC and non-AAC tracks alike,
`extractData` returns and the value `newBufferSize` returns (with any fuel it
returns with, and it does return) is the number of bytes written reduced
modulo `2^32`; the two are equal when fewer than `2^32` bytes are written. -/
theorem audio_newBufferSize_eq_extractData_length (f : Framer) (hdr : HeaderBuilder)
    (buff : List Byte) (xs : List Nat) (r : Nat) (hr : r ≤ 4)
    (hw : wholeSamples f r 0 xs = true) (hlen : buff.length = xs.sum + r)
    (hsz : buff.length < 4294967296) :
    ∃ out st, extractData f hdr buff = .ok (out, st)
      ∧ newBufferSize (xs.length + 1) f buff = .ok (u32 out.length)
      ∧ (∀ fuel v, newBufferSize fuel f buff = .ok v →
          v = u32 out.length ∧ (out.length < 4294967296 → out.length = v)) := by
  obtain ⟨h1, h2, h3⟩ := whole_chunk f hdr buff xs r hr hw hlen hsz
  refine ⟨_, _, h1, h2, ?_⟩
  intro fuel v hv
  have hveq := h3 fuel v hv
  refine ⟨hveq, ?_⟩
  intro hlt
  rw [hveq]
  simp only [u32]
  omega

/-- Witness for `audio_newBufferSize_eq_extractData_length`: samples of six and
seven bytes from the table and two spare bytes. -/
theorem audio_newBufferSize_eq_extractData_length_witness :
    ∃ out st, extractData tableFramer sampleHeader tableChunk = .ok (out, st)
      ∧ newBufferSize 3 tableFramer tableChunk = .ok (u32 out.length)
      ∧ (∀ fuel v, newBufferSize fuel tableFramer tableChunk = .ok v →
          v = u32 out.length ∧ (out.length < 4294967296 → out.length = v)) :=
  audio_newBufferSize_eq_extractData_length tableFramer sampleHeader tableChunk [6, 7] 2
    (by decide) (by decide) (by decide) (by decide)

/-- C2 (as stated) fails in two ways.  A five-byte chunk of a non-AAC track with
uniform six-byte samples: `left -= sample_size` wraps, `newBufferSize` returns 2
while `extractData` writes nothing.  A chunk of 330382100 six-byte AAC samples:
`newBufferSize` returns 4 while `extractData` writes `2^32 + 4` bytes. -/
theorem audio_newBufferSize_mismatch :
    (newBufferSize 715827884 pcmFramer [0, 0, 0, 0, 0] = .ok 2
      ∧ extractData pcmFramer sampleHeader [0, 0, 0, 0, 0] = .ok ([], pcmFramer))
    ∧ (newBufferSize 330382101 aac6Framer (List.replicate 1982292600 0) = .ok 4
      ∧ ∃ out st, extractData aac6Framer sampleHeader (List.replicate 1982292600 0)
            = .ok (out, st) ∧ out.length = 4294967300) := by
  refine ⟨⟨?_, by decide⟩, ?_⟩
  · have hrun : countFrames pcmFramer 715827883 4294967295 1
        = .ok (3, 1 + (List.replicate 715827882 6).length) :=
      countFrames_whole pcmFramer 3 (by decide) (List.replicate 715827882 6) 1 4294967295
        715827883
        (wholeSamples_replicate pcmFramer 3 6 rfl (by decide) (by decide) (by decide)
          715827882 1)
        (by rw [sum_replicate_nat]) (by decide) (by rw [List.length_replicate])
    have hstep : countFrames pcmFramer (715827883 + 1) 5 0
        = countFrames pcmFramer 715827883 4294967295 1 := by
      rw [countFrames]
      simp [pcmFramer, u32]
    unfold newBufferSize
    show (countFrames pcmFramer (715827883 + 1) (u32 5) 0).bind _ = _
    have hu : u32 5 = 5 := by decide
    rw [hu, hstep, hrun, Outcome.bind_ok]
    simp [pcmFramer, u32]
  · have hlen : (List.replicate 1982292600 (0 : Byte)).length
        = (List.replicate 330382100 6).sum + 0 := by
      rw [List.length_replicate, sum_replicate_nat]
    obtain ⟨h1, h2, _⟩ := whole_chunk aac6Framer sampleHeader (List.replicate 1982292600 0)
      (List.replicate 330382100 6) 0 (by decide)
      (wholeSamples_replicate aac6Framer 0 6 rfl (by decide) (by decide) (by decide)
        330382100 0)
      hlen (by rw [List.length_replicate]; decide)
    have hflen := framed_length sampleHeader aac6Framer.isAAC (List.replicate 330382100 6)
      (List.replicate 1982292600 0) (by rw [hlen]; omega)
    rw [sum_replicate_nat, List.length_replicate] at hflen
    have hval : (framed sampleHeader aac6Framer.isAAC (List.replicate 330382100 6)
        (List.replicate 1982292600 0)).length = 4294967300 := by
      rw [hflen]; rfl
    rw [hval, List.length_replicate] at h2
    exact ⟨h2, _, _, h1, hval⟩

theorem flatten_length_uniform (s : Nat) :
    ∀ frames : List (List Byte), (∀ c ∈ frames, c.length = s) →
      frames.flatten.length = frames.length * s := by
  intro frames
  induction frames with
  | nil => intro _; simp
  | cons c cs ih =>
    intro h
    have hc := h c (List.mem_cons_self _ _)
    have hcs := ih (fun d hd => h d (List.mem_cons_of_mem _ hd))
    simp only [List.flatten_cons, List.length_append, List.length_cons, hc, hcs]
    ring

theorem framed_flatten (hdr : HeaderBuilder) (s : Nat) :
    ∀ frames : List (List Byte), (∀ c ∈ frames, c.length = s) →
      framed hdr true (List.replicate frames.length s) frames.flatten
        = (frames.map (fun c => List.ofFn (hdr (u32 (s + AAC_HEADER_LEN))) ++ c)).flatten := by
  intro frames
  induction frames with
  | nil => intro _; simp [framed]
  | cons c cs ih =>
    intro h
    have hc := h c (List.mem_cons_self _ _)
    have hcs := ih (fun d hd => h d (List.mem_cons_of_mem _ hd))
    simp only [List.length_cons, List.replicate_succ, framed, if_true, List.flatten_cons,
      List.map_cons, List.take_left' hc, List.drop_left' hc, hcs, List.append_assoc]

/-- C6 (amended): for an AAC track with uniform `sample_size = s ≥ 5` and a chunk
that is the concatenation of `k ≥ 1` samples of `s` bytes, with
`k * (s + 7) < 2^32`: `newBufferSize` returns `k * (s + 7)` (with `k + 1` rounds
of fuel, and with no other value for any fuel), and `extractData` writes
exactly the `k` frames, each a 7-byte ADTS header followed by the
corresponding `s` input bytes, in input order, leaving the framer as it was. -/
theorem aac_uniform_chunk (f : Framer) (hdr : HeaderBuilder) (s : Nat)
    (frames : List (List Byte)) (haac : f.isAAC = true) (hs : f.sample_size = s)
    (h5 : 5 ≤ s) (hk : 1 ≤ frames.length) (hfr : ∀ c ∈ frames, c.length = s)
    (hfit : frames.length * (s + 7) < 4294967296) :
    newBufferSize (frames.length + 1) f frames.flatten = .ok (frames.length * (s + 7))
      ∧ (∀ fuel v, newBufferSize fuel f frames.flatten = .ok v → v = frames.length * (s + 7))
      ∧ extractData f hdr frames.flatten
          = .ok ((frames.map (fun c => List.ofFn (hdr (s + 7)) ++ c)).flatten, f) := by
  have hmul : frames.length * (s + 7) = frames.length * s + 7 * frames.length := by ring
  have hs7 : s + 7 ≤ frames.length * (s + 7) := Nat.le_mul_of_pos_left _ hk
  have hflat := flatten_length_uniform s frames hfr
  obtain ⟨h1, h2, h3⟩ := whole_chunk f hdr frames.flatten (List.replicate frames.length s) 0
    (by decide)
    (wholeSamples_replicate f 0 s hs (by omega) (by omega) (by omega) frames.length 0)
    (by rw [hflat, sum_replicate_nat]; rfl) (by rw [hflat]; omega)
  have hflen := framed_length hdr f.isAAC (List.replicate frames.length s) frames.flatten
    (by rw [hflat, sum_replicate_nat])
  rw [sum_replicate_nat, List.length_replicate, haac, if_pos rfl] at hflen
  have hval : u32 (framed hdr f.isAAC (List.replicate frames.length s) frames.flatten).length
      = frames.length * (s + 7) := by
    rw [haac, hflen]
    simp only [u32]
    omega
  have hu : u32 (s + AAC_HEADER_LEN) = s + 7 := by
    simp only [u32, AAC_HEADER_LEN]
    omega
  rw [hval, List.length_replicate] at h2
  refine ⟨h2, ?_, ?_⟩
  · intro fuel v hv
    rw [← hval]
    exact h3 fuel v hv
  · rw [h1, haac, framed_flatten hdr s frames hfr, hu]
    have hs0 : ¬ f.sample_size = 0 := by omega
    simp only [hs0, if_false, Nat.add_zero]
    rw [← haac]

/-- Witness for `aac_uniform_chunk`: `s = 256` and a chunk of 1024 bytes give
four frames of 263 bytes. -/
theorem aac_uniform_chunk_witness :
    newBufferSize (aac256Frames.length + 1) aac256Framer aac256Frames.flatten
        = .ok (aac256Frames.length * (256 + 7))
      ∧ (∀ fuel v, newBufferSize fuel aac256Framer aac256Frames.flatten = .ok v →
          v = aac256Frames.length * (256 + 7))
      ∧ extractData aac256Framer sampleHeader aac256Frames.flatten
          = .ok ((aac256Frames.map (fun c => List.ofFn (sampleHeader (256 + 7)) ++ c)).flatten,
                 aac256Framer) :=
  aac_uniform_chunk aac256Framer sampleHeader 256 aac256Frames rfl rfl (by decide) (by decide)
    (by
      intro c hc
      simp only [aac256Frames, List.mem_cons, List.mem_singleton, List.not_mem_nil,
        or_false] at hc
      rcases hc with rfl | rfl | rfl | rfl <;> exact List.length_replicate _ _)
    (by decide)

/-- C6 (as stated) fails: for `s = 5` and `k = 357913942` the chunk has
`k * s = 1789569710` bytes and `newBufferSize` returns 8, which is
`k * (s + 7)` reduced modulo `2^32`; with no fuel does it return
`k * (s + 7)`, which does not fit its 32-bit result. -/
theorem aac_newBufferSize_wraps :
    (List.replicate 1789569710 (0 : Byte)).length = 357913942 * 5
      ∧ newBufferSize 357913943 aac5Framer (List.replicate 1789569710 0) = .ok 8
      ∧ (∀ fuel, newBufferSize fuel aac5Framer (List.replicate 1789569710 0)
          ≠ .ok (357913942 * (5 + 7))) := by
  refine ⟨by rw [List.length_replicate], ?_, ?_⟩
  rotate_left
  · intro fuel h
    unfold newBufferSize at h
    obtain ⟨li, _, h⟩ := Outcome.bind_eq_ok h
    by_cases hgt : li.1 > 4
    · rw [if_pos hgt] at h; cases h
    · rw [if_neg hgt] at h
      injection h with h
      have hlt : ∀ n, u32 n < 4294967296 := fun n => Nat.mod_lt _ (by decide)
      have hbound := hlt (u32 (u32 (List.replicate 1789569710 (0 : Byte)).length + 4294967296 - li.1)
        + (if aac5Framer.isAAC = true then li.2 else 0) * AAC_HEADER_LEN)
      rw [h] at hbound
      exact absurd hbound (by decide)
  have hrun : countFrames aac5Framer 357913943 1789569710 0
      = .ok (0, 0 + (List.replicate 357913942 5).length) :=
    countFrames_whole aac5Framer 0 (by decide) (List.replicate 357913942 5) 0 1789569710
      357913943
      (wholeSamples_replicate aac5Framer 0 5 rfl (by decide) (by decide) (by decide)
        357913942 0)
      (by rw [sum_replicate_nat]) (by decide) (by rw [List.length_replicate])
  unfold newBufferSize
  rw [List.length_replicate]
  have hu : u32 1789569710 = 1789569710 := by decide
  rw [hu, hrun, Outcome.bind_ok, List.length_replicate]
  simp [aac5Framer, u32, AAC_HEADER_LEN]

end MovParsedAudioTrackData

/-! ### The TX3G framer -/

namespace MovParsedSRTTrackData

theorem tags_length (face : Nat) :
    (openTags face).length + (closeTags face).length
      = (if face % 2 = 1 then 7 else 0) + (if face / 2 % 2 = 1 then 7 else 0)
        + (if face / 4 % 2 = 1 then 7 else 0) := by
  unfold openTags closeTags
  split_ifs <;> simp [tagB, tagI, tagU, tagEndB, tagEndI, tagEndU]

theorem tagsLength_cons (t : Nat × List Byte) (tags : List (Nat × List Byte)) :
    tagsLength (t :: tags) = t.2.length + tagsLength tags := by
  simp [tagsLength]

theorem tagsLength_append (a b : List (Nat × List Byte)) :
    tagsLength (a ++ b) = tagsLength a + tagsLength b := by
  simp [tagsLength]

theorem tagsLength_perm {a b : List (Nat × List Byte)} (h : a.Perm b) :
    tagsLength a = tagsLength b := by
  unfold tagsLength
  exact (h.map _).sum_eq

/-- The entry loops of the two functions run in lockstep: `newBufferSize` adds to
`textLen` the length of the tags `extractData` records. -/
theorem styleEntries_count (buff : List Byte) :
    ∀ (n pos : Nat) (tags : List (Nat × List Byte)) (textLen : Nat)
      (r : Nat × List (Nat × List Byte)),
      styleEntries buff n pos tags = .ok r →
      ∃ k, tagsLength r.2 = tagsLength tags + k
        ∧ countStyleEntries buff n pos textLen = .ok (r.1, textLen + k) := by
  intro n
  induction n with
  | zero =>
    intro pos tags textLen r h
    simp only [styleEntries, Outcome.ok.injEq] at h
    subst h
    exact ⟨0, rfl, rfl⟩
  | succ n ih =>
    intro pos tags textLen r h
    unfold styleEntries at h
    unfold countStyleEntries
    obtain ⟨startChar, hs, h⟩ := Outcome.bind_eq_ok h
    obtain ⟨endChar, he, h⟩ := Outcome.bind_eq_ok h
    rw [hs, Outcome.bind_ok, he, Outcome.bind_ok]
    by_cases hlt : startChar < endChar
    · rw [if_pos hlt] at h ⊢
      obtain ⟨face, hf, h⟩ := Outcome.bind_eq_ok h
      rw [hf, Outcome.bind_ok]
      obtain ⟨k, hk, hc⟩ := ih (pos + 12) _
        (textLen + (if face % 2 = 1 then 7 else 0) + (if face / 2 % 2 = 1 then 7 else 0)
          + (if face / 4 % 2 = 1 then 7 else 0)) r h
      have hlen := tags_length face
      simp only [tagsLength_append, tagsLength_cons] at hk
      simp only [tagsLength, List.map_nil, List.sum_nil] at hk
      refine ⟨(openTags face).length + (closeTags face).length + k, ?_, ?_⟩
      · simp only [tagsLength]; omega
      · rw [hc, hlen]
        congr 2
        omega
    · rw [if_neg hlt] at h ⊢
      exact ih (pos + 12) tags textLen r h

/-- The box loops of the two functions run in lockstep. -/
theorem modifiers_count (buff : List Byte) :
    ∀ (fuel pos : Nat) (tags : List (Nat × List Byte)) (textLen : Nat)
      (r : List (Nat × List Byte)),
      modifiers buff fuel pos tags = .ok r →
      ∃ k, tagsLength r = tagsLength tags + k
        ∧ countModifiers buff fuel pos textLen = .ok (textLen + k) := by
  intro fuel
  induction fuel with
  | zero => intro pos tags textLen r h; simp [modifiers] at h
  | succ fuel ih =>
    intro pos tags textLen r h
    unfold modifiers at h
    unfold countModifiers
    by_cases hpos : pos < buff.length
    · rw [if_pos hpos] at h ⊢
      obtain ⟨hd, hhd, h⟩ := Outcome.bind_eq_ok h
      rw [hhd, Outcome.bind_ok]
      by_cases hty : hd.1 = 0x7374796C
      · rw [if_pos hty] at h ⊢
        obtain ⟨cnt, hcnt, h⟩ := Outcome.bind_eq_ok h
        obtain ⟨r1, hr1, h⟩ := Outcome.bind_eq_ok h
        rw [hcnt, Outcome.bind_ok]
        obtain ⟨k1, hk1, hc1⟩ := styleEntries_count buff cnt (hd.2.2 + 2) tags textLen r1 hr1
        rw [hc1, Outcome.bind_ok]
        obtain ⟨k2, hk2, hc2⟩ := ih r1.1 r1.2 (textLen + k1) r h
        refine ⟨k1 + k2, by omega, ?_⟩
        rw [hc2]
        congr 1
        omega
      · rw [if_neg hty] at h ⊢
        by_cases hneg : (hd.2.2 : Int) + hd.2.1 < 0
        · rw [if_pos hneg] at h; cases h
        · rw [if_neg hneg] at h ⊢
          exact ih _ tags textLen r h
    · rw [if_neg hpos] at h ⊢
      simp only [Outcome.ok.injEq] at h
      subst h
      exact ⟨0, rfl, rfl⟩

theorem insertTags_length :
    ∀ (tags : List (Nat × List Byte)) (text out : List Byte),
      insertTags tags text = .ok out → out.length = text.length + tagsLength tags := by
  intro tags
  induction tags with
  | nil =>
    intro text out h
    simp only [insertTags, Outcome.ok.injEq] at h
    subst h
    simp [tagsLength]
  | cons t rest ih =>
    intro text out h
    unfold insertTags at h
    by_cases hgt : t.1 > text.length
    · rw [if_pos hgt] at h; cases h
    · rw [if_neg hgt] at h
      rw [ih _ _ h, tagsLength_cons]
      simp only [List.length_append, List.length_take, List.length_drop]
      omega

theorem readUnitSize_ok (buff : List Byte) :
    ∀ (fuel pos : Nat) (u : Nat × Nat), readUnitSize buff fuel pos = .ok u →
      u.1 ≠ 0 ∧ 2 ≤ u.2 := by
  intro fuel
  induction fuel with
  | zero => intro pos u h; simp [readUnitSize] at h
  | succ fuel ih =>
    intro pos u h
    unfold readUnitSize at h
    obtain ⟨v, _, h⟩ := Outcome.bind_eq_ok h
    by_cases hv : v = 0
    · rw [if_pos hv] at h
      exact ih _ _ h
    · rw [if_neg hv] at h
      simp only [Outcome.ok.injEq] at h
      subst h
      exact ⟨hv, by simp⟩

/-- `getSttsVal` only moves the table cursor. -/
theorem getSttsVal_fields (f : Framer) (d : Int × Framer) (h : getSttsVal f = .ok d) :
    d.2.stts_data = f.stts_data ∧ d.2.time_scale = f.time_scale
      ∧ d.2.m_packetCnt = f.m_packetCnt ∧ d.2.m_timeOffset = f.m_timeOffset := by
  unfold getSttsVal at h
  obtain ⟨f1, hf1, h⟩ := Outcome.bind_eq_ok h
  obtain ⟨e, _, h⟩ := Outcome.bind_eq_ok h
  have hf1f : f1.stts_data = f.stts_data ∧ f1.time_scale = f.time_scale
      ∧ f1.m_packetCnt = f.m_packetCnt ∧ f1.m_timeOffset = f.m_timeOffset := by
    by_cases hc : f.sttsCnt = 0
    · rw [if_pos hc] at hf1
      split_ifs at hf1
      obtain ⟨e1, _, hf1⟩ := Outcome.bind_eq_ok hf1
      simp only [Outcome.ok.injEq] at hf1
      subst hf1
      exact ⟨rfl, rfl, rfl, rfl⟩
    · rw [if_neg hc] at hf1
      simp only [Outcome.ok.injEq] at hf1
      subst hf1
      exact ⟨rfl, rfl, rfl, rfl⟩
  split_ifs at h
  simp only [Outcome.ok.injEq] at h
  subst h
  exact hf1f

/-- C3 (amended): whenever `extractData` returns normally for a sample and a
framer state, `newBufferSize` for that same sample and state returns, leaves
the state as it was, and its value is the number of bytes `extractData`
writes reduced modulo `2^32` (the same number when it is below `2^32`). -/
theorem srt_newBufferSize_eq_extractData_length (fmt : Format) (fuel : Nat) (f f1 : Framer)
    (buff out : List Byte) (h : extractData fmt fuel f buff = .ok (out, f1)) :
    newBufferSize fmt fuel f buff = .ok (u32 out.length, f)
      ∧ (out.length < 4294967296 → u32 out.length = out.length) := by
  refine ⟨?_, fun hlt => Nat.mod_eq_of_lt hlt⟩
  unfold extractData at h
  unfold newBufferSize
  obtain ⟨d, hd, h⟩ := Outcome.bind_eq_ok h
  obtain ⟨u, hu, h⟩ := Outcome.bind_eq_ok h
  simp only at h
  by_cases hover : u.2 + u.1 > buff.length
  · rw [if_pos hover] at h; cases h
  · rw [if_neg hover] at h
    obtain ⟨tags, htags, h⟩ := Outcome.bind_eq_ok h
    obtain ⟨text, htext, h⟩ := Outcome.bind_eq_ok h
    obtain ⟨hu0, hu2⟩ := readUnitSize_ok buff _ _ u hu
    obtain ⟨k, hk, hcount⟩ := modifiers_count buff fuel (u.2 + u.1) [] u.1 tags htags
    have hlen := insertTags_length _ _ _ htext
    rw [tagsLength_perm (List.perm_insertionSort tagGe tags), hk] at hlen
    simp only [tagsLength, List.map_nil, List.sum_nil, Nat.zero_add, List.length_take,
      List.length_drop] at hlen
    obtain ⟨hf1, hf2, hf3, hf4⟩ := getSttsVal_fields f d hd
    have hstate : ({ d.2 with sttsCnt := f.sttsCnt, sttsPos := f.sttsPos } : Framer) = f := by
      cases f
      cases hd2 : d.2
      simp_all
    simp only [Outcome.ok.injEq, Prod.mk.injEq] at h
    obtain ⟨hout, _⟩ := h
    rw [hd, Outcome.bind_ok]
    simp only
    rw [if_neg (by omega), hu, Outcome.bind_ok, hcount, Outcome.bind_ok, hstate, ← hout]
    simp only [List.length_append, List.length_cons, List.length_nil, hlen]
    congr 3
    omega

/-- Witness for `srt_newBufferSize_eq_extractData_length`: scenario 6 of the
specification, 49 bytes. -/
theorem srt_newBufferSize_eq_extractData_length_witness :
    extractData sampleFormat 2 oneSecondFramer helloSample
        = .ok (helloFrame, { oneSecondFramer with sttsPos := 0, sttsCnt := 0, m_packetCnt := 1,
                                                  m_timeOffset := 1000 })
      ∧ newBufferSize sampleFormat 2 oneSecondFramer helloSample
        = .ok (u32 helloFrame.length, oneSecondFramer)
      ∧ (helloFrame.length < 4294967296 → u32 helloFrame.length = helloFrame.length) :=
  ⟨by decide,
   srt_newBufferSize_eq_extractData_length sampleFormat 2 oneSecondFramer
    { oneSecondFramer with sttsPos := 0, sttsCnt := 0, m_packetCnt := 1, m_timeOffset := 1000 }
    helloSample helloFrame (by decide)⟩

/-- C3 (as stated) fails: for the sample `00 02 "Hi"` with a bold `styl` entry
for characters 0 to 5, `newBufferSize` returns 46 while `extractData` throws
`std::out_of_range` from `subtitleText.insert`; and for the two-byte sample
`00 00` `newBufferSize` returns 0 and has consumed an `stts` entry. -/
theorem srt_newBufferSize_mismatch :
    (newBufferSize sampleFormat 2 oneSecondFramer overlongStyle = .ok (46, oneSecondFramer)
      ∧ extractData sampleFormat 2 oneSecondFramer overlongStyle = .thrown)
    ∧ (newBufferSize sampleFormat 2 oneSecondFramer [0, 0]
          = .ok (0, { oneSecondFramer with sttsPos := 0, sttsCnt := 0, m_timeOffset := 1000 })
      ∧ ∀ fuel out st, extractData sampleFormat fuel oneSecondFramer [0, 0] ≠ .ok (out, st)) := by
  refine ⟨⟨by decide, by decide⟩, by decide, ?_⟩
  intro fuel out st h
  unfold extractData at h
  obtain ⟨d, _, h⟩ := Outcome.bind_eq_ok h
  obtain ⟨u, hu, _⟩ := Outcome.bind_eq_ok h
  have : readUnitSize [0, 0] (([0, 0] : List Byte).length + 1) 0 = .undefined := by decide
  rw [this] at hu
  cases hu

theorem openTags_eq_specOpen (face : Nat) : openTags face = specOpen face := by
  unfold openTags specOpen setStyles
  by_cases h0 : face % 2 = 1 <;> by_cases h1 : face / 2 % 2 = 1 <;>
    by_cases h2 : face / 4 % 2 = 1 <;>
    simp [h0, h1, h2, tagB, tagI, tagU, List.filter, List.flatMap]

theorem closeTags_eq_specClose (face : Nat) : closeTags face = specClose face := by
  unfold closeTags specClose setStyles
  by_cases h0 : face % 2 = 1 <;> by_cases h1 : face / 2 % 2 = 1 <;>
    by_cases h2 : face / 4 % 2 = 1 <;>
    simp [h0, h1, h2, tagEndB, tagEndI, tagEndU, List.filter, List.flatMap]

theorem byteAt_append (a b : List Byte) (i : Nat) :
    byteAt (a ++ b) (a.length + i) = byteAt b i := by
  unfold byteAt
  rw [List.getElem?_append_right (by omega)]
  simp

theorem be16_append (a b : List Byte) (i : Nat) :
    be16 (a ++ b) (a.length + i) = be16 b i := by
  unfold be16
  rw [byteAt_append, Nat.add_assoc, byteAt_append]

theorem be32_append (a b : List Byte) (i : Nat) :
    be32 (a ++ b) (a.length + i) = be32 b i := by
  unfold be32
  rw [be16_append, Nat.add_assoc, be16_append]

/-- The modifier loop on a sample whose only box is a `styl` box with one entry
`startChar < endChar`: the tag list holds the opening and the closing tags. -/
theorem modifiers_stylBox (pre : List Byte) (s e : Nat) (fid0 fid1 face fsz c0 c1 c2 c3 : Byte)
    (fuel : Nat) (hfuel : 2 ≤ fuel) (hse : s < e) (he : e < 65536) :
    modifiers (pre ++ stylBox s e fid0 fid1 face fsz c0 c1 c2 c3) fuel pre.length []
      = .ok [(s, openTags face.val), (e, closeTags face.val)] := by
  obtain ⟨fuel, rfl⟩ : ∃ m, fuel = m + 2 := ⟨fuel - 2, by omega⟩
  have hlen : (pre ++ stylBox s e fid0 fid1 face fsz c0 c1 c2 c3).length = pre.length + 22 := by
    simp [stylBox]
  have hb : ∀ i, byteAt (pre ++ stylBox s e fid0 fid1 face fsz c0 c1 c2 c3) (pre.length + i)
      = byteAt (stylBox s e fid0 fid1 face fsz c0 c1 c2 c3) i := byteAt_append pre _
  have h16 : ∀ i, be16 (pre ++ stylBox s e fid0 fid1 face fsz c0 c1 c2 c3) (pre.length + i)
      = be16 (stylBox s e fid0 fid1 face fsz c0 c1 c2 c3) i := be16_append pre _
  have h32 : ∀ i, be32 (pre ++ stylBox s e fid0 fid1 face fsz c0 c1 c2 c3) (pre.length + i)
      = be32 (stylBox s e fid0 fid1 face fsz c0 c1 c2 c3) i := be32_append pre _
  have hs16 : s / 256 % 256 * 256 + s % 256 = s := by omega
  have he16 : e / 256 % 256 * 256 + e % 256 = e := by omega
  have hhdr : modifierHeader (pre ++ stylBox s e fid0 fid1 face fsz c0 c1 c2 c3) pre.length
      = .ok (0x7374796C, 14, pre.length + 8) := by
    unfold modifierHeader
    have h0 := h32 0
    rw [Nat.add_zero] at h0
    have v0 : ((0 : Byte) : Nat) = 0 := rfl
    have v22 : ((22 : Byte) : Nat) = 22 := rfl
    have v115 : ((115 : Byte) : Nat) = 115 := rfl
    have v116 : ((116 : Byte) : Nat) = 116 := rfl
    have v121 : ((121 : Byte) : Nat) = 121 := rfl
    have v108 : ((108 : Byte) : Nat) = 108 := rfl
    have b0 : be32 (stylBox s e fid0 fid1 face fsz c0 c1 c2 c3) 0 = .ok 22 := by
      simp [be32, be16, byteAt, stylBox, v0, v22]
    have b4 : be32 (stylBox s e fid0 fid1 face fsz c0 c1 c2 c3) 4 = .ok 0x7374796C := by
      simp [be32, be16, byteAt, stylBox, v115, v116, v121, v108]
    rw [h0, h32 4, b0, b4]
    simp [toInt32]
  have hentries : styleEntries (pre ++ stylBox s e fid0 fid1 face fsz c0 c1 c2 c3) 1
      (pre.length + 8 + 2) []
      = .ok (pre.length + 22, [(s, openTags face.val), (e, closeTags face.val)]) := by
    have e1 : be16 (stylBox s e fid0 fid1 face fsz c0 c1 c2 c3) 10
        = .ok (s / 256 % 256 * 256 + s % 256) := rfl
    have e2 : be16 (stylBox s e fid0 fid1 face fsz c0 c1 c2 c3) 12
        = .ok (e / 256 % 256 * 256 + e % 256) := rfl
    have e3 : byteAt (stylBox s e fid0 fid1 face fsz c0 c1 c2 c3) 16 = .ok face.val := rfl
    have p1 : pre.length + 8 + 2 = pre.length + 10 := by omega
    have p2 : pre.length + 10 + 2 = pre.length + 12 := by omega
    have p3 : pre.length + 10 + 6 = pre.length + 16 := by omega
    have p4 : pre.length + 10 + 12 = pre.length + 22 := by omega
    rw [p1]
    unfold styleEntries
    rw [h16 10, e1, Outcome.bind_ok, p2, h16 12, e2, Outcome.bind_ok, hs16, he16, if_pos hse,
      p3, hb 16, e3, Outcome.bind_ok, p4]
    rfl
  unfold modifiers
  rw [if_pos (by omega), hhdr, Outcome.bind_ok]
  simp only
  have hcnt : be16 (stylBox s e fid0 fid1 face fsz c0 c1 c2 c3) 8 = .ok 1 := by
    have v0 : ((0 : Byte) : Nat) = 0 := rfl
    have v1 : ((1 : Byte) : Nat) = 1 := rfl
    simp [be16, byteAt, stylBox, v0, v1]
  rw [if_pos trivial, h16 8, hcnt, Outcome.bind_ok, hentries, Outcome.bind_ok]
  simp only
  unfold modifiers
  rw [if_neg (by omega)]

theorem insertTags_pair (T o c : List Byte) (s e : Nat) (hse : s < e) (he : e ≤ T.length) :
    insertTags [(e, c), (s, o)] T
      = .ok (T.take s ++ o ++ (T.drop s).take (e - s) ++ c ++ T.drop e) := by
  have h1 : ¬ e > T.length := by omega
  have h2 : ¬ s > (T.take e ++ c ++ T.drop e).length := by
    simp only [List.length_append, List.length_take, List.length_drop]; omega
  have hte : s ≤ (T.take e).length := by rw [List.length_take]; omega
  unfold insertTags
  rw [if_neg h1]
  unfold insertTags
  rw [if_neg h2]
  simp only [insertTags, List.append_assoc]
  rw [List.take_append_of_le_length hte, List.drop_append_of_le_length hte, List.take_take,
    Nat.min_eq_left (by omega), List.drop_take]

/-- C7: for a TX3G sample with text `T` and one `styl` entry
`(startChar, endChar, face)` with `startChar < endChar ≤ |T|`, `extractData`
writes the frame header, then `T[0:startChar] ++ open ++ T[startChar:endChar] ++
close ++ T[endChar:]`, then two newline bytes, where `open` is `<b>`, `<i>`,
`<u>` for the set flag bits 0, 1, 2 in that order and `close` the matching
closing tags in reverse order. -/
theorem tx3g_single_style (fmt : Format) (fuel : Nat) (f : Framer) (d : Int × Framer)
    (T : List Byte) (s e : Nat) (fid0 fid1 face fsz c0 c1 c2 c3 : Byte)
    (hst : getSttsVal f = .ok d) (hfuel : 2 ≤ fuel) (hse : s < e) (he : e ≤ T.length)
    (hT : T.length < 65536) :
    extractData fmt fuel f (tx3gSample T s e fid0 fid1 face fsz c0 c1 c2 c3)
      = .ok (header fmt f.m_packetCnt f.m_timeOffset (f.m_timeOffset + d.1)
              ++ (T.take s ++ specOpen face.val ++ (T.drop s).take (e - s)
                    ++ specClose face.val ++ T.drop e)
              ++ [10, 10],
             { d.2 with m_packetCnt := f.m_packetCnt + 1,
                        m_timeOffset := f.m_timeOffset + d.1 }) := by
  have hlen16 : T.length / 256 % 256 * 256 + T.length % 256 = T.length := by omega
  have hbuflen : (tx3gSample T s e fid0 fid1 face fsz c0 c1 c2 c3).length = T.length + 24 := by
    simp [tx3gSample, stylBox]
  have hunit : readUnitSize (tx3gSample T s e fid0 fid1 face fsz c0 c1 c2 c3)
      ((tx3gSample T s e fid0 fid1 face fsz c0 c1 c2 c3).length + 1) 0 = .ok (T.length, 2) := by
    unfold readUnitSize
    have hb : be16 (tx3gSample T s e fid0 fid1 face fsz c0 c1 c2 c3) 0
        = .ok (T.length / 256 % 256 * 256 + T.length % 256) := by
      simp [be16, byteAt, tx3gSample]
    rw [hb, Outcome.bind_ok, hlen16, if_neg (by omega)]
  have hmods : modifiers (tx3gSample T s e fid0 fid1 face fsz c0 c1 c2 c3) fuel (2 + T.length) []
      = .ok [(s, openTags face.val), (e, closeTags face.val)] := by
    have h := modifiers_stylBox
      ([⟨T.length / 256 % 256, Nat.mod_lt _ (by decide)⟩,
        ⟨T.length % 256, Nat.mod_lt _ (by decide)⟩] ++ T)
      s e fid0 fid1 face fsz c0 c1 c2 c3 fuel hfuel hse (by omega)
    have hpl : ([⟨T.length / 256 % 256, Nat.mod_lt _ (by decide)⟩,
        ⟨T.length % 256, Nat.mod_lt _ (by decide)⟩] ++ T : List Byte).length
        = 2 + T.length := by
      simp; omega
    rw [hpl] at h
    exact h
  have hsort : List.insertionSort tagGe [(s, openTags face.val), (e, closeTags face.val)]
      = [(e, closeTags face.val), (s, openTags face.val)] := by
    have hng : ¬ tagGe (s, openTags face.val) (e, closeTags face.val) := by
      unfold tagGe
      simp only
      omega
    simp [List.insertionSort, List.orderedInsert, hng]
  have htext : ((tx3gSample T s e fid0 fid1 face fsz c0 c1 c2 c3).drop 2).take T.length = T := by
    simp [tx3gSample]
  unfold extractData
  rw [hst, Outcome.bind_ok]
  simp only
  rw [hunit, Outcome.bind_ok]
  simp only
  rw [if_neg (by omega), hmods, Outcome.bind_ok, hsort, htext, insertTags_pair T _ _ s e hse he,
    Outcome.bind_ok, openTags_eq_specOpen, closeTags_eq_specClose]

/-- Witness for `tx3g_single_style`: text `Hello`, entry `(0, 5, flags 1)`, the
first packet of a track with one second per sample. -/
theorem tx3g_single_style_witness :
    extractData sampleFormat 2 oneSecondFramer
        (tx3gSample [72, 101, 108, 108, 111] 0 5 0 0 1 0 0 0 255 0)
      = .ok (header sampleFormat oneSecondFramer.m_packetCnt oneSecondFramer.m_timeOffset
                (oneSecondFramer.m_timeOffset + 1000)
              ++ (([72, 101, 108, 108, 111] : List Byte).take 0 ++ specOpen (1 : Byte).val
                    ++ (([72, 101, 108, 108, 111] : List Byte).drop 0).take (5 - 0)
                    ++ specClose (1 : Byte).val ++ ([72, 101, 108, 108, 111] : List Byte).drop 5)
              ++ [10, 10],
             { oneSecondFramer with sttsPos := 0, sttsCnt := 0,
                                    m_packetCnt := oneSecondFramer.m_packetCnt + 1,
                                    m_timeOffset := oneSecondFramer.m_timeOffset + 1000 }) :=
  tx3g_single_style sampleFormat 2 oneSecondFramer
    (1000, { oneSecondFramer with sttsPos := 0, sttsCnt := 0 })
    [72, 101, 108, 108, 111] 0 5 0 0 1 0 0 0 255 0 (by decide) (by decide) (by decide)
    (by decide) (by decide)

theorem entryAt_split (f : Framer) (pre : List MOVStts) (cur : MOVStts) (post : List MOVStts)
    (h : f.stts_data = pre ++ cur :: post) : entryAt f (pre.length : Int) = .ok cur := by
  unfold entryAt
  rw [if_neg (by omega), h, Int.toNat_ofNat, List.getElem?_append_right (Nat.le_refl _)]
  simp

theorem expand_cons_pos (e : MOVStts) (rest : List MOVStts) (h : 1 ≤ e.count) :
    expand (e :: rest) = e.duration :: (List.replicate (e.count - 1) e.duration ++ expand rest) := by
  obtain ⟨c, hc⟩ : ∃ c, e.count = c + 1 := ⟨e.count - 1, by omega⟩
  simp [expand, hc, List.replicate_succ]

/-- With run counts of at least one, `getSttsVal` hands out the next duration of
the expansion, converted to milliseconds, and moves the cursor past it. -/
theorem getSttsVal_next (stts : List MOVStts) (f : Framer) (d : Int) (rest : List Int)
    (hcounts : ∀ e ∈ stts, 1 ≤ e.count) (hdata : f.stts_data = stts)
    (hcur : Cursor stts f (d :: rest)) (hts : f.time_scale ≠ 0) :
    ∃ f1, getSttsVal f = .ok ((d * 1000).tdiv (f.time_scale : Int), f1)
      ∧ Cursor stts f1 rest := by
  have key : ∀ (pre : List MOVStts) (cur : MOVStts) (post : List MOVStts) (c : Nat)
      (f0 : Framer), f0.stts_data = pre ++ cur :: post → f0.time_scale = f.time_scale →
      f0.sttsPos = (pre.length : Int) → f0.sttsCnt = ((c + 1 : Nat) : Int) →
      stts = pre ++ cur :: post →
      (entryAt f0 f0.sttsPos).bind (fun e =>
        if f0.time_scale = 0 then Outcome.undefined
        else Outcome.ok ((e.duration * 1000).tdiv (f0.time_scale : Int),
                { f0 with sttsCnt := f0.sttsCnt - 1 }))
        = .ok ((cur.duration * 1000).tdiv (f.time_scale : Int),
               { f0 with sttsCnt := f0.sttsCnt - 1 })
      ∧ Cursor stts { f0 with sttsCnt := f0.sttsCnt - 1 }
          (List.replicate c cur.duration ++ expand post) := by
    intro pre cur post c f0 h0 hts0 hpos hcnt hst
    constructor
    · rw [hpos, entryAt_split f0 pre cur post h0, Outcome.bind_ok, hts0, if_neg hts]
    · refine Or.inr ⟨pre, cur, post, c, hst, hpos, ?_, rfl⟩
      show f0.sttsCnt - 1 = (c : Int)
      rw [hcnt]
      push_cast
      omega
  unfold getSttsVal
  rcases hcur with ⟨hpos, hcnt, hrest⟩ | ⟨pre, cur, post, c, hst, hpos, hcnt, hrest⟩
  · -- before the table
    cases stts with
    | nil => simp [expand] at hrest
    | cons cur post =>
      have hc1 : 1 ≤ cur.count := hcounts cur (List.mem_cons_self _ _)
      rw [expand_cons_pos cur post hc1] at hrest
      injection hrest with hd hrest
      have hdata0 : f.stts_data = [] ++ cur :: post := hdata
      have hentry : entryAt f (f.sttsPos + 1) = .ok cur := by
        have := entryAt_split f [] cur post hdata0
        rw [hpos]
        simpa using this
      rw [if_pos hcnt, if_neg (by rw [hpos, hdata0]; simp), hentry, Outcome.bind_ok,
        Outcome.bind_ok]
      obtain ⟨h1, h2⟩ := key [] cur post (cur.count - 1)
        { f with sttsPos := f.sttsPos + 1, sttsCnt := (cur.count : Int) } hdata0 rfl
        (by show f.sttsPos + 1 = _; rw [hpos]; rfl)
        (by show (cur.count : Int) = _; congr 1; omega) rfl
      rw [h1, hd, hrest]
      exact ⟨_, rfl, h2⟩
  · cases c with
    | zero =>
      -- the current entry is used up: move to the next one
      simp only [List.replicate_zero, List.nil_append] at hrest
      cases post with
      | nil => simp [expand] at hrest
      | cons nxt post1 =>
        have hc1 : 1 ≤ nxt.count :=
          hcounts nxt (by rw [hst]; simp)
        rw [expand_cons_pos nxt post1 hc1] at hrest
        injection hrest with hd hrest
        have hst1 : stts = (pre ++ [cur]) ++ nxt :: post1 := by rw [hst]; simp
        have hdata1 : f.stts_data = (pre ++ [cur]) ++ nxt :: post1 := by rw [hdata, hst1]
        have hlen1 : ((pre ++ [cur]).length : Int) = f.sttsPos + 1 := by
          rw [hpos]; simp
        have hentry : entryAt f (f.sttsPos + 1) = .ok nxt := by
          rw [← hlen1]
          exact entryAt_split f (pre ++ [cur]) nxt post1 hdata1
        have hnot : ¬ f.sttsPos + 1 ≥ (f.stts_data.length : Int) := by
          rw [hdata1, hpos]
          simp
        rw [if_pos (by rw [hcnt]; rfl), if_neg hnot, hentry, Outcome.bind_ok, Outcome.bind_ok]
        obtain ⟨h1, h2⟩ := key (pre ++ [cur]) nxt post1 (nxt.count - 1)
          { f with sttsPos := f.sttsPos + 1, sttsCnt := (nxt.count : Int) } hdata1 rfl
          hlen1.symm (by show (nxt.count : Int) = _; congr 1; omega) hst1
        rw [h1, hd, hrest]
        exact ⟨_, rfl, h2⟩
    | succ c =>
      simp only [List.replicate_succ, List.cons_append] at hrest
      injection hrest with hd hrest
      have hne : ¬ f.sttsCnt = 0 := by rw [hcnt]; push_cast; omega
      rw [if_neg hne, Outcome.bind_ok]
      obtain ⟨h1, h2⟩ := key pre cur post c f (by rw [hdata, hst]) rfl hpos hcnt hst
      rw [h1, hd, hrest]
      exact ⟨_, rfl, h2⟩

theorem expand_ne_nil (stts : List MOVStts) (hcounts : ∀ e ∈ stts, 1 ≤ e.count)
    (h : expand stts = []) : stts = [] := by
  cases stts with
  | nil => rfl
  | cons e rest =>
    rw [expand_cons_pos e rest (hcounts e (List.mem_cons_self _ _))] at h
    cases h

/-- With run counts of at least one, `getSttsVal` throws once every duration of
the expansion has been handed out. -/
theorem getSttsVal_end (stts : List MOVStts) (f : Framer)
    (hcounts : ∀ e ∈ stts, 1 ≤ e.count) (hdata : f.stts_data = stts)
    (hcur : Cursor stts f []) : getSttsVal f = .thrown := by
  unfold getSttsVal
  rcases hcur with ⟨hpos, hcnt, hrest⟩ | ⟨pre, cur, post, c, hst, hpos, hcnt, hrest⟩
  · have hnil := expand_ne_nil stts hcounts hrest.symm
    rw [if_pos hcnt, if_pos (by rw [hdata, hnil, hpos]; simp)]
    rfl
  · have hsplit := List.append_eq_nil.mp hrest.symm
    have hc0 : c = 0 := by
      cases c with
      | zero => rfl
      | succ c => simp [List.replicate_succ] at hsplit
    have hpost : post = [] :=
      expand_ne_nil post (fun e he => hcounts e (by rw [hst]; simp [he])) hsplit.2
    rw [if_pos (by rw [hcnt, hc0]; rfl),
      if_pos (by rw [hdata, hst, hpost, hpos]; simp)]
    rfl

theorem getSttsVal_ok_time_scale (f : Framer) (d : Int × Framer) (h : getSttsVal f = .ok d) :
    f.time_scale ≠ 0 := by
  obtain ⟨_, hts, _, _⟩ := getSttsVal_fields f d h
  unfold getSttsVal at h
  obtain ⟨f1, hf1, h⟩ := Outcome.bind_eq_ok h
  obtain ⟨e, _, h⟩ := Outcome.bind_eq_ok h
  split_ifs at h with h0
  simp only [Outcome.ok.injEq] at h
  subst h
  simp only at hts
  omega

/-- What one `extractData` call does with the times: it takes the next duration
from `getSttsVal`, opens its output with the header for the old time offset
and that offset plus the duration, and stores the latter as the new offset. -/
theorem extractData_step (fmt : Format) (fuel : Nat) (f f1 : Framer) (b out : List Byte)
    (h : extractData fmt fuel f b = .ok (out, f1)) :
    ∃ d, getSttsVal f = .ok d
      ∧ f1 = { d.2 with m_packetCnt := f.m_packetCnt + 1, m_timeOffset := f.m_timeOffset + d.1 }
      ∧ ∃ body, out = header fmt f.m_packetCnt f.m_timeOffset (f.m_timeOffset + d.1) ++ body := by
  unfold extractData at h
  obtain ⟨d, hd, h⟩ := Outcome.bind_eq_ok h
  obtain ⟨u, _, h⟩ := Outcome.bind_eq_ok h
  simp only at h
  split_ifs at h
  obtain ⟨tags, _, h⟩ := Outcome.bind_eq_ok h
  obtain ⟨text, _, h⟩ := Outcome.bind_eq_ok h
  simp only [Outcome.ok.injEq, Prod.mk.injEq] at h
  obtain ⟨hout, hf1⟩ := h
  refine ⟨d, hd, hf1.symm, text ++ [10, 10], ?_⟩
  rw [← hout, List.append_assoc]

/-- A run of `extractData` calls hands out the durations of the expansion one
per call and adds them up, in milliseconds, in `m_timeOffset`. -/
theorem extractAll_cursor (fmt : Format) (stts : List MOVStts)
    (hcounts : ∀ e ∈ stts, 1 ≤ e.count) :
    ∀ (calls : List (Nat × List Byte)) (f : Framer) (rest : List Int)
      (outs : List (List Byte)) (fk : Framer),
      f.stts_data = stts → Cursor stts f rest → extractAll fmt f calls = .ok (outs, fk) →
      ∃ used rest1, rest = used ++ rest1 ∧ used.length = calls.length
        ∧ Cursor stts fk rest1 ∧ fk.stts_data = stts ∧ fk.time_scale = f.time_scale
        ∧ fk.m_timeOffset
            = f.m_timeOffset + (used.map (fun d => (d * 1000).tdiv (f.time_scale : Int))).sum
        ∧ fk.m_packetCnt = f.m_packetCnt + (calls.length : Int) := by
  intro calls
  induction calls with
  | nil =>
    intro f rest outs fk hdata hcur h
    simp only [extractAll, Outcome.ok.injEq, Prod.mk.injEq] at h
    obtain ⟨_, hfk⟩ := h
    subst hfk
    exact ⟨[], rest, rfl, rfl, hcur, hdata, rfl, by simp, by simp⟩
  | cons c cs ih =>
    intro f rest outs fk hdata hcur h
    unfold extractAll at h
    obtain ⟨r, hr, h⟩ := Outcome.bind_eq_ok h
    obtain ⟨rs, hrs, h⟩ := Outcome.bind_eq_ok h
    simp only [Outcome.ok.injEq, Prod.mk.injEq] at h
    obtain ⟨_, hfk⟩ := h
    obtain ⟨d, hd, hf1, _⟩ := extractData_step fmt c.1 f r.2 c.2 r.1 hr
    have hts := getSttsVal_ok_time_scale f d hd
    obtain ⟨hd1, hd2, hd3, hd4⟩ := getSttsVal_fields f d hd
    cases rest with
    | nil => rw [getSttsVal_end stts f hcounts hdata hcur] at hd; cases hd
    | cons d0 rest0 =>
      obtain ⟨f2, hf2, hcur2⟩ := getSttsVal_next stts f d0 rest0 hcounts hdata hcur hts
      rw [hd] at hf2
      simp only [Outcome.ok.injEq] at hf2
      have hcur1 : Cursor stts r.2 rest0 := by
        rw [hf1, hf2]
        rcases hcur2 with ⟨a, b, c⟩ | ⟨pre, cur, post, n, a, b, c, e⟩
        · exact Or.inl ⟨a, b, c⟩
        · exact Or.inr ⟨pre, cur, post, n, a, b, c, e⟩
      have hdata1 : r.2.stts_data = stts := by rw [hf1]; exact hd1.trans hdata
      obtain ⟨used, rest1, hrest, hlen, hc, hsd, hts1, hoff, hcnt⟩ :=
        ih r.2 rest0 rs.1 rs.2 hdata1 hcur1 (by rw [hrs])
      have hr2ts : r.2.time_scale = f.time_scale := by rw [hf1]; exact hd2
      have hr2off : r.2.m_timeOffset = f.m_timeOffset + d.1 := by rw [hf1]
      have hr2cnt : r.2.m_packetCnt = f.m_packetCnt + 1 := by rw [hf1]
      have hd0 : d.1 = (d0 * 1000).tdiv (f.time_scale : Int) := by rw [hf2]
      refine ⟨d0 :: used, rest1, by rw [hrest]; rfl, by simp [hlen], ?_, ?_, ?_, ?_, ?_⟩
      · rw [← hfk]; exact hc
      · rw [← hfk]; exact hsd
      · rw [← hfk, hts1, hr2ts]
      · rw [← hfk, hoff, hr2ts, hr2off, hd0]
        simp only [List.map_cons, List.sum_cons]
        ring
      · rw [← hfk, hcnt, hr2cnt]
        simp only [List.length_cons]
        push_cast
        ring

/-- C8: on a framer fresh from the constructor and `setPrivData`, with an `stts`
table whose run counts are all at least one, after `k - 1` successful
`extractData` calls: the time offset is the sum of the first `k - 1`
durations of the run-length expansion, each converted as
`d * 1000 / time_scale` (truncating division), which is the end time of the
previous frame and 0 for the first; `getSttsVal` hands the `k`-th call the
`k`-th duration of the expansion converted the same way, when the table still
has one and `time_scale` is not zero; and a `k`-th call that returns has used
that duration, has written a header with start time the old offset and end
time start plus the duration, and has stored the end time as the new offset. -/
theorem srt_kth_times (fmt : Format) (stts : List MOVStts) (ts : Nat)
    (calls : List (Nat × List Byte)) (outs : List (List Byte)) (fk : Framer)
    (hcounts : ∀ e ∈ stts, 1 ≤ e.count)
    (hprev : extractAll fmt (setPrivData (init stts ts)) calls = .ok (outs, fk)) :
    fk.m_timeOffset
        = (((expand stts).take calls.length).map (fun d => (d * 1000).tdiv (ts : Int))).sum
      ∧ (∀ dk, (expand stts)[calls.length]? = some dk → ts ≠ 0 →
          ∃ f1, getSttsVal fk = .ok ((dk * 1000).tdiv (ts : Int), f1))
      ∧ (∀ fuel b out f1, extractData fmt fuel fk b = .ok (out, f1) →
          ∃ dk, (expand stts)[calls.length]? = some dk
            ∧ (∃ body, out = header fmt (calls.length : Int) fk.m_timeOffset
                  (fk.m_timeOffset + (dk * 1000).tdiv (ts : Int)) ++ body)
            ∧ f1.m_timeOffset = fk.m_timeOffset + (dk * 1000).tdiv (ts : Int)) := by
  obtain ⟨used, rest1, hrest, hlen, hcur, hsd, hts, hoff, hcnt⟩ :=
    extractAll_cursor fmt stts hcounts calls (setPrivData (init stts ts)) (expand stts) outs fk
      rfl (Or.inl ⟨rfl, rfl, rfl⟩) hprev
  have hts0 : fk.time_scale = ts := hts
  have htake : (expand stts).take calls.length = used := by
    rw [hrest]; exact List.take_left' hlen
  have hget : (expand stts)[calls.length]? = rest1.head? := by
    rw [hrest, List.getElem?_append_right (by omega), hlen, Nat.sub_self]
    cases rest1 <;> simp
  have hoff0 : (setPrivData (init stts ts)).m_timeOffset = 0 := rfl
  have hcnt0 : (setPrivData (init stts ts)).m_packetCnt = 0 := rfl
  have hts1 : (setPrivData (init stts ts)).time_scale = ts := rfl
  rw [hoff0, hts1, Int.zero_add] at hoff
  rw [hcnt0, Int.zero_add] at hcnt
  refine ⟨by rw [htake]; exact hoff, ?_, ?_⟩
  · intro dk hdk hne
    rw [hget] at hdk
    cases rest1 with
    | nil => cases hdk
    | cons d0 rest0 =>
      simp only [List.head?_cons, Option.some.injEq] at hdk
      subst hdk
      obtain ⟨f1, hf1, _⟩ := getSttsVal_next stts fk d0 rest0 hcounts hsd hcur
        (by rw [hts0]; exact hne)
      rw [hts0] at hf1
      exact ⟨f1, hf1⟩
  · intro fuel b out f1 hcall
    obtain ⟨d, hd, hf1, body, hbody⟩ := extractData_step fmt fuel fk f1 b out hcall
    have hne := getSttsVal_ok_time_scale fk d hd
    cases rest1 with
    | nil => rw [getSttsVal_end stts fk hcounts hsd hcur] at hd; cases hd
    | cons d0 rest0 =>
      obtain ⟨f2, hf2, _⟩ := getSttsVal_next stts fk d0 rest0 hcounts hsd hcur hne
      rw [hd, hts0] at hf2
      simp only [Outcome.ok.injEq] at hf2
      have hd0 : d.1 = (d0 * 1000).tdiv (ts : Int) := by rw [hf2]
      refine ⟨d0, by rw [hget]; rfl, ⟨body, ?_⟩, ?_⟩
      · rw [hbody, hcnt, hd0]
      · rw [hf1, hd0]

/-- Witness for `srt_kth_times`: the second call on a track whose first two
samples last 1000 units at `time_scale = 1000`. -/
theorem srt_kth_times_witness :
    extractAll sampleFormat (setPrivData (init threeSampleTable 1000)) [(2, helloSample)]
        = .ok ([helloFrame], afterOneFrame)
      ∧ afterOneFrame.m_timeOffset
        = (((expand threeSampleTable).take [(2, helloSample)].length).map
            (fun d => (d * 1000).tdiv ((1000 : Nat) : Int))).sum
      ∧ (∀ dk, (expand threeSampleTable)[[(2, helloSample)].length]? = some dk → 1000 ≠ 0 →
          ∃ f1, getSttsVal afterOneFrame = .ok ((dk * 1000).tdiv ((1000 : Nat) : Int), f1))
      ∧ (∀ fuel b out f1, extractData sampleFormat fuel afterOneFrame b = .ok (out, f1) →
          ∃ dk, (expand threeSampleTable)[[(2, helloSample)].length]? = some dk
            ∧ (∃ body, out = header sampleFormat ([(2, helloSample)].length : Int)
                  afterOneFrame.m_timeOffset
                  (afterOneFrame.m_timeOffset + (dk * 1000).tdiv ((1000 : Nat) : Int)) ++ body)
            ∧ f1.m_timeOffset
                = afterOneFrame.m_timeOffset + (dk * 1000).tdiv ((1000 : Nat) : Int)) :=
  ⟨by decide,
   srt_kth_times sampleFormat threeSampleTable 1000 [(2, helloSample)] [helloFrame] afterOneFrame
    (by decide) (by decide)⟩

end MovParsedSRTTrackData

/-! ### Picture order and frame depth -/

namespace HEVCStreamReader

theorem toFullPicOrder_nonIdr_same (r : Reader) (lsb : Int) (pic_bits : Nat)
    (h : r.m_prevPicOrder = lsb) :
    toFullPicOrder r (nonIdr lsb) pic_bits = (lsb + r.m_picOrderMsb + r.m_picOrderBase, r) := by
  cases r
  simp only [toFullPicOrder, nonIdr] at *
  subst h
  simp

/-- C11, as the specification states it, fails: on a new reader the six slices
give 0, 2, 4, -2, 1, 3 and not 0, 2, 4, 14, 17, 19. -/
theorem fullPicOrders_example_fails :
    (fullPicOrders 4 (construct 0 0 3600)
        [nonIdr 0, nonIdr 2, nonIdr 4, nonIdr 14, nonIdr 1, nonIdr 3]).1
      = [0, 2, 4, -2, 1, 3] ∧
    (fullPicOrders 4 (construct 0 0 3600)
        [nonIdr 0, nonIdr 2, nonIdr 4, nonIdr 14, nonIdr 1, nonIdr 3]).1
      ≠ [0, 2, 4, 14, 17, 19].map (fun d => d + (construct 0 0 3600).m_picOrderBase) := by
  constructor <;> decide

/-- C11 (amended): starting from `m_picOrderMsb = 0` and `m_prevPicOrder = 0`,
`toFullPicOrder` with `pic_bits = 4` on successive non-IDR slices whose
`pic_order_cnt_lsb` are 0, 2, 4, 14, 1, 3 returns values whose difference from
`m_picOrderBase` is 0, 2, 4, -2, 1, 3. -/
theorem fullPicOrders_example (r : Reader) (hmsb : r.m_picOrderMsb = 0)
    (hprev : r.m_prevPicOrder = 0) :
    (fullPicOrders 4 r [nonIdr 0, nonIdr 2, nonIdr 4, nonIdr 14, nonIdr 1, nonIdr 3]).1
      = [0, 2, 4, -2, 1, 3].map (fun d => d + r.m_picOrderBase) := by
  cases r
  simp only at hmsb hprev
  subst hmsb hprev
  simp [fullPicOrders, toFullPicOrder, nonIdr]

theorem fullPicOrders_example_witness :
    (fullPicOrders 4 lateReader
        [nonIdr 0, nonIdr 2, nonIdr 4, nonIdr 14, nonIdr 1, nonIdr 3]).1
      = [0, 2, 4, -2, 1, 3].map (fun d => d + lateReader.m_picOrderBase) :=
  fullPicOrders_example lateReader rfl rfl

/-- C12: `toFullPicOrder` is idempotent: called a second time with the same
slice it returns the same value and leaves the reader, in particular
`m_picOrderMsb`, `m_prevPicOrder` and `m_picOrderBase`, as the first call left
it. -/
theorem toFullPicOrder_idempotent (r : Reader) (slice : HevcSliceHeader) (pic_bits : Nat) :
    toFullPicOrder (toFullPicOrder r slice pic_bits).2 slice pic_bits
      = toFullPicOrder r slice pic_bits := by
  cases r
  cases slice with
  | mk idr lsb =>
    cases idr
    · simp only [toFullPicOrder]
      simp
    · simp [toFullPicOrder]

theorem incTimings_frameDepth (r : Reader) (h : r.m_frameDepth ≤ 4) :
    (incTimings r).m_frameDepth
      = min 4 (max r.m_frameDepth (r.m_frameNum - r.m_fullPicOrder)) := by
  simp only [incTimings, FFMIN]
  split_ifs <;> omega

theorem min_maxDelta (us : List (Int × Int)) :
    ∀ x : Int, min 4 (maxDelta (min 4 x) us) = min 4 (maxDelta x us) := by
  induction us with
  | nil => intro x; simp [maxDelta]
  | cons u rest ih =>
    intro x
    have e : ∀ y, maxDelta y (u :: rest) = maxDelta (max y (u.1 - u.2)) rest := fun _ => rfl
    rw [e, e, ← ih (max (min 4 x) (u.1 - u.2)), ← ih (max x (u.1 - u.2))]
    have : min 4 (max (min 4 x) (u.1 - u.2)) = min 4 (max x (u.1 - u.2)) := by omega
    rw [this]

theorem timingsRun_frameDepth (us : List (Int × Int)) :
    ∀ r : Reader, r.m_frameDepth ≤ 4 →
      (timingsRun r us).m_frameDepth = min 4 (maxDelta r.m_frameDepth us) := by
  induction us with
  | nil => intro r h; simp only [timingsRun, maxDelta, List.foldl_nil]; omega
  | cons u rest ih =>
    intro r h
    have hd := incTimings_frameDepth { r with m_frameNum := u.1, m_fullPicOrder := u.2 } h
    simp only at hd
    have hle : (incTimings { r with m_frameNum := u.1, m_fullPicOrder := u.2 }).m_frameDepth ≤ 4 := by
      rw [hd]; omega
    have e : maxDelta r.m_frameDepth (u :: rest)
        = maxDelta (max r.m_frameDepth (u.1 - u.2)) rest := rfl
    rw [timingsRun, ih _ hle, hd, min_maxDelta, e]

/-- C13, as the specification states it, fails: a new reader whose first frame
has `m_frameNum - m_fullPicOrder = 0` keeps the depth 1 the constructor gave
it, which is not min(4, 0). -/
theorem frameDepth_min_fails :
    (timingsRun (construct 0 0 3600) [(0, 0)]).m_frameDepth = 1 ∧
    (timingsRun (construct 0 0 3600) [(0, 0)]).m_frameDepth ≠ min 4 (maxDelta (0 - 0) []) := by
  constructor <;> decide

/-- C13 (amended): after any sequence of `incTimings` calls on a freshly
constructed reader, with arbitrary values given to `m_frameNum` and
`m_fullPicOrder` before each call, `m_frameDepth` equals
min(4, max(1, the largest `m_frameNum - m_fullPicOrder` seen at those calls)). -/
theorem frameDepth_min_one (curDts curPts pcrIncPerFrame : Int) (us : List (Int × Int)) :
    (timingsRun (construct curDts curPts pcrIncPerFrame) us).m_frameDepth
      = min 4 (maxDelta 1 us) := by
  have h1 : (construct curDts curPts pcrIncPerFrame).m_frameDepth = 1 := rfl
  have h := timingsRun_frameDepth us (construct curDts curPts pcrIncPerFrame) (by rw [h1]; decide)
  rw [h1] at h
  exact h

/-! ### The Dolby Vision descriptor -/

/-! ### The Dolby Vision descriptor -/

theorem levelOf_cons (a b c : Int) (rows : List (Int × Int × Int)) (w pr : Int) :
    levelOf ((a, b, c) :: rows) w pr = if w ≤ a ∧ pr ≤ b then c else levelOf rows w pr := by
  unfold levelOf
  by_cases h : w ≤ a ∧ pr ≤ b
  · rw [List.find?_cons_of_pos _ (by simpa using h), if_pos h]
  · rw [List.find?_cons_of_neg _ (by simpa using h), if_neg h]

theorem doviLevel_levelOf (w pr : Int) : doviLevel w pr = levelOf doviLevelRows w pr := by
  unfold doviLevelRows
  simp only [levelOf_cons]
  rfl

theorem rows_levels : ∀ row ∈ doviLevelRows, 1 ≤ row.2.2 ∧ row.2.2 ≤ 13 ∧ row.1 ≤ 7680 := by
  decide

theorem rows_last : ((7680 : Int), (3981312000 : Int), (13 : Int)) ∈ doviLevelRows := by
  simp [doviLevelRows]

theorem doviLevel_row (w pr : Int) :
    (w ≤ 7680 → pr ≤ 3981312000 →
      ∃ row, firstLevelRow w pr = some row ∧ doviLevel w pr = row.2.2 ∧
        1 ≤ row.2.2 ∧ row.2.2 ≤ 13) ∧
    (7680 < w → firstLevelRow w pr = none ∧ doviLevel w pr = 0) := by
  have hl : doviLevel w pr = levelOf doviLevelRows w pr := doviLevel_levelOf w pr
  have hf : levelOf doviLevelRows w pr
      = match firstLevelRow w pr with
        | some row => row.2.2
        | none => 0 := rfl
  constructor
  · intro hw hpr
    cases hrow : firstLevelRow w pr with
    | none =>
      have hn := List.find?_eq_none.mp hrow _ rows_last
      simp at hn
      omega
    | some row =>
      have hm : row ∈ doviLevelRows := List.mem_of_find?_eq_some hrow
      have hb := rows_levels row hm
      rw [hrow] at hf
      exact ⟨row, rfl, by rw [hl, hf], hb.1, hb.2.1⟩
  · intro hw
    have hnone : firstLevelRow w pr = none := by
      apply List.find?_eq_none.mpr
      intro row hm
      have hb := rows_levels row hm
      simp
      intro h1
      omega
    rw [hnone] at hf
    exact ⟨hnone, by rw [hl, hf]⟩

theorem setDoViDescriptor_ok (P : Codec) (st : Decoder) (hdr : HevcHdrUnit)
    (h : st.m_hdr = some hdr) :
    ∃ r, setDoViDescriptor P st = .ok r ∧
      r.putBits[7]? = some (7,
        if (if st.V3_flags.NON_DV_TRACK then true else hdr.isDVEL) then
          (if st.V3_flags.NON_DV_TRACK then 7 else 4)
        else if hdr.DVCompatibility = 1 ∨ hdr.DVCompatibility = 2 ∨ hdr.DVCompatibility = 4
          then 8 else 5) ∧
      r.putBits[8]? = some (6, doviLevel (doviWidth st)
        (P.mulFps (doviWidth st * getStreamHeight st))) ∧
      r.ret = (if st.V3_flags.NON_DV_TRACK then 15 else 13) := by
  unfold setDoViDescriptor
  rw [h]
  refine ⟨_, rfl, ?_, ?_, ?_⟩
  · cases hn : st.V3_flags.NON_DV_TRACK <;> simp
  · simp
  · cases hn : st.V3_flags.NON_DV_TRACK <;> simp

/-- C19: the 7-bit DV profile that `setDoViDescriptor` writes is one of 4, 5,
7, 8: 4 when an enhancement layer is present on a Dolby Vision base-layer
track, 7 when the track is flagged as a non-DV track, 8 when no enhancement
layer is present and `DVCompatibility` is 1, 2 or 4, and 5 otherwise. -/
theorem setDoViDescriptor_profile (P : Codec) (st : Decoder) (hdr : HevcHdrUnit)
    (h : st.m_hdr = some hdr) :
    ∃ r p, setDoViDescriptor P st = .ok r ∧ r.putBits[7]? = some (7, p) ∧
      (p = 4 ∨ p = 5 ∨ p = 7 ∨ p = 8) ∧
      (p = 4 ↔ st.V3_flags.NON_DV_TRACK = false ∧ hdr.isDVEL = true) ∧
      (p = 7 ↔ st.V3_flags.NON_DV_TRACK = true) ∧
      (p = 8 ↔ st.V3_flags.NON_DV_TRACK = false ∧ hdr.isDVEL = false ∧
        (hdr.DVCompatibility = 1 ∨ hdr.DVCompatibility = 2 ∨ hdr.DVCompatibility = 4)) ∧
      (p = 5 ↔ st.V3_flags.NON_DV_TRACK = false ∧ hdr.isDVEL = false ∧
        ¬ (hdr.DVCompatibility = 1 ∨ hdr.DVCompatibility = 2 ∨ hdr.DVCompatibility = 4)) := by
  obtain ⟨r, hr, hp, -, -⟩ := setDoViDescriptor_ok P st hdr h
  refine ⟨r, _, hr, hp, ?_⟩
  cases hn : st.V3_flags.NON_DV_TRACK <;> cases he : hdr.isDVEL <;>
    by_cases hc : hdr.DVCompatibility = 1 ∨ hdr.DVCompatibility = 2 ∨ hdr.DVCompatibility = 4 <;>
    simp [hc]

theorem setDoViDescriptor_profile_witness :
    ∃ r p, setDoViDescriptor sampleCodec (sampleDecoder [] 1920 1080 (some rpuHdr) noFlags)
        = .ok r ∧ r.putBits[7]? = some (7, p) ∧
      (p = 4 ∨ p = 5 ∨ p = 7 ∨ p = 8) ∧
      (p = 4 ↔ noFlags.NON_DV_TRACK = false ∧ rpuHdr.isDVEL = true) ∧
      (p = 7 ↔ noFlags.NON_DV_TRACK = true) ∧
      (p = 8 ↔ noFlags.NON_DV_TRACK = false ∧ rpuHdr.isDVEL = false ∧
        (rpuHdr.DVCompatibility = 1 ∨ rpuHdr.DVCompatibility = 2 ∨
          rpuHdr.DVCompatibility = 4)) ∧
      (p = 5 ↔ noFlags.NON_DV_TRACK = false ∧ rpuHdr.isDVEL = false ∧
        ¬ (rpuHdr.DVCompatibility = 1 ∨ rpuHdr.DVCompatibility = 2 ∨
          rpuHdr.DVCompatibility = 4)) :=
  setDoViDescriptor_profile sampleCodec (sampleDecoder [] 1920 1080 (some rpuHdr) noFlags)
    rpuHdr rfl

/-- C20, as the specification states it, fails: for a stream 8192 samples wide
no comparison of the chain holds, whatever the pixel rate, and the level
written is 0. -/
theorem setDoViDescriptor_level_fails :
    ∃ r, setDoViDescriptor sampleCodec (sampleDecoder [] 8192 4320 (some rpuHdr) noFlags)
        = .ok r ∧
      r.putBits[8]? = some (6, 0) ∧
      firstLevelRow 8192 (sampleCodec.mulFps (8192 * 4320)) = none ∧ ¬ (1 ≤ (0 : Int)) := by
  obtain ⟨r, hr, -, hl, -⟩ :=
    setDoViDescriptor_ok sampleCodec (sampleDecoder [] 8192 4320 (some rpuHdr) noFlags)
      rpuHdr rfl
  have hw : doviWidth (sampleDecoder [] 8192 4320 (some rpuHdr) noFlags) = 8192 := rfl
  have hh : getStreamHeight (sampleDecoder [] 8192 4320 (some rpuHdr) noFlags) = 4320 := rfl
  rw [hw, hh] at hl
  have h0 := (doviLevel_row 8192 (sampleCodec.mulFps (8192 * 4320))).2 (by decide)
  rw [h0.2] at hl
  exact ⟨r, hr, hl, h0.1, by decide⟩

/-- C20 (amended): for every stream width (doubled for a 4K enhancement-layer
track) and every 32-bit pixel rate, when the width is at most 7680 the level
that `setDoViDescriptor` writes lies in 1..13 and is the level of the first
row of the threshold table whose width bound and pixel-rate bound both hold;
when the width is above 7680 no row holds and the level written is 0. -/
theorem setDoViDescriptor_level (P : Codec) (st : Decoder) (hdr : HevcHdrUnit)
    (h : st.m_hdr = some hdr)
    (hpr : P.mulFps (doviWidth st * getStreamHeight st) ≤ 2147483647) :
    ∃ r, setDoViDescriptor P st = .ok r ∧
      (doviWidth st ≤ 7680 →
        ∃ row, firstLevelRow (doviWidth st) (P.mulFps (doviWidth st * getStreamHeight st))
            = some row ∧
          r.putBits[8]? = some (6, row.2.2) ∧ 1 ≤ row.2.2 ∧ row.2.2 ≤ 13) ∧
      (7680 < doviWidth st →
        firstLevelRow (doviWidth st) (P.mulFps (doviWidth st * getStreamHeight st)) = none ∧
          r.putBits[8]? = some (6, 0)) := by
  obtain ⟨r, hr, -, hl, -⟩ := setDoViDescriptor_ok P st hdr h
  have hrow := doviLevel_row (doviWidth st) (P.mulFps (doviWidth st * getStreamHeight st))
  refine ⟨r, hr, ?_, ?_⟩
  · intro hw
    obtain ⟨row, h1, h2, h3, h4⟩ := hrow.1 hw (by omega)
    exact ⟨row, h1, by rw [hl, h2], h3, h4⟩
  · intro hw
    obtain ⟨h1, h2⟩ := hrow.2 hw
    exact ⟨h1, by rw [hl, h2]⟩

theorem setDoViDescriptor_level_witness :
    ∃ r, setDoViDescriptor sampleCodec (sampleDecoder [] 1920 1080 (some rpuHdr) noFlags)
        = .ok r ∧
      (doviWidth (sampleDecoder [] 1920 1080 (some rpuHdr) noFlags) ≤ 7680 →
        ∃ row, firstLevelRow (doviWidth (sampleDecoder [] 1920 1080 (some rpuHdr) noFlags))
            (sampleCodec.mulFps (doviWidth (sampleDecoder [] 1920 1080 (some rpuHdr) noFlags)
              * getStreamHeight (sampleDecoder [] 1920 1080 (some rpuHdr) noFlags)))
            = some row ∧
          r.putBits[8]? = some (6, row.2.2) ∧ 1 ≤ row.2.2 ∧ row.2.2 ≤ 13) ∧
      (7680 < doviWidth (sampleDecoder [] 1920 1080 (some rpuHdr) noFlags) →
        firstLevelRow (doviWidth (sampleDecoder [] 1920 1080 (some rpuHdr) noFlags))
            (sampleCodec.mulFps (doviWidth (sampleDecoder [] 1920 1080 (some rpuHdr) noFlags)
              * getStreamHeight (sampleDecoder [] 1920 1080 (some rpuHdr) noFlags))) = none ∧
          r.putBits[8]? = some (6, 0)) :=
  setDoViDescriptor_level sampleCodec (sampleDecoder [] 1920 1080 (some rpuHdr) noFlags)
    rpuHdr rfl (by decide)

/-! ### The stream probe and the transport-stream descriptor -/

theorem packBits_length : ∀ (fuel : Nat) (bits : List Bool), bits.length ≤ fuel →
    (packBits fuel bits).length = (bits.length + 7) / 8 := by
  intro fuel
  induction fuel with
  | zero =>
    intro bits h
    have : bits = [] := List.length_eq_zero.mp (by omega)
    subst this
    rfl
  | succ n ih =>
    intro bits h
    cases bits with
    | nil => rfl
    | cons b bs =>
      simp only [packBits, List.length_cons] at *
      rw [ih (bs.drop 7) (by rw [List.length_drop]; omega), List.length_drop]
      omega

theorem bitsOf_length (n : Nat) (v : Int) : (bitsOf n v).length = n := by
  simp [bitsOf]

theorem setDoViDescriptor_written (P : Codec) (st : Decoder) (r : DoViResult)
    (h : setDoViDescriptor P st = .ok r) :
    (r.written.length : Int) = r.ret ∧
      r.ret = (if st.V3_flags.NON_DV_TRACK then 15 else 13) ∧
      r.st.m_hdr.isSome = true := by
  unfold setDoViDescriptor at h
  cases hh : st.m_hdr with
  | none => rw [hh] at h; cases h
  | some hdr =>
    rw [hh] at h
    simp only [Outcome.ok.injEq] at h
    subst h
    simp only
    rw [packBits_length _ _ (le_refl _)]
    cases hn : st.V3_flags.NON_DV_TRACK <;>
      simp [List.length_flatten, bitsOf_length]

theorem checkStreamScan_returns (P : Codec) (len : Nat) (hA : Advances P) (hU : QuietUpdate P) :
    ∀ (fuel : Nat) (st : Decoder) (buffer : List Byte) (nal : Nat),
      len ≤ buffer.length → len - (nal + 4) < fuel →
      ∃ r, checkStreamScan P len fuel st buffer nal = .ok r ∧
        (st.m_hdr.isSome = true → r.2.m_hdr.isSome = true) := by
  intro fuel
  induction fuel with
  | zero => intro st buffer nal _ h; omega
  | succ n ih =>
    intro st buffer nal hlen hfuel
    rw [checkStreamScan]
    by_cases hc : nal + 4 < len
    · rw [if_pos hc]
      have h0 : nal < buffer.length := by omega
      have h1 : nal + 1 < buffer.length := by omega
      rw [List.getElem?_eq_getElem h0, List.getElem?_eq_getElem h1]
      simp only
      have hnext : ∀ (s : Decoder) (b : List Byte), b.length = buffer.length →
          ∃ r, checkStreamScan P len n s b (P.findNextNAL (b.take len) nal) = .ok r ∧
            (s.m_hdr.isSome = true → r.2.m_hdr.isSome = true) := by
        intro s b hb
        have hp := hA (b.take len) nal (by rw [List.length_take]; omega)
        exact ih s b _ (by omega) (by omega)
      have hupd : ∀ (s : Decoder) (u : UnitRef) (a b : Nat),
          ∃ r, ((P.updateFPS s u buffer a b).bind fun p =>
              checkStreamScan P len n p.1 p.2 (P.findNextNAL (p.2.take len) nal)) = .ok r ∧
            (s.m_hdr.isSome = true → r.2.m_hdr.isSome = true) := by
        intro s u a b
        obtain ⟨s1, b1, h1, h2, h3⟩ := hU s u buffer a b
        rw [h1, Outcome.bind_ok]
        obtain ⟨r, hr, hs⟩ := hnext s1 b1 h2
        exact ⟨r, hr, fun h => hs (by rw [h3]; exact h)⟩
      split_ifs
      · exact ⟨_, rfl, fun h => h⟩
      · exact ⟨_, rfl, fun h => h⟩
      · exact hupd _ _ _ _
      · exact hnext _ _ rfl
      · exact ⟨_, rfl, fun h => h⟩
      · exact hupd _ _ _ _
      · exact ⟨_, rfl, fun h => h⟩
      · exact hnext _ _ rfl
      · exact ⟨_, rfl, fun _ => rfl⟩
      · obtain ⟨r, hr, hs⟩ := hnext { st with m_hdr := some (P.hdrDeserialize (st.m_hdr.getD P.newHdr)
            (span buffer nal (P.findNALWithStartCode (buffer.take len) nal))).2 } buffer rfl
        exact ⟨r, hr, fun _ => hs rfl⟩
      · obtain ⟨r, hr, hs⟩ := hnext _ buffer rfl
        exact ⟨r, hr, fun _ => hs rfl⟩
      · obtain ⟨r, hr, hs⟩ := hnext _ buffer rfl
        exact ⟨r, hr, fun _ => hs rfl⟩
      · obtain ⟨r, hr, hs⟩ := hnext _ buffer rfl
        exact ⟨r, hr, fun _ => hs rfl⟩
      · exact hnext _ _ rfl
    · rw [if_neg hc]
      exact ⟨_, rfl, fun h => h⟩

theorem checkStreamTail_table (P : Codec) (st1 : Decoder) (vps : HevcVpsUnit)
    (sps : HevcSpsUnit) (pps : HevcPpsUnit)
    (hv : st1.m_vps = some vps) (hs : st1.m_sps = some sps) (hp : st1.m_pps = some pps)
    (hc : sps.vps_id = vps.vps_id ∧ pps.sps_id = sps.sps_id) :
    ∃ st2 hdr, checkStreamTail P st1 = (true, st2) ∧ st2.m_hdr = some hdr ∧
      (sps.colour_primaries = 9 ∧ sps.transfer_characteristics = 16 ∧ sps.matrix_coeffs = 9 →
        hdr.isHDR10 = true ∧
        (sps.chroma_sample_loc_type_top_field = 2 → hdr.DVCompatibility = 6) ∧
        (sps.chroma_sample_loc_type_top_field = 0 → hdr.DVCompatibility = 1)) ∧
      (sps.colour_primaries = 9 ∧ sps.transfer_characteristics = 18 ∧ sps.matrix_coeffs = 9 ∧
        sps.chroma_sample_loc_type_top_field = 2 → hdr.DVCompatibility = 4) ∧
      (sps.colour_primaries = 9 ∧ sps.transfer_characteristics = 14 ∧ sps.matrix_coeffs = 9 ∧
        sps.chroma_sample_loc_type_top_field = 0 → hdr.DVCompatibility = 4) ∧
      (sps.colour_primaries = 1 ∧ sps.transfer_characteristics = 1 ∧ sps.matrix_coeffs = 1 ∧
        sps.chroma_sample_loc_type_top_field = 0 → hdr.DVCompatibility = 2) ∧
      (sps.colour_primaries = 2 ∧ sps.transfer_characteristics = 2 ∧ sps.matrix_coeffs = 2 ∧
        sps.chroma_sample_loc_type_top_field = 0 →
        hdr.DVCompatibility = if (st1.m_hdr.getD P.newHdr).isDVEL then 2 else 0) ∧
      (¬ (sps.colour_primaries = 9 ∧ sps.transfer_characteristics = 16 ∧
          sps.matrix_coeffs = 9) →
        hdr.isHDR10 = (st1.m_hdr.getD P.newHdr).isHDR10) := by
  unfold checkStreamTail
  rw [hv, hs, hp]
  simp only [if_pos hc]
  split_ifs <;> refine ⟨_, _, rfl, rfl, ?_⟩ <;> simp_all

/-- C17: when the loop of `checkStream` runs to its end with VPS, SPS and PPS
present and referring to each other consistently, the HDR descriptor is set
from the SPS values (colour_primaries, transfer_characteristics, matrix_coeffs,
chroma_sample_loc_type_top_field) per the table: (9,16,9,2) gives isHDR10 and
DVCompatibility 6; (9,16,9,0) gives isHDR10 and 1; (9,18,9,2) gives 4;
(9,14,9,0) gives 4; (1,1,1,0) gives 2; (2,2,2,0) gives 2 if a DV enhancement
layer was seen and 0 otherwise; outside the first two rows isHDR10 is left as
it was. -/
theorem checkStream_hdr_table (P : Codec) (fuel : Nat) (st : Decoder) (buffer : List Byte)
    (len : Nat) (st1 : Decoder) (vps : HevcVpsUnit) (sps : HevcSpsUnit) (pps : HevcPpsUnit)
    (hscan : checkStreamScan P len fuel st buffer (P.findNextNAL (buffer.take len) 0)
      = .ok (true, st1))
    (hv : st1.m_vps = some vps) (hs : st1.m_sps = some sps) (hp : st1.m_pps = some pps)
    (hc : sps.vps_id = vps.vps_id ∧ pps.sps_id = sps.sps_id) :
    ∃ st2 hdr, checkStream P fuel st buffer len = .ok (true, st2) ∧ st2.m_hdr = some hdr ∧
      (sps.colour_primaries = 9 ∧ sps.transfer_characteristics = 16 ∧ sps.matrix_coeffs = 9 →
        hdr.isHDR10 = true ∧
        (sps.chroma_sample_loc_type_top_field = 2 → hdr.DVCompatibility = 6) ∧
        (sps.chroma_sample_loc_type_top_field = 0 → hdr.DVCompatibility = 1)) ∧
      (sps.colour_primaries = 9 ∧ sps.transfer_characteristics = 18 ∧ sps.matrix_coeffs = 9 ∧
        sps.chroma_sample_loc_type_top_field = 2 → hdr.DVCompatibility = 4) ∧
      (sps.colour_primaries = 9 ∧ sps.transfer_characteristics = 14 ∧ sps.matrix_coeffs = 9 ∧
        sps.chroma_sample_loc_type_top_field = 0 → hdr.DVCompatibility = 4) ∧
      (sps.colour_primaries = 1 ∧ sps.transfer_characteristics = 1 ∧ sps.matrix_coeffs = 1 ∧
        sps.chroma_sample_loc_type_top_field = 0 → hdr.DVCompatibility = 2) ∧
      (sps.colour_primaries = 2 ∧ sps.transfer_characteristics = 2 ∧ sps.matrix_coeffs = 2 ∧
        sps.chroma_sample_loc_type_top_field = 0 →
        hdr.DVCompatibility = if (st1.m_hdr.getD P.newHdr).isDVEL then 2 else 0) ∧
      (¬ (sps.colour_primaries = 9 ∧ sps.transfer_characteristics = 16 ∧
          sps.matrix_coeffs = 9) →
        hdr.isHDR10 = (st1.m_hdr.getD P.newHdr).isHDR10) := by
  obtain ⟨st2, hdr, ht, hrest⟩ := checkStreamTail_table P st1 vps sps pps hv hs hp hc
  refine ⟨st2, hdr, ?_, hrest⟩
  unfold checkStream
  rw [hscan, Outcome.bind_ok]
  simp only [if_true]
  rw [ht]

theorem checkStream_hdr_table_witness :
    ∃ st2 hdr, checkStream sampleCodec 40 (freshDecoder paramSetsBuffer) paramSetsBuffer 36
        = .ok (true, st2) ∧
      st2.m_hdr = some hdr ∧ hdr.isHDR10 = true ∧ hdr.DVCompatibility = 6 := by
  obtain ⟨st2, hdr, h1, h2, h3, -⟩ :=
    checkStream_hdr_table sampleCodec 40 (freshDecoder paramSetsBuffer) paramSetsBuffer 36
      probedDecoder { vps_id := 0, num_units_in_tick := 0 } (sampleSps 1920 1080)
      { sps_id := 0 } (by decide) rfl rfl rfl (by decide)
  exact ⟨st2, hdr, h1, h2, (h3 (by decide)).1, (h3 (by decide)).2.1 rfl⟩

theorem checkStreamTail_hdr (P : Codec) (st : Decoder) (h : st.m_hdr.isSome = true) :
    (checkStreamTail P st).2.m_hdr.isSome = true := by
  unfold checkStreamTail
  split
  · dsimp only
    split_ifs <;> first | exact h | rfl
  · exact h

theorem probeFirstFrame_returns (P : Codec) (fuel : Nat) (st : Decoder) (hA : Advances P)
    (hU : QuietUpdate P) (hfuel : st.m_buffer.length < fuel) (hh : st.m_hdr.isSome = true) :
    ∃ st1, probeFirstFrame P fuel st = .ok st1 ∧ st1.m_hdr.isSome = true := by
  unfold probeFirstFrame
  by_cases hf : st.timing.m_firstFrame = true
  · rw [if_pos hf]
    unfold checkStream
    obtain ⟨r, hr, hs⟩ := checkStreamScan_returns P st.m_buffer.length hA hU fuel st st.m_buffer
      (P.findNextNAL (st.m_buffer.take st.m_buffer.length) 0) (le_refl _) (by omega)
    rw [hr, Outcome.bind_ok]
    by_cases h1 : r.1 = true
    · rw [if_pos h1, Outcome.bind_ok]
      exact ⟨_, rfl, checkStreamTail_hdr P r.2 (hs hh)⟩
    · rw [if_neg h1, Outcome.bind_ok]
      exact ⟨_, rfl, hs hh⟩
  · rw [if_neg hf]
    exact ⟨st, rfl, hh⟩

/-- C18, as the specification states it, fails: a reader before its first
frame that holds an HDR descriptor, whose buffer of 36 bytes fills the working
buffer and starts with a VPS of 4 bytes with timing information, while a frame
rate is imposed from outside: the probe `checkStream` calls `updateFPS` for
the VPS, `updateStreamFps` serialises it in 6 bytes and throws because
`m_bufEnd + 2` is past the end of the working buffer, so `getTSDescriptor`
throws, with `blurayMode` and without, and writes and returns nothing.  With
room in the working buffer the same call returns 10. -/
theorem getTSDescriptor_probe_throws :
    firstFrameDecoder.m_hdr = some rpuHdr ∧ firstFrameDecoder.timing.m_firstFrame = true ∧
    firstFrameDecoder.m_buffer.length = 36 ∧
    getTSDescriptor (overrideCodec 36) 40 firstFrameDecoder false = .thrown ∧
    getTSDescriptor (overrideCodec 36) 40 firstFrameDecoder true = .thrown ∧
    (getTSDescriptor (overrideCodec 100) 40 firstFrameDecoder true).bind
        (fun r => Outcome.ok (r.1, r.2.1))
      = Outcome.ok (([5, 8, 72, 68, 77, 86, 255, 36, 97, 63] : List Byte), (10 : Int)) := by
  refine ⟨by decide, by decide, by decide, by decide, by decide, by decide⟩

/-- C18 (amended): for every reader state for which the probe of the first
frame (`checkStream`, run when `m_firstFrame` is set) returns and leaves the
reader with an HDR descriptor, `getTSDescriptor` writes the 8 bytes
05 08 48 44 4D 56 FF 24, then the byte (video_format << 4) + frame_rate_index,
then the byte (aspect_ratio_index << 4) + 0xF; it returns 10 when `blurayMode`
is set or neither a DV RPU nor a DV EL is present, and otherwise appends the
DoVi descriptor and returns 10 plus its length. -/
theorem getTSDescriptor_bytes (P : Codec) (fuel : Nat) (st : Decoder) (blurayMode : Bool)
    (st1 : Decoder) (hdr : HevcHdrUnit)
    (hp : probeFirstFrame P fuel st = .ok st1) (hh1 : st1.m_hdr = some hdr) :
    hdmvBytes P st1
      = [0x05, 0x08, 0x48, 0x44, 0x4D, 0x56, 0xFF, 0x24,
         Fin.ofNat (((P.blurayStreamParams st1).1 * 16
           + (P.blurayStreamParams st1).2.1) % 256).toNat,
         Fin.ofNat (((P.blurayStreamParams st1).2.2 * 16 + 0xF) % 256).toNat] ∧
    (blurayMode = true ∨ (hdr.isDVRPU = false ∧ hdr.isDVEL = false) →
      getTSDescriptor P fuel st blurayMode = .ok (hdmvBytes P st1, 10, st1)) ∧
    (blurayMode = false ∧ (hdr.isDVRPU = true ∨ hdr.isDVEL = true) →
      ∃ d, setDoViDescriptor P st1 = .ok d ∧
        getTSDescriptor P fuel st blurayMode
          = .ok (hdmvBytes P st1 ++ d.written, 10 + d.ret, d.st) ∧
        (d.written.length : Int) = d.ret) := by
  refine ⟨rfl, ?_, ?_⟩
  · intro hcase
    unfold getTSDescriptor
    rw [hp, Outcome.bind_ok]
    rcases hcase with hb | ⟨h1, h2⟩
    · simp [hb, hdmvBytes]
    · cases blurayMode <;> simp [hh1, h1, h2, hdmvBytes]
  · intro hcase
    obtain ⟨hb, hor⟩ := hcase
    obtain ⟨d, hd, -⟩ := setDoViDescriptor_ok P st1 hdr hh1
    refine ⟨d, hd, ?_, (setDoViDescriptor_written P st1 d hd).1⟩
    unfold getTSDescriptor
    rw [hp, Outcome.bind_ok]
    have : (hdr.isDVEL || hdr.isDVRPU) = true := by
      rcases hor with h | h <;> simp [h]
    simp [hb, hh1, this, hd, hdmvBytes]

theorem scanStartCode_advances (buf : List Byte) :
    ∀ (fuel p : Nat), p < buf.length → p < scanStartCode buf fuel p := by
  intro fuel
  induction fuel with
  | zero => intro p h; exact h
  | succ n ih =>
    intro p h
    rw [scanStartCode]
    split_ifs with h1 h2
    · omega
    · have := ih (p + 1) (by omega)
      omega
    · exact h

theorem sampleCodec_advances : Advances sampleCodec :=
  fun buf p h => scanStartCode_advances buf buf.length p h

theorem sampleCodec_quiet : QuietUpdate sampleCodec :=
  fun s _ buf _ _ => ⟨s, buf, rfl, rfl, rfl⟩

theorem getTSDescriptor_bytes_witness :
    hdmvBytes sampleCodec probedFirstFrame
      = [0x05, 0x08, 0x48, 0x44, 0x4D, 0x56, 0xFF, 0x24, 0x61, 0x3F] ∧
    (false = true ∨ (true = false ∧ false = false) →
      getTSDescriptor sampleCodec 40 firstFrameDecoder false
        = .ok (hdmvBytes sampleCodec probedFirstFrame, 10, probedFirstFrame)) ∧
    (false = false ∧ (true = true ∨ false = true) →
      ∃ d, setDoViDescriptor sampleCodec probedFirstFrame = .ok d ∧
        getTSDescriptor sampleCodec 40 firstFrameDecoder false
          = .ok (hdmvBytes sampleCodec probedFirstFrame ++ d.written, 10 + d.ret, d.st) ∧
        (d.written.length : Int) = d.ret) :=
  getTSDescriptor_bytes sampleCodec 40 firstFrameDecoder false probedFirstFrame
    { rpuHdr with DVCompatibility := 6 } (by decide) rfl

/-! ### Access units: `intDecodeNAL` -/

theorem decodeStep_closing (P : Codec) (v : LoopVars) (hs : v.sliceFound = true)
    (h : closesAccessUnit v.st v.curPos = some true) :
    decodeStep P v = .ok (.done .zero
      { v.st with timing := incTimings v.st.timing, m_lastDecodedPos := v.prevPos }) := by
  unfold closesAccessUnit at h
  unfold decodeStep
  cases h0 : v.st.m_buffer[v.curPos]? with
  | none => rw [h0] at h; cases h
  | some b0 =>
    rw [h0] at h
    simp only [h0] at h ⊢
    by_cases hsl : isSlice v.st (b0.val / 2 % 64) = true
    · rw [if_pos hsl] at h ⊢
      cases h2 : v.st.m_buffer[v.curPos + 2]? with
      | none => rw [h2] at h; cases h
      | some b2 =>
        rw [h2] at h
        simp only [Option.some.injEq, decide_eq_true_eq] at h
        simp [h, hs, h2]
    · rw [if_neg hsl] at h ⊢
      simp only [Option.some.injEq] at h
      simp [h, hs]

theorem decodeStep_continuing (P : Codec) (v : LoopVars) (hs : v.sliceFound = true)
    (h : closesAccessUnit v.st v.curPos = some false) :
    decodeStep P v = .ok (advance P v) := by
  unfold closesAccessUnit at h
  unfold decodeStep
  cases h0 : v.st.m_buffer[v.curPos]? with
  | none => rw [h0] at h; cases h
  | some b0 =>
    rw [h0] at h
    simp only [h0] at h ⊢
    by_cases hsl : isSlice v.st (b0.val / 2 % 64) = true
    · rw [if_pos hsl] at h ⊢
      cases h2 : v.st.m_buffer[v.curPos + 2]? with
      | none => rw [h2] at h; cases h
      | some b2 =>
        rw [h2] at h
        simp only [Option.some.injEq, decide_eq_false_iff_not] at h
        have hv : { v with sliceFound := true } = v := by
          cases v; simp only at hs; subst hs; rfl
        simp [h, hv, h2]
    · rw [if_neg hsl] at h ⊢
      simp only [Option.some.injEq, Bool.not_eq_false'] at h
      simp [h]

theorem shiftN_sliceFound (P : Codec) : ∀ (n : Nat) (v : LoopVars),
    (shiftN P n v).st = v.st ∧ (shiftN P n v).sliceFound = v.sliceFound := by
  intro n
  induction n with
  | zero => intro v; exact ⟨rfl, rfl⟩
  | succ n ih => intro v; exact ih (shift P v)

theorem decodeLoop_closes (P : Codec) : ∀ (n : Nat) (v : LoopVars) (fuel : Nat),
    v.sliceFound = true → passes P n v = true → n < fuel →
    decodeLoop P fuel v = .ok (.zero,
      { v.st with
        timing := incTimings v.st.timing
        m_lastDecodedPos := (shiftN P n v).prevPos }) := by
  intro n
  induction n with
  | zero =>
    intro v fuel hs hp hf
    obtain ⟨k, rfl⟩ : ∃ k, fuel = k + 1 := ⟨fuel - 1, by omega⟩
    simp only [passes, Bool.and_eq_true, decide_eq_true_eq, beq_iff_eq] at hp
    rw [decodeLoop, if_pos hp.1, decodeStep_closing P v hs hp.2]
    rfl
  | succ n ih =>
    intro v fuel hs hp hf
    obtain ⟨k, rfl⟩ : ∃ k, fuel = k + 1 := ⟨fuel - 1, by omega⟩
    simp only [passes, Bool.and_eq_true, decide_eq_true_eq, beq_iff_eq, Bool.or_eq_true] at hp
    obtain ⟨⟨⟨h1, h2⟩, h3⟩, h4⟩ := hp
    rw [decodeLoop, if_pos h1, decodeStep_continuing P v hs h2, Outcome.bind_ok]
    have ha : advance P v = .next (shift P v) := by
      unfold advance
      rw [if_neg]
      rintro ⟨he, hn⟩
      rcases h3 with h3 | h3
      · rw [he] at h3; cases h3
      · exact h3 hn
    rw [ha]
    simp only
    rw [ih (shift P v) k hs h4 (by omega)]
    rfl
theorem advance_good (P : Codec) (v : LoopVars) (hB : Bounded P) (he : v.st.m_eof = false)
    (hn : v.nextNal ≤ v.st.m_buffer.length) : GoodStep (advance P v) := by
  unfold advance
  have hb := hB v.st.m_buffer v.nextNal hn
  split_ifs with hc
  · simp [GoodStep]
  · have hne : P.findNextNAL v.st.m_buffer v.nextNal ≠ v.st.m_buffer.length :=
      fun h => hc ⟨he, h⟩
    refine ⟨he, ?_, hb.2⟩
    show v.nextNal < v.st.m_buffer.length
    omega

theorem decodeParamSet_good (P : Codec) (v : LoopVars) (nalType nwsc : Nat) (s : Step)
    (hB : Bounded P) (hU : SizedUpdate P) (he : v.st.m_eof = false)
    (hn : v.nextNal ≤ v.st.m_buffer.length)
    (h : decodeParamSet P v nalType nwsc = .ok s) : GoodStep s := by
  unfold decodeParamSet at h
  simp only at h
  split_ifs at h
  · cases h; simp [GoodStep]
  · -- VPS parsed, frame rate updated
    obtain ⟨st3, hst3, h⟩ := Outcome.bind_eq_ok h
    obtain ⟨p, hp, hst3⟩ := Outcome.bind_eq_ok hst3
    cases hst3
    obtain ⟨e1, e2⟩ := hU _ _ _ _ _ p.1 p.2 hp
    simp only at e1 e2 h
    have e3 := e2 trivial
    split_ifs at h with hneg
    cases h
    apply advance_good P _ hB
    · simpa using e1.trans he
    · simp only
      omega
  · -- VPS parsed, no update
    rw [Outcome.bind_ok] at h
    simp only at h
    split_ifs at h with hneg
    cases h
    apply advance_good P _ hB
    · exact he
    · simp only
      omega
  · cases h; simp [GoodStep]
  · obtain ⟨p, hp, h⟩ := Outcome.bind_eq_ok h
    cases h
    obtain ⟨e1, e2⟩ := hU _ _ _ _ _ p.1 p.2 hp
    simp only at e1 e2
    apply advance_good P _ hB
    · simpa using e1.trans he
    · simp only
      omega
  · cases h; simp [GoodStep]
  · cases h
    exact advance_good P _ hB he hn
  · cases h; simp [GoodStep]
  · cases h
    exact advance_good P _ hB he hn
  · cases h
    exact advance_good P _ hB he hn

theorem decodeStep_good (P : Codec) (v : LoopVars) (s : Step)
    (hB : Bounded P) (hU : SizedUpdate P) (he : v.st.m_eof = false)
    (hn : v.nextNal ≤ v.st.m_buffer.length)
    (h : decodeStep P v = .ok s) : GoodStep s := by
  unfold decodeStep at h
  simp only at h
  repeat' split at h
  all_goals first
    | exact decodeParamSet_good P v _ _ s hB hU he hn h
    | (cases h; done)
    | (cases h; simp [GoodStep]; done)
    | (cases h; exact advance_good P _ hB he hn)

theorem decodeLoop_never_needs_more (P : Codec) (hB : Bounded P) (hU : SizedUpdate P) :
    ∀ (fuel : Nat) (v : LoopVars) (r : Return) (st1 : Decoder),
      v.st.m_eof = false → v.curPos < v.st.m_buffer.length →
      v.nextNal ≤ v.st.m_buffer.length →
      decodeLoop P fuel v = .ok (r, st1) → r ≠ .NEED_MORE_DATA := by
  intro fuel
  induction fuel with
  | zero => intro v r st1 _ _ _ h; cases h
  | succ n ih =>
    intro v r st1 he hc hn h
    rw [decodeLoop, if_pos hc] at h
    obtain ⟨s, hs, h⟩ := Outcome.bind_eq_ok h
    have hg := decodeStep_good P v s hB hU he hn hs
    cases s with
    | done r1 st2 =>
      simp only [Outcome.ok.injEq, Prod.mk.injEq] at h
      rw [← h.1]
      exact hg
    | next w =>
      simp only at h
      exact ih w r st1 hg.1 hg.2.1 hg.2.2 h

/-- C14: in `intDecodeNAL`, once a slice NAL has been seen in the current call,
the first following NAL that is either a slice with
`first_slice_segment_in_pic_flag` set or a NAL that is neither slice nor suffix
makes the call return 0 after exactly one `incTimings`, with
`m_lastDecodedPos` set to the position recorded for the previous NAL; suffix
NALs and slices without the flag never end the access unit: the turn of the
loop leaves the reader as it is and goes on to the next NAL. -/
theorem intDecodeNAL_access_unit_end (P : Codec) (v : LoopVars) (n fuel : Nat)
    (hs : v.sliceFound = true) (hp : passes P n v = true) (hf : n < fuel) :
    decodeLoop P fuel v = .ok (.zero,
      { v.st with
        timing := incTimings v.st.timing
        m_lastDecodedPos := (shiftN P n v).prevPos }) ∧
    ∀ w : LoopVars, w.sliceFound = true → closesAccessUnit w.st w.curPos = some false →
      decodeStep P w = .ok (advance P w) ∧ ∀ st1, advance P w ≠ .done .zero st1 := by
  refine ⟨decodeLoop_closes P n v fuel hs hp hf, ?_⟩
  intro w hw hc
  refine ⟨decodeStep_continuing P w hw hc, ?_⟩
  intro st1
  unfold advance
  split_ifs <;> simp

theorem intDecodeNAL_access_unit_end_witness :
    decodeLoop sampleCodec 3 auVars = .ok (.zero,
      { auVars.st with
        timing := incTimings auVars.st.timing
        m_lastDecodedPos := some 15 }) ∧
    ∀ w : LoopVars, w.sliceFound = true → closesAccessUnit w.st w.curPos = some false →
      decodeStep sampleCodec w = .ok (advance sampleCodec w) ∧
        ∀ st1, advance sampleCodec w ≠ .done .zero st1 :=
  intDecodeNAL_access_unit_end sampleCodec auVars 2 3 rfl (by decide) (by decide)

theorem intDecodeNAL_auBuffer :
    intDecodeNAL sampleCodec 5 (sampleDecoder auBuffer 1920 1080 none noFlags) 3
      = .ok (.zero,
          { sampleDecoder auBuffer 1920 1080 none noFlags with
            timing := incTimings (sampleDecoder auBuffer 1920 1080 none noFlags).timing
            m_lastDecodedPos := some 15 }) := by
  decide

/-- C15, as the specification states it, fails: on a buffer that holds one NAL
and no further start code, with the end of the stream not signalled,
`intDecodeNAL` takes `return NOT_ENOUGH_BUFFER`, not `return NEED_MORE_DATA`. -/
theorem intDecodeNAL_need_more_data_fails :
    (freshDecoder vpsOnlyBuffer).m_eof = false ∧
    sampleCodec.findNextNAL vpsOnlyBuffer 4 = vpsOnlyBuffer.length ∧
    intDecodeNAL sampleCodec 10 (freshDecoder vpsOnlyBuffer) 4
      = .ok (.NOT_ENOUGH_BUFFER, freshDecoder vpsOnlyBuffer) ∧
    intDecodeNAL sampleCodec 10 (freshDecoder vpsOnlyBuffer) 4
      ≠ .ok (.NEED_MORE_DATA, freshDecoder vpsOnlyBuffer) := by
  decide

/-- C15 (amended): for every buffer, when the end of the stream has not been
signalled and `intDecodeNAL` finds no further start code, at its entry or after
a NAL it has handled, it returns `NOT_ENOUGH_BUFFER`; and, the scanner
returning offsets between its starting point and the end of the buffer, it
never returns `NEED_MORE_DATA`. -/
theorem intDecodeNAL_not_enough_buffer (P : Codec) (fuel : Nat) (st : Decoder) (buff : Nat)
    (he : st.m_eof = false) :
    (P.findNextNAL st.m_buffer buff = st.m_buffer.length →
      intDecodeNAL P fuel st buff
        = .ok (.NOT_ENOUGH_BUFFER, { st with m_spsPpsFound := false, m_lastIFrame := false })) ∧
    (∀ v : LoopVars, v.st.m_eof = false →
      P.findNextNAL v.st.m_buffer v.nextNal = v.st.m_buffer.length →
      advance P v = .done .NOT_ENOUGH_BUFFER v.st) ∧
    (Bounded P → SizedUpdate P → buff ≤ st.m_buffer.length →
      ∀ r st1, intDecodeNAL P fuel st buff = .ok (r, st1) → r ≠ .NEED_MORE_DATA) := by
  refine ⟨?_, ?_, ?_⟩
  · intro h
    unfold intDecodeNAL
    simp only
    rw [if_pos ⟨he, h⟩]
  · intro v hv h
    unfold advance
    rw [if_pos ⟨hv, h⟩]
  · intro hB hU hb r st1 h
    unfold intDecodeNAL at h
    simp only at h
    have hb2 := hB st.m_buffer buff hb
    split_ifs at h with hc
    · cases h
      simp
    · have hne : P.findNextNAL st.m_buffer buff ≠ st.m_buffer.length := fun e => hc ⟨he, e⟩
      exact decodeLoop_never_needs_more P hB hU fuel _ r st1 he
        (by show buff < st.m_buffer.length; omega) hb2.2 h

theorem scanStartCode_bounded (buf : List Byte) :
    ∀ (fuel p : Nat), p ≤ buf.length →
      p ≤ scanStartCode buf fuel p ∧ scanStartCode buf fuel p ≤ buf.length := by
  intro fuel
  induction fuel with
  | zero => intro p h; exact ⟨h, le_refl _⟩
  | succ n ih =>
    intro p h
    rw [scanStartCode]
    split_ifs with h1 h2
    · have h3 : p + 2 < buf.length := by
        by_contra hc
        have h4 := h1.2.2
        rw [List.getElem?_eq_none (by omega)] at h4
        cases h4
      omega
    · have := ih (p + 1) (by omega)
      omega
    · exact ⟨h, le_refl _⟩

theorem sampleCodec_bounded : Bounded sampleCodec :=
  fun buf p h => scanStartCode_bounded buf buf.length p h

theorem sampleCodec_sized : SizedUpdate sampleCodec := by
  intro s u buf a b s1 buf1 h
  cases h
  cases u
  · exact ⟨rfl, fun h0 => by simp [h0]⟩
  · exact ⟨rfl, rfl⟩

theorem intDecodeNAL_not_enough_buffer_witness :
    (sampleCodec.findNextNAL (freshDecoder vpsOnlyBuffer).m_buffer 4
        = (freshDecoder vpsOnlyBuffer).m_buffer.length →
      intDecodeNAL sampleCodec 10 (freshDecoder vpsOnlyBuffer) 4
        = .ok (.NOT_ENOUGH_BUFFER,
            { freshDecoder vpsOnlyBuffer with m_spsPpsFound := false, m_lastIFrame := false })) ∧
    (∀ v : LoopVars, v.st.m_eof = false →
      sampleCodec.findNextNAL v.st.m_buffer v.nextNal = v.st.m_buffer.length →
      advance sampleCodec v = .done .NOT_ENOUGH_BUFFER v.st) ∧
    (Bounded sampleCodec → SizedUpdate sampleCodec →
      4 ≤ (freshDecoder vpsOnlyBuffer).m_buffer.length →
      ∀ r st1, intDecodeNAL sampleCodec 10 (freshDecoder vpsOnlyBuffer) 4 = .ok (r, st1) →
        r ≠ .NEED_MORE_DATA) :=
  intDecodeNAL_not_enough_buffer sampleCodec 10 (freshDecoder vpsOnlyBuffer) 4 rfl

/-- C16 fails in the code: on `seiBuffer` the prefix SEI met before the first
slice does not parse (its parser returns 1), and `intDecodeNAL` takes
`return rez` with `rez` still 0, which is the value that reports success. -/
theorem intDecodeNAL_sei_failure_returns_zero :
    (sampleCodec.hdrDeserialize sampleCodec.newHdr (span seiBuffer 4 14)).1 = 1 ∧
    intDecodeNAL sampleCodec 10 (freshDecoder seiBuffer) 4
      = .ok (.rez 0, { freshDecoder seiBuffer with m_hdr := some plainHdr }) ∧
    ∀ a b : Int, (Return.rez 0).value a b = 0 := by
  refine ⟨by decide, by decide, fun _ _ => rfl⟩

theorem decodeParamSet_sei_failure (P : Codec) (v : LoopVars) (nwsc : Nat)
    (hf : (P.hdrDeserialize (v.st.m_hdr.getD P.newHdr)
      (span v.st.m_buffer v.curPos v.nextNal)).1 ≠ 0) :
    decodeParamSet P v NAL_SEI_PREFIX nwsc
      = .ok (.done (.rez v.rez)
          { v.st with m_hdr := some (P.hdrDeserialize (v.st.m_hdr.getD P.newHdr)
              (span v.st.m_buffer v.curPos v.nextNal)).2 }) := by
  unfold decodeParamSet
  simp [NAL_SEI_PREFIX, NAL_VPS, NAL_SPS, NAL_PPS, hf]

end HEVCStreamReader

/-! ### `toFullPicOrder` case by case -/

namespace HEVCStreamReader

/-- C28, as the specification states it, fails: with `pic_bits = 4` and the
previous lsb 8, a slice with lsb 0 is exactly `range / 2 = 8` below, which is
not more than `range / 2`, and `m_picOrderMsb` is raised by 16 all the same;
with the previous lsb 0, a slice with lsb 8 lowers it by 16. -/
theorem toFullPicOrder_half_range :
    (toFullPicOrder { lateReader with m_prevPicOrder := 8 } (nonIdr 0) 4).2.m_picOrderMsb
      = lateReader.m_picOrderMsb + 16 ∧
    ¬ ((8 : Int) - 0 > 2 ^ 4 / 2) ∧
    (toFullPicOrder lateReader (nonIdr 8) 4).2.m_picOrderMsb = lateReader.m_picOrderMsb - 16 ∧
    ¬ ((8 : Int) - lateReader.m_prevPicOrder > 2 ^ 4 / 2) := by
  decide

/-- C28 (amended): for a non-IDR slice with `range = 2^pic_bits`,
`toFullPicOrder` adds `range` to `m_picOrderMsb` exactly when the lsb is below
`m_prevPicOrder` by at least `range / 2`, subtracts `range` exactly when the
lsb is above `m_prevPicOrder` by at least `range / 2`, and otherwise leaves
`m_picOrderMsb` unchanged; it then sets `m_prevPicOrder` to the lsb and returns
lsb + `m_picOrderMsb` + `m_picOrderBase`. -/
theorem toFullPicOrder_nonIdr (r : Reader) (slice : HevcSliceHeader) (pic_bits : Nat)
    (h : slice.isIDR = false) :
    let lsb := slice.pic_order_cnt_lsb
    let range : Int := 2 ^ pic_bits
    let out := toFullPicOrder r slice pic_bits
    (lsb < r.m_prevPicOrder ∧ r.m_prevPicOrder - lsb ≥ range / 2 →
      out.2.m_picOrderMsb = r.m_picOrderMsb + range) ∧
    (lsb > r.m_prevPicOrder ∧ lsb - r.m_prevPicOrder ≥ range / 2 →
      out.2.m_picOrderMsb = r.m_picOrderMsb - range) ∧
    (¬ (lsb < r.m_prevPicOrder ∧ r.m_prevPicOrder - lsb ≥ range / 2) →
      ¬ (lsb > r.m_prevPicOrder ∧ lsb - r.m_prevPicOrder ≥ range / 2) →
      out.2.m_picOrderMsb = r.m_picOrderMsb) ∧
    out.2.m_prevPicOrder = lsb ∧
    out.1 = lsb + out.2.m_picOrderMsb + out.2.m_picOrderBase ∧
    out.2.m_picOrderBase = r.m_picOrderBase := by
  cases slice with
  | mk idr lsb =>
    simp only at h
    subst h
    simp only [toFullPicOrder]
    refine ⟨?_, ?_, ?_, ?_, ?_, ?_⟩
    · intro hc
      simp [hc]
    · intro hc
      have hn : ¬ (lsb < r.m_prevPicOrder ∧ r.m_prevPicOrder - lsb ≥ 2 ^ pic_bits / 2) := by
        intro h1; omega
      simp [hn, hc]
    · intro h1 h2
      simp [h1, h2]
    · simp
    · simp
    · simp

theorem toFullPicOrder_nonIdr_witness :
    (toFullPicOrder { lateReader with m_prevPicOrder := 14 } (nonIdr 1) 4).2.m_picOrderMsb
      = lateReader.m_picOrderMsb + 16 ∧
    (toFullPicOrder { lateReader with m_prevPicOrder := 14 } (nonIdr 1) 4).1
      = 1 + (lateReader.m_picOrderMsb + 16) + lateReader.m_picOrderBase := by
  have h := toFullPicOrder_nonIdr { lateReader with m_prevPicOrder := 14 } (nonIdr 1) 4 rfl
  simp only at h
  obtain ⟨h1, -, -, -, h5, h6⟩ := h
  have e := h1 (by decide)
  refine ⟨e, ?_⟩
  rw [h5, e, h6]
  rfl

/-- C29: for an IDR slice, `toFullPicOrder` sets `m_picOrderMsb` to 0,
`m_picOrderBase` to the current `m_frameNum` and `m_prevPicOrder` to 0, returns
`pic_order_cnt_lsb + m_frameNum`, and leaves `m_frameNum`, `m_fullPicOrder` and
`m_frameDepth`, as every other field, unchanged. -/
theorem toFullPicOrder_idr (r : Reader) (slice : HevcSliceHeader) (pic_bits : Nat)
    (h : slice.isIDR = true) :
    toFullPicOrder r slice pic_bits
      = (slice.pic_order_cnt_lsb + r.m_frameNum,
         { r with m_picOrderMsb := 0, m_picOrderBase := r.m_frameNum, m_prevPicOrder := 0 }) ∧
    (toFullPicOrder r slice pic_bits).2.m_frameNum = r.m_frameNum ∧
    (toFullPicOrder r slice pic_bits).2.m_fullPicOrder = r.m_fullPicOrder ∧
    (toFullPicOrder r slice pic_bits).2.m_frameDepth = r.m_frameDepth := by
  simp [toFullPicOrder, h]

theorem toFullPicOrder_idr_witness :
    toFullPicOrder lateReader { isIDR := true, pic_order_cnt_lsb := 0 } 4
      = (0 + lateReader.m_frameNum,
         { lateReader with
           m_picOrderMsb := 0, m_picOrderBase := lateReader.m_frameNum, m_prevPicOrder := 0 }) ∧
    (toFullPicOrder lateReader { isIDR := true, pic_order_cnt_lsb := 0 } 4).2.m_frameNum
      = lateReader.m_frameNum ∧
    (toFullPicOrder lateReader { isIDR := true, pic_order_cnt_lsb := 0 } 4).2.m_fullPicOrder
      = lateReader.m_fullPicOrder ∧
    (toFullPicOrder lateReader { isIDR := true, pic_order_cnt_lsb := 0 } 4).2.m_frameDepth
      = lateReader.m_frameDepth :=
  toFullPicOrder_idr lateReader { isIDR := true, pic_order_cnt_lsb := 0 } 4 rfl

end HEVCStreamReader

/-! ### The stts cursor in `newBufferSize` -/

namespace MovParsedSRTTrackData

/-- C27, as the specification states it, fails: for a sample of two bytes
`newBufferSize` returns 0 from its `size <= 2` branch, which does not put the
cursor back: `sttsPos` has gone from -1 to 0. -/
theorem srt_newBufferSize_moves_cursor :
    newBufferSize sampleFormat 10 oneSecondFramer [0, 0]
      = .ok (0, { oneSecondFramer with sttsPos := 0, sttsCnt := 0, m_timeOffset := 1000 }) ∧
    oneSecondFramer.sttsPos = -1 := by
  decide

/-- C27 (amended): for every sample of more than two bytes and every framer
state in which it returns, `newBufferSize` leaves the stts cursor (`sttsPos`,
`sttsCnt`) exactly as it was before the call; for a sample of at most two bytes
it returns 0 and leaves the cursor where `getSttsVal` moved it, with
`m_timeOffset` advanced by the duration read. -/
theorem srt_newBufferSize_cursor (fmt : Format) (fuel : Nat) (f : Framer) (buff : List Byte)
    (r : Nat) (g : Framer) (h : newBufferSize fmt fuel f buff = .ok (r, g)) :
    (2 < buff.length → g.sttsPos = f.sttsPos ∧ g.sttsCnt = f.sttsCnt) ∧
    (buff.length ≤ 2 → r = 0 ∧
      ∃ d, getSttsVal f = .ok d ∧ g = { d.2 with m_timeOffset := f.m_timeOffset + d.1 }) := by
  unfold newBufferSize at h
  obtain ⟨d, hd, h⟩ := Outcome.bind_eq_ok h
  simp only at h
  constructor
  · intro hlen
    rw [if_neg (by omega)] at h
    obtain ⟨u, hu, h⟩ := Outcome.bind_eq_ok h
    obtain ⟨t, ht, h⟩ := Outcome.bind_eq_ok h
    simp only [Outcome.ok.injEq, Prod.mk.injEq] at h
    rw [← h.2]
    exact ⟨rfl, rfl⟩
  · intro hlen
    rw [if_pos hlen] at h
    simp only [Outcome.ok.injEq, Prod.mk.injEq] at h
    exact ⟨h.1.symm, d, hd, h.2.symm⟩

theorem srt_newBufferSize_cursor_witness :
    (2 < helloSample.length →
      (oneSecondFramer).sttsPos = oneSecondFramer.sttsPos ∧
      (oneSecondFramer).sttsCnt = oneSecondFramer.sttsCnt) ∧
    (helloSample.length ≤ 2 → (49 : Nat) = 0 ∧
      ∃ d, getSttsVal oneSecondFramer = .ok d ∧
        oneSecondFramer = { d.2 with m_timeOffset := oneSecondFramer.m_timeOffset + d.1 }) :=
  srt_newBufferSize_cursor sampleFormat 10 oneSecondFramer helloSample 49 oneSecondFramer
    (by decide)

end MovParsedSRTTrackData

/-! ### The audio sample index in `newBufferSize` -/

namespace MovParsedAudioTrackData

theorem countFrames_index_end (f : Framer) (fuel left i : Nat) (hs : f.sample_size = 0)
    (hl : 4 < left) (hi : f.m_index.length ≤ f.m_indexCur + i) :
    countFrames f (fuel + 1) left i = .thrown := by
  rw [countFrames, if_pos hl, if_pos hs, List.getElem?_eq_none hi]

theorem countFrames_defined (f : Framer) (hs : f.sample_size = 0) :
    ∀ (fuel left i : Nat), f.m_index.length - (f.m_indexCur + i) < fuel →
      countFrames f fuel left i = .thrown ∨ ∃ r, countFrames f fuel left i = .ok r := by
  intro fuel
  induction fuel with
  | zero => intro left i h; omega
  | succ n ih =>
    intro left i h
    rw [countFrames]
    by_cases hl : 4 < left
    · rw [if_pos hl, if_pos hs]
      cases hx : f.m_index[f.m_indexCur + i]? with
      | none => exact Or.inl rfl
      | some s =>
        have hlt : f.m_indexCur + i < f.m_index.length := by
          by_contra hc
          rw [List.getElem?_eq_none (by omega)] at hx
          cases hx
        exact ih _ (i + 1) (by omega)
    · rw [if_neg hl]
      exact Or.inr ⟨_, rfl⟩

theorem countFrames_overlong (f : Framer) (hs : f.sample_size = 0) :
    ∀ (sizes : List Nat) (fuel left i : Nat),
      f.m_index.drop (f.m_indexCur + i) = sizes → sizes.length < fuel →
      sizes.sum + 4 < left → left < 4294967296 →
      countFrames f fuel left i = .thrown := by
  intro sizes
  induction sizes with
  | nil =>
    intro fuel left i hd hf hl _
    obtain ⟨k, rfl⟩ : ∃ k, fuel = k + 1 := ⟨fuel - 1, by simp at hf; omega⟩
    have hlen : f.m_index.length ≤ f.m_indexCur + i := by
      have := congrArg List.length hd
      simp only [List.length_drop, List.length_nil] at this
      omega
    exact countFrames_index_end f k left i hs (by simp at hl; omega) hlen
  | cons x xs ih =>
    intro fuel left i hd hf hl hlt
    obtain ⟨k, rfl⟩ : ∃ k, fuel = k + 1 := ⟨fuel - 1, by simp at hf; omega⟩
    simp only [List.sum_cons, List.length_cons] at hl hf
    have hx : f.m_index[f.m_indexCur + i]? = some x := by
      have := congrArg (fun l => l[0]?) hd
      simpa using this
    have hd2 : f.m_index.drop (f.m_indexCur + (i + 1)) = xs := by
      have := congrArg (List.drop 1) hd
      simpa [List.drop_drop, Nat.add_comm, Nat.add_left_comm, Nat.add_assoc] using this
    rw [countFrames, if_pos (by omega), if_pos hs, hx]
    simp only
    have e : u32 (u32 (left + 4294967296 - u32 f.sample_size) + 4294967296 - u32 x)
        = left - x := by
      simp only [u32, hs]
      omega
    rw [e]
    exact ih k (left - x) (i + 1) hd2 (by omega) (by omega) (by omega)

/-- C26: for an audio track with per-sample sizes (`sample_size = 0`),
`newBufferSize` raises a parse error whenever walking the chunk requires the
size of a sample at or beyond the end of the per-sample index, in particular
for every chunk that is more than 4 bytes longer than the samples left in the
index; it never reads the index out of range (it returns or throws, given one
unit of fuel for each entry left), and it leaves `m_indexCur` unchanged. -/
theorem audio_newBufferSize_index_end (f : Framer) (buff : List Byte) (fuel : Nat)
    (hs : f.sample_size = 0) (hf : f.m_index.length - f.m_indexCur < fuel) :
    (∀ (k left i : Nat), 4 < left → f.m_index.length ≤ f.m_indexCur + i →
      countFrames f (k + 1) left i = .thrown) ∧
    ((f.m_index.drop f.m_indexCur).sum + 4 < buff.length → buff.length < 4294967296 →
      newBufferSize fuel f buff = .thrown) ∧
    (newBufferSize fuel f buff = .thrown ∨ ∃ n, newBufferSize fuel f buff = .ok n) ∧
    (∀ n g, newBufferSizeFramer fuel f buff = .ok (n, g) → g.m_indexCur = f.m_indexCur) := by
  refine ⟨fun k left i hl hi => countFrames_index_end f k left i hs hl hi, ?_, ?_, ?_⟩
  · intro h1 h2
    unfold newBufferSize
    have hu : u32 buff.length = buff.length := by simp only [u32]; omega
    rw [hu, countFrames_overlong f hs (f.m_index.drop f.m_indexCur) fuel buff.length 0 rfl
      (by rw [List.length_drop]; omega) h1 h2]
    rfl
  · unfold newBufferSize
    rcases countFrames_defined f hs fuel (u32 buff.length) 0 (by simpa using hf) with h | ⟨r, h⟩
    · rw [h]; exact Or.inl rfl
    · rw [h, Outcome.bind_ok]
      by_cases h4 : r.1 > 4
      · rw [if_pos h4]; exact Or.inl rfl
      · rw [if_neg h4]; exact Or.inr ⟨_, rfl⟩
  · intro n g h
    unfold newBufferSizeFramer at h
    obtain ⟨m, -, h⟩ := Outcome.bind_eq_ok h
    simp only [Outcome.ok.injEq, Prod.mk.injEq] at h
    rw [← h.2]

theorem audio_newBufferSize_index_end_witness :
    (∀ (k left i : Nat), 4 < left → shortIndexFramer.m_index.length ≤
        shortIndexFramer.m_indexCur + i →
      countFrames shortIndexFramer (k + 1) left i = .thrown) ∧
    ((shortIndexFramer.m_index.drop shortIndexFramer.m_indexCur).sum + 4 < tableChunk.length →
      tableChunk.length < 4294967296 →
      newBufferSize 3 shortIndexFramer tableChunk = .thrown) ∧
    (newBufferSize 3 shortIndexFramer tableChunk = .thrown ∨
      ∃ n, newBufferSize 3 shortIndexFramer tableChunk = .ok n) ∧
    (∀ n g, newBufferSizeFramer 3 shortIndexFramer tableChunk = .ok (n, g) →
      g.m_indexCur = shortIndexFramer.m_indexCur) :=
  audio_newBufferSize_index_end shortIndexFramer tableChunk 3 rfl (by decide)

theorem audio_newBufferSize_index_end_example :
    newBufferSize 3 shortIndexFramer tableChunk = .thrown := by
  decide

end MovParsedAudioTrackData

/-! ### The avcC blob -/

namespace MovParsedH264TrackData

theorem beBytes_two (n : Nat) (h : n < 65536) :
    ∃ a b : Byte, beBytes 2 n = [a, b] ∧ a.val * 256 + b.val = n := by
  refine ⟨⟨n / 256 % 256, Nat.mod_lt _ (by decide)⟩, ⟨n % 256, Nat.mod_lt _ (by decide)⟩, ?_, ?_⟩
  · simp [beBytes]
  · simp only
    omega

theorem readEntries_encoded : ∀ (nals : List (List Byte)) (post : List Byte)
    (list : List (List Byte)), (∀ p ∈ nals, p.length < 65536) →
    readEntries nals.length (lengthPrefixed 2 nals ++ post) list
      = .returns (post, list ++ nals.filter (fun p => decide (p ≠ []))) := by
  intro nals
  induction nals with
  | nil => intro post list _; simp [readEntries, lengthPrefixed, frameWith]
  | cons p ps ih =>
    intro post list hp
    have hlt : p.length < 65536 := hp p (List.mem_cons_self _ _)
    obtain ⟨a, b, hab, hv⟩ := beBytes_two p.length hlt
    have ih2 := fun l => ih post l (fun q hq => hp q (List.mem_cons_of_mem _ hq))
    have e : lengthPrefixed 2 (p :: ps) ++ post
        = a :: b :: (p ++ (lengthPrefixed 2 ps ++ post)) := by
      simp [lengthPrefixed, frameWith, hab]
    rw [e, List.length_cons, readEntries]
    simp only [hv]
    rw [if_neg (by simp)]
    by_cases h0 : p.length > 0
    · rw [if_pos h0, List.drop_left, List.take_left, ih2]
      have hne : p ≠ [] := by intro h; rw [h] at h0; simp at h0
      simp [hne]
    · rw [if_neg h0]
      have he : p = [] := List.length_eq_zero.mp (by omega)
      subst he
      rw [List.nil_append, ih2]
      simp

theorem readEntries_overrun : ∀ (nals : List (List Byte)) (cut : List Byte) (k : Nat)
    (list : List (List Byte)), (∀ p ∈ nals, p.length < 65536) → overruns cut = true →
    ∃ r, readEntries (nals.length + k + 1) (lengthPrefixed 2 nals ++ cut) list = .throws r ∧
      r.2 = list ++ nals.filter (fun p => decide (p ≠ [])) := by
  intro nals
  induction nals with
  | nil =>
    intro cut k list _ hc
    simp only [List.length_nil, Nat.zero_add, lengthPrefixed, frameWith, List.nil_append,
      List.filter_nil, List.append_nil]
    cases cut with
    | nil => exact ⟨_, rfl, rfl⟩
    | cons a t =>
      cases t with
      | nil => exact ⟨_, rfl, rfl⟩
      | cons b rest =>
        simp only [overruns, decide_eq_true_eq] at hc
        rw [readEntries]
        simp only [gt_iff_lt]
        rw [if_pos hc]
        exact ⟨_, rfl, rfl⟩
  | cons p ps ih =>
    intro cut k list hp hc
    have hlt : p.length < 65536 := hp p (List.mem_cons_self _ _)
    obtain ⟨a, b, hab, hv⟩ := beBytes_two p.length hlt
    have ih2 := fun l => ih cut k l (fun q hq => hp q (List.mem_cons_of_mem _ hq)) hc
    have e : lengthPrefixed 2 (p :: ps) ++ cut
        = a :: b :: (p ++ (lengthPrefixed 2 ps ++ cut)) := by
      simp [lengthPrefixed, frameWith, hab]
    have en : (p :: ps).length + k + 1 = (ps.length + k + 1) + 1 := by
      simp only [List.length_cons]; omega
    rw [e, en, readEntries]
    simp only [hv]
    rw [if_neg (by simp)]
    by_cases h0 : p.length > 0
    · rw [if_pos h0, List.drop_left, List.take_left]
      obtain ⟨r, hr, hr2⟩ := ih2 (list ++ [p])
      have hne : p ≠ [] := by intro h; rw [h] at h0; simp at h0
      exact ⟨r, hr, by rw [hr2]; simp [hne]⟩
    · rw [if_neg h0]
      have he : p = [] := List.length_eq_zero.mp (by omega)
      subst he
      rw [List.nil_append]
      obtain ⟨r, hr, hr2⟩ := ih2 list
      exact ⟨r, hr, by rw [hr2]; simp⟩

theorem setPrivData_header (f : Framer) (h0 h1 h2 h3 h4 c5 : Byte) (rest : List Byte)
    (hc : c5.val % 32 ≠ 0) :
    setPrivData f (h0 :: h1 :: h2 :: h3 :: h4 :: c5 :: rest)
      = match readEntries (c5.val % 32) rest [] with
        | .throws r => .throws { nal_length_size := h4.val % 4 + 1, spsPpsList := r.2 }
        | .undefined => .undefined
        | .returns r =>
          match r.1 with
          | [] => .undefined
          | ppsCnt :: src =>
            match readEntries ppsCnt.val src r.2 with
            | .throws q => .throws { nal_length_size := h4.val % 4 + 1, spsPpsList := q.2 }
            | .undefined => .undefined
            | .returns q => .returns { nal_length_size := h4.val % 4 + 1, spsPpsList := q.2 } := by
  unfold setPrivData
  simp [hc]

/-- C25, as the specification states it, fails for a blob without SPS entries:
`setPrivData` returns at `if (spsCnt == 0) return;` and the PPS `68` that
follows is not cached. -/
theorem setPrivData_no_sps :
    noSpsBlob = [1, 100, 0, 30, 0xff, 0xe0] ++ lengthPrefixed 2 []
      ++ 1 :: (lengthPrefixed 2 [[0x68]] ++ []) ∧
    setPrivData sampleFramer noSpsBlob = .returns { nal_length_size := 4, spsPpsList := [] } ∧
    ([] ++ [[(0x68 : Byte)]]).filter (fun p => decide (p ≠ [])) ≠ [] := by
  decide

/-- C25 (amended): for every avcC blob of at least 6 bytes holding m ≥ 1
length-prefixed SPS entries followed by a count byte and n length-prefixed PPS
entries that all fit in the blob, `setPrivData` sets `nal_length_size` to
(byte 4 & 3) + 1 and caches exactly the non-empty SPS NALs followed by the
non-empty PPS NALs, in blob order; a blob shorter than 6 bytes, or an SPS or
PPS entry that overruns the blob, raises a parse error. -/
theorem setPrivData_avcC (f : Framer) (h0 h1 h2 h3 h4 c5 n : Byte)
    (sps pps : List (List Byte)) (post : List Byte)
    (hm : c5.val % 32 = sps.length) (hm1 : 1 ≤ sps.length) (hn : n.val = pps.length)
    (hs : ∀ p ∈ sps, p.length < 65536) (hp : ∀ p ∈ pps, p.length < 65536) :
    setPrivData f
        ([h0, h1, h2, h3, h4, c5] ++ lengthPrefixed 2 sps ++ n :: (lengthPrefixed 2 pps ++ post))
      = .returns { nal_length_size := h4.val % 4 + 1,
                   spsPpsList := (sps ++ pps).filter (fun p => decide (p ≠ [])) } ∧
    (∀ blob : List Byte, blob.length < 6 →
      setPrivData f blob = .throws { f with spsPpsList := [] }) ∧
    (∀ (done : List (List Byte)) (cut : List Byte), done.length < sps.length →
      (∀ p ∈ done, p.length < 65536) → overruns cut = true →
      ∃ g, setPrivData f ([h0, h1, h2, h3, h4, c5] ++ lengthPrefixed 2 done ++ cut)
        = .throws g) ∧
    (∀ (done : List (List Byte)) (cut : List Byte), done.length < pps.length →
      (∀ p ∈ done, p.length < 65536) → overruns cut = true →
      ∃ g, setPrivData f
          ([h0, h1, h2, h3, h4, c5] ++ lengthPrefixed 2 sps
            ++ n :: (lengthPrefixed 2 done ++ cut))
        = .throws g) := by
  have hc : c5.val % 32 ≠ 0 := by omega
  refine ⟨?_, ?_, ?_, ?_⟩
  · have e : [h0, h1, h2, h3, h4, c5] ++ lengthPrefixed 2 sps
          ++ n :: (lengthPrefixed 2 pps ++ post)
        = h0 :: h1 :: h2 :: h3 :: h4 :: c5
            :: (lengthPrefixed 2 sps ++ n :: (lengthPrefixed 2 pps ++ post)) := by simp
    rw [e, setPrivData_header f h0 h1 h2 h3 h4 c5 _ hc, hm,
      readEntries_encoded sps _ [] hs]
    simp only
    rw [hn, readEntries_encoded pps post _ hp]
    simp
  · intro blob hb
    unfold setPrivData
    simp [hb]
  · intro done cut hd hdone hcut
    have e : [h0, h1, h2, h3, h4, c5] ++ lengthPrefixed 2 done ++ cut
        = h0 :: h1 :: h2 :: h3 :: h4 :: c5 :: (lengthPrefixed 2 done ++ cut) := by simp
    obtain ⟨k, hk⟩ : ∃ k, sps.length = done.length + k + 1 :=
      ⟨sps.length - done.length - 1, by omega⟩
    obtain ⟨r, hr, -⟩ := readEntries_overrun done cut k [] hdone hcut
    rw [e, setPrivData_header f h0 h1 h2 h3 h4 c5 _ hc, hm, hk, hr]
    exact ⟨_, rfl⟩
  · intro done cut hd hdone hcut
    have e : [h0, h1, h2, h3, h4, c5] ++ lengthPrefixed 2 sps
          ++ n :: (lengthPrefixed 2 done ++ cut)
        = h0 :: h1 :: h2 :: h3 :: h4 :: c5
            :: (lengthPrefixed 2 sps ++ n :: (lengthPrefixed 2 done ++ cut)) := by simp
    obtain ⟨k, hk⟩ : ∃ k, pps.length = done.length + k + 1 :=
      ⟨pps.length - done.length - 1, by omega⟩
    obtain ⟨r, hr, -⟩ := readEntries_overrun done cut k
      ([] ++ sps.filter (fun p => decide (p ≠ []))) hdone hcut
    rw [e, setPrivData_header f h0 h1 h2 h3 h4 c5 _ hc, hm,
      readEntries_encoded sps _ [] hs]
    simp only
    rw [hn, hk, hr]
    exact ⟨_, rfl⟩

theorem setPrivData_avcC_witness :
    setPrivData sampleFramer avcCBlob
      = .returns { nal_length_size := 2, spsPpsList := [[0x67, 0x42], [0x68]] } := by
  have h := (setPrivData_avcC sampleFramer 1 100 0 30 0xfd 0xe1 1 [[0x67, 0x42]] [[0x68]] []
    (by decide) (by decide) (by decide) (by decide) (by decide)).1
  exact h

end MovParsedH264TrackData

/-! ### Rewriting the VPS -/

namespace HEVCStreamReader

/-- C21: `updateStreamFps`, replacing a VPS NAL of o bytes at [buff, nextNal)
by a serialised VPS of n bytes, sets `m_vpsSizeDiff` to n - o (0 when equal),
moves `m_bufEnd` by n - o, leaves every byte before `buff` unchanged, puts the
n new bytes at `buff` and the bytes formerly in [nextNal, m_bufEnd) immediately
after them in the same order; and when `m_bufEnd` + (n - o) would pass the end
of the working buffer it raises an error without moving any buffer data. -/
theorem updateStreamFps_replaces (W : VpsWriter) (tmpEnd : Int) (st : Decoder)
    (vps : HevcVpsUnit) (bytes : List Byte) (buff nextNal : Nat)
    (hv : st.m_vps = some vps) (hser : W.serializeBuffer (W.setFPS vps) = some bytes)
    (hb : buff ≤ nextNal) (hn : nextNal ≤ st.m_buffer.length)
    (hinv : (st.m_buffer.length : Int) ≤ tmpEnd) :
    ((st.m_buffer.length : Int) + ((bytes.length : Int) - ((nextNal : Int) - buff)) ≤ tmpEnd →
      ∃ st1, updateStreamFps W tmpEnd st buff nextNal = .returns st1 ∧
        st1.m_vpsSizeDiff = (bytes.length : Int) - ((nextNal : Int) - buff) ∧
        (st1.m_buffer.length : Int)
          = st.m_buffer.length + ((bytes.length : Int) - ((nextNal : Int) - buff)) ∧
        st1.m_buffer = st.m_buffer.take buff ++ bytes ++ st.m_buffer.drop nextNal) ∧
    (tmpEnd < (st.m_buffer.length : Int) + ((bytes.length : Int) - ((nextNal : Int) - buff)) →
      ∃ st1, updateStreamFps W tmpEnd st buff nextNal = .throws st1 ∧
        st1.m_buffer = st.m_buffer) := by
  have hpre : ¬ (nextNal < buff ∨ st.m_buffer.length < nextNal) := by omega
  by_cases heq : (bytes.length : Int) = (nextNal : Int) - buff
  · have hN : buff + bytes.length = nextNal := by omega
    have hrun : updateStreamFps W tmpEnd st buff nextNal
        = .returns { st with
            m_vpsSizeDiff := 0
            m_vps := some (W.setFPS vps)
            m_buffer := st.m_buffer.take buff ++ bytes
              ++ st.m_buffer.drop (buff + bytes.length) } := by
      unfold updateStreamFps
      rw [hv]
      simp only [if_neg hpre, hser]
      rw [if_neg (by simpa using heq)]
    constructor
    · intro _
      refine ⟨_, hrun, ?_, ?_, ?_⟩
      · simp only
        omega
      · simp only [List.length_append, List.length_take, List.length_drop]
        omega
      · simp only [hN]
    · intro h
      omega
  · constructor
    · intro hfit
      have hrun : updateStreamFps W tmpEnd st buff nextNal
          = .returns { st with
              m_vpsSizeDiff := (bytes.length : Int) - ((nextNal : Int) - buff)
              m_vps := some (W.setFPS vps)
              m_buffer :=
                (((st.m_buffer ++ List.replicate bytes.length 0).take
                    ((nextNal : Int) + ((bytes.length : Int) - ((nextNal : Int) - buff))).toNat
                  ++ st.m_buffer.drop nextNal).take buff ++ bytes
                ++ ((st.m_buffer ++ List.replicate bytes.length 0).take
                    ((nextNal : Int) + ((bytes.length : Int) - ((nextNal : Int) - buff))).toNat
                  ++ st.m_buffer.drop nextNal).drop (buff + bytes.length)) } := by
        unfold updateStreamFps
        rw [hv]
        simp only [if_neg hpre, hser]
        rw [if_pos (by simpa using heq), if_neg (by omega)]
      have e1 : ((nextNal : Int) + ((bytes.length : Int) - ((nextNal : Int) - buff))).toNat
          = buff + bytes.length := by omega
      have hlen : ((st.m_buffer ++ List.replicate bytes.length 0).take
          (buff + bytes.length)).length = buff + bytes.length := by
        rw [List.length_take, List.length_append, List.length_replicate]
        omega
      have hbuf : (((st.m_buffer ++ List.replicate bytes.length 0).take
                    ((nextNal : Int) + ((bytes.length : Int) - ((nextNal : Int) - buff))).toNat
                  ++ st.m_buffer.drop nextNal).take buff ++ bytes
                ++ ((st.m_buffer ++ List.replicate bytes.length 0).take
                    ((nextNal : Int) + ((bytes.length : Int) - ((nextNal : Int) - buff))).toNat
                  ++ st.m_buffer.drop nextNal).drop (buff + bytes.length))
          = st.m_buffer.take buff ++ bytes ++ st.m_buffer.drop nextNal := by
        rw [e1, List.drop_left' hlen, List.take_append_of_le_length (by omega),
          List.take_take, Nat.min_eq_left (by omega),
          List.take_append_of_le_length (by omega)]
      rw [hbuf] at hrun
      refine ⟨_, hrun, rfl, ?_, rfl⟩
      simp only [List.length_append, List.length_take, List.length_drop]
      omega
    · intro hover
      have hrun : updateStreamFps W tmpEnd st buff nextNal
          = .throws { st with
              m_vpsSizeDiff := (bytes.length : Int) - ((nextNal : Int) - buff)
              m_vps := some (W.setFPS vps) } := by
        unfold updateStreamFps
        rw [hv]
        simp only [if_neg hpre, hser]
        rw [if_pos (by simpa using heq), if_pos (by omega)]
      exact ⟨_, hrun, rfl⟩

theorem updateStreamFps_replaces_witness :
    ((36 : Int) + ((6 : Int) - ((8 : Int) - 4)) ≤ 100 →
      ∃ st1, updateStreamFps sampleWriter 100
          (sampleDecoder paramSetsBuffer 1920 1080 none noFlags) 4 8 = .returns st1 ∧
        st1.m_vpsSizeDiff = (6 : Int) - ((8 : Int) - 4) ∧
        (st1.m_buffer.length : Int) = 36 + ((6 : Int) - ((8 : Int) - 4)) ∧
        st1.m_buffer = paramSetsBuffer.take 4 ++ [0x40, 0x01, 0x0c, 0x01, 0xff, 0xff]
          ++ paramSetsBuffer.drop 8) ∧
    ((100 : Int) < 36 + ((6 : Int) - ((8 : Int) - 4)) →
      ∃ st1, updateStreamFps sampleWriter 100
          (sampleDecoder paramSetsBuffer 1920 1080 none noFlags) 4 8 = .throws st1 ∧
        st1.m_buffer = paramSetsBuffer) :=
  updateStreamFps_replaces sampleWriter 100
    (sampleDecoder paramSetsBuffer 1920 1080 none noFlags)
    { vps_id := 0, num_units_in_tick := 0 } [0x40, 0x01, 0x0c, 0x01, 0xff, 0xff] 4 8
    rfl rfl (by decide) (by decide) (by decide)

end HEVCStreamReader

/-! ### Box readers and block demultiplexing -/

namespace MovDemuxer

/-- C24, as the specification states it, fails: on a track whose blob is `01`
the handler run on a box with payload `02 03` leaves the blob `02 03`, not
`01 02 03`. -/
theorem mov_read_glbl_not_appended :
    mov_read_glbl noExtractors { type := MKTAG 97 118 99 67, offset := 0, size := 2 }
        (contextOf [blobTrack [1]] [2, 3])
      = .ok (0, { contextOf [blobTrack [2, 3]] [] with
                  io := { input := [], m_processedBytes := 2, m_isEOF := false } }) ∧
    (blobTrack [2, 3]).codec_priv ≠ (blobTrack [1]).codec_priv ++ [2, 3] := by
  decide

/-- C24 (amended): when the handler for an avcC, hvcC, mvcC or glbl box with
payload P (of at most 2^30 bytes) runs on a track whose codec-private blob is
B, the track's blob afterwards is P, the blob B being dropped, and the track's
framer (if any) receives `setPrivData` with that new blob. -/
theorem mov_read_glbl_replaces (X : Extractors) (atom : MOVAtom) (c : Context) (st : Track)
    (P rest : List Byte) (hst : c.tracks.getLast? = some st) (hsize : atom.size = P.length)
    (hmax : P.length ≤ 1073741824) (hin : c.io.input = P ++ rest) :
    (st.parsed_priv_data = none →
      mov_read_glbl X atom c
        = .ok (0, { c with
                    io := { c.io with
                            input := rest
                            m_processedBytes := c.io.m_processedBytes + P.length }
                    tracks := c.tracks.dropLast ++ [{ st with codec_priv := P }] })) ∧
    (∀ p p1, st.parsed_priv_data = some p → p.setPrivData X P = .ok p1 →
      mov_read_glbl X atom c
        = .ok (0, { c with
                    io := { c.io with
                            input := rest
                            m_processedBytes := c.io.m_processedBytes + P.length }
                    tracks := c.tracks.dropLast
                      ++ [{ st with codec_priv := P, parsed_priv_data := some p1 }] })) := by
  have hg : get_buffer c.io atom.size.toNat
      = .ok (P, { c.io with
                  input := rest
                  m_processedBytes := c.io.m_processedBytes + P.length }) := by
    unfold get_buffer
    rw [hsize, Int.toNat_ofNat, hin]
    simp
  have hs : ¬ (atom.size < 0 ∨ atom.size > 1073741824) := by omega
  constructor
  · intro hp
    unfold mov_read_glbl
    rw [if_neg hs, hst]
    simp only [hg, Outcome.bind_ok, hp]
  · intro p p1 hp hset
    unfold mov_read_glbl
    rw [if_neg hs, hst]
    simp only [hg, Outcome.bind_ok, hp, hset]

theorem mov_read_glbl_replaces_witness :
    mov_read_glbl noExtractors { type := MKTAG 97 118 99 67, offset := 0, size := 14 }
        (contextOf [{ blobTrack [9] with
                      parsed_priv_data := some (.h264 MovParsedH264TrackData.sampleFramer) }]
          (MovParsedH264TrackData.avcCBlob ++ [7]))
      = .ok (0, { contextOf [{ blobTrack [9] with
                      parsed_priv_data := some (.h264 MovParsedH264TrackData.sampleFramer) }]
                    (MovParsedH264TrackData.avcCBlob ++ [7]) with
                  io := { input := [7], m_processedBytes := 0 + 14, m_isEOF := false }
                  tracks := [] ++ [{ blobTrack MovParsedH264TrackData.avcCBlob with
                    parsed_priv_data := some (.h264
                      { nal_length_size := 2, spsPpsList := [[0x67, 0x42], [0x68]] }) }] }) :=
  (mov_read_glbl_replaces noExtractors { type := MKTAG 97 118 99 67, offset := 0, size := 14 }
    (contextOf [{ blobTrack [9] with
                  parsed_priv_data := some (.h264 MovParsedH264TrackData.sampleFramer) }]
      (MovParsedH264TrackData.avcCBlob ++ [7]))
    { blobTrack [9] with parsed_priv_data := some (.h264 MovParsedH264TrackData.sampleFramer) }
    MovParsedH264TrackData.avcCBlob [7] rfl rfl (by decide) rfl).2
    (.h264 MovParsedH264TrackData.sampleFramer)
    (.h264 { nal_length_size := 2, spsPpsList := [[0x67, 0x42], [0x68]] }) rfl (by decide)

/-- C30 fails in the code: on a track for which a `ctts` box with the entries
(3, 10) and (2, 20) was read, a `trun` box with one composition offset 5 leaves
the table (1, 5), (2, 20), (0, 0): the new entry is written at index
`ctts_count`, which the `ctts` reader has reset to 0, and not at the end. -/
theorem mov_read_trun_after_ctts :
    (mov_read_ctts (contextOf [blobTrack []] (cttsPayload ++ trunPayload))).bind
        (fun r => (mov_read_trun r.2).bind
          fun q => .ok (q.1, q.2.tracks.map fun t => (t.ctts_data, t.chunk_offsets)))
      = .ok (0, [([{ count := 1, duration := 5 }, { count := 2, duration := 20 },
                   { count := 0, duration := 0 }], [1000])]) ∧
    (mov_read_ctts (contextOf [blobTrack []] (cttsPayload ++ trunPayload))).bind
        (fun r => .ok (r.2.tracks.map fun t => (t.ctts_data, t.ctts_count)))
      = .ok [([{ count := 3, duration := 10 }, { count := 2, duration := 20 }], 0)] := by
  decide

/-- C22, as the specification states it, fails: in a parent box that holds a
`trun` box whose handler returns -1 and then an `mdat` box, `mov_read_default`
skips the rest of the `trun` box and returns -1; the `mdat` box is left unread
and is not handed to its handler (`m_mdat_data` stays empty), whereas it is
when the `trun` handler returns 0. -/
theorem mov_read_default_stops_on_error :
    (mov_read_default (sampleParseTableEntry noExtractors) 5
        { type := 0, offset := 0, size := 36 } noTrackContext).bind
        (fun r => .ok (r.1, r.2.m_mdat_data, r.2.io.input))
      = .ok (-1, [], [0, 0, 0, 16, 109, 100, 97, 116, 1, 2, 3, 4, 5, 6, 7, 8]) ∧
    (mov_read_default (sampleParseTableEntry noExtractors) 5
        { type := 0, offset := 0, size := 36 } (contextOf [blobTrack []] trunThenMdat)).bind
        (fun r => .ok (r.1, r.2.m_mdat_data, r.2.io.input))
      = .ok (0, [(28, 8)], []) := by
  decide

/-- C22 (amended): in `mov_read_default`, when the handler of a child box
returns a non-zero error code: if the test made after every box (line 979)
holds, that is, in a file without fragments the media data and the `moov` box
have both been found, or in a file with fragments the box ends at or past the
end of the file, the function returns 0 at once; otherwise the remaining bytes
of that box are skipped, the loop ends without any later sibling being handed
to a handler, and the error code is returned. -/
theorem mov_read_default_error (H : MOVAtom → Context → Outcome (Int × Context))
    (atom_size : Int) (fuel : Nat) (total_size a_offset : Int) (c : Context) (a : MOVAtom)
    (total1 : Int) (io1 : IOContext) (e : Int) (c2 : Context)
    (hloop : total_size + 8 < atom_size) (heof : c.io.m_isEOF = false)
    (hhdr : readBoxHeader atom_size total_size a_offset c.io = .ok (some a, total1, io1))
    (hH : H a { c with io := io1 } = .ok (e, c2)) (he : e ≠ 0) :
    (stopsAtMedia c2 (a.size - c2.io.m_processedBytes + io1.m_processedBytes) = true →
      readBoxes H atom_size (fuel + 2) total_size a_offset 0 c = .ok (0, c2)) ∧
    (stopsAtMedia c2 (a.size - c2.io.m_processedBytes + io1.m_processedBytes) = false →
      ∀ io3, skip_bytes c2.io (a.size - c2.io.m_processedBytes + io1.m_processedBytes)
          = .ok io3 →
        readBoxes H atom_size (fuel + 2) total_size a_offset 0 c
          = .ok (e, { c2 with io := io3 })) := by
  constructor
  · intro hstop
    rw [readBoxes, if_pos ⟨hloop, heof, rfl⟩, hhdr, Outcome.bind_ok]
    simp only [hH, Outcome.bind_ok, hstop, if_true]
  · intro hstop io3 hskip
    rw [readBoxes, if_pos ⟨hloop, heof, rfl⟩, hhdr, Outcome.bind_ok]
    simp only [hH, Outcome.bind_ok, hstop, hskip]
    rw [readBoxes]
    simp [finishBoxes, he]

theorem mov_read_default_error_witness :
    (stopsAtMedia
        { noTrackContext with
          io := { input := trunPayload
                    ++ [0, 0, 0, 16, 109, 100, 97, 116, 1, 2, 3, 4, 5, 6, 7, 8],
                  m_processedBytes := 8, m_isEOF := false } }
        (12 - 8 + 8) = true →
      readBoxes (sampleParseTableEntry noExtractors) 36 (3 + 2) 0 0 0 noTrackContext
        = .ok (0, { noTrackContext with
                    io := { input := trunPayload
                              ++ [0, 0, 0, 16, 109, 100, 97, 116, 1, 2, 3, 4, 5, 6, 7, 8],
                            m_processedBytes := 8, m_isEOF := false } })) ∧
    (stopsAtMedia
        { noTrackContext with
          io := { input := trunPayload
                    ++ [0, 0, 0, 16, 109, 100, 97, 116, 1, 2, 3, 4, 5, 6, 7, 8],
                  m_processedBytes := 8, m_isEOF := false } }
        (12 - 8 + 8) = false →
      ∀ io3,
        skip_bytes
            { input := trunPayload ++ [0, 0, 0, 16, 109, 100, 97, 116, 1, 2, 3, 4, 5, 6, 7, 8],
              m_processedBytes := 8, m_isEOF := false }
            (12 - 8 + 8) = .ok io3 →
        readBoxes (sampleParseTableEntry noExtractors) 36 (3 + 2) 0 0 0 noTrackContext
          = .ok (-1, { noTrackContext with io := io3 })) :=
  mov_read_default_error (sampleParseTableEntry noExtractors) 36 3 0 0 noTrackContext
    { type := MKTAG 116 114 117 110, offset := 8, size := 12 } 8
    { input := trunPayload ++ [0, 0, 0, 16, 109, 100, 97, 116, 1, 2, 3, 4, 5, 6, 7, 8],
      m_processedBytes := 8, m_isEOF := false }
    (-1)
    { noTrackContext with
      io := { input := trunPayload ++ [0, 0, 0, 16, 109, 100, 97, 116, 1, 2, 3, 4, 5, 6, 7, 8],
              m_processedBytes := 8, m_isEOF := false } }
    (by decide) rfl (by decide) (by decide) (by decide)

/-- The two outcomes of `mov_read_default_error` on the parent box of 36 bytes
that holds a `trun` box whose handler returns -1 and then an `mdat` box: with
nothing found yet the rest of the `trun` box is skipped and -1 is returned with
the `mdat` box unread; in a file without fragments whose `moov` box and media
data have been found, 0 is returned with the payload of the `trun` box
unread. -/
theorem mov_read_default_error_example :
    (mov_read_default (sampleParseTableEntry noExtractors) 5
        { type := 0, offset := 0, size := 36 } noTrackContext).bind
        (fun r => Outcome.ok (r.1, r.2.io.input))
      = Outcome.ok ((-1 : Int),
          ([0, 0, 0, 16, 109, 100, 97, 116, 1, 2, 3, 4, 5, 6, 7, 8] : List Byte)) ∧
    (mov_read_default (sampleParseTableEntry noExtractors) 5
        { type := 0, offset := 0, size := 36 }
        { noTrackContext with found_moov := true, m_mdat_pos := 40 }).bind
        (fun r => Outcome.ok (r.1, r.2.io.input))
      = Outcome.ok ((0 : Int),
          trunPayload
            ++ ([0, 0, 0, 16, 109, 100, 97, 116, 1, 2, 3, 4, 5, 6, 7, 8] : List Byte)) := by
  refine ⟨by decide, by decide⟩

theorem demuxLoop_beyond_mdat (E : BlockEnv) (startPos : Int) (fuel : Nat) (d : Int)
    (out : List (Nat × List Byte)) (c : Context) (h : c.m_mdat_data.length ≤ c.m_curChunk) :
    demuxLoop E startPos (fuel + 1) d out c = .ok (d, out, c) := by
  rw [demuxLoop, if_neg]
  intro hc
  omega

/-- C23 fails in the code: for a non-fragmented file with one `mdat` box and
two chunks in the index, whose reads succeed and whose block size (1000) is far
from reached, the first call of `simpleDemuxBlock` delivers chunk 0 only, 5
bytes, because the loop also requires `m_curChunk < m_mdat_data.size()`; the
next call delivers nothing and returns `DATA_EOF` with chunk 1 never
processed. -/
theorem simpleDemuxBlock_leaves_chunks :
    twoChunkContext.found_moof = false ∧ twoChunkContext.chunks.length = 2 ∧
    (simpleDemuxBlock sampleBlockEnv 10 twoChunkContext).bind
        (fun r => Outcome.ok (r.rez, r.delivered, r.c.m_curChunk, r.c.io.input))
      = Outcome.ok (BlockRez.zero, [((0 : Nat), ([1, 2, 3, 4, 5] : List Byte))], (1 : Nat),
          ([6, 7, 8] : List Byte)) ∧
    (simpleDemuxBlock sampleBlockEnv 10 twoChunkContext).bind
        (fun r => (simpleDemuxBlock sampleBlockEnv 10 r.c).bind
          fun q => Outcome.ok (q.rez, q.delivered, q.c.m_curChunk, q.c.io.input))
      = Outcome.ok (BlockRez.DATA_EOF, ([] : List (Nat × List Byte)), (1 : Nat),
          ([6, 7, 8] : List Byte)) := by
  refine ⟨by decide, by decide, by decide, by decide⟩

end MovDemuxer

/-! ### Stored parameter sets -/

namespace HEVCStreamReader

theorem rdropWhile_split (p : Byte → Bool) (l : List Byte) :
    ∃ zs, l = l.rdropWhile p ++ zs ∧ ∀ x ∈ zs, p x = true := by
  refine ⟨(l.reverse.takeWhile p).reverse, ?_, ?_⟩
  · have h := List.takeWhile_append_dropWhile p l.reverse
    have h2 := congrArg List.reverse h
    rw [List.reverse_append, List.reverse_reverse] at h2
    exact h2.symm
  · intro x hx
    exact List.mem_takeWhile_imp (List.mem_reverse.mp hx)

theorem storeBuffer_kept (dst data : List Byte) :
    storeBuffer dst data
      = if (data.dropLast.rdropWhile fun b => decide (b = 0)) = [] then dst
        else data.dropLast.rdropWhile fun b => decide (b = 0) := by
  unfold storeBuffer List.rdropWhile
  simp only [List.isEmpty_eq_true]

theorem trimEnd_take (data : List Byte) :
    ∀ e, e ≤ data.length →
      data.take (trimEnd data e) = (data.take e).rdropWhile fun b => decide (b = 0) := by
  intro e
  induction e with
  | zero => intro _; simp [trimEnd]
  | succ e ih =>
    intro he
    have hlt : e < data.length := by omega
    have ht : data.take (e + 1) = data.take e ++ [data[e]] := by
      rw [List.take_succ, List.getElem?_eq_getElem hlt]; rfl
    rw [trimEnd, List.getElem?_eq_getElem hlt, ht, List.rdropWhile_concat]
    by_cases hz : data[e] = 0
    · simp only [hz, decide_True, if_true]
      exact ih (by omega)
    · have h1 : ¬ (some data[e] = some (0 : Byte)) := by simpa using hz
      rw [if_neg h1]
      simp only [hz, decide_False, Bool.false_eq_true, if_false]
      exact ht

theorem trimEnd_le (data : List Byte) : ∀ e, trimEnd data e ≤ e := by
  intro e
  induction e with
  | zero => simp [trimEnd]
  | succ e ih =>
    rw [trimEnd]
    split_ifs
    · omega
    · exact le_refl _

theorem storeBuffer_eq_loop (dst data : List Byte) :
    storeBuffer dst data = storeBufferLoop dst data := by
  rw [storeBuffer_kept]
  unfold storeBufferLoop
  simp only
  have h := trimEnd_take data (data.length - 1) (by omega)
  rw [← List.dropLast_eq_take] at h
  rw [← h]
  have hle := trimEnd_le data (data.length - 1)
  by_cases hk : trimEnd data (data.length - 1) = 0
  · rw [hk]; simp
  · have hpos : trimEnd data (data.length - 1) > 0 := by omega
    rw [if_pos hpos, if_neg]
    intro hnil
    have := congrArg List.length hnil
    rw [List.length_take] at this
    simp only [List.length_nil] at this
    omega

/-- C40: `storeBuffer(dst, data, dataEnd)` on an input span of n bytes stores
the prefix `data[0..k)` where k is the largest value ≤ n - 1 with k = 0 or
`data[k-1]` non-zero: the stored block is a proper prefix of the input that
never contains the input's last byte and whose own last byte is non-zero; when
k = 0 the destination block is left unchanged. -/
theorem storeBuffer_prefix (dst data : List Byte) :
    ∃ k, k ≤ data.length - 1 ∧ (k = 0 ∨ ∃ b, data[k - 1]? = some b ∧ b ≠ 0) ∧
      (∀ j, k < j → j ≤ data.length - 1 → data[j - 1]? = some 0) ∧
      storeBuffer dst data = (if k = 0 then dst else data.take k) ∧
      (0 < k → k < data.length ∧ (data.take k).length = k ∧
        ∃ b, (data.take k).getLast? = some b ∧ b ≠ 0) := by
  obtain ⟨zs, hsplit, hzs⟩ := rdropWhile_split (fun b => decide (b = 0)) data.dropLast
  generalize hkept : (data.dropLast.rdropWhile fun b => decide (b = 0)) = kept at hsplit
  have hlen : data.dropLast.length = data.length - 1 := List.length_dropLast data
  have hkl : kept.length + zs.length = data.length - 1 := by
    rw [← hlen, hsplit, List.length_append]
  obtain ⟨tl, htl⟩ : ∃ tl, data = kept ++ (zs ++ tl) := by
    obtain ⟨t, ht⟩ := List.dropLast_prefix data
    refine ⟨t, ?_⟩
    rw [← List.append_assoc, ← hsplit, ht]
  have htake : data.take kept.length = kept := by
    rw [htl, List.take_left]
  have hlast : kept ≠ [] → ∃ b, kept.getLast? = some b ∧ b ≠ 0 := by
    intro hne
    have hne2 : (data.dropLast.rdropWhile fun b => decide (b = 0)) ≠ [] := by rw [hkept]; exact hne
    have h := List.rdropWhile_last_not (fun b => decide (b = 0)) data.dropLast hne2
    refine ⟨kept.getLast hne, List.getLast?_eq_getLast _ hne, ?_⟩
    subst hkept
    simpa using h
  refine ⟨kept.length, by omega, ?_, ?_, ?_, ?_⟩
  · by_cases hne : kept = []
    · left; rw [hne]; rfl
    · right
      obtain ⟨b, hb, hb0⟩ := hlast hne
      refine ⟨b, ?_, hb0⟩
      have hpos : 0 < kept.length := List.length_pos.mpr hne
      rw [htl, List.getElem?_append_left (by omega), ← hb, List.getLast?_eq_getElem?]
  · intro j hj1 hj2
    have hi : j - 1 - kept.length < zs.length := by omega
    rw [htl, List.getElem?_append_right (by omega), List.getElem?_append_left hi,
      List.getElem?_eq_getElem hi]
    have := hzs _ (List.getElem_mem hi)
    simpa using this
  · rw [storeBuffer_kept, hkept, htake]
    by_cases hne : kept = []
    · simp [hne]
    · rw [if_neg hne, if_neg]
      intro h0
      exact hne (List.length_eq_zero.mp h0)
  · intro hpos
    have hne : kept ≠ [] := List.length_pos.mp hpos
    refine ⟨by omega, by rw [htake], ?_⟩
    rw [htake]
    exact hlast hne

end HEVCStreamReader

/-! ### The NAL length size of the AVC framer -/

namespace MovParsedH264TrackData

theorem setPrivData_nal_length_size (f g : Framer) (buff : List Byte)
    (h : setPrivData f buff = .returns g ∨ setPrivData f buff = .throws g) :
    g.nal_length_size = f.nal_length_size ∨
      (1 ≤ g.nal_length_size ∧ g.nal_length_size ≤ 4) := by
  have key : ∀ e : Ends Framer, setPrivData f buff = e → ∀ g, (e = .returns g ∨ e = .throws g) →
      g.nal_length_size = f.nal_length_size ∨
        (1 ≤ g.nal_length_size ∧ g.nal_length_size ≤ 4) := by
    intro e he g hg
    unfold setPrivData at he
    simp only at he
    repeat' split at he
    all_goals subst he
    all_goals rcases hg with hg | hg
    all_goals first
      | (cases hg; done)
      | (cases hg; left; rfl)
      | (cases hg; right; constructor <;> (simp only; omega))
  rcases h with h | h
  · exact key _ h g (Or.inl rfl)
  · exact key _ h g (Or.inr rfl)

/-- C35: for the AVC framer, `nal_length_size` is in 1..4 in every reachable
state (after construction and after any `setPrivData` call, whether it returns
or raises), so the unsupported-length error branch of `getNalSize` is not
taken. -/
theorem nal_length_size_reachable (f : Framer) (h : Reachable f) :
    (1 ≤ f.nal_length_size ∧ f.nal_length_size ≤ 4) ∧
      ∀ buff : List Byte, getNalSize f.nal_length_size buff ≠ .thrown := by
  have hr : 1 ≤ f.nal_length_size ∧ f.nal_length_size ≤ 4 := by
    induction h with
    | fresh => exact ⟨by decide, by decide⟩
    | returned f g buff _ hs ih =>
      rcases setPrivData_nal_length_size f g buff (Or.inl hs) with h | h
      · rw [h]; exact ih
      · exact h
    | thrown f g buff _ hs ih =>
      rcases setPrivData_nal_length_size f g buff (Or.inr hs) with h | h
      · rw [h]; exact ih
      · exact h
    | extracted f g buff out _ hs ih =>
      unfold extractData at hs
      obtain ⟨o, _, ho⟩ := Outcome.bind_eq_ok hs
      simp only [Outcome.ok.injEq, Prod.mk.injEq] at ho
      rw [← ho.2]
      exact ih
  refine ⟨hr, ?_⟩
  intro buff
  have h4 : f.nal_length_size = 1 ∨ f.nal_length_size = 2 ∨ f.nal_length_size = 3 ∨
      f.nal_length_size = 4 := by omega
  unfold getNalSize
  rcases h4 with h | h | h | h <;> rw [h] <;> simp only [OfNat.ofNat_ne_one, if_true, if_false,
    Nat.reduceEqDiff, Nat.succ_ne_self] <;> split <;> simp

theorem nal_length_size_reachable_witness :
    (1 ≤ (2 : Nat) ∧ (2 : Nat) ≤ 4) ∧
      ∀ buff : List Byte, getNalSize 2 buff ≠ .thrown :=
  nal_length_size_reachable { spsPpsList := [[0x67, 0x42], [0x68]], nal_length_size := 2 }
    (Reachable.returned construct _ avcCBlob Reachable.fresh (by decide))

end MovParsedH264TrackData

/-! ### The frame depth of a reachable reader -/

namespace HEVCStreamReader

theorem incTimings_frameDepth_step (r : Reader) (h : 1 ≤ r.m_frameDepth ∧ r.m_frameDepth ≤ 4) :
    1 ≤ (incTimings r).m_frameDepth ∧ (incTimings r).m_frameDepth ≤ 4 ∧
      r.m_frameDepth ≤ (incTimings r).m_frameDepth := by
  unfold incTimings FFMIN
  simp only
  split_ifs <;> omega

/-- C36: in every state reachable from a freshly constructed reader,
`m_frameDepth` lies in 1..4 and a call to `incTimings` does not decrease it. -/
theorem frameDepth_reachable (r : Reader) (h : Reachable r) :
    1 ≤ r.m_frameDepth ∧ r.m_frameDepth ≤ 4 ∧
      r.m_frameDepth ≤ (incTimings r).m_frameDepth := by
  have hr : 1 ≤ r.m_frameDepth ∧ r.m_frameDepth ≤ 4 := by
    induction h with
    | fresh a b c => exact ⟨by simp [construct], by simp [construct]⟩
    | timings r _ ih =>
      have := incTimings_frameDepth_step r ih
      exact ⟨this.1, this.2.1⟩
    | other r s _ hs ih => rw [hs]; exact ih
  exact ⟨hr.1, hr.2, (incTimings_frameDepth_step r hr).2.2⟩

theorem frameDepth_reachable_witness :
    1 ≤ (3 : Int) ∧ (3 : Int) ≤ 4 ∧
      (3 : Int) ≤ (incTimings (incTimings { construct 0 0 3600 with m_frameNum := 3 })).m_frameDepth :=
  frameDepth_reachable (incTimings { construct 0 0 3600 with m_frameNum := 3 })
    (Reachable.timings _
      (Reachable.other _ { construct 0 0 3600 with m_frameNum := 3 } (Reachable.fresh 0 0 3600) rfl))

end HEVCStreamReader

/-! ### The size of the Dolby Vision descriptor -/

namespace HEVCStreamReader

theorem packBits_getElem (fuel : Nat) :
    ∀ (i : Nat) (bits : List Bool), bits.length ≤ fuel → 8 * i < bits.length →
      (packBits fuel bits)[i]? = some (byteOfBits (bits.drop (8 * i))) := by
  induction fuel with
  | zero => intro i bits h1 h2; omega
  | succ n ih =>
    intro i bits h1 h2
    cases bits with
    | nil => simp at h2
    | cons b bs =>
      cases i with
      | zero => simp [packBits]
      | succ i =>
        simp only [packBits, List.getElem?_cons_succ]
        simp only [List.length_cons] at h1 h2
        rw [ih i (bs.drop 7) (by rw [List.length_drop]; omega) (by rw [List.length_drop]; omega)]
        congr 2
        rw [List.drop_drop]
        have : 8 * (i + 1) = (7 + 8 * i) + 1 := by omega
        rw [this, List.drop_succ_cons]

theorem byteOfBits_append (a rest : List Bool) (h : a.length = 8) :
    byteOfBits (a ++ rest) = byteOfBits a := by
  unfold byteOfBits
  congr 2
  rw [List.append_assoc, List.take_append_of_le_length (by omega),
    List.take_append_of_le_length (by omega)]

theorem packBits_eighth_byte (L : Int) (tail : List (Nat × Int)) (fuel : Nat)
    (hfuel : ((((8, 5) :: (8, 4) :: (32, 0x444f5649) :: (8, 0xb0) :: (8, L) :: tail).map
      fun c => bitsOf c.1 c.2).flatten).length ≤ fuel) :
    (packBits fuel ((((8, 5) :: (8, 4) :: (32, 0x444f5649) :: (8, 0xb0) :: (8, L) :: tail).map
      fun c => bitsOf c.1 c.2).flatten))[7]? = some (byteOfBits (bitsOf 8 L)) := by
  have hdrop : ∀ (a b c d e : List Bool), a.length = 8 → b.length = 8 → c.length = 32 →
      d.length = 8 → (a ++ (b ++ (c ++ (d ++ e)))).drop 56 = e := by
    intro a b c d e ha hb hc hd
    rw [← List.append_assoc, ← List.append_assoc, ← List.append_assoc]
    exact List.drop_left' (by simp only [List.length_append]; omega)
  rw [packBits_getElem fuel 7 _ hfuel
    (by simp only [List.map_cons, List.flatten_cons, List.length_append, bitsOf_length]; omega)]
  simp only [List.map_cons, List.flatten_cons]
  rw [hdrop _ _ _ _ _ (bitsOf_length _ _) (bitsOf_length _ _) (bitsOf_length _ _)
    (bitsOf_length _ _), byteOfBits_append _ _ (bitsOf_length _ _)]

/-- C37: `setDoViDescriptor` writes exactly as many bytes as it returns (13 on a
Dolby-Vision base-layer track, 15 on a track flagged non-DV), and the length
byte of the DoVi descriptor (5 or 7, the eighth byte written) equals the number
of bytes written after it; the bit fields written after the length byte total
a whole number of bytes (40 or 56 bits) in both cases. -/
theorem setDoViDescriptor_size (P : Codec) (st : Decoder) (hdr : HevcHdrUnit)
    (h : st.m_hdr = some hdr) :
    ∃ r, setDoViDescriptor P st = .ok r ∧
      (r.written.length : Int) = r.ret ∧
      r.ret = (if st.V3_flags.NON_DV_TRACK then 15 else 13) ∧
      r.putBits[4]? = some (8, if st.V3_flags.NON_DV_TRACK then 7 else 5) ∧
      r.written[7]? = some (if st.V3_flags.NON_DV_TRACK then 7 else 5) ∧
      r.written.length - 8 = (if st.V3_flags.NON_DV_TRACK then 7 else 5) ∧
      ((r.putBits.take 5).map Prod.fst).sum = 8 * 8 ∧
      ((r.putBits.drop 5).map Prod.fst).sum
        = 8 * (if st.V3_flags.NON_DV_TRACK then 7 else 5) := by
  obtain ⟨r, hr, -, -, hret⟩ := setDoViDescriptor_ok P st hdr h
  have hw := setDoViDescriptor_written P st r hr
  have hlen : r.written.length - 8 = (if st.V3_flags.NON_DV_TRACK then 7 else 5) := by
    have h1 := hw.1
    rw [hw.2.1] at h1
    cases hn : st.V3_flags.NON_DV_TRACK <;> rw [hn] at h1 <;> simp at h1 ⊢ <;> omega
  refine ⟨r, hr, hw.1, hret, ?_, ?_, hlen, ?_, ?_⟩
  all_goals
    unfold setDoViDescriptor at hr
    rw [h] at hr
    simp only [Outcome.ok.injEq] at hr
    subst hr
    simp only
  · cases hn : st.V3_flags.NON_DV_TRACK <;> simp
  · simp only [List.cons_append]
    rw [packBits_eighth_byte _ _ _ (le_refl _)]
    cases hn : st.V3_flags.NON_DV_TRACK
    · exact congrArg some (by decide)
    · exact congrArg some (by decide)
  · simp
  · cases hn : st.V3_flags.NON_DV_TRACK <;> simp

theorem setDoViDescriptor_size_witness :
    ∃ r, setDoViDescriptor sampleCodec
        (sampleDecoder [] 1920 1080 (some rpuHdr) { noFlags with NON_DV_TRACK := true }) = .ok r ∧
      (r.written.length : Int) = r.ret ∧
      r.ret = 15 ∧
      r.putBits[4]? = some (8, 7) ∧
      r.written[7]? = some 7 ∧
      r.written.length - 8 = 7 ∧
      ((r.putBits.take 5).map Prod.fst).sum = 8 * 8 ∧
      ((r.putBits.drop 5).map Prod.fst).sum = 8 * 7 :=
  setDoViDescriptor_size sampleCodec
    (sampleDecoder [] 1920 1080 (some rpuHdr) { noFlags with NON_DV_TRACK := true }) rpuHdr rfl

end HEVCStreamReader

/-! ### Header boxes and language codes -/

namespace MovDemuxer

theorem get_be_ok (n : Nat) (io : IOContext) (h : n ≤ io.input.length) :
    get_be n io = .ok (beValue (io.input.take n),
      { io with input := io.input.drop n, m_processedBytes := io.m_processedBytes + n }) := by
  unfold get_be get_buffer
  rw [if_pos h]
  rfl

theorem get_le32_ok (io : IOContext) (h : 4 ≤ io.input.length) :
    get_le32 io = .ok (beValue (io.input.take 4).reverse,
      { io with input := io.input.drop 4, m_processedBytes := io.m_processedBytes + 4 }) := by
  unfold get_le32 get_buffer
  rw [if_pos h]
  rfl

theorem skip_bytes_ok (io : IOContext) (n : Int) (h0 : 0 ≤ n) (h : n.toNat ≤ io.input.length) :
    skip_bytes io n = .ok { io with input := io.input.drop n.toNat,
                                    m_processedBytes := io.m_processedBytes + n.toNat } := by
  unfold skip_bytes get_buffer
  rw [if_neg (by omega), if_pos h]
  rfl

theorem mov_mdhd_language_map_length : mov_mdhd_language_map.length = 139 := by rfl

set_option maxRecDepth 8000 in
theorem mov_mdhd_language_map_entries :
    ∀ o ∈ mov_mdhd_language_map, ∀ s, o = some s → (charBytes s).length = 3 := by
  decide

set_option maxRecDepth 8000 in
theorem mov_mdhd_language_map_zero : mov_mdhd_language_map[0]? = some (some "eng") := by
  rfl

theorem packedChars_three (code : Nat) (dst : List Byte) (h : 3 ≤ dst.length) :
    packedChars 3 code dst
      = [Fin.ofNat (0x60 + code / 1024 % 32), Fin.ofNat (0x60 + code / 32 % 32),
         Fin.ofNat (0x60 + code % 32)] ++ dst.drop 3 := by
  have e31 : (0x1f : Nat) = 2 ^ 5 - 1 := by norm_num
  have hand : ∀ x : Nat, x &&& 0x1f = x % 32 := by
    intro x
    rw [e31, Nat.and_pow_two_sub_one_eq_mod]
  have hshift : ∀ x : Nat, x >>> 5 = x / 32 := by
    intro x
    rw [Nat.shiftRight_eq_div_pow]
  match dst, h with
  | a :: b :: c :: rest, _ =>
    simp only [packedChars, hand, hshift, List.set_cons_succ, List.set_cons_zero, List.drop_succ_cons,
      List.drop_zero, List.cons_append, List.nil_append, Nat.div_div_eq_div_mul]

/-- C31, as the specification states it, fails: on a `hdlr` box whose
component type is `mhlr` (non-zero) `mov_read_hdlr` leaves `isom` at 0, and on
a `hdlr` box whose component type is zero it sets `isom` to 1. -/
theorem mov_read_hdlr_nonzero_type :
    (mov_read_hdlr { type := MKTAG 104 100 108 114, offset := 0, size := 32 }
        (headerOf mhlrPayload)).bind (fun r => Outcome.ok (r.1, r.2.isom))
      = Outcome.ok ((0 : Int), (0 : Int)) ∧
    (mov_read_hdlr { type := MKTAG 104 100 108 114, offset := 0, size := 32 }
        (headerOf isoHdlrPayload)).bind (fun r => Outcome.ok (r.1, r.2.isom))
      = Outcome.ok ((0 : Int), (1 : Int)) := by
  refine ⟨by decide, by decide⟩

/-- C31 (amended): `mov_read_hdlr` sets `isom` to 1 exactly when the component
type field of the box (the little-endian number in bytes 4..7 of the payload)
is zero, and leaves `isom` unchanged when the component type is non-zero. -/
theorem mov_read_hdlr_isom (atom : MOVAtom) (c : MovieHeader)
    (hlen : 24 ≤ c.io.input.length)
    (h0 : 0 ≤ atom.size - (c.io.m_processedBytes + 24 - atom.offset))
    (h1 : atom.size - (c.io.m_processedBytes + 24 - atom.offset) ≤ c.io.input.length - 24) :
    ∃ r, mov_read_hdlr atom c = .ok (0, r) ∧
      (beValue ((c.io.input.drop 4).take 4).reverse = 0 → r.isom = 1) ∧
      (beValue ((c.io.input.drop 4).take 4).reverse ≠ 0 → r.isom = c.isom) := by
  unfold mov_read_hdlr get_byte get_be24 get_be32
  rw [get_be_ok 1 _ (by omega), Outcome.bind_ok]
  simp only
  rw [get_be_ok 3 _ (by simp only [List.length_drop]; omega), Outcome.bind_ok]
  simp only
  rw [get_le32_ok _ (by simp only [List.length_drop]; omega), Outcome.bind_ok]
  simp only
  rw [get_le32_ok _ (by simp only [List.length_drop]; omega), Outcome.bind_ok]
  simp only
  rw [get_be_ok 4 _ (by simp only [List.length_drop]; omega), Outcome.bind_ok]
  simp only
  rw [get_be_ok 4 _ (by simp only [List.length_drop]; omega), Outcome.bind_ok]
  simp only
  rw [get_be_ok 4 _ (by simp only [List.length_drop]; omega), Outcome.bind_ok]
  simp only
  rw [skip_bytes_ok _ _ (by push_cast; omega) (by simp only [List.length_drop]; omega),
    Outcome.bind_ok]
  refine ⟨_, rfl, ?_, ?_⟩
  · intro hz
    simp only [List.drop_drop] at hz ⊢
    simp [hz]
  · intro hz
    simp only [List.drop_drop] at hz ⊢
    simp [hz]

theorem mov_read_hdlr_isom_witness :
    ∃ r, mov_read_hdlr { type := MKTAG 104 100 108 114, offset := 0, size := 32 }
        (headerOf isoHdlrPayload) = .ok (0, r) ∧
      (beValue (((headerOf isoHdlrPayload).io.input.drop 4).take 4).reverse = 0 → r.isom = 1) ∧
      (beValue (((headerOf isoHdlrPayload).io.input.drop 4).take 4).reverse ≠ 0 →
        r.isom = (headerOf isoHdlrPayload).isom) :=
  mov_read_hdlr_isom { type := MKTAG 104 100 108 114, offset := 0, size := 32 }
    (headerOf isoHdlrPayload) (by decide) (by decide) (by decide)

/-- C32 fails in the code: for a version 0 `elst` box with the one entry
(duration 7000, media time -1, media rate 1.0) and a movie timescale of 1000,
`mov_read_elst` sets the first timecode of the current track to 7000; for the
box with the two entries (5, 0, 1.0) and (7000, -1, 1.0) it leaves the first
timecode unset: the loop reads two fields for an entry and the media rate
once after the loop, so the second round reads the media rate of the first
entry as a duration and the duration 7000 as a media time, and the last four
bytes of the box are left unread. -/
theorem mov_read_elst_second_entry :
    (mov_read_elst (headerOf oneEditPayload)).bind
        (fun r => Outcome.ok (r.1, r.2.m_firstTimecode, r.2.io.input))
      = Outcome.ok ((0 : Int), ([((1 : Int), (7000 : Int))] : List (Int × Int)),
          ([] : List Byte)) ∧
    (mov_read_elst (headerOf twoEditsPayload)).bind
        (fun r => Outcome.ok (r.1, r.2.m_firstTimecode, r.2.io.input))
      = Outcome.ok ((0 : Int), ([] : List (Int × Int)), ([0, 1, 0, 0] : List Byte)) := by
  refine ⟨by decide, by decide⟩

/-- C33: `ff_mov_lang_to_iso639`: for every code > 138 it writes three
characters, each 0x60 plus one of the three low 5-bit groups of the code with
the most significant group first, and returns 1; for every code ≤ 138 it
writes the entry of `mov_mdhd_language_map` for that code (with its
terminating zero byte) and returns 1 when the entry exists (code 0 gives
`eng`), and otherwise returns 0 leaving the output buffer untouched. -/
theorem ff_mov_lang_to_iso639_cases (code : Nat) (dst : List Byte) (hdst : 4 ≤ dst.length) :
    (138 < code →
      ff_mov_lang_to_iso639 code dst
        = .ok (1, [Fin.ofNat (0x60 + code / 1024 % 32), Fin.ofNat (0x60 + code / 32 % 32),
                   Fin.ofNat (0x60 + code % 32)] ++ dst.drop 3)) ∧
    (code ≤ 138 → ∀ s, mov_mdhd_language_map[code]? = some (some s) →
      ff_mov_lang_to_iso639 code dst = .ok (1, charBytes s ++ [0] ++ dst.drop 4)) ∧
    (code ≤ 138 → mov_mdhd_language_map[code]? = some none →
      ff_mov_lang_to_iso639 code dst = .ok (0, dst)) ∧
    ff_mov_lang_to_iso639 0 dst = .ok (1, [101, 110, 103, 0] ++ dst.drop 4) := by
  have hcase : ∀ k, k ≤ 138 → ∀ s, mov_mdhd_language_map[k]? = some (some s) →
      ff_mov_lang_to_iso639 k dst = .ok (1, charBytes s ++ [0] ++ dst.drop 4) := by
    intro k hk s hs
    unfold ff_mov_lang_to_iso639
    rw [if_neg (by omega), mov_mdhd_language_map_length, if_neg (by omega), hs]
    simp only
    rw [if_neg (by omega)]
    obtain ⟨hlt, he⟩ := List.getElem?_eq_some.mp hs
    have h3 := mov_mdhd_language_map_entries (some s) (he ▸ List.getElem_mem hlt) s rfl
    rw [List.take_of_length_le (by simp only [List.length_append, List.length_singleton]; omega)]
  refine ⟨?_, hcase code, ?_, ?_⟩
  · intro hc
    unfold ff_mov_lang_to_iso639
    rw [if_pos hc, if_neg (by omega), packedChars_three code dst (by omega)]
  · intro hc hs
    unfold ff_mov_lang_to_iso639
    rw [if_neg (by omega), mov_mdhd_language_map_length, if_neg (by omega), hs]
  · have e : charBytes "eng" ++ [0] = ([101, 110, 103, 0] : List Byte) := by decide
    rw [← e]
    exact hcase 0 (by omega) "eng" mov_mdhd_language_map_zero

theorem ff_mov_lang_to_iso639_cases_witness :
    (138 < 5575 →
      ff_mov_lang_to_iso639 5575 [0, 0, 0, 0, 9]
        = .ok (1, [Fin.ofNat (0x60 + 5575 / 1024 % 32), Fin.ofNat (0x60 + 5575 / 32 % 32),
                   Fin.ofNat (0x60 + 5575 % 32)] ++ ([0, 0, 0, 0, 9] : List Byte).drop 3)) ∧
    (5575 ≤ 138 → ∀ s, mov_mdhd_language_map[5575]? = some (some s) →
      ff_mov_lang_to_iso639 5575 [0, 0, 0, 0, 9]
        = .ok (1, charBytes s ++ [0] ++ ([0, 0, 0, 0, 9] : List Byte).drop 4)) ∧
    (5575 ≤ 138 → mov_mdhd_language_map[5575]? = some none →
      ff_mov_lang_to_iso639 5575 [0, 0, 0, 0, 9] = .ok (0, [0, 0, 0, 0, 9])) ∧
    ff_mov_lang_to_iso639 0 [0, 0, 0, 0, 9]
      = .ok (1, [101, 110, 103, 0] ++ ([0, 0, 0, 0, 9] : List Byte).drop 4) :=
  ff_mov_lang_to_iso639_cases 5575 [0, 0, 0, 0, 9] (by decide)

/-- C39: for every three lowercase letters c1 c2 c3 (each `a`..`z`), the packed
code ((c1 - 0x60) << 10) | ((c2 - 0x60) << 5) | (c3 - 0x60) is greater than
138 and `ff_mov_lang_to_iso639` on it returns 1 and writes exactly c1 c2 c3;
and for every code ≤ 138 the table index is within the 139-entry table, so the
bounds check `code >= sizeof(mov_mdhd_language_map) / sizeof(char*)` does not
fire. -/
theorem ff_mov_lang_to_iso639_packed (c1 c2 c3 : Byte) (dst : List Byte)
    (h1 : 97 ≤ c1.val ∧ c1.val ≤ 122) (h2 : 97 ≤ c2.val ∧ c2.val ≤ 122)
    (h3 : 97 ≤ c3.val ∧ c3.val ≤ 122) (hdst : 3 ≤ dst.length) :
    138 < (((c1.val - 0x60) <<< 10) ||| ((c2.val - 0x60) <<< 5) ||| (c3.val - 0x60)) ∧
    ff_mov_lang_to_iso639
        (((c1.val - 0x60) <<< 10) ||| ((c2.val - 0x60) <<< 5) ||| (c3.val - 0x60)) dst
      = .ok (1, [c1, c2, c3] ++ dst.drop 3) ∧
    mov_mdhd_language_map.length = 139 ∧
    (∀ code, code ≤ 138 → ¬ (code ≥ mov_mdhd_language_map.length)) := by
  have hcode : (((c1.val - 0x60) <<< 10) ||| ((c2.val - 0x60) <<< 5) ||| (c3.val - 0x60))
      = (c1.val - 96) * 1024 + (c2.val - 96) * 32 + (c3.val - 96) := by
    rw [Nat.shiftLeft_eq, Nat.shiftLeft_eq]
    have e1 : (c1.val - 0x60) * 2 ^ 10 ||| (c2.val - 0x60) * 2 ^ 5
        = 2 ^ 10 * (c1.val - 96) + (c2.val - 96) * 32 := by
      rw [Nat.mul_add_lt_is_or (by omega) (c1.val - 96)]
      congr 1
      omega
    rw [e1]
    have e2 : 2 ^ 10 * (c1.val - 96) + (c2.val - 96) * 32
        = 2 ^ 5 * ((c1.val - 96) * 32 + (c2.val - 96)) := by omega
    rw [e2, ← Nat.mul_add_lt_is_or (by omega) _]
    omega
  rw [hcode]
  refine ⟨by omega, ?_, mov_mdhd_language_map_length, ?_⟩
  · unfold ff_mov_lang_to_iso639
    rw [if_pos (by omega), if_neg (by omega), packedChars_three _ dst hdst]
    have f1 : (Fin.ofNat (0x60 + ((c1.val - 96) * 1024 + (c2.val - 96) * 32 + (c3.val - 96))
        / 1024 % 32) : Byte) = c1 := by
      apply Fin.ext
      show (0x60 + ((c1.val - 96) * 1024 + (c2.val - 96) * 32 + (c3.val - 96)) / 1024 % 32)
        % 256 = c1.val
      omega
    have f2 : (Fin.ofNat (0x60 + ((c1.val - 96) * 1024 + (c2.val - 96) * 32 + (c3.val - 96))
        / 32 % 32) : Byte) = c2 := by
      apply Fin.ext
      show (0x60 + ((c1.val - 96) * 1024 + (c2.val - 96) * 32 + (c3.val - 96)) / 32 % 32)
        % 256 = c2.val
      omega
    have f3 : (Fin.ofNat (0x60 + ((c1.val - 96) * 1024 + (c2.val - 96) * 32 + (c3.val - 96))
        % 32) : Byte) = c3 := by
      apply Fin.ext
      show (0x60 + ((c1.val - 96) * 1024 + (c2.val - 96) * 32 + (c3.val - 96)) % 32)
        % 256 = c3.val
      omega
    rw [f1, f2, f3]
  · intro code hc
    rw [mov_mdhd_language_map_length]
    omega

theorem ff_mov_lang_to_iso639_packed_witness :
    138 < ((((101 : Byte).val - 0x60) <<< 10) ||| (((110 : Byte).val - 0x60) <<< 5)
      ||| ((103 : Byte).val - 0x60)) ∧
    ff_mov_lang_to_iso639
        ((((101 : Byte).val - 0x60) <<< 10) ||| (((110 : Byte).val - 0x60) <<< 5)
          ||| ((103 : Byte).val - 0x60)) [0, 0, 0, 0]
      = .ok (1, [101, 110, 103] ++ ([0, 0, 0, 0] : List Byte).drop 3) ∧
    mov_mdhd_language_map.length = 139 ∧
    (∀ code, code ≤ 138 → ¬ (code ≥ mov_mdhd_language_map.length)) :=
  ff_mov_lang_to_iso639_packed 101 110 103 [0, 0, 0, 0] (by decide) (by decide) (by decide)
    (by decide)

end MovDemuxer

/-! ### Inserting the parameter sets -/

namespace HEVCStreamReader

theorem moveDelimiter_cases (room : Int) (pkt : AVPacket) (m : List Byte × AVPacket)
    (h : moveDelimiter room pkt = .ok m) :
    m = ([], pkt) ∨
      (m = (pkt.data.take pkt.size.toNat, { pkt with size := 0, data := [] })
        ∧ pkt.size > 4 ∧ pkt.size < room) := by
  unfold moveDelimiter at h
  split at h
  · rename_i hc
    split at h
    · cases h
    · try simp only at h
      split at h
      · cases h
      · try simp only at h
        split at h
        · split at h
          · cases h
          · cases h
            exact Or.inr ⟨rfl, hc⟩
        · cases h
          exact Or.inl rfl
  · cases h
    exact Or.inl rfl

theorem moveDelimiter_defined (room : Int) (pkt : AVPacket)
    (hdata : pkt.size ≤ pkt.data.length) : ∃ m, moveDelimiter room pkt = .ok m := by
  unfold moveDelimiter
  by_cases hc : pkt.size > 4 ∧ pkt.size < room
  · rw [if_pos hc]
    have h2 : 2 < pkt.data.length := by omega
    have h3 : 3 < pkt.data.length := by omega
    have h4 : 4 < pkt.data.length := by omega
    rw [List.getElem?_eq_getElem h2]
    simp only
    by_cases hb : pkt.data[2] = 1
    · rw [if_pos hb, List.getElem?_eq_getElem h3]
      simp only
      split_ifs
      · omega
      · exact ⟨_, rfl⟩
      · exact ⟨_, rfl⟩
    · rw [if_neg hb, List.getElem?_eq_getElem h4]
      simp only
      split_ifs
      · omega
      · exact ⟨_, rfl⟩
      · exact ⟨_, rfl⟩
  · rw [if_neg hc]
    exact ⟨_, rfl⟩

theorem moveDelimiter_again (room : Int) (pkt : AVPacket) (m : List Byte × AVPacket)
    (h : moveDelimiter room pkt = .ok m) : moveDelimiter room m.2 = .ok ([], m.2) := by
  rcases moveDelimiter_cases room pkt m h with hm | ⟨hm, -, -⟩
  · rw [hm] at h ⊢
    exact h
  · rw [hm]
    unfold moveDelimiter
    rw [if_neg (by simp)]

theorem writeBuffer_cases (w : Inserter) (srcData : List Byte) (bytesLeft : Int) :
    (writeBuffer w srcData bytesLeft = [] ∨
      writeBuffer w srcData bytesLeft = writeNalPrefix w ++ srcData) ∧
    (srcData ≠ [] → (srcData.length : Int) + 4 ≤ bytesLeft →
      writeBuffer w srcData bytesLeft = writeNalPrefix w ++ srcData) := by
  unfold writeBuffer
  dsimp only
  constructor
  · by_cases he : srcData.isEmpty = true
    · rw [if_pos he]; exact Or.inl rfl
    · rw [if_neg he]
      by_cases hb : bytesLeft
          < (srcData.length : Int) + 3 + (if w.m_shortStartCodes = true then 0 else 1)
      · rw [if_pos hb]; exact Or.inl rfl
      · rw [if_neg hb]; exact Or.inr rfl
  · intro hne hroom
    rw [if_neg (by simpa using hne), if_neg]
    split_ifs <;> omega

theorem moveDelimiter_flags (room : Int) (q : AVPacket) (f : Nat) :
    moveDelimiter room { q with flags := f }
      = (moveDelimiter room q).bind fun m => .ok (m.1, { m.2 with flags := f }) := by
  unfold moveDelimiter
  simp only
  by_cases hc : q.size > 4 ∧ q.size < room
  · rw [if_pos hc, if_pos hc]
    cases q.data[2]? with
    | none => rfl
    | some b2 =>
      simp only
      cases q.data[if b2 = 1 then 3 else 4]? with
      | none => rfl
      | some b =>
        simp only
        split_ifs <;> rfl
  · rw [if_neg hc, if_neg hc]
    rfl

theorem writeNalPrefix_length (w : Inserter) : (writeNalPrefix w).length ≤ 4 := by
  unfold writeNalPrefix
  split_ifs <;> simp

/-- C34: `writeAdditionData` writes the stored VPS, SPS and PPS (in that order,
each preceded by the start code `00 00 00 01`, or `00 00 01` with
`m_shortStartCodes`, after the access unit delimiter it may have moved to the
front) only when `m_firstFileFrame` is set and the packet does not
carry `IS_SPS_PPS_IN_GOP`; it then sets that flag on the packet, and it always
clears `m_firstFileFrame`, so a second call immediately after with the same
packet writes nothing. -/
theorem writeAdditionData_parameter_sets (bit : Nat) (w : Inserter) (room : Int)
    (pkt : AVPacket) (hdata : pkt.size ≤ pkt.data.length) :
    ∃ r m, moveDelimiter room pkt = .ok m ∧ writeAdditionData bit w room pkt = .ok r ∧
      r.w = { w with m_firstFileFrame := false } ∧ r.ret = r.written.length ∧
      writeNalPrefix w = (if w.m_shortStartCodes = true then [0, 0, 1] else [0, 0, 0, 1]) ∧
      (¬ (w.m_firstFileFrame = true ∧ pkt.flags &&& bit = 0) →
        r.written = m.1 ∧ r.avPacket = m.2 ∧ r.avPacket.flags = pkt.flags) ∧
      (w.m_firstFileFrame = true ∧ pkt.flags &&& bit = 0 →
        r.avPacket = { m.2 with flags := pkt.flags ||| bit } ∧
        (∃ vps sps pps, r.written = m.1 ++ vps ++ sps ++ pps ∧
          (vps = [] ∨ vps = writeNalPrefix w ++ w.m_vpsBuffer) ∧
          (sps = [] ∨ sps = writeNalPrefix w ++ w.m_spsBuffer) ∧
          (pps = [] ∨ pps = writeNalPrefix w ++ w.m_ppsBuffer)) ∧
        (w.m_vpsBuffer ≠ [] → w.m_spsBuffer ≠ [] → w.m_ppsBuffer ≠ [] →
          (m.1.length : Int) + w.m_vpsBuffer.length + w.m_spsBuffer.length
            + w.m_ppsBuffer.length + 12 ≤ room →
          r.written = m.1 ++ (writeNalPrefix w ++ w.m_vpsBuffer)
            ++ (writeNalPrefix w ++ w.m_spsBuffer) ++ (writeNalPrefix w ++ w.m_ppsBuffer))) ∧
      writeAdditionData bit r.w room r.avPacket
        = .ok { written := [], ret := 0, avPacket := r.avPacket, w := r.w } := by
  obtain ⟨m, hm⟩ := moveDelimiter_defined room pkt hdata
  have hpin : writeNalPrefix w
      = (if w.m_shortStartCodes = true then [0, 0, 1] else [0, 0, 0, 1]) := by
    unfold writeNalPrefix
    cases w.m_shortStartCodes <;> rfl
  have hflags : m.2.flags = pkt.flags := by
    rcases moveDelimiter_cases room pkt m hm with h | ⟨h, -, -⟩ <;> rw [h]
  have hagain := moveDelimiter_again room pkt m hm
  have hsecond : ∀ (q : AVPacket), moveDelimiter room q = .ok ([], q) →
      writeAdditionData bit { w with m_firstFileFrame := false } room q
        = .ok { written := [], ret := 0, avPacket := q,
                w := { w with m_firstFileFrame := false } } := by
    intro q hq
    unfold writeAdditionData
    rw [hq, Outcome.bind_ok]
    simp
  have hagain2 : ∀ f : Nat, moveDelimiter room { m.2 with flags := f }
      = .ok ([], { m.2 with flags := f }) := by
    intro f
    rw [moveDelimiter_flags, hagain, Outcome.bind_ok]
  by_cases hneed : w.m_firstFileFrame = true ∧ pkt.flags &&& bit = 0
  · have hrun : writeAdditionData bit w room pkt
        = .ok { written := m.1 ++ writeBuffer w w.m_vpsBuffer (room - m.1.length)
                  ++ writeBuffer w w.m_spsBuffer
                      (room - (m.1 ++ writeBuffer w w.m_vpsBuffer (room - m.1.length)).length)
                  ++ writeBuffer w w.m_ppsBuffer
                      (room - (m.1 ++ writeBuffer w w.m_vpsBuffer (room - m.1.length)
                        ++ writeBuffer w w.m_spsBuffer
                          (room - (m.1 ++ writeBuffer w w.m_vpsBuffer
                            (room - m.1.length)).length)).length)
                ret := (m.1 ++ writeBuffer w w.m_vpsBuffer (room - m.1.length)
                  ++ writeBuffer w w.m_spsBuffer
                      (room - (m.1 ++ writeBuffer w w.m_vpsBuffer (room - m.1.length)).length)
                  ++ writeBuffer w w.m_ppsBuffer
                      (room - (m.1 ++ writeBuffer w w.m_vpsBuffer (room - m.1.length)
                        ++ writeBuffer w w.m_spsBuffer
                          (room - (m.1 ++ writeBuffer w w.m_vpsBuffer
                            (room - m.1.length)).length)).length)).length
                avPacket := { m.2 with flags := pkt.flags ||| bit }
                w := { w with m_firstFileFrame := false } } := by
      unfold writeAdditionData
      rw [hm, Outcome.bind_ok]
      simp only [hflags, hneed.1, hneed.2, decide_True, Bool.and_self, if_true]
    refine ⟨_, m, hm, hrun, rfl, rfl, hpin, fun hn => absurd hneed hn, fun _ => ⟨rfl, ?_, ?_⟩, ?_⟩
    · exact ⟨_, _, _, rfl, (writeBuffer_cases w _ _).1, (writeBuffer_cases w _ _).1,
        (writeBuffer_cases w _ _).1⟩
    · intro hv hs hp hroom
      simp only
      have hpre := writeNalPrefix_length w
      have e1 := (writeBuffer_cases w w.m_vpsBuffer (room - m.1.length)).2 hv (by omega)
      rw [e1]
      have e2 := (writeBuffer_cases w w.m_spsBuffer
        (room - (m.1 ++ (writeNalPrefix w ++ w.m_vpsBuffer)).length)).2 hs
        (by simp only [List.length_append]; push_cast; omega)
      rw [e2]
      have e3 := (writeBuffer_cases w w.m_ppsBuffer
        (room - (m.1 ++ (writeNalPrefix w ++ w.m_vpsBuffer)
          ++ (writeNalPrefix w ++ w.m_spsBuffer)).length)).2 hp
        (by simp only [List.length_append]; push_cast; omega)
      rw [e3]
    · exact hsecond _ (hagain2 _)
  · have hrun : writeAdditionData bit w room pkt
        = .ok { written := m.1, ret := m.1.length, avPacket := m.2
                w := { w with m_firstFileFrame := false } } := by
      unfold writeAdditionData
      rw [hm, Outcome.bind_ok]
      simp only [hflags]
      rw [if_neg]
      simpa using hneed
    refine ⟨_, m, hm, hrun, rfl, rfl, hpin, fun _ => ⟨rfl, rfl, hflags⟩, fun hn => absurd hn hneed, ?_⟩
    exact hsecond _ hagain

theorem writeAdditionData_parameter_sets_witness :
    ∃ r m, moveDelimiter 100 audPacket = .ok m ∧
      writeAdditionData 8 firstFrameInserter 100 audPacket = .ok r ∧
      r.w = { firstFrameInserter with m_firstFileFrame := false } ∧ r.ret = r.written.length ∧
      writeNalPrefix firstFrameInserter = [0, 0, 0, 1] ∧
      (¬ (firstFrameInserter.m_firstFileFrame = true ∧ audPacket.flags &&& 8 = 0) →
        r.written = m.1 ∧ r.avPacket = m.2 ∧ r.avPacket.flags = audPacket.flags) ∧
      (firstFrameInserter.m_firstFileFrame = true ∧ audPacket.flags &&& 8 = 0 →
        r.avPacket = { m.2 with flags := audPacket.flags ||| 8 } ∧
        (∃ vps sps pps, r.written = m.1 ++ vps ++ sps ++ pps ∧
          (vps = [] ∨ vps = [0, 0, 0, 1] ++ [0x40, 1]) ∧
          (sps = [] ∨ sps = [0, 0, 0, 1] ++ [0x42, 1]) ∧
          (pps = [] ∨ pps = [0, 0, 0, 1] ++ [0x44, 1])) ∧
        (([0x40, 1] : List Byte) ≠ [] → ([0x42, 1] : List Byte) ≠ [] →
          ([0x44, 1] : List Byte) ≠ [] →
          (m.1.length : Int) + ([0x40, 1] : List Byte).length
            + ([0x42, 1] : List Byte).length + ([0x44, 1] : List Byte).length + 12 ≤ 100 →
          r.written = m.1 ++ ([0, 0, 0, 1] ++ [0x40, 1])
            ++ ([0, 0, 0, 1] ++ [0x42, 1]) ++ ([0, 0, 0, 1] ++ [0x44, 1]))) ∧
      writeAdditionData 8 r.w 100 r.avPacket
        = .ok { written := [], ret := 0, avPacket := r.avPacket, w := r.w } :=
  writeAdditionData_parameter_sets 8 firstFrameInserter 100 audPacket (by decide)

theorem writeAdditionData_parameter_sets_example :
    (writeAdditionData 8 firstFrameInserter 100 audPacket).bind
        (fun r => Outcome.ok (r.written, r.ret, r.avPacket.flags, r.w.m_firstFileFrame))
      = Outcome.ok (([0, 0, 0, 1, 0x46, 1, 0x50, 0, 0, 0, 1, 0x40, 1, 0, 0, 0, 1, 0x42, 1,
          0, 0, 0, 1, 0x44, 1] : List Byte), (25 : Int), (8 : Nat), false) ∧
    (writeAdditionData 8 firstFrameInserter 100 { audPacket with flags := 8 }).bind
        (fun r => Outcome.ok (r.written, r.ret, r.avPacket.flags, r.w.m_firstFileFrame))
      = Outcome.ok (([0, 0, 0, 1, 0x46, 1, 0x50] : List Byte), (7 : Int), (8 : Nat), false) := by
  refine ⟨by decide, by decide⟩

end HEVCStreamReader

/-! ### The style tags of a TX3G sample -/

namespace MovParsedSRTTrackData

theorem tagsAt_cons (t : Nat × List Byte) (rest : List (Nat × List Byte)) (p : Nat) :
    tagsAt (t :: rest) p = if t.1 = p then tagsAt rest p ++ [t.2] else tagsAt rest p := by
  unfold tagsAt
  by_cases h : t.1 = p
  · simp [List.filter_cons, h]
  · simp [List.filter_cons, h]

theorem tagsAt_none (tags : List (Nat × List Byte)) (p : Nat) (h : ∀ t ∈ tags, t.1 ≠ p) :
    tagsAt tags p = [] := by
  unfold tagsAt
  have : tags.filter (fun t => decide (t.1 = p)) = [] := by
    rw [List.filter_eq_nil_iff]
    intro t ht
    simpa using h t ht
  rw [this]
  rfl

theorem weave_below (tags : List (Nat × List Byte)) :
    ∀ (S : List Byte) (p : Nat), (∀ t ∈ tags, t.1 < p) → weave tags p S = S := by
  intro S
  induction S with
  | nil =>
    intro p h
    rw [weave, tagsAt_none tags p (fun t ht => by have := h t ht; omega)]
    rfl
  | cons c cs ih =>
    intro p h
    rw [weave, tagsAt_none tags p (fun t ht => by have := h t ht; omega),
      ih (p + 1) (fun t ht => by have := h t ht; omega)]
    rfl

theorem weave_cons (t : Nat × List Byte) (rest : List (Nat × List Byte))
    (hrest : ∀ u ∈ rest, u.1 ≤ t.1) :
    ∀ (S : List Byte) (p : Nat), p ≤ t.1 → t.1 ≤ p + S.length →
      weave (t :: rest) p S
        = weave rest p (S.take (t.1 - p)) ++ t.2 ++ S.drop (t.1 - p) := by
  intro S
  induction S with
  | nil =>
    intro p h1 h2
    have hp : t.1 = p := by simp only [List.length_nil] at h2; omega
    simp only [weave, List.take_nil, List.drop_nil, List.append_nil, tagsAt_cons, hp, if_true,
      List.flatten_append, List.flatten_cons, List.flatten_nil]
  | cons c cs ih =>
    intro p h1 h2
    by_cases hp : t.1 = p
    · have hb : weave (t :: rest) (p + 1) cs = cs :=
        weave_below (t :: rest) cs (p + 1) (by
          intro u hu
          rcases List.mem_cons.mp hu with h | h
          · rw [h]; omega
          · have := hrest u h; omega)
      rw [weave, hb, tagsAt_cons, if_pos hp]
      have h0 : t.1 - p = 0 := by omega
      rw [h0]
      simp only [List.take_zero, List.drop_zero, weave, List.flatten_append, List.flatten_cons,
        List.flatten_nil, List.append_nil, List.append_assoc]
    · have hlt : p < t.1 := by omega
      obtain ⟨k, hk⟩ : ∃ k, t.1 - p = k + 1 := ⟨t.1 - p - 1, by omega⟩
      have hk2 : t.1 - (p + 1) = k := by omega
      simp only [List.length_cons] at h2
      rw [weave, tagsAt_cons, if_neg hp, ih (p + 1) (by omega) (by omega), hk, hk2]
      simp only [List.take_succ_cons, List.drop_succ_cons, weave, List.append_assoc,
        List.cons_append]

theorem insertTags_append :
    ∀ (tags : List (Nat × List Byte)) (A B : List Byte), (∀ t ∈ tags, t.1 ≤ A.length) →
      insertTags tags (A ++ B) = (insertTags tags A).bind fun r => .ok (r ++ B) := by
  intro tags
  induction tags with
  | nil => intro A B _; rfl
  | cons t rest ih =>
    intro A B h
    have ht : t.1 ≤ A.length := h t (List.mem_cons_self _ _)
    unfold insertTags
    rw [if_neg (by simp only [List.length_append]; omega), if_neg (by omega),
      List.take_append_of_le_length ht, List.drop_append_of_le_length ht]
    have e : A.take t.1 ++ t.2 ++ (A.drop t.1 ++ B) = (A.take t.1 ++ t.2 ++ A.drop t.1) ++ B := by
      simp only [List.append_assoc]
    rw [e]
    apply ih
    intro u hu
    have := h u (List.mem_cons_of_mem _ hu)
    simp only [List.length_append, List.length_take, List.length_drop]
    omega

theorem insertTags_weave :
    ∀ (tags : List (Nat × List Byte)) (T : List Byte),
      tags.Pairwise (fun a b => b.1 ≤ a.1) → (∀ t ∈ tags, t.1 ≤ T.length) →
      insertTags tags T = .ok (weave tags 0 T) := by
  intro tags
  induction tags with
  | nil =>
    intro T _ _
    rw [weave_below [] T 0 (fun t ht => by cases ht)]
    rfl
  | cons t rest ih =>
    intro T hs hin
    have ht : t.1 ≤ T.length := hin t (List.mem_cons_self _ _)
    have hrest : ∀ u ∈ rest, u.1 ≤ t.1 := fun u hu => List.rel_of_pairwise_cons hs hu
    have hlen : (T.take t.1).length = t.1 := by rw [List.length_take]; omega
    unfold insertTags
    rw [if_neg (by omega), List.append_assoc,
      insertTags_append rest (T.take t.1) (t.2 ++ T.drop t.1) (by rw [hlen]; exact hrest),
      ih (T.take t.1) (List.Pairwise.of_cons hs) (by rw [hlen]; exact hrest), Outcome.bind_ok,
      weave_cons t rest hrest T 0 (by omega) (by omega)]
    simp only [Nat.sub_zero, List.append_assoc]

theorem bytesLt_asymm : ∀ (a b : List Byte), bytesLt a b = true → bytesLt b a = false := by
  intro a
  induction a with
  | nil => intro b _; cases b <;> rfl
  | cons x xs ih =>
    intro b h
    cases b with
    | nil => simp [bytesLt] at h
    | cons y ys =>
      simp only [bytesLt] at h ⊢
      by_cases h1 : x < y
      · rw [if_neg (lt_asymm h1), if_pos h1]
      · rw [if_neg h1] at h
        by_cases h2 : y < x
        · rw [if_pos h2] at h; cases h
        · rw [if_neg h2] at h
          rw [if_neg h2, if_neg h1]
          exact ih ys h

theorem bytesLt_ge_trans : ∀ (a b c : List Byte),
    bytesLt a b = false → bytesLt b c = false → bytesLt a c = false := by
  intro a
  induction a with
  | nil =>
    intro b c h1 h2
    cases b with
    | nil => exact h2
    | cons y ys => simp [bytesLt] at h1
  | cons x xs ih =>
    intro b c h1 h2
    cases c with
    | nil => rfl
    | cons z zs =>
      cases b with
      | nil => simp [bytesLt] at h2
      | cons y ys =>
        simp only [bytesLt] at h1 h2 ⊢
        by_cases hxy : x < y
        · rw [if_pos hxy] at h1; cases h1
        · rw [if_neg hxy] at h1
          by_cases hyz : y < z
          · rw [if_pos hyz] at h2; cases h2
          · rw [if_neg hyz] at h2
            rw [if_neg (not_lt.mpr (le_trans (not_lt.mp hyz) (not_lt.mp hxy)))]
            by_cases hzx : z < x
            · rw [if_pos hzx]
            · rw [if_neg hzx]
              have hyx : ¬ y < x := not_lt.mpr (le_trans (not_lt.mp hzx) (not_lt.mp hyz))
              have hzy : ¬ z < y := not_lt.mpr (le_trans (not_lt.mp hxy) (not_lt.mp hzx))
              rw [if_neg hyx] at h1
              rw [if_neg hzy] at h2
              exact ih ys zs h1 h2

instance tagGe_total : IsTotal (Nat × List Byte) tagGe :=
  ⟨fun a b => by
    unfold tagGe
    rcases Nat.lt_trichotomy a.1 b.1 with h | h | h
    · exact Or.inr (Or.inl h)
    · rcases Bool.eq_false_or_eq_true (bytesLt a.2 b.2) with hab | hab
      · exact Or.inr (Or.inr ⟨h, bytesLt_asymm _ _ hab⟩)
      · exact Or.inl (Or.inr ⟨h.symm, hab⟩)
    · exact Or.inl (Or.inl h)⟩

instance tagGe_trans : IsTrans (Nat × List Byte) tagGe :=
  ⟨fun a b c hab hbc => by
    unfold tagGe at *
    rcases hab with h1 | ⟨h1, h1s⟩ <;> rcases hbc with h2 | ⟨h2, h2s⟩
    · exact Or.inl (by omega)
    · exact Or.inl (by omega)
    · exact Or.inl (by omega)
    · exact Or.inr ⟨by omega, bytesLt_ge_trans _ _ _ h1s h2s⟩⟩

theorem sorted_tags (tags : List (Nat × List Byte)) :
    (tags.insertionSort tagGe).Pairwise (fun a b => b.1 ≤ a.1) ∧
    (tags.insertionSort tagGe).Pairwise
      (fun a b => a.1 = b.1 → bytesLt a.2 b.2 = false) := by
  have hs : (tags.insertionSort tagGe).Pairwise tagGe := List.sorted_insertionSort tagGe tags
  constructor
  · refine hs.imp ?_
    intro a b h
    unfold tagGe at h
    rcases h with h | ⟨h, -⟩ <;> omega
  · refine hs.imp ?_
    intro a b h he
    unfold tagGe at h
    rcases h with h | ⟨-, h⟩
    · omega
    · exact h

theorem openTags_mod (face : Nat) : openTags face = openTags (face % 8) := by
  unfold openTags
  have h1 : face % 8 % 2 = face % 2 := by omega
  have h2 : face % 8 / 2 % 2 = face / 2 % 2 := by omega
  have h3 : face % 8 / 4 % 2 = face / 4 % 2 := by omega
  rw [h1, h2, h3]

theorem closeTags_mod (face : Nat) : closeTags face = closeTags (face % 8) := by
  unfold closeTags
  have h1 : face % 8 % 2 = face % 2 := by omega
  have h2 : face % 8 / 2 % 2 = face / 2 % 2 := by omega
  have h3 : face % 8 / 4 % 2 = face / 4 % 2 := by omega
  rw [h1, h2, h3]

theorem close_before_open (f g : Nat) (h : openTags g ≠ []) :
    bytesLt (closeTags f) (openTags g) = true := by
  rw [openTags_mod g] at h ⊢
  rw [closeTags_mod f]
  have key : ∀ a b : Fin 8, openTags b.val ≠ [] →
      bytesLt (closeTags a.val) (openTags b.val) = true := by decide
  exact key ⟨f % 8, by omega⟩ ⟨g % 8, by omega⟩ h

theorem tagsAt_ascending (sorted : List (Nat × List Byte)) (p : Nat)
    (h : sorted.Pairwise (fun a b => a.1 = b.1 → bytesLt a.2 b.2 = false)) :
    (tagsAt sorted p).Pairwise (fun a b => bytesLt b a = false) := by
  unfold tagsAt
  rw [List.pairwise_map, List.pairwise_reverse]
  have h2 := h.filter (fun t => decide (t.1 = p))
  rw [List.pairwise_iff_forall_sublist] at h2 ⊢
  intro a b hab
  have ha : a.1 = p := by
    have := hab.subset (List.mem_cons_self _ _)
    simpa using (List.mem_filter.mp this).2
  have hb : b.1 = p := by
    have := hab.subset (List.mem_cons_of_mem _ (List.mem_cons_self _ _))
    simpa using (List.mem_filter.mp this).2
  exact h2 hab (by omega)

theorem mem_tagsAt (tags : List (Nat × List Byte)) (p : Nat) (s : List Byte) :
    s ∈ tagsAt tags p ↔ (p, s) ∈ tags := by
  unfold tagsAt
  simp only [List.mem_map, List.mem_reverse, List.mem_filter, decide_eq_true_eq]
  constructor
  · rintro ⟨t, ⟨ht, hp⟩, hs⟩
    have : t = (p, s) := Prod.ext hp hs
    rw [← this]
    exact ht
  · intro h
    exact ⟨(p, s), ⟨h, rfl⟩, rfl⟩

theorem styleEntries_kind (buff : List Byte) :
    ∀ (n pos : Nat) (tags : List (Nat × List Byte)) (r : Nat × List (Nat × List Byte)),
      styleEntries buff n pos tags = .ok r →
      (∀ t ∈ tags, ∃ face, t.2 = openTags face ∨ t.2 = closeTags face) →
      ∀ t ∈ r.2, ∃ face, t.2 = openTags face ∨ t.2 = closeTags face := by
  intro n
  induction n with
  | zero =>
    intro pos tags r h hk
    simp only [styleEntries, Outcome.ok.injEq] at h
    subst h
    exact hk
  | succ n ih =>
    intro pos tags r h hk
    unfold styleEntries at h
    obtain ⟨s, -, h⟩ := Outcome.bind_eq_ok h
    obtain ⟨e, -, h⟩ := Outcome.bind_eq_ok h
    by_cases hlt : s < e
    · rw [if_pos hlt] at h
      obtain ⟨face, -, h⟩ := Outcome.bind_eq_ok h
      refine ih _ _ r h ?_
      intro t ht
      rcases List.mem_append.mp ht with h1 | h1
      · rcases List.mem_cons.mp h1 with h2 | h2
        · exact ⟨face, Or.inl (by rw [h2])⟩
        · exact hk t h2
      · rw [List.mem_singleton.mp h1]
        exact ⟨face, Or.inr rfl⟩
    · rw [if_neg hlt] at h
      exact ih _ _ r h hk

theorem modifiers_kind (buff : List Byte) :
    ∀ (fuel pos : Nat) (tags r : List (Nat × List Byte)),
      modifiers buff fuel pos tags = .ok r →
      (∀ t ∈ tags, ∃ face, t.2 = openTags face ∨ t.2 = closeTags face) →
      ∀ t ∈ r, ∃ face, t.2 = openTags face ∨ t.2 = closeTags face := by
  intro fuel
  induction fuel with
  | zero => intro pos tags r h; simp [modifiers] at h
  | succ fuel ih =>
    intro pos tags r h hk
    unfold modifiers at h
    by_cases hpos : pos < buff.length
    · rw [if_pos hpos] at h
      obtain ⟨hd, -, h⟩ := Outcome.bind_eq_ok h
      by_cases hty : hd.1 = 0x7374796C
      · rw [if_pos hty] at h
        obtain ⟨cnt, -, h⟩ := Outcome.bind_eq_ok h
        obtain ⟨q, hq, h⟩ := Outcome.bind_eq_ok h
        exact ih _ _ r h (styleEntries_kind buff _ _ _ q hq hk)
      · rw [if_neg hty] at h
        by_cases hneg : (hd.2.2 : Int) + hd.2.1 < 0
        · rw [if_pos hneg] at h; cases h
        · rw [if_neg hneg] at h
          exact ih _ _ r h hk
    · rw [if_neg hpos] at h
      simp only [Outcome.ok.injEq] at h
      subst h
      exact hk

/-- C38: for an SRT sample with text T and the tags that the `styl` entries
with `startChar < endChar` give, all with offsets within T, the text that
`extractData` emits is T with the tag strings woven in: in front of the
character at each offset p (and at the end for p = |T|) stand exactly the tag
strings of offset p, so deleting them leaves T; among the strings of one
offset a non-empty opening tag never stands in front of a closing tag; and the
length of the text is |T| plus the length of the tags, which is the count that
`countModifiers` keeps: 7 for every set style bit (bits 0..2) of every entry
with `startChar < endChar`. -/
theorem srt_extractData_tags (fmt : Format) (fuel : Nat) (f : Framer) (buff : List Byte)
    (d : Int × Framer) (u : Nat × Nat) (tags : List (Nat × List Byte))
    (hst : getSttsVal f = .ok d) (hu : readUnitSize buff (buff.length + 1) 0 = .ok u)
    (hfit : u.2 + u.1 ≤ buff.length) (htags : modifiers buff fuel (u.2 + u.1) [] = .ok tags)
    (hin : ∀ t ∈ tags, t.1 ≤ u.1) :
    extractData fmt fuel f buff
      = .ok (header fmt f.m_packetCnt f.m_timeOffset (f.m_timeOffset + d.1)
              ++ weave (tags.insertionSort tagGe) 0 ((buff.drop u.2).take u.1) ++ [10, 10],
             { d.2 with m_packetCnt := f.m_packetCnt + 1,
                        m_timeOffset := f.m_timeOffset + d.1 }) ∧
    (∀ p s, s ∈ tagsAt (tags.insertionSort tagGe) p ↔ (p, s) ∈ tags) ∧
    (∀ p s, s ∈ tagsAt (tags.insertionSort tagGe) p →
      ∃ face, s = openTags face ∨ s = closeTags face) ∧
    (∀ p, (tagsAt (tags.insertionSort tagGe) p).Pairwise
      fun a b => ∀ face1 face2, a = openTags face1 → b = closeTags face2 → a = []) ∧
    (weave (tags.insertionSort tagGe) 0 ((buff.drop u.2).take u.1)).length
      = u.1 + tagsLength tags ∧
    countModifiers buff fuel (u.2 + u.1) u.1 = .ok (u.1 + tagsLength tags) := by
  have hT : ((buff.drop u.2).take u.1).length = u.1 := by
    rw [List.length_take, List.length_drop]
    omega
  have hmem : ∀ t, t ∈ tags.insertionSort tagGe ↔ t ∈ tags := fun t =>
    (List.perm_insertionSort tagGe tags).mem_iff
  have hsorted := sorted_tags tags
  have hins : insertTags (tags.insertionSort tagGe) ((buff.drop u.2).take u.1)
      = .ok (weave (tags.insertionSort tagGe) 0 ((buff.drop u.2).take u.1)) :=
    insertTags_weave _ _ hsorted.1 (by
      intro t ht
      rw [hT]
      exact hin t ((hmem t).mp ht))
  have hlen := insertTags_length _ _ _ hins
  rw [tagsLength_perm (List.perm_insertionSort tagGe tags), hT] at hlen
  refine ⟨?_, ?_, ?_, ?_, hlen, ?_⟩
  · unfold extractData
    rw [hst, Outcome.bind_ok]
    simp only
    rw [hu, Outcome.bind_ok]
    rw [if_neg (by omega), htags, Outcome.bind_ok, hins, Outcome.bind_ok]
  · intro p s
    rw [mem_tagsAt, hmem]
  · intro p s hs
    rw [mem_tagsAt, hmem] at hs
    obtain ⟨face, hf⟩ := modifiers_kind buff fuel _ [] tags htags
      (fun t ht => by cases ht) (p, s) hs
    exact ⟨face, hf⟩
  · intro p
    refine (tagsAt_ascending _ p hsorted.2).imp ?_
    intro a b hab face1 face2 ha hb
    by_contra hne
    rw [ha] at hne
    have := close_before_open face2 face1 hne
    rw [← ha, ← hb, hab] at this
    cases this
  · obtain ⟨k, hk, hc⟩ := modifiers_count buff fuel (u.2 + u.1) [] u.1 tags htags
    rw [hc]
    have h0 : tagsLength ([] : List (Nat × List Byte)) = 0 := rfl
    rw [hk, h0, Nat.zero_add]

theorem srt_extractData_tags_witness :
    extractData sampleFormat 3 oneSecondFramer twoStyles
      = .ok (header sampleFormat oneSecondFramer.m_packetCnt oneSecondFramer.m_timeOffset
                (oneSecondFramer.m_timeOffset + 1000)
              ++ weave
                  ([(2, tagI), (0, tagB), (2, tagEndB), (5, tagEndI)].insertionSort tagGe) 0
                  ((twoStyles.drop 2).take 5) ++ [10, 10],
             { ({ oneSecondFramer with sttsPos := 0, sttsCnt := 0 } : Framer) with
               m_packetCnt := oneSecondFramer.m_packetCnt + 1,
               m_timeOffset := oneSecondFramer.m_timeOffset + 1000 }) ∧
    (∀ p s,
      s ∈ tagsAt ([(2, tagI), (0, tagB), (2, tagEndB), (5, tagEndI)].insertionSort tagGe) p
      ↔ (p, s) ∈ [(2, tagI), (0, tagB), (2, tagEndB), (5, tagEndI)]) ∧
    (∀ p s,
      s ∈ tagsAt ([(2, tagI), (0, tagB), (2, tagEndB), (5, tagEndI)].insertionSort tagGe) p →
      ∃ face, s = openTags face ∨ s = closeTags face) ∧
    (∀ p,
      (tagsAt ([(2, tagI), (0, tagB), (2, tagEndB), (5, tagEndI)].insertionSort tagGe)
        p).Pairwise
      fun a b => ∀ face1 face2, a = openTags face1 → b = closeTags face2 → a = []) ∧
    (weave ([(2, tagI), (0, tagB), (2, tagEndB), (5, tagEndI)].insertionSort tagGe) 0
        ((twoStyles.drop 2).take 5)).length
      = 5 + tagsLength [(2, tagI), (0, tagB), (2, tagEndB), (5, tagEndI)] ∧
    countModifiers twoStyles 3 (2 + 5) 5
      = .ok (5 + tagsLength [(2, tagI), (0, tagB), (2, tagEndB), (5, tagEndI)]) :=
  srt_extractData_tags sampleFormat 3 oneSecondFramer twoStyles
    (1000, { oneSecondFramer with sttsPos := 0, sttsCnt := 0 }) (5, 2)
    [(2, tagI), (0, tagB), (2, tagEndB), (5, tagEndI)]
    (by decide) (by decide) (by decide) (by decide) (by decide)

/-- The text for `twoStyles`: `<b>He</b><i>llo</i>`, the closing tag of the
first range in front of the opening tag of the second at offset 2. -/
theorem srt_extractData_tags_example :
    weave ([(2, tagI), (0, tagB), (2, tagEndB), (5, tagEndI)].insertionSort tagGe) 0
        ((twoStyles.drop 2).take 5)
      = [60, 98, 62, 72, 101, 60, 47, 98, 62, 60, 105, 62, 108, 108, 111, 60, 47, 105, 62] ∧
    (extractData sampleFormat 3 oneSecondFramer twoStyles).bind
        (fun r => Outcome.ok (r.1.drop 35))
      = Outcome.ok ([60, 98, 62, 72, 101, 60, 47, 98, 62, 60, 105, 62, 108, 108, 111,
          60, 47, 105, 62, 10, 10] : List Byte) := by
  refine ⟨by decide, by decide⟩

end MovParsedSRTTrackData

end TsMuxer
